import Mathlib

/-!
# ECOGEN adaptive mesh refinement core: cell tree operations

Shallow embedding of `Cell.cpp` (cell refinement, coarsening, the 2:1 guards, the split-flag
exchange and the ghost refinement) together with the statements verified about it.

Conventions of the embedding.
* `double` values are rationals (`ℚ`); `int` values are `Int`; loop indices are `Nat`. The
  definitions of the first sections carry out the arithmetic exactly. The definitions whose name
  ends in `Rounded` follow the same code in `double` arithmetic: they take the rounding `fl` of
  an exact result to a `double` and apply it to every addition and to every product of two
  values; `roundDouble` is the rounding of IEEE 754 binary64 (to nearest, ties to even). With the
  identity for `fl` they are the exact definitions.
* A cell owns its children, so the cell tree is a tree value (`Cell.mk data children`).
* A pointer to a cell held by an interface is embedded as a `CellRef`: the key and the level of
  the cell it points to. A pointer to an interface held by a cell is embedded as the value of the
  interface it points to. Where a statement is about which objects a call writes, the cells and
  the interfaces are objects of a `Store` and a pointer is the address of an object.
* Pointer fields that are null in a freshly constructed cell (`m_element`, `m_mixture`, `m_cons`)
  are embedded by a default value. The exact definitions are total: they give the state that a
  call leaves when it returns. The definitions whose name ends in `Call` follow the dereferences
  of `m_element` and of the reference interface `cellInterfaceRef`: they return `none` where the
  program dereferences a null pointer.
-/

namespace ECOGEN

/-! ## Geometry and keys -/

/-- Class `Coord`: three `double` components. -/
structure Coord where
  x : ℚ
  y : ℚ
  z : ℚ
deriving DecidableEq

/-- Integer coordinate carried by a key (`Key<3>::coordinate_type`). -/
structure KeyCoord where
  x : Int
  y : Int
  z : Int
deriving DecidableEq

/-- Modelled from the spec: the class `decomposition::Key<3>` is not among the source files.
A key is an integer coordinate at a level. -/
structure Key where
  coordinate : KeyCoord
  level : Int
deriving DecidableEq

/-- The coordinate bits of a child index: `(i mod 2, (i/2) mod 2, (i/4) mod 2)`. -/
def childBits (i : Nat) : KeyCoord :=
  ⟨((i % 2 : Nat) : Int), (((i / 2) % 2 : Nat) : Int), (((i / 4) % 2 : Nat) : Int)⟩

/-- Modelled from the spec: `Key::child(i)` is the key at `level + 1` whose coordinate is
`2 * coord + bits(i)` (spec 4.1). -/
def Key.child (k : Key) (i : Nat) : Key :=
  ⟨⟨2 * k.coordinate.x + (childBits i).x, 2 * k.coordinate.y + (childBits i).y,
    2 * k.coordinate.z + (childBits i).z⟩, k.level + 1⟩

/-- Class `Element` (Cartesian): the fields written by `setPos`, `setSize`, `setVolume`,
`setLCFL`, `setKey` and `setCellAssociee`. -/
structure Element where
  position : Coord
  size : Coord
  volume : ℚ
  lCFL : ℚ
  key : Key
  cellAssociee : Int
deriving DecidableEq

/-- Element behind a cell that has not received one yet. -/
def Element.empty : Element :=
  ⟨⟨0, 0, 0⟩, ⟨0, 0, 0⟩, 0, 0, ⟨⟨0, 0, 0⟩, 0⟩, 0⟩

/-- Class `Face` (Cartesian): the fields written by the setters used in `Cell.cpp`. -/
structure Face where
  normal : Coord
  tangent : Coord
  binormal : Coord
  pos : Coord
  size : Coord
  surface : ℚ
deriving DecidableEq

/-! ## Physical state (external to the mesh core) -/

/-- Primitive variables of one phase; `copyPhase` copies them as a whole. -/
structure Phase where
  vars : List ℚ
deriving DecidableEq

/-- Primitive variables of the mixture; `copyMixture` copies them as a whole. -/
structure Mixture where
  vars : List ℚ
deriving DecidableEq

/-- Conservative buffer (class `Flux`): the list of its components. -/
structure Flux where
  comps : List ℚ
deriving DecidableEq

/-- Method `Flux::setToZero`: every component becomes zero. -/
def Flux.setToZero (f : Flux) : Flux := ⟨f.comps.map (fun _ => 0)⟩

/-- Method `Flux::addFlux(coef)`: adds `coef` times the buffer flux, component by component. -/
def Flux.addFlux (f buffer : Flux) (coef : ℚ) : Flux :=
  ⟨List.zipWith (fun a b => a + coef * b) f.comps buffer.comps⟩

/-- Method `Flux::multiply(scalar)`. -/
def Flux.multiply (f : Flux) (scalar : ℚ) : Flux := ⟨f.comps.map (fun a => a * scalar)⟩

/-- The virtual operations of the physical model used by the cell tree. The model classes are
external collaborators (spec 6); they are taken as parameters. -/
structure Model where
  /-- Freshly allocated phase (`allocatePhase`). -/
  allocatePhase : Phase
  /-- Freshly allocated mixture (`allocateMixture`). -/
  allocateMixture : Mixture
  /-- Freshly allocated conservative buffer for a number of phases (`allocateCons`). -/
  allocateCons : Nat → Flux
  /-- Conservative snapshot of a primitive state (`Flux::setBufferFlux`). -/
  setBufferFlux : List Phase → Mixture → Nat → Flux
  /-- Primitive state rebuilt from a conservative buffer (`Flux::buildPrim`). -/
  buildPrim : Flux → List Phase → Mixture → Nat → List Phase × Mixture
  /-- Relaxation procedures of the model (`Model::relaxations`). -/
  relaxations : List Phase → Mixture → Nat → List Phase × Mixture

/-! ## Cell interfaces -/

/-- A `Cell*` held by an interface: the key and the level of the cell pointed to. -/
structure CellRef where
  key : Key
  lvl : Int
deriving DecidableEq

/-- The class of an interface object. `CellInterface` and `CellInterfaceO2` answer
`whoAmI() = 0` and have a right cell; the boundary-condition classes answer a non-zero code
(1 absorption, 2 wall, 6 symmetry) and have no right cell. -/
inductive InterfaceKind where
  | internal (cellDroite : CellRef)
  | boundary (code : Nat)
deriving DecidableEq

/-- Fields of an interface object other than its children. -/
structure CellInterfaceData where
  kind : InterfaceKind
  lvl : Int
  split : Bool
  face : Face
  cellGauche : CellRef
deriving DecidableEq

/-- Class `CellInterface`: its own fields and its children interfaces. -/
inductive CellInterface where
  | mk (d : CellInterfaceData) (cellInterfacesChildren : List CellInterface)

namespace CellInterface

/-- Own fields of the interface. -/
def data : CellInterface → CellInterfaceData
  | mk d _ => d

/-- Member `m_cellInterfacesChildren`. -/
def cellInterfacesChildren : CellInterface → List CellInterface
  | mk _ cs => cs

/-- Method `whoAmI`. -/
def whoAmI (b : CellInterface) : Nat :=
  match b.data.kind with
  | .internal _ => 0
  | .boundary code => code + 1

/-- Method `getSplit`. -/
def getSplit (b : CellInterface) : Bool := b.data.split

/-- Method `getLvl`. -/
def getLvl (b : CellInterface) : Int := b.data.lvl

/-- Method `getNumberCellInterfacesChildren`. -/
def getNumberCellInterfacesChildren (b : CellInterface) : Nat := b.cellInterfacesChildren.length

end CellInterface

/-! ## Cells -/

/-- Fields of a cell other than its children. -/
structure CellData where
  lvl : Int
  xi : ℚ
  consXi : ℚ
  split : Bool
  element : Element
  numberPhases : Nat
  numberTransports : Nat
  vecPhases : List Phase
  mixture : Mixture
  cons : Flux
  vecTransports : List ℚ
  consTransports : List ℚ
  cellInterfaces : List CellInterface
  childrenInternalCellInterfaces : List CellInterface

/-- Class `Cell`: its own fields and the children cells it owns. -/
inductive Cell where
  | mk (d : CellData) (childrenCells : List Cell)

namespace Cell

/-- Own fields of the cell. -/
def data : Cell → CellData
  | mk d _ => d

/-- Member `m_childrenCells`. -/
def childrenCells : Cell → List Cell
  | mk _ cs => cs

/-- Constructor `Cell(int lvl)`; `Cell()` is `new 0`. -/
def new (lvl : Int) : Cell :=
  mk { lvl := lvl, xi := 0, consXi := 0, split := false, element := Element.empty,
       numberPhases := 0, numberTransports := 0, vecPhases := [], mixture := ⟨[]⟩,
       cons := ⟨[]⟩, vecTransports := [], consTransports := [], cellInterfaces := [],
       childrenInternalCellInterfaces := [] } []

/-- Method `getLvl`. -/
def getLvl (c : Cell) : Int := c.data.lvl

/-- Method `getSplit`. -/
def getSplit (c : Cell) : Bool := c.data.split

/-- Method `getXi`. -/
def getXi (c : Cell) : ℚ := c.data.xi

/-- Method `getNumberCellsChildren`. -/
def getNumberCellsChildren (c : Cell) : Nat := c.childrenCells.length

/-- The pointer value under which interfaces hold this cell. -/
def ref (c : Cell) : CellRef := ⟨c.data.element.key, c.data.lvl⟩

/-- Method `addCellInterface`. -/
def addCellInterface (c : Cell) (b : CellInterface) : Cell :=
  mk { c.data with cellInterfaces := c.data.cellInterfaces ++ [b] } c.childrenCells

/-- Pointer to the child of index `k` (`m_childrenCells[k]`). -/
def childRef (c : Cell) (k : Nat) : CellRef := (c.childrenCells.getD k (new 0)).ref

/-- Method `createChildCell`: appends `new Cell(lvl + 1)` to the children. -/
def createChildCell (c : Cell) (_num : Nat) (lvl : Int) : Cell :=
  mk c.data (c.childrenCells ++ [new (lvl + 1)])

end Cell

/-! ## Methods of `CellInterface` whose bodies are not among the source files -/

/-- Modelled from the spec: `CellInterface::creerCellInterfaceChildInterne(lvl, list)` appends to
the list a new interface of the two-sided class at level `lvl + 1`, not split and without
children (spec 4.3, step 3); its face and cells are written afterwards by the caller. -/
def creerCellInterfaceChildInterne (lvl : Int) (l : List CellInterface) : List CellInterface :=
  l ++ [CellInterface.mk
    { kind := .internal ⟨⟨⟨0, 0, 0⟩, 0⟩, 0⟩, lvl := lvl + 1, split := false,
      face := ⟨⟨0, 0, 0⟩, ⟨0, 0, 0⟩, ⟨0, 0, 0⟩, ⟨0, 0, 0⟩, ⟨0, 0, 0⟩, 0⟩,
      cellGauche := ⟨⟨⟨0, 0, 0⟩, 0⟩, 0⟩ } []]

namespace CellInterface

/-- Method `initializeGauche`. -/
def initializeGauche (b : CellInterface) (g : CellRef) : CellInterface :=
  mk { b.data with cellGauche := g } b.cellInterfacesChildren

/-- Method `initializeDroite`; a boundary object has no right cell to be read. -/
def initializeDroite (b : CellInterface) (r : CellRef) : CellInterface :=
  match b.data.kind with
  | .internal _ => mk { b.data with kind := .internal r } b.cellInterfacesChildren
  | .boundary _ => b

/-- The face setters `setNormal`, `setTangent`, `setBinormal`, `setPos`, `setSize` and
`setSurface` applied together. -/
def setFace (b : CellInterface) (f : Face) : CellInterface :=
  mk { b.data with face := f } b.cellInterfacesChildren

end CellInterface

/-- The methods of `CellInterface` that refine and coarsen an external interface of a cell.
Their bodies are not among the source files; they are parameters of the embedding.
`raffineCellInterfaceExterne nbCellsY nbCellsZ dXParent dYParent dZParent cellRef dim b` returns
the interface after the call and the interfaces it pushes onto children of `cellRef`, as pairs
(child index, interface), in the order of the pushes (spec 4.3 step 4 and 4.4: the call creates
child interfaces that connect the children of the refining cell to its neighbors).
`deraffineCellInterfaceExterne cellRef b` returns the interface after the call (spec 4.4). -/
structure InterfaceOps where
  raffineCellInterfaceExterne :
    Int → Int → ℚ → ℚ → ℚ → Cell → Nat → CellInterface → CellInterface × List (Nat × CellInterface)
  deraffineCellInterfaceExterne : Cell → CellInterface → CellInterface

/-! ## Refinement of a cell (`Cell::refineCellAndCellInterfaces`) -/

/-- The locals `dimX`, `dimY`, `dimZ`, `numberCellsChildren` and `dim` of
`refineCellAndCellInterfaces`. -/
structure RefineDims where
  dimX : ℚ
  dimY : ℚ
  dimZ : ℚ
  numberCellsChildren : Nat
  dim : Nat
deriving DecidableEq

/-- Initialisation of the dimension locals from `nbCellsY` and `nbCellsZ`. -/
def refineDims (nbCellsY nbCellsZ : Int) : RefineDims :=
  if nbCellsZ ≠ 1 then ⟨1, 1, 1, 8, 3⟩
  else if nbCellsY ≠ 1 then ⟨1, 1, 0, 4, 2⟩
  else ⟨1, 0, 0, 2, 1⟩

/-- The element given to child `i`: volume, CFL length, size, position and key as written in
the children loop. -/
def childElement (parent : Element) (rd : RefineDims) (i : Nat) : Element :=
  { position :=
      ⟨parent.position.x + rd.dimX * parent.size.x * (-0.25 + 0.5 * ((i % 2 : Nat) : ℚ)),
       parent.position.y + rd.dimY * parent.size.y * (-0.25 + 0.5 * (((i / 2) % 2 : Nat) : ℚ)),
       parent.position.z + rd.dimZ * parent.size.z * (-0.25 + 0.5 * (((i / 4) % 2 : Nat) : ℚ))⟩
    size := ⟨(1 - rd.dimX * 0.5) * parent.size.x, (1 - rd.dimY * 0.5) * parent.size.y,
             (1 - rd.dimZ * 0.5) * parent.size.z⟩
    volume := parent.volume / (rd.numberCellsChildren : ℚ)
    lCFL := 0.5 * parent.lCFL
    key :=
      ⟨⟨(parent.key.child 0).coordinate.x + ((i % 2 : Nat) : Int),
        (parent.key.child 0).coordinate.y + (((i / 2) % 2 : Nat) : Int),
        (parent.key.child 0).coordinate.z + (((i / 4) % 2 : Nat) : Int)⟩,
       (parent.key.child 0).level⟩
    cellAssociee := (i : Int) }

/-- The physical initialisation of a child: `allocate`, then copy of the phases, of the mixture
and of the transports of the parent, zero conservative buffers and the indicator of the parent. -/
def copyParentState (model : Model) (parent : CellData) (ch : Cell) : Cell :=
  Cell.mk
    { ch.data with
      numberPhases := parent.numberPhases
      numberTransports := parent.numberTransports
      vecPhases :=
        (List.range parent.numberPhases).map (fun k => parent.vecPhases.getD k model.allocatePhase)
      mixture := parent.mixture
      cons := (model.allocateCons parent.numberPhases).setToZero
      vecTransports :=
        (List.range parent.numberTransports).map (fun k => parent.vecTransports.getD k 0)
      consTransports := List.replicate parent.numberTransports 0
      xi := parent.xi }
    ch.childrenCells

/-- Method `setElement` followed by the element setters: the cell receives the element. -/
def Cell.setElement (ch : Cell) (e : Element) : Cell :=
  Cell.mk { ch.data with element := e } ch.childrenCells

/-- What the children loop writes into `m_childrenCells[i]`: the element of child `i`, then the
physical initialisation. -/
def initChild (model : Model) (parent : CellData) (rd : RefineDims) (i : Nat) (ch : Cell) : Cell :=
  copyParentState model parent (ch.setElement (childElement parent.element rd i))

/-- One pass of the children loop: `createChildCell(i, m_lvl)` followed by the writes into
`m_childrenCells[i]`. -/
def refineChild (model : Model) (rd : RefineDims) (c : Cell) (i : Nat) : Cell :=
  Cell.mk c.data
    ((c.createChildCell i c.data.lvl).childrenCells.modify (initChild model c.data rd i) i)

/-- The children loop `for (i = 0; i < numberCellsChildren; i++)`. -/
def refineChildren (model : Model) (rd : RefineDims) (c : Cell) : Cell :=
  (List.range rd.numberCellsChildren).foldl (refineChild model rd) c

/-- Face of the internal interface created at position `i` of the creation order, together with
the indices of its left and right children, as written in the 1D, 2D and 3D branches. -/
def internalCellInterfaceSpec (nbCellsY nbCellsZ : Int) (e : Element) (i : Nat) :
    Nat × Nat × Face :=
  let px := e.position.x
  let py := e.position.y
  let pz := e.position.z
  let dX := e.size.x
  let dY := e.size.y
  let dZ := e.size.z
  if nbCellsZ = 1 then
    if nbCellsY = 1 then
      (0, 1, ⟨⟨1, 0, 0⟩, ⟨0, 1, 0⟩, ⟨0, 0, 1⟩, ⟨px, py, pz⟩, ⟨0, dY, dZ⟩, dY * dZ⟩)
    else if i < 2 then
      (2 * i, 1 + 2 * i,
        ⟨⟨1, 0, 0⟩, ⟨0, 1, 0⟩, ⟨0, 0, 1⟩, ⟨px, py + dY * (-0.25 + 0.5 * (i : ℚ)), pz⟩,
         ⟨0, 0.5 * dY, dZ⟩, 0.5 * dY * dZ⟩)
    else
      (i % 2, 2 + i % 2,
        ⟨⟨0, 1, 0⟩, ⟨-1, 0, 0⟩, ⟨0, 0, 1⟩, ⟨px + dX * (-0.25 + 0.5 * ((i % 2 : Nat) : ℚ)), py, pz⟩,
         ⟨0.5 * dX, 0, dZ⟩, 0.5 * dX * dZ⟩)
  else if i < 4 then
    let f : Coord → Face := fun p =>
      ⟨⟨1, 0, 0⟩, ⟨0, 1, 0⟩, ⟨0, 0, 1⟩, p, ⟨0, 0.5 * dY, 0.5 * dZ⟩, 0.5 * dY * 0.5 * dZ⟩
    if i = 0 then (4, 5, f ⟨px, py - 0.25 * dY, pz + 0.25 * dZ⟩)
    else if i = 1 then (0, 1, f ⟨px, py - 0.25 * dY, pz - 0.25 * dZ⟩)
    else if i = 2 then (6, 7, f ⟨px, py + 0.25 * dY, pz + 0.25 * dZ⟩)
    else (2, 3, f ⟨px, py + 0.25 * dY, pz - 0.25 * dZ⟩)
  else if i < 8 then
    let f : Coord → Face := fun p =>
      ⟨⟨0, 1, 0⟩, ⟨-1, 0, 0⟩, ⟨0, 0, 1⟩, p, ⟨0.5 * dX, 0, 0.5 * dZ⟩, 0.5 * dX * 0.5 * dZ⟩
    if i = 4 then (5, 7, f ⟨px + 0.25 * dX, py, pz + 0.25 * dZ⟩)
    else if i = 5 then (1, 3, f ⟨px + 0.25 * dX, py, pz - 0.25 * dZ⟩)
    else if i = 6 then (4, 6, f ⟨px - 0.25 * dX, py, pz + 0.25 * dZ⟩)
    else (0, 2, f ⟨px - 0.25 * dX, py, pz - 0.25 * dZ⟩)
  else
    let f : Coord → Face := fun p =>
      ⟨⟨0, 0, 1⟩, ⟨1, 0, 0⟩, ⟨0, 1, 0⟩, p, ⟨0.5 * dX, 0.5 * dY, 0⟩, 0.5 * dX * 0.5 * dY⟩
    if i = 8 then (0, 4, f ⟨px - 0.25 * dX, py - 0.25 * dY, pz⟩)
    else if i = 9 then (1, 5, f ⟨px + 0.25 * dX, py - 0.25 * dY, pz⟩)
    else if i = 10 then (2, 6, f ⟨px - 0.25 * dX, py + 0.25 * dY, pz⟩)
    else (3, 7, f ⟨px + 0.25 * dX, py + 0.25 * dY, pz⟩)

/-- Number of internal interfaces created: 1 in 1D, 4 in 2D, 12 in 3D. -/
def numberInternalCellInterfaces (nbCellsY nbCellsZ : Int) : Nat :=
  if nbCellsZ = 1 then (if nbCellsY = 1 then 1 else 4) else 12

/-- One pass of an internal-interface loop: `creerCellInterfaceChildInterne` appends a new
interface, then `m_childrenInternalCellInterfaces[i]` receives its face and its left and right
children, and both children push it onto their interface lists. The reference interface
`cellInterfaceRef` (the first two-sided interface of the list of the cell) gives the new
interface its class, its model and its slopes; none of the fields embedded here depends on it. -/
def refineInternalCellInterface (nbCellsY nbCellsZ : Int) (c : Cell) (i : Nat) : Cell :=
  let s := internalCellInterfaceSpec nbCellsY nbCellsZ c.data.element i
  let l := creerCellInterfaceChildInterne c.data.lvl c.data.childrenInternalCellInterfaces
  let l2 := l.modify
    (fun b => ((b.setFace s.2.2).initializeGauche (c.childRef s.1)).initializeDroite
      (c.childRef s.2.1)) i
  match l2.get? i with
  | none => Cell.mk { c.data with childrenInternalCellInterfaces := l2 } c.childrenCells
  | some b =>
    Cell.mk { c.data with childrenInternalCellInterfaces := l2 }
      ((c.childrenCells.modify (fun ch => ch.addCellInterface b) s.1).modify
        (fun ch => ch.addCellInterface b) s.2.1)

/-- The internal-interface loops of the 1D, 2D and 3D branches. -/
def refineInternalCellInterfaces (nbCellsY nbCellsZ : Int) (c : Cell) : Cell :=
  (List.range (numberInternalCellInterfaces nbCellsY nbCellsZ)).foldl
    (refineInternalCellInterface nbCellsY nbCellsZ) c

/-- One pass of the external-interface loop: an interface of the list that is not split is
refined by `raffineCellInterfaceExterne`, which may push interfaces onto children. -/
def refineExternalCellInterface (ops : InterfaceOps) (nbCellsY nbCellsZ : Int) (dXParent dYParent
    dZParent : ℚ) (dim : Nat) (c : Cell) (b : Nat) : Cell :=
  match c.data.cellInterfaces.get? b with
  | none => c
  | some bi =>
    if !bi.getSplit then
      let r := ops.raffineCellInterfaceExterne nbCellsY nbCellsZ dXParent dYParent dZParent c dim bi
      Cell.mk { c.data with cellInterfaces := c.data.cellInterfaces.set b r.1 }
        (r.2.foldl (fun cs p => cs.modify (fun ch => ch.addCellInterface p.2) p.1) c.childrenCells)
    else c

/-- Method `Cell::refineCellAndCellInterfaces`. -/
def Cell.refineCellAndCellInterfaces (ops : InterfaceOps) (model : Model)
    (nbCellsY nbCellsZ : Int) (c : Cell) : Cell :=
  let c0 := Cell.mk { c.data with split := true } c.childrenCells
  let rd := refineDims nbCellsY nbCellsZ
  let c1 := refineChildren model rd c0
  let c2 := refineInternalCellInterfaces nbCellsY nbCellsZ c1
  (List.range c2.data.cellInterfaces.length).foldl
    (refineExternalCellInterface ops nbCellsY nbCellsZ c.data.element.size.x
      c.data.element.size.y c.data.element.size.z rd.dim) c2

/-! ## Coarsening of a cell (`Cell::unrefineCellAndCellInterfaces`) -/

/-- Method `Cell::averageChildrenInParent`. -/
def Cell.averageChildrenInParent (model : Model) (c : Cell) : Cell :=
  let numberCellsChildren := c.childrenCells.length
  if numberCellsChildren > 0 then
    let cons1 := c.childrenCells.foldl
      (fun acc ch =>
        acc.addFlux (model.setBufferFlux ch.data.vecPhases ch.data.mixture c.data.numberPhases) 1)
      c.data.cons.setToZero
    let cons2 := cons1.multiply (1 / (numberCellsChildren : ℚ))
    let prim := model.buildPrim cons2 c.data.vecPhases c.data.mixture c.data.numberPhases
    let relaxed := model.relaxations prim.1 prim.2 c.data.numberPhases
    Cell.mk
      { c.data with
        vecPhases := relaxed.1
        mixture := relaxed.2
        vecTransports := c.data.vecTransports.mapIdx (fun k t =>
          if k < c.data.numberTransports then
            (c.childrenCells.foldl (fun acc ch => acc + ch.data.vecTransports.getD k 0) 0)
              / (numberCellsChildren : ℚ)
          else t)
        cons := cons2.setToZero
        consTransports := c.data.consTransports.mapIdx (fun k t =>
          if k < c.data.numberTransports then 0 else t) }
      c.childrenCells
  else c

/-- One pass of the external-interface loop of the coarsening:
`m_cellInterfaces[b]->deraffineCellInterfaceExterne(this)`. -/
def unrefineExternalCellInterface (ops : InterfaceOps) (c : Cell) (b : Nat) : Cell :=
  match c.data.cellInterfaces.get? b with
  | none => c
  | some bi =>
    Cell.mk { c.data with
      cellInterfaces := c.data.cellInterfaces.set b (ops.deraffineCellInterfaceExterne c bi) }
      c.childrenCells

/-- Method `Cell::unrefineCellAndCellInterfaces`. -/
def Cell.unrefineCellAndCellInterfaces (ops : InterfaceOps) (model : Model) (c : Cell) : Cell :=
  let c1 := c.averageChildrenInParent model
  let c2 := Cell.mk { c1.data with childrenInternalCellInterfaces := [] } c1.childrenCells
  let c3 := (List.range c2.data.cellInterfaces.length).foldl (unrefineExternalCellInterface ops) c2
  Cell.mk { c3.data with split := false } []

/-! ## The 2:1 guards -/

/-- Method `Cell::lvlNeighborTooHigh`. -/
def Cell.lvlNeighborTooHigh (c : Cell) : Bool :=
  c.data.cellInterfaces.any (fun b =>
    if b.getLvl = c.data.lvl then b.cellInterfacesChildren.any (fun bChild => bChild.getSplit)
    else b.getSplit)

/-- Method `Cell::lvlNeighborTooLow`. -/
def Cell.lvlNeighborTooLow (c : Cell) : Bool :=
  c.data.cellInterfaces.any (fun b =>
    !b.getSplit &&
      (match b.data.kind with
       | .internal cellDroite =>
         decide (b.data.cellGauche.lvl < c.data.lvl) || decide (cellDroite.lvl < c.data.lvl)
       | .boundary _ => decide (b.data.cellGauche.lvl < c.data.lvl)))

/-! ## Choice of refinement and coarsening -/

/-- Method `Cell::chooseRefine`; the reference argument `nbCellsTotalAMR` is returned with the
cell. -/
def Cell.chooseRefine (ops : InterfaceOps) (model : Model) (xiSplit : ℚ)
    (nbCellsY nbCellsZ : Int) (c : Cell) (nbCellsTotalAMR : Int) : Cell × Int :=
  if !c.data.split then
    if c.data.xi ≥ xiSplit then
      if !c.lvlNeighborTooLow then
        let c1 := c.refineCellAndCellInterfaces ops model nbCellsY nbCellsZ
        (c1, nbCellsTotalAMR + ((c1.childrenCells.length : Int) - 1))
      else (c, nbCellsTotalAMR)
    else (c, nbCellsTotalAMR)
  else (c, nbCellsTotalAMR)

/-- The local `deraffineGlobal` of `chooseUnrefine` at the point where it is tested. -/
def Cell.deraffineGlobal (xiJoin : ℚ) (c : Cell) : Bool :=
  if c.data.xi < xiJoin then
    let noGrandChildren := c.childrenCells.foldl
      (fun acc ch => if ch.getNumberCellsChildren > 0 then false else acc) true
    if noGrandChildren then (if c.lvlNeighborTooHigh then false else noGrandChildren)
    else noGrandChildren
  else false

/-- Method `Cell::chooseUnrefine`; the reference argument `nbCellsTotalAMR` is returned with the
cell. -/
def Cell.chooseUnrefine (ops : InterfaceOps) (model : Model) (xiJoin : ℚ) (c : Cell)
    (nbCellsTotalAMR : Int) : Cell × Int :=
  if c.data.split then
    if c.deraffineGlobal xiJoin then
      (c.unrefineCellAndCellInterfaces ops model,
        nbCellsTotalAMR - ((c.childrenCells.length : Int) - 1))
    else (c, nbCellsTotalAMR)
  else (c, nbCellsTotalAMR)

/-! ## Exchange of the split flags (`Cell::getBufferSplit`) -/

mutual
/-- Method `Cell::getBufferSplit`: the buffer is read at `++counter` by the cells of level `lvl`;
the `int&` counter is returned with the cell. -/
def Cell.getBufferSplit (buffer : Int → Bool) (lvl : Int) : Cell → Int → Cell × Int
  | Cell.mk d cs, counter =>
    if d.lvl = lvl then (Cell.mk { d with split := buffer (counter + 1) } cs, counter + 1)
    else
      let r := getBufferSplitChildren buffer lvl cs counter
      (Cell.mk d r.1, r.2)
/-- The loop of `getBufferSplit` over the children. -/
def getBufferSplitChildren (buffer : Int → Bool) (lvl : Int) : List Cell → Int → List Cell × Int
  | [], counter => ([], counter)
  | ch :: rest, counter =>
    let r := Cell.getBufferSplit buffer lvl ch counter
    let r2 := getBufferSplitChildren buffer lvl rest r.2
    (r.1 :: r2.1, r2.2)
end

/-! ## Ghost cells (`Cell::chooseRefineDeraffineGhost`) -/

/-- Conversion of a `double` to an integer coordinate: truncation toward zero. -/
def truncToInt (q : ℚ) : Int := if 0 ≤ q then ⌊q⌋ else ⌈q⌉

namespace KeyCoord

/-- Component access `coord[a]`. -/
def get (c : KeyCoord) (a : Nat) : Int := if a = 0 then c.x else if a = 1 then c.y else c.z

/-- Update `coord[a] += v`. -/
def addAt (c : KeyCoord) (a : Nat) (v : Int) : KeyCoord :=
  if a = 0 then { c with x := c.x + v } else if a = 1 then { c with y := c.y + v }
  else { c with z := c.z + v }

/-- Difference of two coordinates. -/
def sub (a b : KeyCoord) : KeyCoord := ⟨a.x - b.x, a.y - b.y, a.z - b.z⟩

end KeyCoord

/-- Method `CellInterface::initialize(cellGauche, cellDroite)`. -/
def CellInterface.initialize (b : CellInterface) (g r : CellRef) : CellInterface :=
  (b.initializeGauche g).initializeDroite r

/-- Modelled from the spec: `CellInterface::creerCellInterfaceChild()` is not among the source
files; it appends to the children of the interface a new interface of the two-sided class, one
level finer, not split and without children (spec 3, Interface `children`). -/
def CellInterface.creerCellInterfaceChild (b : CellInterface) : CellInterface :=
  CellInterface.mk b.data (creerCellInterfaceChildInterne b.data.lvl b.cellInterfacesChildren)

/-- The locals computed once for an interface `b` in `refineCellAndCellInterfacesGhost`. -/
structure GhostLocals where
  child_coord : KeyCoord
  GhostCellIsLeft : Bool
  GhostCellNeighbor : CellRef
  idx : Nat

/-- Computation of the locals for a two-sided interface with right cell `cellDroite`. -/
def ghostLocals (c : Cell) (b : CellInterface) (cellDroite : CellRef) : GhostLocals :=
  let c0 := (c.data.element.key.child 0).coordinate
  let n := b.data.face.normal
  let idx1 : Nat := if |n.y - 1| < 1e-10 then 1 else 0
  let idx : Nat := if |n.z - 1| < 1e-10 then 2 else idx1
  if c.ref = b.data.cellGauche then
    { child_coord := ⟨truncToInt ((c0.x : ℚ) + n.x), truncToInt ((c0.y : ℚ) + n.y),
        truncToInt ((c0.z : ℚ) + n.z)⟩,
      GhostCellIsLeft := true, GhostCellNeighbor := cellDroite, idx := idx }
  else
    { child_coord := c0, GhostCellIsLeft := false, GhostCellNeighbor := b.data.cellGauche,
      idx := idx }

/-- The element given to a created ghost child of key coordinate `next`. -/
def ghostChildElement (parent : Element) (rd : RefineDims) (next child_coord : KeyCoord)
    (level : Int) : Element :=
  let cell_direction := next.sub child_coord
  { position :=
      ⟨parent.position.x + 0.25 * (cell_direction.x : ℚ) * rd.dimX * parent.size.x,
       parent.position.y + 0.25 * (cell_direction.y : ℚ) * rd.dimY * parent.size.y,
       parent.position.z + 0.25 * (cell_direction.z : ℚ) * rd.dimZ * parent.size.z⟩
    size := ⟨(1 - rd.dimX * 0.5) * parent.size.x, (1 - rd.dimY * 0.5) * parent.size.y,
             (1 - rd.dimZ * 0.5) * parent.size.z⟩
    volume := parent.volume / (2 : ℚ) ^ rd.dim
    lCFL := 0.5 * parent.lCFL
    key := ⟨next, level⟩
    cellAssociee := 0 }

/-- One pass of the double loop over `i` and `j` for the interface of index `b`: the child of
key `next_key` is looked up among the children or created, the interface is pointed to it, and
either a child interface is created (neighbor at the level of the ghost) or the interface itself
is attached to the child. -/
def refineGhostChild (model : Model) (rd : RefineDims) (b : Nat) (loc : GhostLocals) (c : Cell)
    (ij : Nat × Nat) : Cell :=
  match c.data.cellInterfaces.get? b with
  | none => c
  | some bi =>
    let next := (loc.child_coord.addAt ((loc.idx + 1) % rd.dim) (ij.1 : Int)).addAt
      ((loc.idx + 2) % rd.dim) (ij.2 : Int)
    let next_key : Key := ⟨next, c.data.element.key.level + 1⟩
    let found := c.childrenCells.findIdx? (fun ch => decide (ch.data.element.key = next_key))
    let cs1 : List Cell :=
      match found with
      | some _ => c.childrenCells
      | none =>
        c.childrenCells ++ [copyParentState model c.data
          ((Cell.new (c.data.lvl + 1)).setElement
            (ghostChildElement c.data.element rd next loc.child_coord next_key.level))]
    let k : Nat := match found with
      | some k => k
      | none => cs1.length - 1
    let child := cs1.getD k (Cell.new 0)
    let bi1 := bi.initialize c.ref child.ref
    let surfaceChild := (0.5 : ℚ) ^ (rd.dim - 1) * bi1.data.face.surface
    if loc.GhostCellNeighbor.lvl = c.data.lvl then
      let f := bi1.data.face
      let fChild : Face :=
        { normal := f.normal, tangent := f.tangent, binormal := f.binormal,
          pos := ⟨child.data.element.position.x + f.normal.x * 0.5 * child.data.element.size.x,
                  child.data.element.position.y + f.normal.y * 0.5 * child.data.element.size.y,
                  child.data.element.position.z + f.normal.z * 0.5 * child.data.element.size.z⟩,
          size := ⟨f.size.x * 0.5, f.size.y * 0.5, f.size.z * 0.5⟩,
          surface := surfaceChild }
      let bi2 := bi1.creerCellInterfaceChild
      let last := bi2.cellInterfacesChildren.length - 1
      let configure : CellInterface → CellInterface := fun x =>
        if loc.GhostCellIsLeft then
          ((x.setFace fChild).initializeGauche child.ref).initializeDroite loc.GhostCellNeighbor
        else ((x.setFace fChild).initializeDroite child.ref).initializeGauche loc.GhostCellNeighbor
      let bi3 := CellInterface.mk bi2.data (bi2.cellInterfacesChildren.modify configure last)
      let childInterface := bi3.cellInterfacesChildren.getD last bi3
      Cell.mk { c.data with cellInterfaces := c.data.cellInterfaces.set b bi3 }
        (cs1.modify (fun ch => ch.addCellInterface childInterface) k)
    else
      let bi2 := if loc.GhostCellIsLeft then bi1.initializeGauche child.ref
        else bi1.initializeDroite child.ref
      Cell.mk { c.data with cellInterfaces := c.data.cellInterfaces.set b bi2 }
        (cs1.modify (fun ch => ch.addCellInterface bi2) k)

/-- One pass of the loop over the interfaces of the ghost: a two-sided interface that is not
split drives the double loop over `i < direction_i` and `j < direction_j`. -/
def refineGhostCellInterface (model : Model) (rd : RefineDims) (c : Cell) (b : Nat) : Cell :=
  match c.data.cellInterfaces.get? b with
  | none => c
  | some bi =>
    match bi.data.kind with
    | .boundary _ => c
    | .internal cellDroite =>
      if !bi.getSplit then
        let loc := ghostLocals c bi cellDroite
        let direction_j : Nat := if rd.dim = 3 then 2 else 1
        let direction_i : Nat := if rd.dim = 2 ∨ rd.dim = 3 then 2 else 1
        ((List.range direction_i).flatMap (fun i => (List.range direction_j).map (fun j => (i, j)))).foldl
          (refineGhostChild model rd b loc) c
      else c

/-- The sort index `dir[0] + 2*dir[1] + 4*dir[1]` of a child, `dir` being the coordinate of its
key relative to the coordinate of child 0. -/
def ghostSortIndex (child0Coord : KeyCoord) (ch : Cell) : Int :=
  let dir := ch.data.element.key.coordinate.sub child0Coord
  dir.x + 2 * dir.y + 4 * dir.y

/-- Method `Cell::refineCellAndCellInterfacesGhost`. The final `std::sort` is embedded as a
stable insertion sort on the sort index. -/
def Cell.refineCellAndCellInterfacesGhost (model : Model) (nbCellsY nbCellsZ : Int) (c : Cell) :
    Cell :=
  let rd := refineDims nbCellsY nbCellsZ
  let c1 := (List.range c.data.cellInterfaces.length).foldl (refineGhostCellInterface model rd) c
  let child0Coord := (c.data.element.key.child 0).coordinate
  Cell.mk c1.data
    (c1.childrenCells.insertionSort
      (fun a b => ghostSortIndex child0Coord a ≤ ghostSortIndex child0Coord b))

/-- Method `Cell::unrefineCellAndCellInterfacesGhost`. -/
def Cell.unrefineCellAndCellInterfacesGhost (ops : InterfaceOps) (c : Cell) : Cell :=
  let c1 := (List.range c.data.cellInterfaces.length).foldl (unrefineExternalCellInterface ops) c
  Cell.mk c1.data []

/-- Method `Cell::chooseRefineDeraffineGhost`; the per-level ghost arrays `cellsLvlGhost` are
returned with the cell. -/
def Cell.chooseRefineDeraffineGhost (ops : InterfaceOps) (model : Model) (nbCellsY nbCellsZ : Int)
    (c : Cell) (cellsLvlGhost : Int → List Cell) : Cell × (Int → List Cell) :=
  let c1 :=
    if c.data.split then
      (if c.childrenCells.length = 0 then c.refineCellAndCellInterfacesGhost model nbCellsY nbCellsZ
       else c)
    else
      (if c.childrenCells.length > 0 then c.unrefineCellAndCellInterfacesGhost ops else c)
  (c1, Function.update cellsLvlGhost (c1.data.lvl + 1)
    (cellsLvlGhost (c1.data.lvl + 1) ++ c1.childrenCells))

/-! ## Notions used by the statements -/

/-- The cell without its list of interfaces: what pushing an interface leaves unchanged. -/
def Cell.stripCellInterfaces (c : Cell) : Cell :=
  Cell.mk { c.data with cellInterfaces := [] } c.childrenCells

/-- The child created for index `i` by the children loop of a leaf cell. -/
def newChild (model : Model) (parent : CellData) (rd : RefineDims) (i : Nat) : Cell :=
  initChild model parent rd i (Cell.new (parent.lvl + 1))

/-- The fields of a cell other than its two lists of interfaces. -/
def CellData.core (d : CellData) : CellData :=
  { d with cellInterfaces := [], childrenInternalCellInterfaces := [] }

/-- Two cells that differ at most by their lists of interfaces and by the lists of interfaces of
their children. -/
def Cell.SameCore (c c' : Cell) : Prop :=
  c'.data.core = c.data.core ∧
    c'.childrenCells.map Cell.stripCellInterfaces = c.childrenCells.map Cell.stripCellInterfaces

/-! ## Concrete collaborators for evaluating the definitions -/

/-- Interface operations that leave every interface as it is and push nothing. -/
def InterfaceOps.identity : InterfaceOps :=
  ⟨fun _ _ _ _ _ _ _ b => (b, []), fun _ b => b⟩

/-- A model without variables whose rebuilds return the primitive state they are given. -/
def Model.trivial : Model :=
  ⟨⟨[]⟩, ⟨[]⟩, fun _ => ⟨[]⟩, fun _ _ _ => ⟨[]⟩, fun _ ph mx _ => (ph, mx), fun ph mx _ => (ph, mx)⟩

/-! ## Reachable states of a cell -/

/-- States that a cell can reach from its construction through the refinement and coarsening
methods, the choice methods, the split-flag unpacking and the ghost refresh. The other methods
of the class neither write `m_split` nor create or delete children of the cell; they are covered
by `other`. With `flagWrites = false` the unpacking `getBufferSplit` is restricted to exchange
levels different from the level of the cell, where it only visits the children. -/
inductive Cell.Reachable (flagWrites : Bool) : Cell → Prop where
  | fresh (lvl : Int) : Cell.Reachable flagWrites (Cell.new lvl)
  | refineCellAndCellInterfaces (ops : InterfaceOps) (model : Model) (nbCellsY nbCellsZ : Int)
      (c : Cell) : Cell.Reachable flagWrites c →
      Cell.Reachable flagWrites (c.refineCellAndCellInterfaces ops model nbCellsY nbCellsZ)
  | unrefineCellAndCellInterfaces (ops : InterfaceOps) (model : Model) (c : Cell) :
      Cell.Reachable flagWrites c →
      Cell.Reachable flagWrites (c.unrefineCellAndCellInterfaces ops model)
  | chooseRefine (ops : InterfaceOps) (model : Model) (xiSplit : ℚ) (nbCellsY nbCellsZ : Int)
      (c : Cell) (nbCellsTotalAMR : Int) : Cell.Reachable flagWrites c →
      Cell.Reachable flagWrites
        (c.chooseRefine ops model xiSplit nbCellsY nbCellsZ nbCellsTotalAMR).1
  | chooseUnrefine (ops : InterfaceOps) (model : Model) (xiJoin : ℚ) (c : Cell)
      (nbCellsTotalAMR : Int) : Cell.Reachable flagWrites c →
      Cell.Reachable flagWrites (c.chooseUnrefine ops model xiJoin nbCellsTotalAMR).1
  | getBufferSplit (buffer : Int → Bool) (lvl : Int) (c : Cell) (counter : Int) :
      Cell.Reachable flagWrites c → (flagWrites = true ∨ c.data.lvl ≠ lvl) →
      Cell.Reachable flagWrites (c.getBufferSplit buffer lvl counter).1
  | chooseRefineDeraffineGhost (ops : InterfaceOps) (model : Model) (nbCellsY nbCellsZ : Int)
      (c : Cell) (cellsLvlGhost : Int → List Cell) : Cell.Reachable flagWrites c →
      Cell.Reachable flagWrites
        (c.chooseRefineDeraffineGhost ops model nbCellsY nbCellsZ cellsLvlGhost).1
  | other (f : Cell → Cell)
      (hf : ∀ x : Cell, (f x).data.split = x.data.split ∧
        ((f x).childrenCells = [] ↔ x.childrenCells = []))
      (c : Cell) : Cell.Reachable flagWrites c → Cell.Reachable flagWrites (f c)

/-- A split cell of level 0 whose own indicator is 0 and whose two children, both leaves of
level 1, have indicator 1. -/
def exampleSplitCell : Cell :=
  Cell.mk { (Cell.new 0).data with split := true, xi := 0 }
    [Cell.mk { (Cell.new 1).data with xi := 1 } [], Cell.mk { (Cell.new 1).data with xi := 1 } []]

/-! ## Leaf volume of a cell tree and of a mesh -/

mutual
/-- Sum of the volumes of the leaves below a cell: the volume of its element when the cell has
no child, the sum over its children otherwise. -/
def Cell.leafVolume : Cell → ℚ
  | Cell.mk d [] => d.element.volume
  | Cell.mk _ (ch :: rest) => Cell.leafVolume ch + leafVolumeChildren rest
/-- Sum of the leaf volumes of a list of cells; for the list of the base cells, the sum of the
leaf volumes of the mesh. -/
def leafVolumeChildren : List Cell → ℚ
  | [] => 0
  | ch :: rest => Cell.leafVolume ch + leafVolumeChildren rest
end

/-- The cell tree in which the cell reached by a path of child indices is replaced by its image
under `f`. -/
def Cell.applyAt (f : Cell → Cell) : List Nat → Cell → Cell
  | [], c => f c
  | k :: path, c => Cell.mk c.data (c.childrenCells.modify (Cell.applyAt f path) k)

/-- The cell reached by a path of child indices. -/
def Cell.atPath : List Nat → Cell → Option Cell
  | [], c => some c
  | k :: path, c => (c.childrenCells[k]?).bind (Cell.atPath path)

/-- A leaf cell of level 0 and volume 8. -/
def exampleLeafCell : Cell :=
  Cell.mk { (Cell.new 0).data with element := { Element.empty with volume := 8 } } []

mutual
/-- A cell tree in which the leaf volumes of the children of every cell that has children sum to
the volume of that cell. -/
def Cell.Tiled : Cell → Prop
  | Cell.mk d cs => (cs.length = 0 ∨ leafVolumeChildren cs = d.element.volume) ∧ TiledChildren cs
/-- Every cell of the list is tiled; for the list of the base cells, the mesh is tiled. -/
def TiledChildren : List Cell → Prop
  | [] => True
  | ch :: rest => Cell.Tiled ch ∧ TiledChildren rest
end

/-! ## Boxes of elements -/

/-- The closed interval `centre ± size/2`. -/
def inAxis (centre size t : ℚ) : Prop := centre - size / 2 ≤ t ∧ t ≤ centre + size / 2

/-- The open interval `centre ± size/2`. -/
def inAxisOpen (centre size t : ℚ) : Prop := centre - size / 2 < t ∧ t < centre + size / 2

/-- The axis-aligned box of an element: centre ± size/2 along each axis. -/
def Element.inBox (e : Element) (p : Coord) : Prop :=
  inAxis e.position.x e.size.x p.x ∧ inAxis e.position.y e.size.y p.y ∧
    inAxis e.position.z e.size.z p.z

/-- The interior of the box of an element. -/
def Element.inInterior (e : Element) (p : Coord) : Prop :=
  inAxisOpen e.position.x e.size.x p.x ∧ inAxisOpen e.position.y e.size.y p.y ∧
    inAxisOpen e.position.z e.size.z p.z

/-- A leaf cell of level 0 whose element is the box of centre (1, 1, 1) and sizes (2, 2, 2). -/
def exampleBoxCell : Cell :=
  Cell.mk { (Cell.new 0).data with
    element := { Element.empty with position := ⟨1, 1, 1⟩, size := ⟨2, 2, 2⟩, volume := 8 } } []

/-! ## Internal interfaces of a refined cell -/

/-- The positive unit vector of an axis (0 for x, 1 for y, 2 for z). -/
def unitVector (axis : Nat) : Coord :=
  if axis = 0 then ⟨1, 0, 0⟩ else if axis = 1 then ⟨0, 1, 0⟩ else ⟨0, 0, 1⟩

/-- The midpoint of two points. -/
def midpoint (p q : Coord) : Coord := ⟨(p.x + q.x) / 2, (p.y + q.y) / 2, (p.z + q.z) / 2⟩

/-- The pairs of child indices `(g, g + 2^axis)`, `axis < dim` and `g < n` with the bit `axis`
of `g` equal to 0: the pairs of children whose indices differ in exactly one axis bit. -/
def adjacentPairs (dim n : Nat) : List (Nat × Nat) :=
  (List.range dim).flatMap (fun axis =>
    ((List.range n).filter (fun g => (g / 2 ^ axis) % 2 = 0)).map (fun g => (g, g + 2 ^ axis)))

/-- The internal interface written at position `i` of the creation order, as a value: level
of the cell plus one, not split, no child interface, the face of the creation order, and the
left and right children of the creation order. -/
def internalCellInterfaceAt (nbCellsY nbCellsZ : Int) (c : Cell) (i : Nat) : CellInterface :=
  CellInterface.mk
    { kind := .internal (c.childRef (internalCellInterfaceSpec nbCellsY nbCellsZ c.data.element i).2.1),
      lvl := c.data.lvl + 1, split := false,
      face := (internalCellInterfaceSpec nbCellsY nbCellsZ c.data.element i).2.2,
      cellGauche := c.childRef (internalCellInterfaceSpec nbCellsY nbCellsZ c.data.element i).1 } []

/-- The child of index `k` in a list of children holds the interface `b` in its list. -/
def HoldsAt (cs : List Cell) (k : Nat) (b : CellInterface) : Prop :=
  ∃ ch, cs[k]? = some ch ∧ b ∈ ch.data.cellInterfaces

/-! ## Averaging of the children into the parent -/

/-- The conservative snapshots of the children of a cell, as `averageChildrenInParent` builds them
(`setBufferFlux` on each child with the number of phases of the cell). -/
def childSnapshots (model : Model) (c : Cell) : List Flux :=
  c.childrenCells.map
    (fun ch => model.setBufferFlux ch.data.vecPhases ch.data.mixture c.data.numberPhases)

/-- The arithmetic mean of a list of conservative buffers of `n` components: component `j` is the
sum of the components `j` multiplied by one over the number of buffers. -/
def meanFlux (snaps : List Flux) (n : Nat) : Flux :=
  ⟨(List.range n).map
    (fun j => (snaps.map (fun s => s.comps.getD j 0)).sum * (1 / (snaps.length : ℚ)))⟩

/-- A model of one conservative variable per mixture variable: the snapshot of a state is the
list of its mixture variables and the rebuild reads the mixture back from the buffer. -/
def Model.mixtureOnly : Model :=
  ⟨⟨[]⟩, ⟨[]⟩, fun _ => ⟨[0]⟩, fun _ mx _ => ⟨mx.vars⟩, fun f ph _ _ => (ph, ⟨f.comps⟩),
    fun ph mx _ => (ph, mx)⟩

/-- A split cell of level 0 and volume 8 with one transport, whose two children of volume 4 hold
the mixture values 1 and 3 and the transports 2 and 4. -/
def exampleParentCell : Cell :=
  Cell.mk { (Cell.new 0).data with
      split := true, numberTransports := 1, vecTransports := [0], consTransports := [5],
      mixture := ⟨[0]⟩, cons := ⟨[7]⟩, element := { Element.empty with volume := 8 } }
    [Cell.mk { (Cell.new 1).data with
        numberTransports := 1, vecTransports := [2], mixture := ⟨[1]⟩,
        element := { Element.empty with volume := 4 } } [],
     Cell.mk { (Cell.new 1).data with
        numberTransports := 1, vecTransports := [4], mixture := ⟨[3]⟩,
        element := { Element.empty with volume := 4 } } []]

/-- A leaf cell of level 0 with one transport of value 6, the mixture value 5 and a conservative
buffer of one component. -/
def exampleStateCell : Cell :=
  Cell.mk { (Cell.new 0).data with
    numberTransports := 1, vecTransports := [6], consTransports := [0], mixture := ⟨[5]⟩,
    cons := ⟨[0]⟩ } []

/-! ## Example cells for the guard against too low a neighbor -/

/-- A face of normal +x at the origin, without extent. -/
def exampleFace : Face := ⟨⟨1, 0, 0⟩, ⟨0, 1, 0⟩, ⟨0, 0, 1⟩, ⟨0, 0, 0⟩, ⟨0, 0, 0⟩, 0⟩

/-- A cell of level 1 whose only interface is a split two-sided interface: the cell is its left
cell and the right cell has level 0. -/
def exampleCellSplitInterface : Cell :=
  Cell.mk { (Cell.new 1).data with
    element := { Element.empty with key := ⟨⟨1, 0, 0⟩, 1⟩ },
    cellInterfaces :=
      [CellInterface.mk
        { kind := .internal ⟨⟨⟨1, 0, 0⟩, 0⟩, 0⟩, lvl := 0, split := true, face := exampleFace,
          cellGauche := ⟨⟨⟨1, 0, 0⟩, 1⟩, 1⟩ } []] } []

/-- A cell of level 1 whose only interface is a boundary interface, not split, whose left cell
has level 0. -/
def exampleCellBoundaryInterface : Cell :=
  Cell.mk { (Cell.new 1).data with
    element := { Element.empty with key := ⟨⟨0, 0, 0⟩, 1⟩ },
    cellInterfaces :=
      [CellInterface.mk
        { kind := .boundary 0, lvl := 0, split := false, face := exampleFace,
          cellGauche := ⟨⟨⟨0, 0, 0⟩, 0⟩, 0⟩ } []] } []

/-! ## Directional pack and unpack of the parallel exchange -/

/-- The test made on the child index `i` inside the loop that an AMR pack function
(`fillBufferPrimitivesAMR`, `fillBufferVectorAMR`, `fillBufferTransportsAMR`, `fillBufferXi`,
`fillBufferSplit`, `fillNumberElementsToSendToNeighbour`) enters for a direction label; for a
label other than the six no loop is entered and no child is visited. -/
def sendsChild (whichCpuAmIForNeighbour : String) (i : Nat) : Bool :=
  if whichCpuAmIForNeighbour = "LEFT" then i % 2 == 1
  else if whichCpuAmIForNeighbour = "RIGHT" then i % 2 == 0
  else if whichCpuAmIForNeighbour = "BOTTOM" then decide (i % 4 > 1)
  else if whichCpuAmIForNeighbour = "TOP" then decide (i % 4 ≤ 1)
  else if whichCpuAmIForNeighbour = "BACK" then decide (i > 3)
  else if whichCpuAmIForNeighbour = "FRONT" then decide (i ≤ 3)
  else false

mutual
/-- Method `Cell::fillBufferXi`: a cell of level `lvl` writes `m_xi` at `++counter`; another cell
visits its children of index `i` selected by the direction label. The buffer and the `int&`
counter are returned. -/
def Cell.fillBufferXi (lvl : Int) (whichCpuAmIForNeighbour : String) :
    Cell → (Int → ℚ) → Int → (Int → ℚ) × Int
  | Cell.mk d cs, buffer, counter =>
    if d.lvl = lvl then (Function.update buffer (counter + 1) d.xi, counter + 1)
    else fillBufferXiChildren lvl whichCpuAmIForNeighbour cs 0 buffer counter
/-- The loop of `fillBufferXi` over the children, from the child of index `i` on. -/
def fillBufferXiChildren (lvl : Int) (whichCpuAmIForNeighbour : String) :
    List Cell → Nat → (Int → ℚ) → Int → (Int → ℚ) × Int
  | [], _, buffer, counter => (buffer, counter)
  | ch :: rest, i, buffer, counter =>
    if sendsChild whichCpuAmIForNeighbour i then
      let r := Cell.fillBufferXi lvl whichCpuAmIForNeighbour ch buffer counter
      fillBufferXiChildren lvl whichCpuAmIForNeighbour rest (i + 1) r.1 r.2
    else fillBufferXiChildren lvl whichCpuAmIForNeighbour rest (i + 1) buffer counter
end

mutual
/-- Method `Cell::getBufferXi`: a cell of level `lvl` reads `m_xi` at `++counter`; another cell
visits all its children. -/
def Cell.getBufferXi (buffer : Int → ℚ) (lvl : Int) : Cell → Int → Cell × Int
  | Cell.mk d cs, counter =>
    if d.lvl = lvl then (Cell.mk { d with xi := buffer (counter + 1) } cs, counter + 1)
    else
      let r := getBufferXiChildren buffer lvl cs counter
      (Cell.mk d r.1, r.2)
/-- The loop of `getBufferXi` over the children. -/
def getBufferXiChildren (buffer : Int → ℚ) (lvl : Int) : List Cell → Int → List Cell × Int
  | [], counter => ([], counter)
  | ch :: rest, counter =>
    let r := Cell.getBufferXi buffer lvl ch counter
    let r2 := getBufferXiChildren buffer lvl rest r.2
    (r.1 :: r2.1, r2.2)
end

mutual
/-- Method `Cell::fillBufferSplit`: a cell of level `lvl` writes `m_split` at `++counter`;
another cell visits its children of index `i` selected by the direction label. -/
def Cell.fillBufferSplit (lvl : Int) (whichCpuAmIForNeighbour : String) :
    Cell → (Int → Bool) → Int → (Int → Bool) × Int
  | Cell.mk d cs, buffer, counter =>
    if d.lvl = lvl then (Function.update buffer (counter + 1) d.split, counter + 1)
    else fillBufferSplitChildren lvl whichCpuAmIForNeighbour cs 0 buffer counter
/-- The loop of `fillBufferSplit` over the children, from the child of index `i` on. -/
def fillBufferSplitChildren (lvl : Int) (whichCpuAmIForNeighbour : String) :
    List Cell → Nat → (Int → Bool) → Int → (Int → Bool) × Int
  | [], _, buffer, counter => (buffer, counter)
  | ch :: rest, i, buffer, counter =>
    if sendsChild whichCpuAmIForNeighbour i then
      let r := Cell.fillBufferSplit lvl whichCpuAmIForNeighbour ch buffer counter
      fillBufferSplitChildren lvl whichCpuAmIForNeighbour rest (i + 1) r.1 r.2
    else fillBufferSplitChildren lvl whichCpuAmIForNeighbour rest (i + 1) buffer counter
end

/-- The loop `for k < m_numberTransports: buffer[++counter] = getTransport(k).getValue()`. -/
def fillTransports (d : CellData) (buffer : Int → ℚ) (counter : Int) : (Int → ℚ) × Int :=
  (List.range d.numberTransports).foldl
    (fun st k => (Function.update st.1 (st.2 + 1) (d.vecTransports.getD k 0), st.2 + 1))
    (buffer, counter)

/-- The loop `for k < m_numberTransports: setTransport(buffer[++counter], k)`. -/
def getTransports (buffer : Int → ℚ) (d : CellData) (counter : Int) : CellData × Int :=
  (List.range d.numberTransports).foldl
    (fun st k => ({ st.1 with vecTransports := st.1.vecTransports.set k (buffer (st.2 + 1)) },
      st.2 + 1))
    (d, counter)

mutual
/-- Method `Cell::fillBufferTransportsAMR`: a cell of level `lvl` writes its transports; another
cell visits its children of index `i` selected by the direction label. -/
def Cell.fillBufferTransportsAMR (lvl : Int) (whichCpuAmIForNeighbour : String) :
    Cell → (Int → ℚ) → Int → (Int → ℚ) × Int
  | Cell.mk d cs, buffer, counter =>
    if d.lvl = lvl then fillTransports d buffer counter
    else fillBufferTransportsAMRChildren lvl whichCpuAmIForNeighbour cs 0 buffer counter
/-- The loop of `fillBufferTransportsAMR` over the children, from the child of index `i` on. -/
def fillBufferTransportsAMRChildren (lvl : Int) (whichCpuAmIForNeighbour : String) :
    List Cell → Nat → (Int → ℚ) → Int → (Int → ℚ) × Int
  | [], _, buffer, counter => (buffer, counter)
  | ch :: rest, i, buffer, counter =>
    if sendsChild whichCpuAmIForNeighbour i then
      let r := Cell.fillBufferTransportsAMR lvl whichCpuAmIForNeighbour ch buffer counter
      fillBufferTransportsAMRChildren lvl whichCpuAmIForNeighbour rest (i + 1) r.1 r.2
    else fillBufferTransportsAMRChildren lvl whichCpuAmIForNeighbour rest (i + 1) buffer counter
end

mutual
/-- Method `Cell::getBufferTransportsAMR`: a cell of level `lvl` reads its transports; another
cell visits all its children. -/
def Cell.getBufferTransportsAMR (buffer : Int → ℚ) (lvl : Int) : Cell → Int → Cell × Int
  | Cell.mk d cs, counter =>
    if d.lvl = lvl then (Cell.mk (getTransports buffer d counter).1 cs,
      (getTransports buffer d counter).2)
    else
      let r := getBufferTransportsAMRChildren buffer lvl cs counter
      (Cell.mk d r.1, r.2)
/-- The loop of `getBufferTransportsAMR` over the children. -/
def getBufferTransportsAMRChildren (buffer : Int → ℚ) (lvl : Int) :
    List Cell → Int → List Cell × Int
  | [], counter => ([], counter)
  | ch :: rest, counter =>
    let r := Cell.getBufferTransportsAMR buffer lvl ch counter
    let r2 := getBufferTransportsAMRChildren buffer lvl rest r.2
    (r.1 :: r2.1, r2.2)
end

/-- The buffer methods of the phase and mixture classes, external to the mesh core
(`Phase::fillBuffer(buffer, counter)` and `Mixture::fillBuffer(buffer, counter)`): each returns
the buffer and the counter after its writes. -/
structure BufferOps where
  phaseFillBuffer : Phase → (Int → ℚ) → Int → (Int → ℚ) × Int
  mixtureFillBuffer : Mixture → (Int → ℚ) → Int → (Int → ℚ) × Int

/-- What a cell of level `lvl` writes in `fillBufferPrimitivesAMR`: its phases, its mixture and
its transports. For the class `Cell`, `getPhase(k, type)`, `getMixture(type)` and
`getTransport(k, type)` return the members whatever `type` is. -/
def fillPrimitives (bops : BufferOps) (d : CellData) (buffer : Int → ℚ) (counter : Int) :
    (Int → ℚ) × Int :=
  let st1 := (List.range d.numberPhases).foldl
    (fun st k =>
      match d.vecPhases.get? k with
      | some ph => bops.phaseFillBuffer ph st.1 st.2
      | none => st)
    (buffer, counter)
  let st2 := bops.mixtureFillBuffer d.mixture st1.1 st1.2
  fillTransports d st2.1 st2.2

mutual
/-- Method `Cell::fillBufferPrimitivesAMR`: a cell of level `lvl` writes its primitive state;
another cell visits its children of index `i` selected by the direction label. -/
def Cell.fillBufferPrimitivesAMR (bops : BufferOps) (lvl : Int)
    (whichCpuAmIForNeighbour : String) : Cell → (Int → ℚ) → Int → (Int → ℚ) × Int
  | Cell.mk d cs, buffer, counter =>
    if d.lvl = lvl then fillPrimitives bops d buffer counter
    else fillBufferPrimitivesAMRChildren bops lvl whichCpuAmIForNeighbour cs 0 buffer counter
/-- The loop of `fillBufferPrimitivesAMR` over the children, from the child of index `i` on. -/
def fillBufferPrimitivesAMRChildren (bops : BufferOps) (lvl : Int)
    (whichCpuAmIForNeighbour : String) : List Cell → Nat → (Int → ℚ) → Int → (Int → ℚ) × Int
  | [], _, buffer, counter => (buffer, counter)
  | ch :: rest, i, buffer, counter =>
    if sendsChild whichCpuAmIForNeighbour i then
      let r := Cell.fillBufferPrimitivesAMR bops lvl whichCpuAmIForNeighbour ch buffer counter
      fillBufferPrimitivesAMRChildren bops lvl whichCpuAmIForNeighbour rest (i + 1) r.1 r.2
    else
      fillBufferPrimitivesAMRChildren bops lvl whichCpuAmIForNeighbour rest (i + 1) buffer counter
end

/-! ## Notions for the directional exchange -/

/-- The six direction labels of the exchange. -/
inductive Direction where
  | left | right | bottom | top | back | front
deriving DecidableEq

/-- The string of a direction label. -/
def Direction.label : Direction → String
  | .left => "LEFT"
  | .right => "RIGHT"
  | .bottom => "BOTTOM"
  | .top => "TOP"
  | .back => "BACK"
  | .front => "FRONT"

/-- The children emitted for a direction label, in the words of the exchange design (spec 4.6):
LEFT `i mod 2 = 1`, RIGHT `i mod 2 = 0`, BOTTOM `(i / 2) mod 2 = 1`, TOP `(i / 2) mod 2 = 0`,
BACK `i ≥ 4`, FRONT `i < 4`. -/
def Direction.emits : Direction → Nat → Prop
  | .left, i => i % 2 = 1
  | .right, i => i % 2 = 0
  | .bottom, i => (i / 2) % 2 = 1
  | .top, i => (i / 2) % 2 = 0
  | .back, i => i ≥ 4
  | .front, i => i < 4

/-- The successive visits of the children of a list whose index, counted from `i`, passes a test:
the visits thread a state of type `σ`. -/
def visitChildren {σ : Type} (visit : Cell → σ → σ) (keep : Nat → Bool) (cs : List Cell) (i : Nat)
    (st : σ) : σ :=
  (((cs.enumFrom i).filter (fun p => keep p.1)).map Prod.snd).foldl (fun st ch => visit ch st) st

mutual
/-- The cells of level `lvl` reached by the descent of the pack functions below a cell under a
direction label, in the order of the visits: the direction-filtered descendants of level `lvl`. -/
def Cell.sentCells (lvl : Int) (whichCpuAmIForNeighbour : String) : Cell → List Cell
  | Cell.mk d cs =>
    if d.lvl = lvl then [Cell.mk d cs] else sentCellsChildren lvl whichCpuAmIForNeighbour cs 0
/-- The cells of level `lvl` reached through the children of index `i` on. -/
def sentCellsChildren (lvl : Int) (whichCpuAmIForNeighbour : String) : List Cell → Nat → List Cell
  | [], _ => []
  | ch :: rest, i =>
    (if sendsChild whichCpuAmIForNeighbour i then Cell.sentCells lvl whichCpuAmIForNeighbour ch
     else []) ++ sentCellsChildren lvl whichCpuAmIForNeighbour rest (i + 1)
end

mutual
/-- The cells of level `lvl` reached by the descent of the unpack functions below a cell, in the
order of the visits: the descendants of level `lvl`, without directional filter. -/
def Cell.receivingCells (lvl : Int) : Cell → List Cell
  | Cell.mk d cs => if d.lvl = lvl then [Cell.mk d cs] else receivingCellsChildren lvl cs
/-- The cells of level `lvl` reached through a list of children. -/
def receivingCellsChildren (lvl : Int) : List Cell → List Cell
  | [] => []
  | ch :: rest => Cell.receivingCells lvl ch ++ receivingCellsChildren lvl rest
end

/-- The buffer after the successive writes `buffer[++counter] = v` of a list of values. -/
def writeValues {α : Type} (buffer : Int → α) (counter : Int) : List α → (Int → α)
  | [] => buffer
  | v :: vs => writeValues (Function.update buffer (counter + 1) v) (counter + 1) vs

/-- The successive reads of a list of cells: each cell reads from the counter left by the
previous one; the cells read and the final counter are returned. -/
def readCells (read : CellData → Int → CellData × Int) : List Cell → Int → List Cell × Int
  | [], counter => ([], counter)
  | x :: xs, counter =>
    ((Cell.mk (read x.data counter).1 x.childrenCells) :: (readCells read xs (read x.data counter).2).1,
      (readCells read xs (read x.data counter).2).2)

/-- A split cell of level 0 with two children of level 1 that hold one transport each, 3 and 4,
the indicators 5 and 6, and the split flags `true` and `false`. -/
def exampleOwnerCell : Cell :=
  Cell.mk { (Cell.new 0).data with split := true }
    [Cell.mk { (Cell.new 1).data with
        numberTransports := 1, vecTransports := [3], xi := 5, split := true } [],
     Cell.mk { (Cell.new 1).data with
        numberTransports := 1, vecTransports := [4], xi := 6, split := false } []]

/-- A cell of level 0 with a single child of level 1 that holds one transport. -/
def exampleGhostCell : Cell :=
  Cell.mk { (Cell.new 0).data with split := true }
    [Cell.mk { (Cell.new 1).data with numberTransports := 1, vecTransports := [0] } []]

/-! ## Initial topology of the mesh (`MeshCartesianAMR::createCellInterfacesFacesAndGhostCells`) -/

/-- Modelled from the spec: `Key::neighbor(offset)` is the key of the same level whose coordinate
is the coordinate of the key plus the offset (spec 4.1). -/
def Key.neighbor (k : Key) (offset : KeyCoord) : Key :=
  ⟨⟨k.coordinate.x + offset.x, k.coordinate.y + offset.y, k.coordinate.z + offset.z⟩, k.level⟩

/-- The queries of the class `decomposition::Decomposition`, which is not among the source files:
the keys of a rank, the rank of a key and the bounds check of a coordinate. They are parameters of
the embedding. -/
structure Decomposition where
  get_keys : Int → List Key
  get_rank : Key → Int
  is_inside : KeyCoord → Bool

/-- The members of `MeshCartesian` read by the construction of the topology: the positions and
the sizes of the base cells along each axis, the numbers of cells, `m_geometrie`, and for each of
the six boundaries of the domain the class code of the interface created by `creeLimite`. -/
structure MeshCartesian where
  posXi : Int → ℚ
  posYj : Int → ℚ
  posZk : Int → ℚ
  dXi : Int → ℚ
  dYj : Int → ℚ
  dZk : Int → ℚ
  numberCellsX : Int
  numberCellsY : Int
  numberCellsZ : Int
  geometrie : Int
  limXm : Nat
  limXp : Nat
  limYm : Nat
  limYp : Nat
  limZm : Nat
  limZp : Nat

/-- The array `offsets`: `offsets[2*d][d] = -1` and `offsets[2*d+1][d] = +1`. -/
def offsets (idx : Nat) : KeyCoord :=
  if idx = 0 then ⟨-1, 0, 0⟩ else if idx = 1 then ⟨1, 0, 0⟩
  else if idx = 2 then ⟨0, -1, 0⟩ else if idx = 3 then ⟨0, 1, 0⟩
  else if idx = 4 then ⟨0, 0, -1⟩ else ⟨0, 0, 1⟩

/-- The locals `normal`, `tangent` and `binormal` after the six tests on the offset. -/
def offsetFrame (offset : KeyCoord) : Coord × Coord × Coord :=
  let normal : Coord := ⟨(offset.x : ℚ), (offset.y : ℚ), (offset.z : ℚ)⟩
  let tb0 : Coord × Coord := (⟨0, 0, 0⟩, ⟨0, 0, 0⟩)
  let tb1 : Coord × Coord := if offset.x = 1 then (⟨0, 1, 0⟩, ⟨0, 0, 1⟩) else tb0
  let tb2 : Coord × Coord := if offset.x = -1 then (⟨0, -1, 0⟩, ⟨0, 0, 1⟩) else tb1
  let tb3 : Coord × Coord := if offset.y = 1 then (⟨-1, 0, 0⟩, ⟨0, 0, 1⟩) else tb2
  let tb4 : Coord × Coord := if offset.y = -1 then (⟨1, 0, 0⟩, ⟨0, 0, 1⟩) else tb3
  let tb5 : Coord × Coord := if offset.z = 1 then (⟨1, 0, 0⟩, ⟨0, 1, 0⟩) else tb4
  let tb6 : Coord × Coord := if offset.z = -1 then (⟨-1, 0, 0⟩, ⟨0, 1, 0⟩) else tb5
  (normal, tb6.1, tb6.2)

/-- The face built for the cell of coordinate `coord` and an offset: the three blocks
`if (offset[d])` set the size and call `initializeAutres`, then `setPos`. In the branch of a ghost
neighbor on a negative offset each block first resets the frame to the positive axis. -/
def offsetFace (m : MeshCartesian) (coord offset : KeyCoord) (ghostOnNegativeOffset : Bool) :
    Face :=
  let ix := coord.x
  let iy := coord.y
  let iz := coord.z
  let fr := offsetFrame offset
  let f0 : Face := ⟨⟨0, 0, 0⟩, ⟨0, 0, 0⟩, ⟨0, 0, 0⟩, ⟨0, 0, 0⟩, ⟨0, 0, 0⟩, 0⟩
  let frX : Coord × Coord × Coord :=
    if ghostOnNegativeOffset ∧ offset.x ≠ 0 then (⟨1, 0, 0⟩, ⟨0, 1, 0⟩, ⟨0, 0, 1⟩) else fr
  let f1 : Face :=
    if offset.x ≠ 0 then
      { f0 with size := ⟨0, m.dYj iy, m.dZk iz⟩, surface := m.dYj iy * m.dZk iz,
                normal := frX.1, tangent := frX.2.1, binormal := frX.2.2 }
    else f0
  let frY : Coord × Coord × Coord :=
    if ghostOnNegativeOffset ∧ offset.y ≠ 0 then (⟨0, 1, 0⟩, ⟨-1, 0, 0⟩, ⟨0, 0, 1⟩) else frX
  let f2 : Face :=
    if offset.y ≠ 0 then
      { f1 with size := ⟨m.dXi ix, 0, m.dZk iz⟩, surface := m.dXi ix * m.dZk iz,
                normal := frY.1, tangent := frY.2.1, binormal := frY.2.2 }
    else f1
  let frZ : Coord × Coord × Coord :=
    if ghostOnNegativeOffset ∧ offset.z ≠ 0 then (⟨0, 0, 1⟩, ⟨1, 0, 0⟩, ⟨0, 1, 0⟩) else frY
  let f3 : Face :=
    if offset.z ≠ 0 then
      { f2 with size := ⟨m.dXi ix, m.dYj iy, 0⟩, surface := m.dYj iy * m.dXi ix,
                normal := frZ.1, tangent := frZ.2.1, binormal := frZ.2.2 }
    else f2
  { f3 with pos := ⟨m.posXi ix + 0.5 * m.dXi ix * (offset.x : ℚ),
                    m.posYj iy + 0.5 * m.dYj iy * (offset.y : ℚ),
                    m.posZk iz + 0.5 * m.dZk iz * (offset.z : ℚ)⟩ }

/-- The element of a base cell or of a ghost cell of key `key`: volume, CFL length, position and
size read from the mesh arrays, and the index of the cell in `cells`. -/
def baseElement (m : MeshCartesian) (key : Key) (numCell : Nat) : Element :=
  let ix := key.coordinate.x
  let iy := key.coordinate.y
  let iz := key.coordinate.z
  let l0 : ℚ := 10000000000
  let l1 : ℚ := if m.numberCellsX ≠ 1 then min l0 (m.dXi ix) else l0
  let l2 : ℚ := if m.numberCellsY ≠ 1 then min l1 (m.dYj iy) else l1
  let l3 : ℚ := if m.numberCellsZ ≠ 1 then min l2 (m.dZk iz) else l2
  let l4 : ℚ := if m.geometrie > 1 then l3 * 0.6 else l3
  { position := ⟨m.posXi ix, m.posYj iy, m.posZk iz⟩
    size := ⟨m.dXi ix, m.dYj iy, m.dZk iz⟩
    volume := m.dXi ix * m.dYj iy * m.dZk iz
    lCFL := l4
    key := key
    cellAssociee := (numCell : Int) }

/-- The class code of the boundary interface created for an offset that leaves the domain: the
tests on the offset call `creeLimite` of the matching boundary. -/
def boundaryCode (m : MeshCartesian) (offset : KeyCoord) : Nat :=
  if offset.x = 1 then m.limXp else if offset.x = -1 then m.limXm
  else if offset.y = 1 then m.limYp else if offset.y = -1 then m.limYm
  else if offset.z = 1 then m.limZp else m.limZm

/-- The containers filled by the construction: the cells (the cells of the rank first, then the
ghost cells), the interfaces, and the lists of the parallel exchange. Modelled from the spec: the
class of `parallel` is not among the source files; `getElementsToSend(neighbour)` and
`getElementsToReceive(neighbour)` are per-neighbor sequences of cells to which
`addElementToSend` and `addElementToReceive` append (spec 4.6). -/
structure MeshContainers where
  cells : List Cell
  cellInterfaces : List CellInterface
  elementsToSend : Int → List CellRef
  elementsToReceive : Int → List CellRef

/-- The branch "neighbor cell is a ghost cell" of a positive offset (the ghost is the right cell)
and of a negative offset (the ghost is the left cell): the ghost of key `nKey` is looked up among
the ghost cells and created when absent, then recorded in the receive list of the neighbor rank;
the current cell is added to the send list of that rank unless a cell of its key is there; the
new interface is pushed onto the current cell and onto the ghost. -/
def connectGhost (m : MeshCartesian) (sizeNonGhostCells : Nat) (s : MeshContainers) (i : Nat)
    (ci : Cell) (nKey : Key) (neighbour : Int) (face : Face) (ghostIsLeft : Bool) :
    MeshContainers :=
  let cKey := ci.data.element.key
  let send : Int → List CellRef :=
    if (s.elementsToSend neighbour).any (fun r => decide (r.key = cKey)) then s.elementsToSend
    else Function.update s.elementsToSend neighbour (s.elementsToSend neighbour ++ [ci.ref])
  match (s.cells.drop sizeNonGhostCells).findIdx? (fun c => decide (c.data.element.key = nKey)) with
  | none =>
    let ghost := (Cell.new 0).setElement (baseElement m nKey s.cells.length)
    let b : CellInterface :=
      if ghostIsLeft then
        CellInterface.mk
          { kind := .internal ci.ref, lvl := 0, split := false, face := face,
            cellGauche := ghost.ref } []
      else
        CellInterface.mk
          { kind := .internal ghost.ref, lvl := 0, split := false, face := face,
            cellGauche := ci.ref } []
    { cells := s.cells.modify (fun c => c.addCellInterface b) i ++ [ghost.addCellInterface b],
      cellInterfaces := s.cellInterfaces ++ [b],
      elementsToSend := send,
      elementsToReceive :=
        Function.update s.elementsToReceive neighbour (s.elementsToReceive neighbour ++ [ghost.ref]) }
  | some g =>
    let ghostRef := (s.cells.getD (sizeNonGhostCells + g) (Cell.new 0)).ref
    let b : CellInterface :=
      if ghostIsLeft then
        CellInterface.mk
          { kind := .internal ci.ref, lvl := 0, split := false, face := face,
            cellGauche := ghostRef } []
      else
        CellInterface.mk
          { kind := .internal ghostRef, lvl := 0, split := false, face := face,
            cellGauche := ci.ref } []
    { cells := (s.cells.modify (fun c => c.addCellInterface b) i).modify
        (fun c => c.addCellInterface b) (sizeNonGhostCells + g),
      cellInterfaces := s.cellInterfaces ++ [b],
      elementsToSend := send,
      elementsToReceive := s.elementsToReceive }

/-- One pass of the loop over the offsets for the cell of index `i`. An interface object created
here has level 0, is not split and has no children. -/
def createCellInterface (m : MeshCartesian) (decomp : Decomposition) (sizeNonGhostCells : Nat)
    (i : Nat) (s : MeshContainers) (idx : Nat) : MeshContainers :=
  match s.cells.get? i with
  | none => s
  | some ci =>
    let coord := ci.data.element.key.coordinate
    let offset := offsets idx
    let neighborCell : KeyCoord := ⟨coord.x + offset.x, coord.y + offset.y, coord.z + offset.z⟩
    if !decomp.is_inside neighborCell then
      let b := CellInterface.mk
        { kind := .boundary (boundaryCode m offset), lvl := 0, split := false,
          face := offsetFace m coord offset false, cellGauche := ci.ref } []
      { s with
        cells := s.cells.modify (fun c => c.addCellInterface b) i,
        cellInterfaces := s.cellInterfaces ++ [b] }
    else
      let nKey := ci.data.element.key.neighbor offset
      let neighbour := decomp.get_rank nKey
      if offset.x > 0 ∨ offset.y > 0 ∨ offset.z > 0 then
        match (s.cells.take sizeNonGhostCells).findIdx?
            (fun c => decide (c.data.element.key = nKey)) with
        | some j =>
          let b := CellInterface.mk
            { kind := .internal (s.cells.getD j (Cell.new 0)).ref, lvl := 0, split := false,
              face := offsetFace m coord offset false, cellGauche := ci.ref } []
          { s with
            cells := (s.cells.modify (fun c => c.addCellInterface b) i).modify
              (fun c => c.addCellInterface b) j,
            cellInterfaces := s.cellInterfaces ++ [b] }
        | none =>
          connectGhost m sizeNonGhostCells s i ci nKey neighbour (offsetFace m coord offset false)
            false
      else
        match (s.cells.take sizeNonGhostCells).findIdx?
            (fun c => decide (c.data.element.key = nKey)) with
        | some _ => s
        | none =>
          connectGhost m sizeNonGhostCells s i ci nKey neighbour (offsetFace m coord offset true)
            true

/-- Method `MeshCartesianAMR::createCellInterfacesFacesAndGhostCells`: the loops over the cells of
the rank and over the six offsets, then, when `Ncpu > 1`, the sort of the receive list of each
rank by key. `keyLess` is the order `operator<` of the keys, not among the source files; the sort
is embedded as an insertion sort. -/
def createCellInterfacesFacesAndGhostCells (m : MeshCartesian) (decomp : Decomposition)
    (keyLess : Key → Key → Bool) (Ncpu : Int) (s : MeshContainers) : MeshContainers :=
  let sizeNonGhostCells := s.cells.length
  let s1 := (List.range sizeNonGhostCells).foldl
    (fun s i => (List.range 6).foldl (createCellInterface m decomp sizeNonGhostCells i) s) s
  if Ncpu > 1 then
    { s1 with
      elementsToReceive := fun r =>
        if 0 ≤ r ∧ r < Ncpu then
          (s1.elementsToReceive r).insertionSort (fun a b => keyLess b.key a.key = false)
        else s1.elementsToReceive r }
  else s1

/-- Method `MeshCartesianAMR::initializeGeometrieAMR` on the rank `rankCpu`: one cell and one
element per key of the rank, then the construction of the interfaces, of the faces and of the
ghost cells. The decomposition built by the method is a parameter. -/
def initializeGeometrieAMR (m : MeshCartesian) (decomp : Decomposition)
    (keyLess : Key → Key → Bool) (Ncpu rankCpu : Int) : MeshContainers :=
  let keys := decomp.get_keys rankCpu
  let cells := keys.mapIdx (fun i key => (Cell.new 0).setElement (baseElement m key i))
  createCellInterfacesFacesAndGhostCells m decomp keyLess Ncpu
    ⟨cells, [], fun _ => [], fun _ => []⟩

/-! ## Notions for the initial topology -/

/-- The key of the element of a cell (`getElement()->getKey()`). -/
def Cell.key (c : Cell) : Key := c.data.element.key

/-- The keys of the ghost cells: the cells stored after the first `n` cells. -/
def MeshContainers.ghostKeys (n : Nat) (s : MeshContainers) : List Key :=
  (s.cells.drop n).map Cell.key

/-- The keys of the cells of the send list of a rank. -/
def MeshContainers.sendKeys (s : MeshContainers) (r : Int) : List Key :=
  (s.elementsToSend r).map CellRef.key

/-- The keys of the cells of the receive list of a rank. -/
def MeshContainers.receiveKeys (s : MeshContainers) (r : Int) : List Key :=
  (s.elementsToReceive r).map CellRef.key

/-- The neighbor of the key `k` across the offset of index `idx` lies inside the domain and is not
a key of the list `K` of the keys of the rank: it is the key of a ghost cell. -/
def ghostNeighbor (decomp : Decomposition) (K : List Key) (k : Key) (idx : Nat) : Prop :=
  decomp.is_inside (k.neighbor (offsets idx)).coordinate = true ∧ k.neighbor (offsets idx) ∉ K

/-- The pairs (cell index, offset index) in the order of the two loops. -/
def topologySteps (n : Nat) : List (Nat × Nat) :=
  (List.range n).flatMap (fun i => (List.range 6).map (fun idx => (i, idx)))

/-- What the loops maintain, `K` being the keys of the cells of the rank: the first cells keep
these keys, every cell has level 0, no two ghost cells have the same key, the receive list of a
rank holds the ghost cells of that rank in the order of their creation, and every ghost cell and
every cell of a send list comes from a neighbor relation across one of the six offsets. -/
def TopologyInv (decomp : Decomposition) (K : List Key) (s : MeshContainers) : Prop :=
  (s.cells.take K.length).map Cell.key = K ∧
  (∀ c ∈ s.cells, c.data.lvl = 0) ∧
  (s.ghostKeys K.length).Nodup ∧
  (∀ r : Int, s.receiveKeys r
    = (s.ghostKeys K.length).filter (fun g => decide (decomp.get_rank g = r))) ∧
  (∀ g ∈ s.ghostKeys K.length, ∃ k ∈ K, ∃ idx : Nat, idx < 6 ∧ ghostNeighbor decomp K k idx ∧
    k.neighbor (offsets idx) = g) ∧
  (∀ (r : Int), ∀ k ∈ s.sendKeys r, k ∈ K ∧ ∃ idx : Nat, idx < 6 ∧ ghostNeighbor decomp K k idx ∧
    decomp.get_rank (k.neighbor (offsets idx)) = r)

instance (decomp : Decomposition) (K : List Key) (k : Key) (idx : Nat) :
    Decidable (ghostNeighbor decomp K k idx) := by
  unfold ghostNeighbor
  infer_instance

/-- The index of the opposite offset: 0 and 1, 2 and 3, 4 and 5 are exchanged. -/
def oppositeIndex (idx : Nat) : Nat := if idx % 2 = 0 then idx + 1 else idx - 1

/-- A decomposition in which the keys of a rank are listed once each and are the keys of level 0
inside the domain whose rank is that rank (spec 4.2). -/
def Decomposition.Owns (decomp : Decomposition) : Prop :=
  (∀ r : Int, (decomp.get_keys r).Nodup) ∧
    ∀ (r : Int) (k : Key), k ∈ decomp.get_keys r ↔
      (k.level = 0 ∧ decomp.is_inside k.coordinate = true ∧ decomp.get_rank k = r)

/-- The keys of the rank `rankA` that have, across one of the six offsets, a neighbor among the
keys of the rank `rankB`. -/
def adjacentKeys (decomp : Decomposition) (rankA rankB : Int) : List Key :=
  (decomp.get_keys rankA).filter (fun a =>
    (List.range 6).any (fun idx => decide (a.neighbor (offsets idx) ∈ decomp.get_keys rankB)))

/-- A mesh of unit cells. -/
def exampleMesh : MeshCartesian :=
  { posXi := fun i => (i : ℚ), posYj := fun j => (j : ℚ), posZk := fun k => (k : ℚ),
    dXi := fun _ => 1, dYj := fun _ => 1, dZk := fun _ => 1,
    numberCellsX := 2, numberCellsY := 1, numberCellsZ := 1, geometrie := 1,
    limXm := 0, limXp := 0, limYm := 0, limYp := 0, limZm := 0, limZp := 0 }

/-- The decomposition of a row of two base cells over two ranks: the cell of coordinate
`(0, 0, 0)` on rank 0 and the cell of coordinate `(1, 0, 0)` on rank 1. -/
def exampleDecomposition : Decomposition :=
  { get_keys := fun r =>
      if r = 0 then [⟨⟨0, 0, 0⟩, 0⟩] else if r = 1 then [⟨⟨1, 0, 0⟩, 0⟩] else []
    get_rank := fun k => k.coordinate.x
    is_inside := fun c => decide (0 ≤ c.x ∧ c.x < 2 ∧ c.y = 0 ∧ c.z = 0) }

/-- The lexicographic order of the keys on level, then x, y and z. -/
def exampleKeyLess (a b : Key) : Bool :=
  decide (a.level < b.level ∨ (a.level = b.level ∧ (a.coordinate.x < b.coordinate.x ∨
    (a.coordinate.x = b.coordinate.x ∧ (a.coordinate.y < b.coordinate.y ∨
      (a.coordinate.y = b.coordinate.y ∧ a.coordinate.z < b.coordinate.z))))))

/-- The interface created by the pass of the cell of key `k`, a key of the list `K` of the keys
of the rank, over the offset of index `idx`: a boundary interface with the cell as left cell when
the neighbor lies outside the domain; on a positive offset an interface with the cell as left cell
and the neighbor as right cell; on a negative offset towards a ghost cell an interface with the
ghost as left cell and the cell as right cell; none on a negative offset towards a cell of the
rank. -/
def interfaceOf (m : MeshCartesian) (decomp : Decomposition) (K : List Key) (k : Key) (idx : Nat) :
    Option CellInterface :=
  if decomp.is_inside (k.neighbor (offsets idx)).coordinate = false then
    some (CellInterface.mk
      { kind := .boundary (boundaryCode m (offsets idx)), lvl := 0, split := false,
        face := offsetFace m k.coordinate (offsets idx) false, cellGauche := ⟨k, 0⟩ } [])
  else if (offsets idx).x > 0 ∨ (offsets idx).y > 0 ∨ (offsets idx).z > 0 then
    some (CellInterface.mk
      { kind := .internal ⟨k.neighbor (offsets idx), 0⟩, lvl := 0, split := false,
        face := offsetFace m k.coordinate (offsets idx) false, cellGauche := ⟨k, 0⟩ } [])
  else if k.neighbor (offsets idx) ∈ K then none
  else
    some (CellInterface.mk
      { kind := .internal ⟨k, 0⟩, lvl := 0, split := false,
        face := offsetFace m k.coordinate (offsets idx) true,
        cellGauche := ⟨k.neighbor (offsets idx), 0⟩ } [])

/-- The interfaces pushed onto the cell of key `kj` by the pass of the cell of key `ki` over the
offset of index `idx`: the interface created by the pass, when the cell is the one of the pass or
the neighbor reached through a positive offset. -/
def interfacesPushed (m : MeshCartesian) (decomp : Decomposition) (K : List Key) (kj ki : Key)
    (idx : Nat) : List CellInterface :=
  match interfaceOf m decomp K ki idx with
  | none => []
  | some b =>
    if ki = kj then [b]
    else if decomp.is_inside (ki.neighbor (offsets idx)).coordinate = true ∧
        ((offsets idx).x > 0 ∨ (offsets idx).y > 0 ∨ (offsets idx).z > 0) ∧
        ki.neighbor (offsets idx) = kj then [b]
    else []

/-- The interface that the cell of key `k` holds for the offset of index `idx`: the interface
created by its own pass, or, on a negative offset towards a cell of the rank, the interface
created by the pass of that neighbor over the opposite offset. -/
def expectedInterface (m : MeshCartesian) (decomp : Decomposition) (K : List Key) (k : Key)
    (idx : Nat) : CellInterface :=
  match interfaceOf m decomp K k idx with
  | some b => b
  | none =>
    CellInterface.mk
      { kind := .internal ⟨k, 0⟩, lvl := 0, split := false,
        face := offsetFace m (k.neighbor (offsets idx)).coordinate
          (offsets (oppositeIndex idx)) false,
        cellGauche := ⟨k.neighbor (offsets idx), 0⟩ } []

/-- The interfaces pushed onto the cell of key `kj` by the passes `l`, pairs (cell index, offset
index), in their order. -/
def interfacesPushedBy (m : MeshCartesian) (decomp : Decomposition) (K : List Key) (kj : Key)
    (l : List (Nat × Nat)) : List CellInterface :=
  l.flatMap (fun p => interfacesPushed m decomp K kj (K.getD p.1 kj) p.2)

/-- Every cell stored after the first `n` cells of `l` is found after the first `n` cells of `lnew`
with its key and with at least its interfaces. -/
def KeepsGhosts (n : Nat) (l lnew : List Cell) : Prop :=
  ∀ c ∈ l.drop n, ∃ d ∈ lnew.drop n, d.key = c.key ∧
    ∀ b ∈ c.data.cellInterfaces, b ∈ d.data.cellInterfaces

/-- The key `next_key` of the pass `(i, j)` of the double loop of
`refineCellAndCellInterfacesGhost` for a ghost cell whose key has level `level`. -/
def ghostNextKey (rd : RefineDims) (loc : GhostLocals) (level : Int) (ij : Nat × Nat) : Key :=
  ⟨(loc.child_coord.addAt ((loc.idx + 1) % rd.dim) (ij.1 : Int)).addAt
    ((loc.idx + 2) % rd.dim) (ij.2 : Int), level + 1⟩

/-- What the double loop over `i` and `j` maintains for the interface of index `p` of the ghost
cell `c`, `ck` being the cell after the passes of keys `keys`, when the neighbor across the
interface is at the level of the ghost: the element, the level and the other interfaces of the
ghost are kept, the children have the keys `keys` in the order of the passes, and for every child
one child interface was created, which is the only interface of the child and joins it to the
neighbor. -/
def GhostChildrenInv (c : Cell) (p : Nat) (bi : CellInterface) (loc : GhostLocals)
    (keys : List Key) (ck : Cell) : Prop :=
  ck.data.element = c.data.element ∧ ck.data.lvl = c.data.lvl ∧
  ck.data.cellInterfaces.length = c.data.cellInterfaces.length ∧
  (∀ q : Nat, q ≠ p → ck.data.cellInterfaces.get? q = c.data.cellInterfaces.get? q) ∧
  ck.childrenCells.map Cell.key = keys ∧
  ∃ bik : CellInterface, ck.data.cellInterfaces.get? p = some bik ∧
    bik.cellInterfacesChildren.length = bi.cellInterfacesChildren.length + keys.length ∧
    ∀ ch ∈ ck.childrenCells, ch.data.lvl = c.data.lvl + 1 ∧ ch.childrenCells = [] ∧
      ∃ x : CellInterface, ch.data.cellInterfaces = [x] ∧ x ∈ bik.cellInterfacesChildren ∧
        if loc.GhostCellIsLeft = true then
          x.data.cellGauche = ch.ref ∧ x.data.kind = .internal loc.GhostCellNeighbor
        else x.data.kind = .internal ch.ref ∧ x.data.cellGauche = loc.GhostCellNeighbor

/-- The child created by the pass `(i, j)` of the double loop, before it receives its interface:
a cell one level finer than the ghost `ck`, with the element of key `next_key` and the state of
the ghost. -/
def ghostNewChild (model : Model) (rd : RefineDims) (loc : GhostLocals) (ck : Cell)
    (ij : Nat × Nat) : Cell :=
  copyParentState model ck.data
    ((Cell.new (ck.data.lvl + 1)).setElement
      (ghostChildElement ck.data.element rd
        ((loc.child_coord.addAt ((loc.idx + 1) % rd.dim) (ij.1 : Int)).addAt
          ((loc.idx + 2) % rd.dim) (ij.2 : Int))
        loc.child_coord (ck.data.element.key.level + 1)))

/-- The child interface created by a pass of the double loop for the child `child`, `bi1` being
the interface of the ghost after `initialize`: a new interface one level finer than `bi1`, with
the frame of the face of `bi1`, a face of half size next to the child, and the child and the
neighbor of the ghost as its two cells. -/
def ghostNewChildInterface (rd : RefineDims) (loc : GhostLocals) (bi1 : CellInterface)
    (child : Cell) : CellInterface :=
  let f := bi1.data.face
  let fChild : Face :=
    { normal := f.normal, tangent := f.tangent, binormal := f.binormal,
      pos := ⟨child.data.element.position.x + f.normal.x * 0.5 * child.data.element.size.x,
              child.data.element.position.y + f.normal.y * 0.5 * child.data.element.size.y,
              child.data.element.position.z + f.normal.z * 0.5 * child.data.element.size.z⟩,
      size := ⟨f.size.x * 0.5, f.size.y * 0.5, f.size.z * 0.5⟩,
      surface := (0.5 : ℚ) ^ (rd.dim - 1) * f.surface }
  let x := CellInterface.mk
    { kind := .internal ⟨⟨⟨0, 0, 0⟩, 0⟩, 0⟩, lvl := bi1.data.lvl + 1, split := false,
      face := ⟨⟨0, 0, 0⟩, ⟨0, 0, 0⟩, ⟨0, 0, 0⟩, ⟨0, 0, 0⟩, ⟨0, 0, 0⟩, 0⟩,
      cellGauche := ⟨⟨⟨0, 0, 0⟩, 0⟩, 0⟩ } []
  if loc.GhostCellIsLeft then
    ((x.setFace fChild).initializeGauche child.ref).initializeDroite loc.GhostCellNeighbor
  else ((x.setFace fChild).initializeDroite child.ref).initializeGauche loc.GhostCellNeighbor

/-- The unit vector of the axis `a`: the normal of a face across the axis. -/
def normalOfAxis (a : Nat) : Coord :=
  if a = 0 then ⟨1, 0, 0⟩ else if a = 1 then ⟨0, 1, 0⟩ else ⟨0, 0, 1⟩

/-- The keys `child(i)` of the `n` children of a cell of key `k` whose coordinate bit on the axis
`a` is `bit`, in increasing child index. -/
def Key.faceChildren (k : Key) (n a : Nat) (bit : Int) : List Key :=
  ((List.range n).filter (fun i => decide ((childBits i).get a = bit))).map k.child

/-- The pairs `(i, j)` of the double loop of `refineCellAndCellInterfacesGhost`, in the order of
the passes. -/
def ghostPairs (rd : RefineDims) : List (Nat × Nat) :=
  (List.range (if rd.dim = 2 ∨ rd.dim = 3 then 2 else 1)).flatMap
    (fun i => (List.range (if rd.dim = 3 then 2 else 1)).map (fun j => (i, j)))

/-- A ghost cell of level 0 in a row of cells, marked split and without children, whose only
interface joins it, as right cell, to the cell of key `(0, 0, 0)` at its level. -/
def exampleGhostLeaf : Cell :=
  Cell.mk
    { (Cell.new 0).data with
      split := true
      element := { Element.empty with key := ⟨⟨1, 0, 0⟩, 0⟩, size := ⟨1, 1, 1⟩, volume := 1 }
      cellInterfaces :=
        [CellInterface.mk
          { kind := .internal ⟨⟨⟨1, 0, 0⟩, 0⟩, 0⟩, lvl := 0, split := false,
            face := ⟨⟨1, 0, 0⟩, ⟨0, 1, 0⟩, ⟨0, 0, 1⟩, ⟨0, 0, 0⟩, ⟨0, 1, 1⟩, 1⟩,
            cellGauche := ⟨⟨⟨0, 0, 0⟩, 0⟩, 0⟩ } []] }
    []

/-- A ghost cell of level 0 marked not split that has one child. -/
def exampleUnsplitGhost : Cell := Cell.mk (Cell.new 0).data [Cell.new 1]

/-- The sort index `dir[0] + 2*dir[1] + 4*dir[1]` of a key, `dir` being its coordinate relative to
the coordinate of child 0: the index that `ghostSortIndex` gives to a child of this key. -/
def keySortIndex (child0Coord : KeyCoord) (k : Key) : Int :=
  (k.coordinate.sub child0Coord).x + 2 * (k.coordinate.sub child0Coord).y
    + 4 * (k.coordinate.sub child0Coord).y

/-- The axis across which lie the children that pass the test of a direction label. -/
def Direction.axis : Direction → Nat
  | .left => 0
  | .right => 0
  | .bottom => 1
  | .top => 1
  | .back => 2
  | .front => 2

/-- The coordinate bit, on the axis of the label, of the children that pass the test of a
direction label. -/
def Direction.bit : Direction → Int
  | .left => 1
  | .right => 0
  | .bottom => 1
  | .top => 0
  | .back => 1
  | .front => 0

/-- A leaf cell of level 0 and of key `(1, 0, 0)`: the cell of the owner rank behind the ghost
cell `exampleGhostLeaf`. -/
def exampleOwnerLeaf : Cell :=
  Cell.mk
    { (Cell.new 0).data with
      element := { Element.empty with key := ⟨⟨1, 0, 0⟩, 0⟩, size := ⟨1, 1, 1⟩, volume := 1 } }
    []

mutual
/-- Method `Cell::fillNumberElementsToSendToNeighbour`: a cell of level `lvl` increments the
`int&` counter; another cell visits its children of index `i` selected by the direction label.
The counter is returned. -/
def Cell.fillNumberElementsToSendToNeighbour (lvl : Int) (whichCpuAmIForNeighbour : String) :
    Cell → Int → Int
  | Cell.mk d cs, numberElementsToSendToNeighbor =>
    if d.lvl = lvl then numberElementsToSendToNeighbor + 1
    else fillNumberElementsToSendToNeighbourChildren lvl whichCpuAmIForNeighbour cs 0
      numberElementsToSendToNeighbor
/-- The loop of `fillNumberElementsToSendToNeighbour` over the children, from the child of index
`i` on. -/
def fillNumberElementsToSendToNeighbourChildren (lvl : Int) (whichCpuAmIForNeighbour : String) :
    List Cell → Nat → Int → Int
  | [], _, numberElementsToSendToNeighbor => numberElementsToSendToNeighbor
  | ch :: rest, i, numberElementsToSendToNeighbor =>
    if sendsChild whichCpuAmIForNeighbour i then
      fillNumberElementsToSendToNeighbourChildren lvl whichCpuAmIForNeighbour rest (i + 1)
        (Cell.fillNumberElementsToSendToNeighbour lvl whichCpuAmIForNeighbour ch
          numberElementsToSendToNeighbor)
    else fillNumberElementsToSendToNeighbourChildren lvl whichCpuAmIForNeighbour rest (i + 1)
      numberElementsToSendToNeighbor
end

/-- An owner of level 0 with four children of level 1 that hold two transports each. -/
def exampleCountedCell : Cell :=
  Cell.mk { (Cell.new 0).data with split := true }
    [Cell.mk { (Cell.new 1).data with numberTransports := 2, vecTransports := [3, 4], xi := 5 } [],
     Cell.mk { (Cell.new 1).data with numberTransports := 2, vecTransports := [6, 7], xi := 8 } [],
     Cell.mk { (Cell.new 1).data with
        numberTransports := 2, vecTransports := [9, 1], xi := 2, split := true } [],
     Cell.mk { (Cell.new 1).data with numberTransports := 2, vecTransports := [0, 5], xi := 1 } []]

/-! ## The counter of the leaves (`nbCellsTotalAMR`) -/

mutual
/-- Number of the leaves below a cell: 1 when the cell has no child, the sum over its children
otherwise. -/
def Cell.numberLeaves : Cell → Nat
  | Cell.mk _ [] => 1
  | Cell.mk _ (ch :: rest) => Cell.numberLeaves ch + numberLeavesChildren rest
/-- Number of the leaves below the cells of a list; for the list of the owned base cells, the
number of the owned leaves of the mesh. -/
def numberLeavesChildren : List Cell → Nat
  | [] => 0
  | ch :: rest => Cell.numberLeaves ch + numberLeavesChildren rest
end

/-- The first statement of `MeshCartesianAMR::procedureRaffinementInitialization`,
`nbCellsTotalAMR = m_numberCellsCalcul`, where `initializeGeometrieAMR` has set
`m_numberCellsCalcul = cells.size()` on the list of the owned base cells, before the ghost cells
are appended. -/
def initialNbCellsTotalAMR (cells : List Cell) : Int := (cells.length : Int)

/-- Method `MeshCartesianAMR::refineCell`: the cell is refined without any test and the counter
grows by the number of its children minus one. -/
def refineCell (ops : InterfaceOps) (model : Model) (numberCellsY numberCellsZ : Int)
    (cell : Cell) (nbCellsTotalAMR : Int) : Cell × Int :=
  let c1 := cell.refineCellAndCellInterfaces ops model numberCellsY numberCellsZ
  (c1, nbCellsTotalAMR + ((c1.getNumberCellsChildren : Int) - 1))

/-! ## Gradient of a cell variable (`Cell::computeGradient`) -/

/-- The getters of the classes `Phase` and `Mixture` read by `selectScalar`; the classes are not
among the source files and their getters are taken as parameters. -/
structure StateOps where
  /-- Getter `Phase::getPressure`. -/
  getPressure : Phase → ℚ
  /-- Getter `Phase::getDensity`. -/
  getDensity : Phase → ℚ
  /-- Getter `Phase::getAlpha`. -/
  getAlpha : Phase → ℚ
  /-- Getter `Phase::getU`. -/
  getU : Phase → ℚ
  /-- Getter `Phase::getV`. -/
  getV : Phase → ℚ
  /-- Getter `Phase::getW`. -/
  getW : Phase → ℚ
  /-- Getter `Phase::getTemperature`. -/
  getTemperature : Phase → ℚ
  /-- Getter `Mixture::getPressure`. -/
  mixturePressure : Mixture → ℚ
  /-- Getter `Mixture::getDensity`. -/
  mixtureDensity : Mixture → ℚ
  /-- Getter `Mixture::getVelocity`. -/
  mixtureVelocity : Mixture → Coord

/-- The distance methods of the class `Element`, which is not among the source files: the
distance to another element and to a face, and their components along the three axes. -/
structure ElementOps where
  /-- Method `Element::distance(const Element*)`. -/
  distance : Element → Element → ℚ
  /-- Method `Element::distanceX(const Element*)`. -/
  distanceX : Element → Element → ℚ
  /-- Method `Element::distanceY(const Element*)`. -/
  distanceY : Element → Element → ℚ
  /-- Method `Element::distanceZ(const Element*)`. -/
  distanceZ : Element → Element → ℚ
  /-- Method `Element::distance(const Face*)`. -/
  distanceFace : Element → Face → ℚ
  /-- Method `Element::distanceX(const Face*)`. -/
  distanceFaceX : Element → Face → ℚ
  /-- Method `Element::distanceY(const Face*)`. -/
  distanceFaceY : Element → Face → ℚ
  /-- Method `Element::distanceZ(const Face*)`. -/
  distanceFaceZ : Element → Face → ℚ

/-- The quotient of two `double` values by a divisor that is not zero. A quotient by zero is an
infinity or a NaN, which no rational stands for: it has no value here. -/
def quotient (a b : ℚ) : Option ℚ := if b = 0 then none else some (a / b)

/-- Method `Cell::selectScalar`. An index outside `m_vecTransports` or `m_vecPhases` and the
error message of an unknown name give no value. -/
def Cell.selectScalar (so : StateOps) (c : Cell) (nameVariable : String) (num : Nat) : Option ℚ :=
  if nameVariable = "TR" then c.data.vecTransports[num]?
  else if nameVariable = "P" then
    if c.data.numberPhases > 1 then some (so.mixturePressure c.data.mixture)
    else (c.data.vecPhases[num]?).map so.getPressure
  else if nameVariable = "RHO" then
    if c.data.numberPhases > 1 then some (so.mixtureDensity c.data.mixture)
    else (c.data.vecPhases[num]?).map so.getDensity
  else if nameVariable = "ALPHA" then
    if c.data.numberPhases > 1 then (c.data.vecPhases[num]?).map so.getAlpha
    else some 1
  else if nameVariable = "u" then
    if c.data.numberPhases > 1 then some (so.mixtureVelocity c.data.mixture).x
    else (c.data.vecPhases[num]?).map so.getU
  else if nameVariable = "v" then
    if c.data.numberPhases > 1 then some (so.mixtureVelocity c.data.mixture).y
    else (c.data.vecPhases[num]?).map so.getV
  else if nameVariable = "w" then
    if c.data.numberPhases > 1 then some (so.mixtureVelocity c.data.mixture).z
    else (c.data.vecPhases[num]?).map so.getW
  else if nameVariable = "T" then (c.data.vecPhases[num]?).map so.getTemperature
  else none

/-- The locals of `computeGradient` that the loop over the interfaces accumulates. -/
structure GradientSums where
  sommeDistanceX : ℚ
  sommeDistanceY : ℚ
  sommeDistanceZ : ℚ
  grad : Coord

/-- The locals `distanceX`, `distanceY`, `distanceZ` of a pass on a two-sided interface: the
absolute values of the components of the distance from the left cell to the right cell. -/
def internalDistances (eo : ElementOps) (gauche droite : Element) : Coord :=
  ⟨|eo.distanceX gauche droite|, |eo.distanceY gauche droite|, |eo.distanceZ gauche droite|⟩

/-- The locals `distanceX`, `distanceY`, `distanceZ` of a pass on a boundary interface: twice the
absolute values of the components of the distance from the cell to the face. -/
def boundaryDistances (eo : ElementOps) (e : Element) (f : Face) : Coord :=
  ⟨|eo.distanceFaceX e f| * 2, |eo.distanceFaceY e f| * 2, |eo.distanceFaceZ e f| * 2⟩

/-- The end of a pass that only weighs the denominators: `sommeDistance += distance` along each
axis. -/
def GradientSums.addDistances (st : GradientSums) (d : Coord) : GradientSums :=
  { st with
    sommeDistanceX := st.sommeDistanceX + d.x
    sommeDistanceY := st.sommeDistanceY + d.y
    sommeDistanceZ := st.sommeDistanceZ + d.z }

/-- The end of a pass that contributes a gradient: the face gradient is projected on the normal,
each component is weighted by the distance along its axis, the distances are added to the sums
and the weighted projection to `grad`. -/
def GradientSums.addProjected (st : GradientSums) (normal : Coord) (gradCellInterface : ℚ)
    (d : Coord) : GradientSums :=
  { sommeDistanceX := st.sommeDistanceX + d.x
    sommeDistanceY := st.sommeDistanceY + d.y
    sommeDistanceZ := st.sommeDistanceZ + d.z
    grad := ⟨st.grad.x + normal.x * gradCellInterface * d.x,
             st.grad.y + normal.y * gradCellInterface * d.y,
             st.grad.z + normal.z * gradCellInterface * d.z⟩ }

/-- One pass of the loop of `computeGradient` over `m_cellInterfaces`. `cellAt` gives the cell
behind a pointer held by an interface. An interface that is split, or of a class other than the
two-sided one (0), absorption (1), wall (2) and symmetry (6), leaves the locals as they are. -/
def computeGradientStep (eo : ElementOps) (so : StateOps) (cellAt : CellRef → Cell) (c : Cell)
    (nameVariable : String) (numPhase : Nat) (st : GradientSums) (b : CellInterface) :
    Option GradientSums :=
  if !b.getSplit then
    match b.data.kind with
    | .internal cellDroite =>
      ((cellAt b.data.cellGauche).selectScalar so nameVariable numPhase).bind fun cg =>
      ((cellAt cellDroite).selectScalar so nameVariable numPhase).bind fun cd =>
      (quotient (cd - cg)
        (eo.distance (cellAt b.data.cellGauche).data.element (cellAt cellDroite).data.element)).map
        fun gradCellInterface =>
      st.addProjected b.data.face.normal gradCellInterface
        (internalDistances eo (cellAt b.data.cellGauche).data.element
          (cellAt cellDroite).data.element)
    | .boundary _ =>
      if b.whoAmI = 1 then
        some (st.addDistances (boundaryDistances eo c.data.element b.data.face))
      else if b.whoAmI = 6 then
        if nameVariable = "u" ∨ nameVariable = "v" ∨ nameVariable = "w" then
          ((cellAt b.data.cellGauche).selectScalar so nameVariable numPhase).bind fun cg =>
          (quotient cg (eo.distanceFace c.data.element b.data.face)).map fun g0 =>
          let g1 := if nameVariable = "u" then g0 * b.data.face.normal.x else g0
          let g2 := if nameVariable = "v" then g1 * b.data.face.normal.y else g1
          let g3 := if nameVariable = "w" then g2 * b.data.face.normal.z else g2
          st.addProjected b.data.face.normal g3 (boundaryDistances eo c.data.element b.data.face)
        else some (st.addDistances (boundaryDistances eo c.data.element b.data.face))
      else if b.whoAmI = 2 then
        if nameVariable = "u" ∨ nameVariable = "v" ∨ nameVariable = "w" then
          ((cellAt b.data.cellGauche).selectScalar so nameVariable numPhase).bind fun cg =>
          (quotient cg (eo.distanceFace c.data.element b.data.face)).map fun gradCellInterface =>
          st.addProjected b.data.face.normal gradCellInterface
            (boundaryDistances eo c.data.element b.data.face)
        else some (st.addDistances (boundaryDistances eo c.data.element b.data.face))
      else some st
  else some st

/-- The test `if (sommeDistance <= 1.e-12) sommeDistance = 1.` made on the sum of each axis
before the final division. -/
def guardSomme (sommeDistance : ℚ) : ℚ :=
  if sommeDistance ≤ 1 / 10 ^ 12 then 1 else sommeDistance

/-- The locals of `computeGradient` after the loop over the interfaces. -/
def gradientSums (eo : ElementOps) (so : StateOps) (cellAt : CellRef → Cell) (c : Cell)
    (nameVariable : String) (numPhase : Nat) : Option GradientSums :=
  c.data.cellInterfaces.foldlM (computeGradientStep eo so cellAt c nameVariable numPhase)
    ⟨0, 0, 0, ⟨0, 0, 0⟩⟩

/-- Method `Cell::computeGradient`: the sums are guarded, then `grad` is divided by them axis by
axis. -/
def Cell.computeGradient (eo : ElementOps) (so : StateOps) (cellAt : CellRef → Cell) (c : Cell)
    (nameVariable : String) (numPhase : Nat) : Option Coord :=
  (gradientSums eo so cellAt c nameVariable numPhase).map fun st =>
    ⟨st.grad.x / guardSomme st.sommeDistanceX, st.grad.y / guardSomme st.sommeDistanceY,
      st.grad.z / guardSomme st.sommeDistanceZ⟩

/-- What one pass adds to the sums of the distances and to `grad`: the distances of the pass and
the weighted projection of its face gradient, both zero for a pass that leaves the locals as they
are; no value when the pass has none. -/
def interfaceContribution (eo : ElementOps) (so : StateOps) (cellAt : CellRef → Cell) (c : Cell)
    (nameVariable : String) (numPhase : Nat) (b : CellInterface) : Option GradientSums :=
  computeGradientStep eo so cellAt c nameVariable numPhase ⟨0, 0, 0, ⟨0, 0, 0⟩⟩ b

/-- The distances along the axes that a pass adds to the sums: zero for a pass that leaves the
locals as they are. -/
def interfaceDistances (eo : ElementOps) (cellAt : CellRef → Cell) (c : Cell)
    (b : CellInterface) : Coord :=
  if !b.getSplit then
    match b.data.kind with
    | .internal cellDroite =>
      internalDistances eo (cellAt b.data.cellGauche).data.element (cellAt cellDroite).data.element
    | .boundary _ =>
      if b.whoAmI = 1 ∨ b.whoAmI = 6 ∨ b.whoAmI = 2 then
        boundaryDistances eo c.data.element b.data.face
      else ⟨0, 0, 0⟩
  else ⟨0, 0, 0⟩

/-- The sums and the gradient of two sets of locals added component by component. -/
def GradientSums.add (st p : GradientSums) : GradientSums :=
  { sommeDistanceX := st.sommeDistanceX + p.sommeDistanceX
    sommeDistanceY := st.sommeDistanceY + p.sommeDistanceY
    sommeDistanceZ := st.sommeDistanceZ + p.sommeDistanceZ
    grad := ⟨st.grad.x + p.grad.x, st.grad.y + p.grad.y, st.grad.z + p.grad.z⟩ }

/-- Getters that read a phase or a mixture as the list pressure, density, alpha, `u`, `v`, `w`,
temperature. -/
def exampleStateOps : StateOps :=
  { getPressure := fun p => p.vars.getD 0 0
    getDensity := fun p => p.vars.getD 1 0
    getAlpha := fun p => p.vars.getD 2 0
    getU := fun p => p.vars.getD 3 0
    getV := fun p => p.vars.getD 4 0
    getW := fun p => p.vars.getD 5 0
    getTemperature := fun p => p.vars.getD 6 0
    mixturePressure := fun m => m.vars.getD 0 0
    mixtureDensity := fun m => m.vars.getD 1 0
    mixtureVelocity := fun m => ⟨m.vars.getD 3 0, m.vars.getD 4 0, m.vars.getD 5 0⟩ }

/-- Distances between centres that lie on a line parallel to an axis: the components are the
differences of the coordinates and the distance is the sum of their absolute values. -/
def exampleElementOps : ElementOps :=
  { distance := fun e1 e2 => |e2.position.x - e1.position.x| + |e2.position.y - e1.position.y|
      + |e2.position.z - e1.position.z|
    distanceX := fun e1 e2 => e2.position.x - e1.position.x
    distanceY := fun e1 e2 => e2.position.y - e1.position.y
    distanceZ := fun e1 e2 => e2.position.z - e1.position.z
    distanceFace := fun e f => |f.pos.x - e.position.x| + |f.pos.y - e.position.y|
      + |f.pos.z - e.position.z|
    distanceFaceX := fun e f => f.pos.x - e.position.x
    distanceFaceY := fun e f => f.pos.y - e.position.y
    distanceFaceZ := fun e f => f.pos.z - e.position.z }

/-- The neighbor of `exampleWallCell` across its face at `x = 2`: a leaf of width 2 centred at
`x = 1`, with one phase of velocity `(0, 1, 0)`. -/
def exampleWallNeighbor : Cell :=
  Cell.mk { (Cell.new 0).data with
    element := ⟨⟨1, 0, 0⟩, ⟨2, 0, 0⟩, 0, 0, ⟨⟨0, 0, 0⟩, 0⟩, 0⟩,
    numberPhases := 1,
    vecPhases := [⟨[0, 0, 0, 0, 1, 0, 0]⟩] } []

/-- The wall interface at `x = 4`, the `+x` face of `exampleWallCell`, which is its left cell. -/
def exampleWallInterface : CellInterface :=
  CellInterface.mk
    { kind := .boundary 1
      lvl := 0
      split := false
      face := ⟨⟨1, 0, 0⟩, ⟨0, 1, 0⟩, ⟨0, 0, 1⟩, ⟨4, 0, 0⟩, ⟨0, 0, 0⟩, 1⟩
      cellGauche := ⟨⟨⟨1, 0, 0⟩, 0⟩, 0⟩ } []

/-- The two-sided interface at `x = 2`, the `−x` face of `exampleWallCell`: the neighbor is its
left cell and `exampleWallCell` its right cell. -/
def exampleInnerInterface : CellInterface :=
  CellInterface.mk
    { kind := .internal ⟨⟨⟨1, 0, 0⟩, 0⟩, 0⟩
      lvl := 0
      split := false
      face := ⟨⟨1, 0, 0⟩, ⟨0, 1, 0⟩, ⟨0, 0, 1⟩, ⟨2, 0, 0⟩, ⟨0, 0, 0⟩, 1⟩
      cellGauche := ⟨⟨⟨0, 0, 0⟩, 0⟩, 0⟩ } []

/-- A leaf of width 2 centred at `x = 3`, with one phase of velocity `(0, 1, 0)`, whose `+x`
face is a wall and whose `−x` face is a two-sided interface to `exampleWallNeighbor`, at
distance 2. -/
def exampleWallCell : Cell :=
  Cell.mk { (Cell.new 0).data with
    element := ⟨⟨3, 0, 0⟩, ⟨2, 0, 0⟩, 0, 0, ⟨⟨1, 0, 0⟩, 0⟩, 0⟩,
    numberPhases := 1,
    vecPhases := [⟨[0, 0, 0, 0, 1, 0, 0]⟩],
    cellInterfaces := [exampleWallInterface, exampleInnerInterface] } []

/-- The cells behind the pointers of the interfaces of `exampleWallCell`. -/
def exampleCellAt (r : CellRef) : Cell :=
  if r = ⟨⟨⟨0, 0, 0⟩, 0⟩, 0⟩ then exampleWallNeighbor else exampleWallCell

/-! ## Output of the leaves (`MeshCartesianAMR::ecritHeaderPiece`, `recupereNoeuds`,
`recupereConnectivite`, `recupereOffsets`) -/

/-- The levels visited by a loop `for (int lvl = 0; lvl <= m_lvlMax; lvl++)`. -/
def levelsUpTo (lvlMax : Int) : List Nat := List.range (lvlMax + 1).toNat

/-- A double loop over the levels `0..lvlMax` and over the cells of each level array, threading
a state through the passes. -/
def forEachCellLvl {σ : Type} (lvlMax : Int) (cellsLvl : Nat → List Cell) (pass : σ → Cell → σ)
    (st : σ) : σ :=
  (levelsUpTo lvlMax).foldl (fun st lvl => (cellsLvl lvl).foldl pass st) st

/-- Method `MeshCartesianAMR::ecritHeaderPiece`: the two numbers written in the header,
`NumberOfPoints` and `NumberOfCells`. -/
def ecritHeaderPiece (numberCellsZ lvlMax : Int) (cellsLvl : Nat → List Cell) : Int × Int :=
  let numberCells : Int := forEachCellLvl lvlMax cellsLvl
    (fun numberCells c => if !c.getSplit then numberCells + 1 else numberCells) 0
  let numberPointsParMaille : Int := if numberCellsZ > 1 then 8 else 4
  (numberPointsParMaille * numberCells, numberCells)

/-- The body of the loops of `recupereNoeuds` for one cell: a cell that is not split pushes the
coordinates of its points 0 to 3, and of its points 4 to 7 when `dimZ` is 1. -/
def recupereNoeudsCell (dimZ : Int) (jeuDonnees : List ℚ) (c : Cell) : List ℚ :=
  if !c.getSplit then
    let dXsur2 := 0.5 * c.data.element.size.x
    let dYsur2 := 0.5 * c.data.element.size.y
    let dZsur2 := 0.5 * c.data.element.size.z
    let pos := c.data.element.position
    let j := jeuDonnees ++
      [pos.x - dXsur2, pos.y - dYsur2, pos.z - dZsur2 * (dimZ : ℚ),
       pos.x + dXsur2, pos.y - dYsur2, pos.z - dZsur2 * (dimZ : ℚ),
       pos.x + dXsur2, pos.y + dYsur2, pos.z - dZsur2 * (dimZ : ℚ),
       pos.x - dXsur2, pos.y + dYsur2, pos.z - dZsur2 * (dimZ : ℚ)]
    if (dimZ : ℚ) > 0.99 then
      j ++
      [pos.x - dXsur2, pos.y - dYsur2, pos.z + dZsur2,
       pos.x + dXsur2, pos.y - dYsur2, pos.z + dZsur2,
       pos.x + dXsur2, pos.y + dYsur2, pos.z + dZsur2,
       pos.x - dXsur2, pos.y + dYsur2, pos.z + dZsur2]
    else j
  else jeuDonnees

/-- Method `MeshCartesianAMR::recupereNoeuds`: the vector after the pushes. -/
def recupereNoeuds (numberCellsZ lvlMax : Int) (cellsLvl : Nat → List Cell)
    (jeuDonnees : List ℚ) : List ℚ :=
  let dimZ : Int := if numberCellsZ > 1 then 1 else 0
  forEachCellLvl lvlMax cellsLvl (recupereNoeudsCell dimZ) jeuDonnees

/-- Method `MeshCartesianAMR::recupereConnectivite`: the vector after the pushes. The state of
the loops is the vector and the counter `numCell`. -/
def recupereConnectivite (numberCellsZ lvlMax : Int) (cellsLvl : Nat → List Cell)
    (jeuDonnees : List ℚ) : List ℚ :=
  let dimZ : Int := if numberCellsZ > 1 then 1 else 0
  let numberPointsParMaille : Int := if numberCellsZ > 1 then 8 else 4
  if (dimZ : ℚ) < 0.99 then
    (forEachCellLvl lvlMax cellsLvl
      (fun (st : List ℚ × Int) c =>
        if !c.getSplit then
          (st.1 ++ [((st.2 * numberPointsParMaille : Int) : ℚ),
            ((st.2 * numberPointsParMaille + 1 : Int) : ℚ),
            ((st.2 * numberPointsParMaille + 2 : Int) : ℚ),
            ((st.2 * numberPointsParMaille + 3 : Int) : ℚ)], st.2 + 1)
        else st) (jeuDonnees, 0)).1
  else
    (forEachCellLvl lvlMax cellsLvl
      (fun (st : List ℚ × Int) c =>
        if !c.getSplit then
          (st.1 ++ [((st.2 * numberPointsParMaille : Int) : ℚ),
            ((st.2 * numberPointsParMaille + 1 : Int) : ℚ),
            ((st.2 * numberPointsParMaille + 2 : Int) : ℚ),
            ((st.2 * numberPointsParMaille + 3 : Int) : ℚ),
            ((st.2 * numberPointsParMaille + 4 : Int) : ℚ),
            ((st.2 * numberPointsParMaille + 5 : Int) : ℚ),
            ((st.2 * numberPointsParMaille + 6 : Int) : ℚ),
            ((st.2 * numberPointsParMaille + 7 : Int) : ℚ)], st.2 + 1)
        else st) (jeuDonnees, 0)).1

/-- Method `MeshCartesianAMR::recupereOffsets`: the vector after the pushes. -/
def recupereOffsets (numberCellsZ lvlMax : Int) (cellsLvl : Nat → List Cell)
    (jeuDonnees : List ℚ) : List ℚ :=
  let numberPointsParMaille : Int := if numberCellsZ > 1 then 8 else 4
  (forEachCellLvl lvlMax cellsLvl
    (fun (st : List ℚ × Int) c =>
      if !c.getSplit then
        (st.1 ++ [(((st.2 + 1) * numberPointsParMaille : Int) : ℚ)], st.2 + 1)
      else st) (jeuDonnees, 0)).1

/-- The cells that are not split of the level arrays `0..lvlMax`, level by level and, within a
level, in the order of the array. -/
def leafCellsLvl (lvlMax : Int) (cellsLvl : Nat → List Cell) : List Cell :=
  (levelsUpTo lvlMax).flatMap (fun lvl => (cellsLvl lvl).filter (fun c => !c.getSplit))

/-- The coordinates of the corner points of the box of a cell, three per point: the four points
of the face `z − dZ/2` (of the plane `z` in 1D and 2D), counter-clockwise from `(x − dX/2,
y − dY/2)`, followed in 3D by the four points of the face `z + dZ/2` in the same order. -/
def cornerCoordinates (numberCellsZ : Int) (c : Cell) : List ℚ :=
  let e := c.data.element
  let zLow := if numberCellsZ > 1 then e.position.z - e.size.z / 2 else e.position.z
  [e.position.x - e.size.x / 2, e.position.y - e.size.y / 2, zLow,
   e.position.x + e.size.x / 2, e.position.y - e.size.y / 2, zLow,
   e.position.x + e.size.x / 2, e.position.y + e.size.y / 2, zLow,
   e.position.x - e.size.x / 2, e.position.y + e.size.y / 2, zLow] ++
  (if numberCellsZ > 1 then
    [e.position.x - e.size.x / 2, e.position.y - e.size.y / 2, e.position.z + e.size.z / 2,
     e.position.x + e.size.x / 2, e.position.y - e.size.y / 2, e.position.z + e.size.z / 2,
     e.position.x + e.size.x / 2, e.position.y + e.size.y / 2, e.position.z + e.size.z / 2,
     e.position.x - e.size.x / 2, e.position.y + e.size.y / 2, e.position.z + e.size.z / 2]
   else [])

/-- The number of points per cell: 8 when `numberCellsZ > 1`, 4 otherwise. -/
def pointsPerCell (numberCellsZ : Int) : Nat := if numberCellsZ > 1 then 8 else 4

/-! ## Time integration over the levels (`Run::integrationProcedure`) -/

/-- The members of the class `Run` and the globals read by `integrationProcedure`. -/
structure Run where
  lvlMax : Int
  order : String
  Ncpu : Int
  numberAddPhys : Int
  iteration : Int
  cfl : ℚ

/-- The calls made by `integrationProcedure` on the mesh, on the interfaces and the cells of a
level, and on the run itself. The loops over the interfaces and the cells of a level are one
event each. -/
inductive RunEvent where
  | procedureRaffinement (lvl : Int)
  | parallelLoadBalancingAMR
  | computeSlopes (lvl : Int)
  | communicationsSlopes (lvl : Int)
  | prepareAddPhys (lvl : Int)
  | advancingProcedure (dt : ℚ) (lvl : Int)
deriving DecidableEq

/-- Block 2 of `integrationProcedure`: the refinement procedure and, on several processors at
level 0 every `static_cast<int>(1./m_cfl/0.6) + 1` iterations, the load balancing. -/
def refinementEvents (run : Run) (lvl : Int) : List RunEvent :=
  if run.lvlMax > 0 then
    RunEvent.procedureRaffinement lvl ::
      (if run.Ncpu > 1 then
        if lvl = 0 then
          if run.iteration % (truncToInt (1 / run.cfl / 0.6) + 1) = 0 then
            [RunEvent.parallelLoadBalancingAMR]
          else []
        else []
      else [])
  else []

/-- The slopes of the second-order scheme, block 3 and the start of block 6 of
`integrationProcedure`. -/
def slopesEvents (run : Run) (lvl : Int) : List RunEvent :=
  if run.order = "SECONDORDER" then
    RunEvent.computeSlopes lvl ::
      (if run.Ncpu > 1 then
        RunEvent.communicationsSlopes lvl ::
          (if lvl > 0 then [RunEvent.communicationsSlopes (lvl - 1)] else [])
      else [])
  else []

/-- The loop `prepareAddPhys` made before the first recursive call. -/
def prepareAddPhysEvents (run : Run) (lvl : Int) : List RunEvent :=
  if run.numberAddPhys ≠ 0 then [RunEvent.prepareAddPhys lvl] else []

/-- Method `Run::integrationProcedure`: the calls it makes, in order. The time step of the level
is `dtLvl = dt * pow(2., -lvl)`. -/
def integrationProcedure (run : Run) (dt : ℚ) (lvl : Int) : List RunEvent :=
  refinementEvents run lvl ++ slopesEvents run lvl ++
    (if _h : lvl < run.lvlMax then
      prepareAddPhysEvents run lvl ++ integrationProcedure run dt (lvl + 1)
    else []) ++
    [RunEvent.advancingProcedure (dt * (2 : ℚ) ^ (-lvl)) lvl] ++
    (if lvl > 0 then
      slopesEvents run lvl ++
        (if _h : lvl < run.lvlMax then integrationProcedure run dt (lvl + 1) else []) ++
        [RunEvent.advancingProcedure (dt * (2 : ℚ) ^ (-lvl)) lvl]
    else [])
termination_by (run.lvlMax - lvl).toNat
decreasing_by
  all_goals simp_wf
  all_goals omega

/-- Whether an event is a call of `advancingProcedure` at a level. -/
def RunEvent.isAdvancing (l : Int) : RunEvent → Bool
  | .advancingProcedure _ lvl => decide (lvl = l)
  | _ => false

/-- Whether an event is a call of `procedureRaffinement` at a level. -/
def RunEvent.isRaffinement (l : Int) : RunEvent → Bool
  | .procedureRaffinement lvl => decide (lvl = l)
  | _ => false

/-- A run of maximal level 2, second order, on one processor. -/
def exampleRun : Run :=
  { lvlMax := 2, order := "SECONDORDER", Ncpu := 1, numberAddPhys := 0, iteration := 0, cfl := 1 }

/-- Component access `coord[a]` on a `Coord`. -/
def Coord.get (c : Coord) (a : Nat) : ℚ := if a = 0 then c.x else if a = 1 then c.y else c.z

/-! ## The refinement procedure of a level (`MeshCartesianAMR::procedureRaffinement`) -/

/-- The arrays per level and the counter that `procedureRaffinement` works on. -/
structure AMRState where
  cellsLvl : Int → List Cell
  cellInterfacesLvl : Int → List CellInterface
  cellsLvlGhost : Int → List Cell
  nbCellsTotalAMR : Int

/-- The members of the mesh and the globals read by `procedureRaffinement`. -/
structure AMRParams where
  lvlMax : Int
  Ncpu : Int
  xiSplit : ℚ
  xiJoin : ℚ
  numberCellsY : Int
  numberCellsZ : Int

/-- The calls of `procedureRaffinement` whose bodies are not among the source files, as
transformations of the arrays: the loops of the interface methods `computeXi` and
`computeFluxXi` over the interfaces of a level, the parallel communications, the method
`constructionTableauCellInterfacesExternesLvl` of an interface, and `sharedInterfaces`, the
writes that reach the cells of the arrays through the interface objects that they share with a
cell that was just refined or coarsened (the tree values do not carry this aliasing). -/
structure ProcedureOps where
  computeXi : Int → AMRState → AMRState
  computeFluxXi : Int → AMRState → AMRState
  communicationsXi : Int → AMRState → AMRState
  communicationsSplit : Int → AMRState → AMRState
  communicationsPrimitivesAMR : Int → AMRState → AMRState
  communicationsNumberGhostCells : Int → AMRState → AMRState
  updatePersistentCommunicationsLvl : Int → AMRState → AMRState
  sharedInterfaces : AMRState → AMRState
  constructionTableauCellInterfacesExternesLvl :
    CellInterface → (Int → List CellInterface) → Int → List CellInterface

/-- Method `Cell::setToZeroXi`. -/
def Cell.setToZeroXi (c : Cell) : Cell := Cell.mk { c.data with xi := 0 } c.childrenCells

/-- Method `Cell::setToZeroConsXi`. -/
def Cell.setToZeroConsXi (c : Cell) : Cell := Cell.mk { c.data with consXi := 0 } c.childrenCells

/-- Method `Cell::timeEvolutionXi`. -/
def Cell.timeEvolutionXi (c : Cell) : Cell :=
  Cell.mk { c.data with xi := c.data.xi + c.data.consXi } c.childrenCells

/-- A loop `for (i = 0; i < cellsLvl[lvl].size(); i++) cellsLvl[lvl][i]->method()` of a method
that writes only the cell it is called on. -/
def AMRState.forEachCell (s : AMRState) (lvl : Int) (method : Cell → Cell) : AMRState :=
  { s with cellsLvl := Function.update s.cellsLvl lvl ((s.cellsLvl lvl).map method) }

/-- Steps 1 and 2 of `procedureRaffinement`: the indicator of the level and its two smoothing
passes. -/
def xiSteps (ops : ProcedureOps) (P : AMRParams) (lvl : Int) (s : AMRState) : AMRState :=
  let s1 := ops.computeXi lvl (s.forEachCell lvl Cell.setToZeroXi)
  let s2 := if P.Ncpu > 1 then ops.communicationsXi lvl s1 else s1
  (List.range 2).foldl
    (fun st _ =>
      let t1 := ops.computeFluxXi lvl (st.forEachCell lvl Cell.setToZeroConsXi)
      let t2 := t1.forEachCell lvl Cell.timeEvolutionXi
      if P.Ncpu > 1 then ops.communicationsXi lvl t2 else t2) s2

/-- One pass of the loop of step 3: `cellsLvl[lvl][i]->chooseRefine(...)`. -/
def chooseRefineAt (ops : ProcedureOps) (iops : InterfaceOps) (model : Model) (P : AMRParams)
    (lvl : Int) (s : AMRState) (i : Nat) : AMRState :=
  match (s.cellsLvl lvl)[i]? with
  | none => s
  | some c =>
    let r := c.chooseRefine iops model P.xiSplit P.numberCellsY P.numberCellsZ s.nbCellsTotalAMR
    ops.sharedInterfaces
      { s with
        cellsLvl := Function.update s.cellsLvl lvl ((s.cellsLvl lvl).set i r.1)
        nbCellsTotalAMR := r.2 }

/-- One pass of the loop of step 4: `cellsLvl[lvl][i]->chooseUnrefine(...)`. -/
def chooseUnrefineAt (ops : ProcedureOps) (iops : InterfaceOps) (model : Model) (P : AMRParams)
    (lvl : Int) (s : AMRState) (i : Nat) : AMRState :=
  match (s.cellsLvl lvl)[i]? with
  | none => s
  | some c =>
    let r := c.chooseUnrefine iops model P.xiJoin s.nbCellsTotalAMR
    ops.sharedInterfaces
      { s with
        cellsLvl := Function.update s.cellsLvl lvl ((s.cellsLvl lvl).set i r.1)
        nbCellsTotalAMR := r.2 }

/-- One pass of the loop of step 5: `m_cellsLvlGhost[lvl][i]->chooseRefineDeraffineGhost(...)`,
which pushes the children of the ghost onto the ghost array of the level of the ghost plus one. -/
def chooseRefineDeraffineGhostAt (iops : InterfaceOps) (model : Model) (P : AMRParams)
    (lvl : Int) (s : AMRState) (i : Nat) : AMRState :=
  match (s.cellsLvlGhost lvl)[i]? with
  | none => s
  | some g =>
    let r := g.chooseRefineDeraffineGhost iops model P.numberCellsY P.numberCellsZ s.cellsLvlGhost
    { s with cellsLvlGhost := Function.update r.2 lvl ((r.2 lvl).set i r.1) }

/-- Method `Cell::buildLvlCellsAndLvlInternalCellInterfacesArrays`: the children are pushed onto
the array of cells, and the internal child interfaces onto the array of interfaces, of the level
of the cell plus one. -/
def Cell.buildLvlCellsAndLvlInternalCellInterfacesArrays (c : Cell) (s : AMRState) : AMRState :=
  { s with
    cellsLvl := Function.update s.cellsLvl (c.data.lvl + 1)
      (s.cellsLvl (c.data.lvl + 1) ++ c.childrenCells)
    cellInterfacesLvl := Function.update s.cellInterfacesLvl (c.data.lvl + 1)
      (s.cellInterfacesLvl (c.data.lvl + 1) ++ c.data.childrenInternalCellInterfaces) }

/-- One pass of the first loop of step 7. -/
def buildLvlAt (lvl : Int) (s : AMRState) (i : Nat) : AMRState :=
  match (s.cellsLvl lvl)[i]? with
  | none => s
  | some c => c.buildLvlCellsAndLvlInternalCellInterfacesArrays s

/-- Steps 5 and 6 of `procedureRaffinement`, made on several processors. -/
def ghostSteps (ops : ProcedureOps) (iops : InterfaceOps) (model : Model) (P : AMRParams)
    (lvl : Int) (s : AMRState) : AMRState :=
  let s1 := ops.communicationsSplit lvl s
  let s2 := { s1 with cellsLvlGhost := Function.update s1.cellsLvlGhost (lvl + 1) [] }
  let s3 := (List.range (s2.cellsLvlGhost lvl).length).foldl
    (chooseRefineDeraffineGhostAt iops model P lvl) s2
  let s4 := ops.communicationsPrimitivesAMR lvl s3
  ops.updatePersistentCommunicationsLvl (lvl + 1) (ops.communicationsNumberGhostCells (lvl + 1) s4)

/-- Step 7 of `procedureRaffinement`: the arrays of level `lvl + 1` are cleared and built again. -/
def rebuildSteps (ops : ProcedureOps) (lvl : Int) (s : AMRState) : AMRState :=
  let s1 : AMRState :=
    { s with
      cellsLvl := Function.update s.cellsLvl (lvl + 1) []
      cellInterfacesLvl := Function.update s.cellInterfacesLvl (lvl + 1) [] }
  let s2 := (List.range (s1.cellsLvl lvl).length).foldl (buildLvlAt lvl) s1
  (List.range (s2.cellInterfacesLvl lvl).length).foldl
    (fun st i =>
      match (st.cellInterfacesLvl lvl)[i]? with
      | none => st
      | some b =>
        { st with
          cellInterfacesLvl :=
            ops.constructionTableauCellInterfacesExternesLvl b st.cellInterfacesLvl }) s2

/-- Method `MeshCartesianAMR::procedureRaffinement`. Each loop runs over the indices below the
size that its array has when the loop starts: the passes of steps 3 to 5 write a cell in its
place, and the passes of step 7 push onto the arrays of the level after that of the cell. -/
def procedureRaffinement (ops : ProcedureOps) (iops : InterfaceOps) (model : Model)
    (P : AMRParams) (lvl : Int) (s : AMRState) : AMRState :=
  let s2 := xiSteps ops P lvl s
  if lvl < P.lvlMax then
    let s3 := (List.range (s2.cellsLvl lvl).length).foldl (chooseRefineAt ops iops model P lvl) s2
    let s4 := (List.range (s3.cellsLvl lvl).length).foldl (chooseUnrefineAt ops iops model P lvl) s3
    let s6 := if P.Ncpu > 1 then ghostSteps ops iops model P lvl s4 else s4
    rebuildSteps ops lvl s6
  else s2

/-- What the refinement procedure keeps of a cell of the arrays when it does not refine or
coarsen it: its level, its split flag and the levels of its children. -/
def Cell.treeView (c : Cell) : Int × Bool × List Int :=
  (c.data.lvl, c.data.split, c.childrenCells.map (fun ch => ch.data.lvl))

/-- What the refinement procedure keeps of a ghost cell when it does not refine or coarsen it:
its level and the levels of its children. -/
def Cell.ghostView (c : Cell) : Int × List Int :=
  (c.data.lvl, c.childrenCells.map (fun ch => ch.data.lvl))

/-- A transformation of the arrays that keeps the cells of the arrays in number and in order,
each with its level, its split flag (for an owned cell) and its children with their levels. -/
def KeepsTrees (f : AMRState → AMRState) : Prop :=
  ∀ (s : AMRState) (l : Int),
    ((f s).cellsLvl l).map Cell.treeView = (s.cellsLvl l).map Cell.treeView ∧
      ((f s).cellsLvlGhost l).map Cell.ghostView = (s.cellsLvlGhost l).map Cell.ghostView

/-- The calls whose bodies are not among the source files write indicators, split flags of ghost
cells, primitive variables and interfaces: they keep the trees of the arrays. -/
def ProcedureOps.KeepTrees (ops : ProcedureOps) : Prop :=
  (∀ lvl, KeepsTrees (ops.computeXi lvl)) ∧ (∀ lvl, KeepsTrees (ops.computeFluxXi lvl)) ∧
    (∀ lvl, KeepsTrees (ops.communicationsXi lvl)) ∧
    (∀ lvl, KeepsTrees (ops.communicationsSplit lvl)) ∧
    (∀ lvl, KeepsTrees (ops.communicationsPrimitivesAMR lvl)) ∧
    (∀ lvl, KeepsTrees (ops.communicationsNumberGhostCells lvl)) ∧
    (∀ lvl, KeepsTrees (ops.updatePersistentCommunicationsLvl lvl)) ∧
    KeepsTrees ops.sharedInterfaces

/-- The cells of an array of owned cells of level `lvl`: each has the level `lvl`, has no child
when it is not split, and has children of level `lvl + 1`. -/
def GoodCells (lvl : Int) (cells : List Cell) : Prop :=
  ∀ c ∈ cells, c.data.lvl = lvl ∧ (c.data.split = false → c.childrenCells = []) ∧
    ∀ ch ∈ c.childrenCells, ch.data.lvl = lvl + 1

/-- The cells of an array of ghost cells of level `lvl`: each has the level `lvl` and children
of level `lvl + 1`. -/
def GoodGhosts (lvl : Int) (cells : List Cell) : Prop :=
  ∀ c ∈ cells, c.data.lvl = lvl ∧ ∀ ch ∈ c.childrenCells, ch.data.lvl = lvl + 1

/-- Operations that leave the arrays as they are. -/
def ProcedureOps.identity : ProcedureOps :=
  ⟨fun _ s => s, fun _ s => s, fun _ s => s, fun _ s => s, fun _ s => s, fun _ s => s,
    fun _ s => s, fun s => s, fun _ a => a⟩

/-- What the loops of steps 3 and 4 keep. -/
def ChoiceInv (lvl : Int) (s : AMRState) : Prop :=
  GoodCells lvl (s.cellsLvl lvl) ∧ GoodGhosts lvl (s.cellsLvlGhost lvl)

/-- The hypothesis on the arrays: every cell of the array of owned cells of level `l`, and every
cell of the array of ghost cells of level `l`, has the level `l`, which is at most `lvlMax`. -/
def Levelled (lvlMax : Int) (s : AMRState) : Prop :=
  ∀ l : Int, (∀ c ∈ s.cellsLvl l, c.data.lvl = l ∧ l ≤ lvlMax) ∧
    (∀ g ∈ s.cellsLvlGhost l, g.data.lvl = l ∧ l ≤ lvlMax)

/-- Parameters of a one-dimensional run on two processors with one level of refinement. -/
def exampleAMRParams : AMRParams :=
  ⟨1, 2, 0, 0, 1, 1⟩

/-- Arrays with one owned leaf and one ghost leaf, both of level 0. -/
def exampleAMRState : AMRState :=
  ⟨fun l => if l = 0 then [exampleLeafCell] else [], fun _ => [],
    fun l => if l = 0 then [exampleGhostLeaf] else [], 1⟩

/-- A two-sided interface of level 0 across the x axis between the cells of keys `(0, 0, 0)` and
`(1, 0, 0)`, not split. -/
def exampleRowInterface : CellInterface :=
  CellInterface.mk
    { kind := .internal ⟨⟨⟨1, 0, 0⟩, 0⟩, 0⟩
      lvl := 0
      split := false
      face := ⟨⟨1, 0, 0⟩, ⟨0, 1, 0⟩, ⟨0, 0, 1⟩, ⟨1, 1 / 2, 1 / 2⟩, ⟨0, 1, 1⟩, 1⟩
      cellGauche := ⟨⟨⟨0, 0, 0⟩, 0⟩, 0⟩ } []

/-- The element of the unit cell of key `(0, 0, 0)` at level 0. -/
def exampleRowElement : Element :=
  ⟨⟨1 / 2, 1 / 2, 1 / 2⟩, ⟨1, 1, 1⟩, 1, 1, ⟨⟨0, 0, 0⟩, 0⟩, 0⟩

/-- A split cell of level 0 in a row of cells: it holds the interface to its right neighbor and
has two children of level 1 without children. -/
def exampleRowSplitCell : Cell :=
  Cell.mk
    { (Cell.new 0).data with
      split := true
      element := exampleRowElement
      cellInterfaces := [exampleRowInterface] }
    [Cell.mk { (Cell.new 1).data with element := childElement exampleRowElement (refineDims 1 1) 0 } [],
     Cell.mk { (Cell.new 1).data with element := childElement exampleRowElement (refineDims 1 1) 1 } []]
/-- A leaf with one phase whose only interface is a two-sided interface that is not split. With
a map of the pointers that sends both ends of the interface to the same cell, the two cells of
the interface lie at distance zero. -/
def exampleCoincidentCell : Cell :=
  Cell.mk { (Cell.new 0).data with
    element := ⟨⟨1, 0, 0⟩, ⟨2, 0, 0⟩, 0, 0, ⟨⟨0, 0, 0⟩, 0⟩, 0⟩,
    numberPhases := 1,
    vecPhases := [⟨[0, 0, 0, 0, 1, 0, 0]⟩],
    cellInterfaces := [exampleInnerInterface] } []

/-- Buffer methods that write the first variable of a phase or of a mixture at `++counter`. -/
def exampleBufferOps : BufferOps :=
  ⟨fun ph buffer counter => (Function.update buffer (counter + 1) (ph.vars.getD 0 0), counter + 1),
    fun mx buffer counter => (Function.update buffer (counter + 1) (mx.vars.getD 0 0), counter + 1)⟩

/-- A cell of level 1 without children that holds one phase of first variable `10 + i`, the
mixture of first variable `20 + i` and no transport. -/
def exampleQuadChild (i : Nat) : Cell :=
  Cell.mk { (Cell.new 1).data with
    numberPhases := 1, vecPhases := [⟨[10 + (i : ℚ)]⟩], mixture := ⟨[20 + (i : ℚ)]⟩ } []

/-- A split cell of level 0 of a 2D mesh with the four children `exampleQuadChild i`. -/
def exampleQuadCell : Cell :=
  Cell.mk { (Cell.new 0).data with split := true }
    [exampleQuadChild 0, exampleQuadChild 1, exampleQuadChild 2, exampleQuadChild 3]

/-! ## The refinement in `double` arithmetic, as a call that may not return

The definitions of this section follow `Cell::refineCellAndCellInterfaces` with the two features
that the exact definitions above leave out. The result of an addition or of a product of two
`double` values is rounded: `fl` is the rounding of an exact result to a `double`. A product by
0, 1, 0.25 or 0.5 and a quotient by 2, 4 or 8 are exact in binary arithmetic (overflow and
underflow apart) and are written without rounding. The method dereferences `m_element` and the
reference interface `cellInterfaceRef` without a test: the call returns only on a cell that has
an element and holds a two-sided interface. -/

/-- The integer nearest to a rational, the even one of the two nearest when the rational lies
halfway between them. -/
def roundHalfEven (x : ℚ) : Int :=
  if x - (⌊x⌋ : ℚ) < 1 / 2 then ⌊x⌋
  else if 1 / 2 < x - (⌊x⌋ : ℚ) then ⌊x⌋ + 1
  else if ⌊x⌋ % 2 = 0 then ⌊x⌋ else ⌊x⌋ + 1

/-- Rounding of an exact result to the format `double` (IEEE 754 binary64, to nearest, ties to
even) for results in the normal range: the result is the nearest multiple of `2 ^ (e - 52)`,
`e` being the binary exponent of the exact result. Overflow and gradual underflow are not
followed. -/
def roundDouble (q : ℚ) : ℚ :=
  if q = 0 then 0
  else (roundHalfEven (q / (2 : ℚ) ^ (Int.log 2 |q| - 52)) : ℚ) * (2 : ℚ) ^ (Int.log 2 |q| - 52)

/-- The element given to child `i` in `double` arithmetic: the three additions that place the
centre of the child are rounded. -/
def childElementRounded (fl : ℚ → ℚ) (parent : Element) (rd : RefineDims) (i : Nat) : Element :=
  { position :=
      ⟨fl (parent.position.x + rd.dimX * parent.size.x * (-0.25 + 0.5 * ((i % 2 : Nat) : ℚ))),
       fl (parent.position.y
        + rd.dimY * parent.size.y * (-0.25 + 0.5 * (((i / 2) % 2 : Nat) : ℚ))),
       fl (parent.position.z
        + rd.dimZ * parent.size.z * (-0.25 + 0.5 * (((i / 4) % 2 : Nat) : ℚ)))⟩
    size := ⟨(1 - rd.dimX * 0.5) * parent.size.x, (1 - rd.dimY * 0.5) * parent.size.y,
             (1 - rd.dimZ * 0.5) * parent.size.z⟩
    volume := parent.volume / (rd.numberCellsChildren : ℚ)
    lCFL := 0.5 * parent.lCFL
    key :=
      ⟨⟨(parent.key.child 0).coordinate.x + ((i % 2 : Nat) : Int),
        (parent.key.child 0).coordinate.y + (((i / 2) % 2 : Nat) : Int),
        (parent.key.child 0).coordinate.z + (((i / 4) % 2 : Nat) : Int)⟩,
       (parent.key.child 0).level⟩
    cellAssociee := (i : Int) }

/-- What the children loop writes into `m_childrenCells[i]` in `double` arithmetic. -/
def initChildRounded (fl : ℚ → ℚ) (model : Model) (parent : CellData) (rd : RefineDims) (i : Nat)
    (ch : Cell) : Cell :=
  copyParentState model parent (ch.setElement (childElementRounded fl parent.element rd i))

/-- One pass of the children loop in `double` arithmetic. -/
def refineChildRounded (fl : ℚ → ℚ) (model : Model) (rd : RefineDims) (c : Cell) (i : Nat) :
    Cell :=
  Cell.mk c.data
    ((c.createChildCell i c.data.lvl).childrenCells.modify
      (initChildRounded fl model c.data rd i) i)

/-- The children loop in `double` arithmetic. -/
def refineChildrenRounded (fl : ℚ → ℚ) (model : Model) (rd : RefineDims) (c : Cell) : Cell :=
  (List.range rd.numberCellsChildren).foldl (refineChildRounded fl model rd) c

/-- Face of the internal interface created at position `i` of the creation order in `double`
arithmetic, with the indices of its left and right children: the additions of the positions and
the products of two sizes are rounded. -/
def internalCellInterfaceSpecRounded (fl : ℚ → ℚ) (nbCellsY nbCellsZ : Int) (e : Element)
    (i : Nat) : Nat × Nat × Face :=
  let px := e.position.x
  let py := e.position.y
  let pz := e.position.z
  let dX := e.size.x
  let dY := e.size.y
  let dZ := e.size.z
  if nbCellsZ = 1 then
    if nbCellsY = 1 then
      (0, 1, ⟨⟨1, 0, 0⟩, ⟨0, 1, 0⟩, ⟨0, 0, 1⟩, ⟨px, py, pz⟩, ⟨0, dY, dZ⟩, fl (dY * dZ)⟩)
    else if i < 2 then
      (2 * i, 1 + 2 * i,
        ⟨⟨1, 0, 0⟩, ⟨0, 1, 0⟩, ⟨0, 0, 1⟩, ⟨px, fl (py + dY * (-0.25 + 0.5 * (i : ℚ))), pz⟩,
         ⟨0, 0.5 * dY, dZ⟩, fl (0.5 * dY * dZ)⟩)
    else
      (i % 2, 2 + i % 2,
        ⟨⟨0, 1, 0⟩, ⟨-1, 0, 0⟩, ⟨0, 0, 1⟩,
         ⟨fl (px + dX * (-0.25 + 0.5 * ((i % 2 : Nat) : ℚ))), py, pz⟩,
         ⟨0.5 * dX, 0, dZ⟩, fl (0.5 * dX * dZ)⟩)
  else if i < 4 then
    let f : Coord → Face := fun p =>
      ⟨⟨1, 0, 0⟩, ⟨0, 1, 0⟩, ⟨0, 0, 1⟩, p, ⟨0, 0.5 * dY, 0.5 * dZ⟩, fl (0.5 * dY * 0.5 * dZ)⟩
    if i = 0 then (4, 5, f ⟨px, fl (py - 0.25 * dY), fl (pz + 0.25 * dZ)⟩)
    else if i = 1 then (0, 1, f ⟨px, fl (py - 0.25 * dY), fl (pz - 0.25 * dZ)⟩)
    else if i = 2 then (6, 7, f ⟨px, fl (py + 0.25 * dY), fl (pz + 0.25 * dZ)⟩)
    else (2, 3, f ⟨px, fl (py + 0.25 * dY), fl (pz - 0.25 * dZ)⟩)
  else if i < 8 then
    let f : Coord → Face := fun p =>
      ⟨⟨0, 1, 0⟩, ⟨-1, 0, 0⟩, ⟨0, 0, 1⟩, p, ⟨0.5 * dX, 0, 0.5 * dZ⟩, fl (0.5 * dX * 0.5 * dZ)⟩
    if i = 4 then (5, 7, f ⟨fl (px + 0.25 * dX), py, fl (pz + 0.25 * dZ)⟩)
    else if i = 5 then (1, 3, f ⟨fl (px + 0.25 * dX), py, fl (pz - 0.25 * dZ)⟩)
    else if i = 6 then (4, 6, f ⟨fl (px - 0.25 * dX), py, fl (pz + 0.25 * dZ)⟩)
    else (0, 2, f ⟨fl (px - 0.25 * dX), py, fl (pz - 0.25 * dZ)⟩)
  else
    let f : Coord → Face := fun p =>
      ⟨⟨0, 0, 1⟩, ⟨1, 0, 0⟩, ⟨0, 1, 0⟩, p, ⟨0.5 * dX, 0.5 * dY, 0⟩, fl (0.5 * dX * 0.5 * dY)⟩
    if i = 8 then (0, 4, f ⟨fl (px - 0.25 * dX), fl (py - 0.25 * dY), pz⟩)
    else if i = 9 then (1, 5, f ⟨fl (px + 0.25 * dX), fl (py - 0.25 * dY), pz⟩)
    else if i = 10 then (2, 6, f ⟨fl (px - 0.25 * dX), fl (py + 0.25 * dY), pz⟩)
    else (3, 7, f ⟨fl (px + 0.25 * dX), fl (py + 0.25 * dY), pz⟩)

/-- One pass of an internal-interface loop in `double` arithmetic. -/
def refineInternalCellInterfaceRounded (fl : ℚ → ℚ) (nbCellsY nbCellsZ : Int) (c : Cell)
    (i : Nat) : Cell :=
  let s := internalCellInterfaceSpecRounded fl nbCellsY nbCellsZ c.data.element i
  let l := creerCellInterfaceChildInterne c.data.lvl c.data.childrenInternalCellInterfaces
  let l2 := l.modify
    (fun b => ((b.setFace s.2.2).initializeGauche (c.childRef s.1)).initializeDroite
      (c.childRef s.2.1)) i
  match l2.get? i with
  | none => Cell.mk { c.data with childrenInternalCellInterfaces := l2 } c.childrenCells
  | some b =>
    Cell.mk { c.data with childrenInternalCellInterfaces := l2 }
      ((c.childrenCells.modify (fun ch => ch.addCellInterface b) s.1).modify
        (fun ch => ch.addCellInterface b) s.2.1)

/-- The internal-interface loops in `double` arithmetic. -/
def refineInternalCellInterfacesRounded (fl : ℚ → ℚ) (nbCellsY nbCellsZ : Int) (c : Cell) :
    Cell :=
  (List.range (numberInternalCellInterfaces nbCellsY nbCellsZ)).foldl
    (refineInternalCellInterfaceRounded fl nbCellsY nbCellsZ) c

/-- The body of `Cell::refineCellAndCellInterfaces` in `double` arithmetic: the state that the
call leaves when it returns. -/
def Cell.refineCellAndCellInterfacesRounded (fl : ℚ → ℚ) (ops : InterfaceOps) (model : Model)
    (nbCellsY nbCellsZ : Int) (c : Cell) : Cell :=
  let c0 := Cell.mk { c.data with split := true } c.childrenCells
  let rd := refineDims nbCellsY nbCellsZ
  let c1 := refineChildrenRounded fl model rd c0
  let c2 := refineInternalCellInterfacesRounded fl nbCellsY nbCellsZ c1
  (List.range c2.data.cellInterfaces.length).foldl
    (refineExternalCellInterface ops nbCellsY nbCellsZ c.data.element.size.x
      c.data.element.size.y c.data.element.size.z rd.dim) c2

/-- The local `cellInterfaceRef` of `refineCellAndCellInterfaces` after its search loop: the
first interface of the list of the cell whose `whoAmI()` is 0, a null pointer (`none`) when the
list holds no two-sided interface. -/
def Cell.cellInterfaceRef (c : Cell) : Option CellInterface :=
  c.data.cellInterfaces.find? (fun b => b.whoAmI == 0)

/-- Whether `m_element` points to an element. The pointer is null in a cell that has not
received an element; such a cell carries `Element.empty` here. -/
def Cell.hasElement (c : Cell) : Bool := decide (c.data.element ≠ Element.empty)

/-- The call of `Cell::refineCellAndCellInterfaces` as the program runs it. The method reads
`m_element` and, to create every internal interface, calls a method of `cellInterfaceRef`, both
without a test: on a cell without element or without two-sided interface the call dereferences
a null pointer and does not return (`none`). -/
def Cell.refineCellAndCellInterfacesCall (fl : ℚ → ℚ) (ops : InterfaceOps) (model : Model)
    (nbCellsY nbCellsZ : Int) (c : Cell) : Option Cell :=
  if c.hasElement then
    match c.cellInterfaceRef with
    | none => none
    | some _ => some (c.refineCellAndCellInterfacesRounded fl ops model nbCellsY nbCellsZ)
  else none

/-- The child created for index `i` by the children loop of a leaf cell in `double`
arithmetic. -/
def newChildRounded (fl : ℚ → ℚ) (model : Model) (parent : CellData) (rd : RefineDims)
    (i : Nat) : Cell :=
  initChildRounded fl model parent rd i (Cell.new (parent.lvl + 1))

/-- The internal interface written at position `i` of the creation order in `double`
arithmetic, as a value. -/
def internalCellInterfaceAtRounded (fl : ℚ → ℚ) (nbCellsY nbCellsZ : Int) (c : Cell) (i : Nat) :
    CellInterface :=
  CellInterface.mk
    { kind := .internal
        (c.childRef (internalCellInterfaceSpecRounded fl nbCellsY nbCellsZ c.data.element i).2.1),
      lvl := c.data.lvl + 1, split := false,
      face := (internalCellInterfaceSpecRounded fl nbCellsY nbCellsZ c.data.element i).2.2,
      cellGauche :=
        c.childRef (internalCellInterfaceSpecRounded fl nbCellsY nbCellsZ c.data.element i).1 } []

/-- A leaf of level 0 in a row of cells: the unit cell of key `(0, 0, 0)` with one phase, one
transport and the indicator `7/2`, which holds the interface to its right neighbor. -/
def exampleRowLeaf : Cell :=
  Cell.mk
    { (Cell.new 0).data with
      element := exampleRowElement
      xi := 7 / 2
      numberPhases := 1
      vecPhases := [⟨[1, 2]⟩]
      mixture := ⟨[3]⟩
      cons := ⟨[0]⟩
      numberTransports := 1
      vecTransports := [6]
      consTransports := [0]
      cellInterfaces := [exampleRowInterface] } []

/-- A boundary interface of the class absorption (`whoAmI() = 1`) on the face `x = 0` or
`x = 1` of the unit cell of key `(0, 0, 0)`. -/
def exampleRowBoundary (x : ℚ) : CellInterface :=
  CellInterface.mk
    { kind := .boundary 0
      lvl := 0
      split := false
      face := ⟨⟨1, 0, 0⟩, ⟨0, 1, 0⟩, ⟨0, 0, 1⟩, ⟨x, 1 / 2, 1 / 2⟩, ⟨0, 1, 1⟩, 1⟩
      cellGauche := ⟨⟨⟨0, 0, 0⟩, 0⟩, 0⟩ } []

/-- The only cell of a mesh of one cell: the unit cell with the state of `exampleRowLeaf`,
whose two interfaces are the boundaries of the domain. -/
def exampleLoneLeaf : Cell :=
  Cell.mk { exampleRowLeaf.data with
    cellInterfaces := [exampleRowBoundary 0, exampleRowBoundary 1] } []

/-! ## The coarsening in `double` arithmetic -/

/-- Method `Flux::addFlux(coef)` in `double` arithmetic: the product and the addition are
rounded. -/
def Flux.addFluxRounded (fl : ℚ → ℚ) (f buffer : Flux) (coef : ℚ) : Flux :=
  ⟨List.zipWith (fun a b => fl (a + fl (coef * b))) f.comps buffer.comps⟩

/-- Method `Flux::multiply` in `double` arithmetic. -/
def Flux.multiplyRounded (fl : ℚ → ℚ) (f : Flux) (scalar : ℚ) : Flux :=
  ⟨f.comps.map (fun a => fl (a * scalar))⟩

/-- The sum of a list of `double` values as a loop computes it: the values are added one after
the other to an accumulator that starts at zero, and every addition is rounded. -/
def sumRounded (fl : ℚ → ℚ) (l : List ℚ) : ℚ := l.foldl (fun acc t => fl (acc + t)) 0

/-- The mean of a list of conservative buffers of `n` components as `averageChildrenInParent`
computes it in `double` arithmetic: the buffers, each multiplied by the coefficient 1, are added
one after the other to a buffer of zeros, and the result is multiplied by the rounded quotient
`1. / N`. -/
def meanFluxRounded (fl : ℚ → ℚ) (snaps : List Flux) (n : Nat) : Flux :=
  ⟨(List.range n).map
    (fun j => fl (sumRounded fl (snaps.map (fun s => fl (1 * s.comps.getD j 0)))
      * fl (1 / (snaps.length : ℚ))))⟩

/-- Method `Cell::averageChildrenInParent` in `double` arithmetic. -/
def Cell.averageChildrenInParentRounded (fl : ℚ → ℚ) (model : Model) (c : Cell) : Cell :=
  let numberCellsChildren := c.childrenCells.length
  if numberCellsChildren > 0 then
    let cons1 := c.childrenCells.foldl
      (fun acc ch =>
        acc.addFluxRounded fl
          (model.setBufferFlux ch.data.vecPhases ch.data.mixture c.data.numberPhases) 1)
      c.data.cons.setToZero
    let cons2 := cons1.multiplyRounded fl (fl (1 / (numberCellsChildren : ℚ)))
    let prim := model.buildPrim cons2 c.data.vecPhases c.data.mixture c.data.numberPhases
    let relaxed := model.relaxations prim.1 prim.2 c.data.numberPhases
    Cell.mk
      { c.data with
        vecPhases := relaxed.1
        mixture := relaxed.2
        vecTransports := c.data.vecTransports.mapIdx (fun k t =>
          if k < c.data.numberTransports then
            fl ((c.childrenCells.foldl (fun acc ch => fl (acc + ch.data.vecTransports.getD k 0))
              0) / (numberCellsChildren : ℚ))
          else t)
        cons := cons2.setToZero
        consTransports := c.data.consTransports.mapIdx (fun k t =>
          if k < c.data.numberTransports then 0 else t) }
      c.childrenCells
  else c

/-- Method `Cell::unrefineCellAndCellInterfaces` in `double` arithmetic. -/
def Cell.unrefineCellAndCellInterfacesRounded (fl : ℚ → ℚ) (ops : InterfaceOps) (model : Model)
    (c : Cell) : Cell :=
  let c1 := c.averageChildrenInParentRounded fl model
  let c2 := Cell.mk { c1.data with childrenInternalCellInterfaces := [] } c1.childrenCells
  let c3 := (List.range c2.data.cellInterfaces.length).foldl (unrefineExternalCellInterface ops) c2
  Cell.mk { c3.data with split := false } []

/-- The call of `Cell::unrefineCellAndCellInterfaces` as the program runs it: the method calls
`m_element->finalizeElementsChildren()` without a test and does not return (`none`) on a cell
without element. -/
def Cell.unrefineCellAndCellInterfacesCall (fl : ℚ → ℚ) (ops : InterfaceOps) (model : Model)
    (c : Cell) : Option Cell :=
  if c.hasElement then some (c.unrefineCellAndCellInterfacesRounded fl ops model) else none

/-- The `double` nearest to 0.1: `3602879701896397 / 2 ^ 55`. -/
def exampleTenth : ℚ := 3602879701896397 / 36028797018963968

/-- A leaf of level 0 in a row of cells along x: the cell of centre `x = 0.1` and width 0.1 (as
`double` values) of a 1D mesh, of key `(0, 0, 0)`, with one transport of value 0.1, which holds
the interface to its right neighbor. -/
def exampleTenthLeaf : Cell :=
  Cell.mk
    { (Cell.new 0).data with
      element :=
        ⟨⟨exampleTenth, 1 / 2, 1 / 2⟩, ⟨exampleTenth, 1, 1⟩, exampleTenth, exampleTenth,
          ⟨⟨0, 0, 0⟩, 0⟩, 0⟩
      numberTransports := 1
      vecTransports := [exampleTenth]
      consTransports := [0]
      cellInterfaces := [exampleRowInterface] } []

/-- The `double` nearest to 0.2: `3602879701896397 / 2 ^ 54`. -/
def exampleFifth : ℚ := 3602879701896397 / 18014398509481984

/-- A two-sided interface of level 0 across the x axis between the cells of keys `(2, 0, 0)` and
`(3, 0, 0)`, not split, at `x = 0.6` (as a `double`). -/
def exampleFifthInterface : CellInterface :=
  CellInterface.mk
    { kind := .internal ⟨⟨⟨3, 0, 0⟩, 0⟩, 0⟩
      lvl := 0
      split := false
      face := ⟨⟨1, 0, 0⟩, ⟨0, 1, 0⟩, ⟨0, 0, 1⟩, ⟨5404319552844595 / 9007199254740992, 1 / 2, 1 / 2⟩,
        ⟨0, 1, 1⟩, 1⟩
      cellGauche := ⟨⟨⟨2, 0, 0⟩, 0⟩, 0⟩ } []

/-- The third cell of a row of five cells of width 0.2 along x: the leaf of level 0 of centre
`x = 0.5` and width 0.2 (as a `double`) of a 1D mesh, of key `(2, 0, 0)`, which holds the
interface to its right neighbor. -/
def exampleFifthLeaf : Cell :=
  Cell.mk
    { (Cell.new 0).data with
      element :=
        ⟨⟨1 / 2, 1 / 2, 1 / 2⟩, ⟨exampleFifth, 1, 1⟩, exampleFifth, exampleFifth,
          ⟨⟨2, 0, 0⟩, 0⟩, 2⟩
      cellInterfaces := [exampleFifthInterface] } []

/-- A split cell of level 0 with one transport whose two children of level 1 hold the transports
0.1 and 0.2 (as `double` values). -/
def exampleTenthParent : Cell :=
  Cell.mk { (Cell.new 0).data with
      split := true, numberTransports := 1, vecTransports := [0], consTransports := [0],
      element := { Element.empty with volume := 8 } }
    [Cell.mk { (Cell.new 1).data with
        numberTransports := 1, vecTransports := [exampleTenth],
        element := { Element.empty with volume := 4 } } [],
     Cell.mk { (Cell.new 1).data with
        numberTransports := 1, vecTransports := [exampleFifth],
        element := { Element.empty with volume := 4 } } []]

/-! ## The cells and the interfaces as objects of a store

In the program a cell holds pointers to its children, to its interfaces and to its internal
child interfaces, and an interface holds pointers to its two cells and to its child interfaces;
an interface is shared between its two cells. The definitions of this section follow
`Cell::refineCellAndCellInterfaces` on a store of objects in which a pointer is the address of an
object (its index in the store) and `new` appends an object to the store, so that every write of
the method is a write at an address. The element, the phases and the mixture behind the pointers
`m_element`, `m_vecPhases` and `m_mixture` of a cell are owned by that cell and are kept inside
the cell object. -/

/-- A cell object: the fields of the cell other than its pointers to cells and interfaces
(`own`; its two lists of interface values are not used and stay empty) and its three lists of
pointers `m_childrenCells`, `m_cellInterfaces` and `m_childrenInternalCellInterfaces`. -/
structure StoredCell where
  own : CellData
  childrenCells : List Nat
  cellInterfaces : List Nat
  childrenInternalCellInterfaces : List Nat

/-- Constructor `Cell(int lvl)` as an object. -/
def StoredCell.new (lvl : Int) : StoredCell := ⟨(Cell.new lvl).data, [], [], []⟩

/-- Method `addCellInterface` on a cell object: the pointer is pushed onto `m_cellInterfaces`. -/
def StoredCell.addCellInterface (c : StoredCell) (b : Nat) : StoredCell :=
  { c with cellInterfaces := c.cellInterfaces ++ [b] }

/-- An interface object: the answer of `whoAmI()`, the level, the split flag, the face, the
pointers to the left and right cells (null before `initializeGauche` and `initializeDroite`) and
the pointers to the child interfaces. -/
structure StoredInterface where
  whoAmI : Nat
  lvl : Int
  split : Bool
  face : Face
  cellGauche : Option Nat
  cellDroite : Option Nat
  cellInterfacesChildren : List Nat

/-- Modelled from the spec: the object that `CellInterface::creerCellInterfaceChildInterne(lvl,
list)` creates, an interface of the two-sided class at level `lvl + 1`, not split and without
children (spec 4.3, step 3); its face and cells are written afterwards by the caller. -/
def StoredInterface.newChild (lvl : Int) : StoredInterface :=
  ⟨0, lvl + 1, false, ⟨⟨0, 0, 0⟩, ⟨0, 0, 0⟩, ⟨0, 0, 0⟩, ⟨0, 0, 0⟩, ⟨0, 0, 0⟩, 0⟩, none, none, []⟩

/-- The store: the cell objects and the interface objects, each at its address. -/
structure Store where
  cells : List StoredCell
  interfaces : List StoredInterface

/-- The method `CellInterface::raffineCellInterfaceExterne(nbCellsY, nbCellsZ, dXParent,
dYParent, dZParent, cellRef, dim)`, whose body is not among the source files, as a
transformation of the store: the arguments are those of the call, `cellRef` being the address of
the refined cell, followed by the address of the interface on which the method is called. -/
structure StoreOps where
  raffineCellInterfaceExterne : Int → Int → ℚ → ℚ → ℚ → Nat → Nat → Nat → Store → Store

/-- One pass of the children loop on the store: `createChildCell(i, m_lvl)` creates a cell
object and pushes its address onto `m_childrenCells`, then the object at `m_childrenCells[i]`
receives its element and the state of the parent. -/
def Store.refineChild (fl : ℚ → ℚ) (model : Model) (rd : RefineDims) (a : Nat) (s : Store)
    (i : Nat) : Store :=
  match s.cells[a]? with
  | none => s
  | some c =>
    let s1 : Store :=
      { s with
        cells := (s.cells ++ [StoredCell.new (c.own.lvl + 1)]).modify
          (fun x => { x with childrenCells := x.childrenCells ++ [s.cells.length] }) a }
    match (c.childrenCells ++ [s.cells.length])[i]? with
    | none => s1
    | some q =>
      { s1 with
        cells := s1.cells.modify
          (fun ch =>
            { ch with own := (initChildRounded fl model c.own rd i (Cell.mk ch.own [])).data })
          q }

/-- One pass of an internal-interface loop on the store: `creerCellInterfaceChildInterne` creates
an interface object and pushes its address onto `m_childrenInternalCellInterfaces`, then the
object at `m_childrenInternalCellInterfaces[j]` receives its face and the pointers to its left
and right children, and both children push its address onto their lists. -/
def Store.refineInternalCellInterface (fl : ℚ → ℚ) (nbCellsY nbCellsZ : Int) (a : Nat)
    (s : Store) (j : Nat) : Store :=
  match s.cells[a]? with
  | none => s
  | some c =>
    let spec := internalCellInterfaceSpecRounded fl nbCellsY nbCellsZ c.own.element j
    let s1 : Store :=
      { cells := s.cells.modify
          (fun x => { x with childrenInternalCellInterfaces :=
            x.childrenInternalCellInterfaces ++ [s.interfaces.length] }) a
        interfaces := s.interfaces ++ [StoredInterface.newChild c.own.lvl] }
    match (c.childrenInternalCellInterfaces ++ [s.interfaces.length])[j]? with
    | none => s1
    | some r =>
      let s2 : Store :=
        { s1 with
          interfaces := s1.interfaces.modify
            (fun x => { x with face := spec.2.2, cellGauche := c.childrenCells[spec.1]?,
                               cellDroite := c.childrenCells[spec.2.1]? }) r }
      let s3 : Store :=
        match c.childrenCells[spec.1]? with
        | none => s2
        | some g => { s2 with cells := s2.cells.modify (fun ch => ch.addCellInterface r) g }
      match c.childrenCells[spec.2.1]? with
      | none => s3
      | some d => { s3 with cells := s3.cells.modify (fun ch => ch.addCellInterface r) d }

/-- One pass of the external-interface loop on the store: the interface at `m_cellInterfaces[b]`
is refined by `raffineCellInterfaceExterne` when it is not split. -/
def Store.refineExternalCellInterface (ops : StoreOps) (nbCellsY nbCellsZ : Int)
    (dXParent dYParent dZParent : ℚ) (dim : Nat) (a : Nat) (s : Store) (b : Nat) : Store :=
  match s.cells[a]? with
  | none => s
  | some c =>
    match c.cellInterfaces[b]? with
    | none => s
    | some ib =>
      match s.interfaces[ib]? with
      | none => s
      | some x =>
        if !x.split then
          ops.raffineCellInterfaceExterne nbCellsY nbCellsZ dXParent dYParent dZParent a dim ib s
        else s

/-- The local `cellInterfaceRef` on the store: the first pointer of `m_cellInterfaces` to an
interface whose `whoAmI()` is 0, null (`none`) when there is none. -/
def Store.cellInterfaceRef (s : Store) (c : StoredCell) : Option Nat :=
  c.cellInterfaces.find? (fun b =>
    match s.interfaces[b]? with
    | some x => x.whoAmI == 0
    | none => false)

/-- Method `Cell::refineCellAndCellInterfaces` called on the cell object at address `a` of the
store. The call does not return (`none`) when `cellInterfaceRef` is null. The external loop is
followed for the passes over the list `m_cellInterfaces` as long as the callee leaves the length
of that list as it is; otherwise the embedding gives no result. -/
def Store.refineCellAndCellInterfaces (fl : ℚ → ℚ) (ops : StoreOps) (model : Model)
    (nbCellsY nbCellsZ : Int) (a : Nat) (s : Store) : Option Store :=
  match s.cells[a]? with
  | none => none
  | some c =>
    match s.cellInterfaceRef c with
    | none => none
    | some _ =>
      let rd := refineDims nbCellsY nbCellsZ
      let s0 : Store :=
        { s with
          cells := s.cells.modify (fun x => { x with own := { x.own with split := true } }) a }
      let s1 := (List.range rd.numberCellsChildren).foldl (Store.refineChild fl model rd a) s0
      let s2 := (List.range (numberInternalCellInterfaces nbCellsY nbCellsZ)).foldl
        (Store.refineInternalCellInterface fl nbCellsY nbCellsZ a) s1
      let s3 := (List.range c.cellInterfaces.length).foldl
        (Store.refineExternalCellInterface ops nbCellsY nbCellsZ c.own.element.size.x
          c.own.element.size.y c.own.element.size.z rd.dim a) s2
      if (s3.cells[a]?).map (fun x => x.cellInterfaces.length) = some c.cellInterfaces.length
      then some s3 else none

@[simp] theorem Cell.data_mk (d : CellData) (cs : List Cell) : (Cell.mk d cs).data = d := rfl

@[simp] theorem Cell.childrenCells_mk (d : CellData) (cs : List Cell) :
    (Cell.mk d cs).childrenCells = cs := rfl

@[simp] theorem CellInterface.interfaceData_mk (d : CellInterfaceData) (cs : List CellInterface) :
    (CellInterface.mk d cs).data = d := rfl

@[simp] theorem CellInterface.cellInterfacesChildren_mk (d : CellInterfaceData)
    (cs : List CellInterface) : (CellInterface.mk d cs).cellInterfacesChildren = cs := rfl

theorem Cell.mk_data_childrenCells (c : Cell) : Cell.mk c.data c.childrenCells = c := by
  cases c; rfl

theorem Cell.strip_addCellInterface (c : Cell) (b : CellInterface) :
    (c.addCellInterface b).stripCellInterfaces = c.stripCellInterfaces := by
  cases c; rfl

theorem map_strip_modify_add (b : CellInterface) (cs : List Cell) (k : Nat) :
    (cs.modify (fun ch => ch.addCellInterface b) k).map Cell.stripCellInterfaces
      = cs.map Cell.stripCellInterfaces := by
  induction cs generalizing k with
  | nil => cases k <;> rfl
  | cons a t ih =>
    cases k with
    | zero => simp [List.modify, Cell.strip_addCellInterface]
    | succ k => simpa [List.modify] using ih k

theorem map_strip_foldl_add (ps : List (Nat × CellInterface)) (cs : List Cell) :
    (ps.foldl (fun cs p => cs.modify (fun ch => ch.addCellInterface p.2) p.1) cs).map
        Cell.stripCellInterfaces
      = cs.map Cell.stripCellInterfaces := by
  induction ps generalizing cs with
  | nil => rfl
  | cons p t ih => simp only [List.foldl_cons]; rw [ih, map_strip_modify_add]

theorem modify_append_singleton {α : Type} (f : α → α) (l : List α) (a : α) :
    (l ++ [a]).modify f l.length = l ++ [f a] := by
  induction l with
  | nil => rfl
  | cons x t ih => simpa [List.modify] using ih

theorem foldl_refineChild_leaf (model : Model) (rd : RefineDims) (c : Cell)
    (hleaf : c.childrenCells = []) (n : Nat) :
    (List.range n).foldl (refineChild model rd) c
      = Cell.mk c.data ((List.range n).map (newChild model c.data rd)) := by
  induction n with
  | zero => cases c; simp_all
  | succ n ih =>
    rw [List.range_succ, List.foldl_append, ih]
    simp only [List.foldl_cons, List.foldl_nil, refineChild, Cell.createChildCell, Cell.data_mk,
      Cell.childrenCells_mk, List.map_append, List.map_cons, List.map_nil]
    have h := modify_append_singleton (initChild model c.data rd n)
      ((List.range n).map (newChild model c.data rd)) (Cell.new (c.data.lvl + 1))
    simp only [List.length_map, List.length_range] at h
    rw [h]; rfl

theorem refineChildren_leaf (model : Model) (rd : RefineDims) (c : Cell)
    (hleaf : c.childrenCells = []) :
    refineChildren model rd c
      = Cell.mk c.data ((List.range rd.numberCellsChildren).map (newChild model c.data rd)) :=
  foldl_refineChild_leaf model rd c hleaf _

theorem Cell.SameCore.refl (c : Cell) : c.SameCore c := ⟨rfl, rfl⟩

theorem Cell.SameCore.trans {a b c : Cell} (h1 : a.SameCore b) (h2 : b.SameCore c) :
    a.SameCore c := ⟨h2.1.trans h1.1, h2.2.trans h1.2⟩

theorem sameCore_foldl {α : Type} (f : Cell → α → Cell) (hf : ∀ (c : Cell) (a : α), c.SameCore (f c a))
    (l : List α) (c : Cell) : c.SameCore (l.foldl f c) := by
  induction l generalizing c with
  | nil => exact Cell.SameCore.refl c
  | cons a t ih => exact (hf c a).trans (ih (f c a))

theorem sameCore_refineInternalCellInterface (nbCellsY nbCellsZ : Int) (c : Cell) (i : Nat) :
    c.SameCore (refineInternalCellInterface nbCellsY nbCellsZ c i) := by
  unfold refineInternalCellInterface
  simp only
  split
  · exact ⟨rfl, rfl⟩
  · refine ⟨rfl, ?_⟩
    simp only [Cell.childrenCells_mk]
    rw [map_strip_modify_add, map_strip_modify_add]

theorem sameCore_refineExternalCellInterface (ops : InterfaceOps) (nbCellsY nbCellsZ : Int)
    (dX dY dZ : ℚ) (dim : Nat) (c : Cell) (b : Nat) :
    c.SameCore (refineExternalCellInterface ops nbCellsY nbCellsZ dX dY dZ dim c b) := by
  unfold refineExternalCellInterface
  split
  · exact Cell.SameCore.refl c
  · split
    · refine ⟨rfl, ?_⟩
      simp only [Cell.childrenCells_mk]
      exact map_strip_foldl_add _ _
    · exact Cell.SameCore.refl c

/-- After the refinement of a leaf cell, the own fields other than the interface lists are those
of the cell with `split` set, and the children are, up to their interface lists, the children
created by the children loop. -/
theorem sameCore_refine_leaf (ops : InterfaceOps) (model : Model) (nbCellsY nbCellsZ : Int)
    (c : Cell) (hleaf : c.childrenCells = []) :
    (Cell.mk { c.data with split := true }
        ((List.range (refineDims nbCellsY nbCellsZ).numberCellsChildren).map
          (newChild model c.data (refineDims nbCellsY nbCellsZ)))).SameCore
      (c.refineCellAndCellInterfaces ops model nbCellsY nbCellsZ) := by
  unfold Cell.refineCellAndCellInterfaces
  simp only
  rw [refineChildren_leaf model _ _ (by simpa using hleaf)]
  refine Cell.SameCore.trans ?_ (sameCore_foldl _
    (sameCore_refineExternalCellInterface ops nbCellsY nbCellsZ _ _ _ _) _ _)
  exact sameCore_foldl _ (sameCore_refineInternalCellInterface nbCellsY nbCellsZ) _ _

theorem strip_getElem?_of_map_eq {l l' : List Cell}
    (h : l'.map Cell.stripCellInterfaces = l.map Cell.stripCellInterfaces) (i : Nat) (ch : Cell)
    (hi : l[i]? = some ch) :
    ∃ ch', l'[i]? = some ch' ∧ ch'.stripCellInterfaces = ch.stripCellInterfaces := by
  have h1 : (l'.map Cell.stripCellInterfaces)[i]? = (l.map Cell.stripCellInterfaces)[i]? := by
    rw [h]
  simp only [List.getElem?_map, hi, Option.map_some'] at h1
  cases h2 : l'[i]? with
  | none => simp [h2] at h1
  | some ch' => exact ⟨ch', rfl, by simpa [h2] using h1⟩

/-- Child `i` of a refined leaf cell is, up to its interface list, the child created by the
children loop. -/
theorem child_of_refine_leaf (ops : InterfaceOps) (model : Model) (nbCellsY nbCellsZ : Int)
    (c : Cell) (hleaf : c.childrenCells = []) (i : Nat)
    (hi : i < (refineDims nbCellsY nbCellsZ).numberCellsChildren) :
    ∃ ch, (c.refineCellAndCellInterfaces ops model nbCellsY nbCellsZ).childrenCells[i]? = some ch ∧
      ch.stripCellInterfaces
        = (newChild model c.data (refineDims nbCellsY nbCellsZ) i).stripCellInterfaces := by
  have h := (sameCore_refine_leaf ops model nbCellsY nbCellsZ c hleaf).2
  simp only [Cell.childrenCells_mk] at h
  exact strip_getElem?_of_map_eq h i _ (by simp [List.getElem?_range, hi])

theorem length_children_refine_leaf (ops : InterfaceOps) (model : Model) (nbCellsY nbCellsZ : Int)
    (c : Cell) (hleaf : c.childrenCells = []) :
    (c.refineCellAndCellInterfaces ops model nbCellsY nbCellsZ).childrenCells.length
      = (refineDims nbCellsY nbCellsZ).numberCellsChildren := by
  have h := congrArg List.length (sameCore_refine_leaf ops model nbCellsY nbCellsZ c hleaf).2
  simpa using h

/-- The fields of a cell that agrees, up to its interface list, with the child created for
index `i` by the children loop. -/
theorem child_fields_of_strip (model : Model) (p : CellData) (rd : RefineDims) (i : Nat)
    (ch : Cell) (h : ch.stripCellInterfaces = (newChild model p rd i).stripCellInterfaces) :
    ch.data.lvl = p.lvl + 1 ∧ ch.data.split = false ∧ ch.childrenCells = [] ∧
      ch.data.element = childElement p.element rd i ∧
      ch.data.xi = p.xi ∧ ch.data.mixture = p.mixture ∧
      ch.data.vecPhases
        = (List.range p.numberPhases).map (fun k => p.vecPhases.getD k model.allocatePhase) ∧
      ch.data.vecTransports
        = (List.range p.numberTransports).map (fun k => p.vecTransports.getD k 0) ∧
      ch.data.cons = (model.allocateCons p.numberPhases).setToZero ∧
      ch.data.consTransports = List.replicate p.numberTransports 0 ∧
      ch.data.childrenInternalCellInterfaces = [] := by
  have hd := congrArg Cell.data h
  have hc := congrArg Cell.childrenCells h
  have e1 := congrArg CellData.lvl hd
  have e2 := congrArg CellData.split hd
  have e3 := congrArg CellData.element hd
  have e4 := congrArg CellData.xi hd
  have e5 := congrArg CellData.mixture hd
  have e6 := congrArg CellData.vecPhases hd
  have e7 := congrArg CellData.vecTransports hd
  have e8 := congrArg CellData.cons hd
  have e9 := congrArg CellData.consTransports hd
  have e10 := congrArg CellData.childrenInternalCellInterfaces hd
  exact ⟨e1, e2, hc, e3, e4, e5, e6, e7, e8, e9, e10⟩

/-! ## Children created by a refinement: number, level and key -/

theorem Cell.data_strip (c : Cell) :
    c.stripCellInterfaces.data = { c.data with cellInterfaces := [] } := rfl

theorem childElement_key (parent : Element) (rd : RefineDims) (i : Nat) :
    (childElement parent rd i).key = parent.key.child i := by
  simp [childElement, Key.child, childBits]

/-! ## Own fields and children after a refinement, for any cell -/

theorem refineChild_data (model : Model) (rd : RefineDims) (c : Cell) (i : Nat) :
    (refineChild model rd c i).data = c.data := rfl

theorem foldl_refineChild_data (model : Model) (rd : RefineDims) (l : List Nat) (c : Cell) :
    (l.foldl (refineChild model rd) c).data = c.data := by
  induction l generalizing c with
  | nil => rfl
  | cons a t ih => simp only [List.foldl_cons]; rw [ih, refineChild_data]

theorem foldl_refineChild_length (model : Model) (rd : RefineDims) (l : List Nat) (c : Cell) :
    (l.foldl (refineChild model rd) c).childrenCells.length = c.childrenCells.length + l.length := by
  induction l generalizing c with
  | nil => rfl
  | cons a t ih =>
    simp only [List.foldl_cons]
    rw [ih]
    simp [refineChild, Cell.createChildCell]
    omega

/-- The refinement, on any cell, writes `m_split = true`, leaves the other own fields apart from
the interface lists as they are, and keeps the children of the children loop up to their
interface lists. -/
theorem sameCore_refine (ops : InterfaceOps) (model : Model) (nbCellsY nbCellsZ : Int)
    (c : Cell) :
    (refineChildren model (refineDims nbCellsY nbCellsZ)
        (Cell.mk { c.data with split := true } c.childrenCells)).SameCore
      (c.refineCellAndCellInterfaces ops model nbCellsY nbCellsZ) := by
  unfold Cell.refineCellAndCellInterfaces
  simp only
  refine Cell.SameCore.trans ?_ (sameCore_foldl _
    (sameCore_refineExternalCellInterface ops nbCellsY nbCellsZ _ _ _ _) _ _)
  exact sameCore_foldl _ (sameCore_refineInternalCellInterface nbCellsY nbCellsZ) _ _

theorem core_refine (ops : InterfaceOps) (model : Model) (nbCellsY nbCellsZ : Int) (c : Cell) :
    (c.refineCellAndCellInterfaces ops model nbCellsY nbCellsZ).data.core
      = ({ c.data with split := true } : CellData).core := by
  have h := (sameCore_refine ops model nbCellsY nbCellsZ c).1
  rw [h]
  unfold refineChildren
  rw [foldl_refineChild_data]
  rfl

theorem split_refine (ops : InterfaceOps) (model : Model) (nbCellsY nbCellsZ : Int) (c : Cell) :
    (c.refineCellAndCellInterfaces ops model nbCellsY nbCellsZ).data.split = true :=
  congrArg CellData.split (core_refine ops model nbCellsY nbCellsZ c)

theorem numberCellsChildren_pos (nbCellsY nbCellsZ : Int) :
    0 < (refineDims nbCellsY nbCellsZ).numberCellsChildren := by
  unfold refineDims
  split
  · decide
  · split <;> decide

theorem length_children_refine (ops : InterfaceOps) (model : Model) (nbCellsY nbCellsZ : Int)
    (c : Cell) :
    (c.refineCellAndCellInterfaces ops model nbCellsY nbCellsZ).childrenCells.length
      = c.childrenCells.length + (refineDims nbCellsY nbCellsZ).numberCellsChildren := by
  have h := congrArg List.length (sameCore_refine ops model nbCellsY nbCellsZ c).2
  simp only [List.length_map] at h
  rw [h]
  unfold refineChildren
  rw [foldl_refineChild_length]
  simp

theorem children_refine_ne_nil (ops : InterfaceOps) (model : Model) (nbCellsY nbCellsZ : Int)
    (c : Cell) : (c.refineCellAndCellInterfaces ops model nbCellsY nbCellsZ).childrenCells ≠ [] := by
  intro h
  have h1 := length_children_refine ops model nbCellsY nbCellsZ c
  have h2 := numberCellsChildren_pos nbCellsY nbCellsZ
  rw [h] at h1
  simp at h1
  omega

theorem split_unrefine (ops : InterfaceOps) (model : Model) (c : Cell) :
    (c.unrefineCellAndCellInterfaces ops model).data.split = false := rfl

theorem children_unrefine (ops : InterfaceOps) (model : Model) (c : Cell) :
    (c.unrefineCellAndCellInterfaces ops model).childrenCells = [] := rfl

theorem length_getBufferSplitChildren (buffer : Int → Bool) (lvl : Int) (cs : List Cell)
    (counter : Int) : (getBufferSplitChildren buffer lvl cs counter).1.length = cs.length := by
  induction cs generalizing counter with
  | nil => simp [getBufferSplitChildren]
  | cons a t ih => simp [getBufferSplitChildren, ih]

theorem getBufferSplit_other_level (buffer : Int → Bool) (lvl : Int) (c : Cell) (counter : Int)
    (h : c.data.lvl ≠ lvl) :
    (c.getBufferSplit buffer lvl counter).1.data.split = c.data.split ∧
      ((c.getBufferSplit buffer lvl counter).1.childrenCells = [] ↔ c.childrenCells = []) := by
  cases c with
  | mk d cs =>
    simp only [Cell.data_mk] at h
    simp only [Cell.getBufferSplit, h, if_false, Cell.data_mk, Cell.childrenCells_mk, true_and]
    rw [← List.length_eq_zero, length_getBufferSplitChildren, List.length_eq_zero]

/-! ## The split flag and the children (C2) -/

/-- C2, as stated, fails: unpacking a received split flag at the level of a freshly constructed
cell sets `m_split` while the cell has no child. -/
theorem split_iff_children_counterexample :
    Cell.Reachable true ((Cell.new 0).getBufferSplit (fun _ => true) 0 (-1)).1 ∧
      ((Cell.new 0).getBufferSplit (fun _ => true) 0 (-1)).1.data.split = true ∧
      ((Cell.new 0).getBufferSplit (fun _ => true) 0 (-1)).1.childrenCells = [] :=
  ⟨Cell.Reachable.getBufferSplit _ _ _ _ (Cell.Reachable.fresh 0) (Or.inl rfl), rfl, rfl⟩

/-- C2, amended: in every state reached from a freshly constructed cell through
`refineCellAndCellInterfaces`, `unrefineCellAndCellInterfaces`, `chooseRefine`, `chooseUnrefine`,
`chooseRefineDeraffineGhost` and through `getBufferSplit` at an exchange level other than the
level of the cell, the split flag is true if and only if the cell has at least one child. -/
theorem split_iff_children_of_reachable (c : Cell) (h : Cell.Reachable false c) :
    c.data.split = true ↔ c.childrenCells ≠ [] := by
  induction h with
  | fresh lvl => simp [Cell.new]
  | refineCellAndCellInterfaces ops model nbCellsY nbCellsZ c _ _ =>
    simp [split_refine, children_refine_ne_nil]
  | unrefineCellAndCellInterfaces ops model c _ _ =>
    simp [split_unrefine, children_unrefine]
  | chooseRefine ops model xiSplit nbCellsY nbCellsZ c nb _ ih =>
    unfold Cell.chooseRefine
    split
    · split
      · split
        · simp [split_refine, children_refine_ne_nil]
        · exact ih
      · exact ih
    · exact ih
  | chooseUnrefine ops model xiJoin c nb _ ih =>
    unfold Cell.chooseUnrefine
    split
    · split
      · simp [split_unrefine, children_unrefine]
      · exact ih
    · exact ih
  | getBufferSplit buffer lvl c counter _ hl ih =>
    rcases hl with hl | hl
    · cases hl
    · obtain ⟨h1, h2⟩ := getBufferSplit_other_level buffer lvl c counter hl
      rw [h1, Ne, h2]
      exact ih
  | chooseRefineDeraffineGhost ops model nbCellsY nbCellsZ c g _ ih =>
    have hc : (c.chooseRefineDeraffineGhost ops model nbCellsY nbCellsZ g).1 = c := by
      unfold Cell.chooseRefineDeraffineGhost
      by_cases hs : c.data.split = true
      · have hlen : ¬ c.childrenCells.length = 0 := by
          rw [List.length_eq_zero]; exact ih.mp hs
        simp [hs, hlen]
      · have hnil : c.childrenCells = [] := by
          by_contra hne
          exact hs (ih.mpr hne)
        simp [hs, hnil]
    rw [hc]
    exact ih
  | other f hf c _ ih =>
    rw [(hf c).1, Ne, (hf c).2]
    exact ih

theorem split_iff_children_of_reachable_witness :
    Cell.Reachable false
        ((Cell.new 0).refineCellAndCellInterfaces InterfaceOps.identity Model.trivial 1 1) ∧
      (((Cell.new 0).refineCellAndCellInterfaces InterfaceOps.identity Model.trivial 1
          1).data.split = true ↔
        ((Cell.new 0).refineCellAndCellInterfaces InterfaceOps.identity Model.trivial 1
          1).childrenCells ≠ []) :=
  ⟨Cell.Reachable.refineCellAndCellInterfaces _ _ _ _ _ (Cell.Reachable.fresh 0),
    split_iff_children_of_reachable _
      (Cell.Reachable.refineCellAndCellInterfaces _ _ _ _ _ (Cell.Reachable.fresh 0))⟩

/-! ## The choice of refinement (C8, C9) -/

/-- The three nested tests of `chooseRefine` as one condition. -/
theorem chooseRefine_eq (ops : InterfaceOps) (model : Model) (xiSplit : ℚ)
    (nbCellsY nbCellsZ : Int) (c : Cell) (nbCellsTotalAMR : Int) :
    c.chooseRefine ops model xiSplit nbCellsY nbCellsZ nbCellsTotalAMR
      = (if c.data.split = false ∧ xiSplit ≤ c.data.xi ∧ c.lvlNeighborTooLow = false then
          (c.refineCellAndCellInterfaces ops model nbCellsY nbCellsZ,
            nbCellsTotalAMR +
              (((c.refineCellAndCellInterfaces ops model nbCellsY nbCellsZ).childrenCells.length
                : Int) - 1))
        else (c, nbCellsTotalAMR)) := by
  unfold Cell.chooseRefine
  by_cases hs : c.data.split = true
  · simp [hs]
  · by_cases hx : xiSplit ≤ c.data.xi
    · by_cases hl : c.lvlNeighborTooLow = true
      · simp [hs, hx, hl]
      · simp [hs, hx, hl]
    · simp [hs, hx]

/-- C8: `chooseRefine` refines the cell exactly when the cell is not split, its indicator is at
least `xiSplit` and `lvlNeighborTooLow()` is false; the refined cell is then split and the
counter grows by the number of children minus one. In every other case the cell, with its
interface list, and the counter `nbCellsTotalAMR` are returned unchanged. -/
theorem chooseRefine_refines_iff (ops : InterfaceOps) (model : Model) (xiSplit : ℚ)
    (nbCellsY nbCellsZ : Int) (c : Cell) (nbCellsTotalAMR : Int) :
    c.chooseRefine ops model xiSplit nbCellsY nbCellsZ nbCellsTotalAMR
        = (if c.data.split = false ∧ xiSplit ≤ c.data.xi ∧ c.lvlNeighborTooLow = false then
            (c.refineCellAndCellInterfaces ops model nbCellsY nbCellsZ,
              nbCellsTotalAMR +
                (((c.refineCellAndCellInterfaces ops model nbCellsY nbCellsZ).childrenCells.length
                  : Int) - 1))
          else (c, nbCellsTotalAMR)) ∧
      (c.refineCellAndCellInterfaces ops model nbCellsY nbCellsZ).data.split = true ∧
      (c.refineCellAndCellInterfaces ops model nbCellsY nbCellsZ).childrenCells.length
        = c.childrenCells.length + (refineDims nbCellsY nbCellsZ).numberCellsChildren := by
  refine ⟨?_, split_refine ops model nbCellsY nbCellsZ c,
    length_children_refine ops model nbCellsY nbCellsZ c⟩
  unfold Cell.chooseRefine
  by_cases hs : c.data.split = true
  · rw [if_neg (by simp [hs]), if_neg (fun h => by simp [hs] at h)]
  · by_cases hx : xiSplit ≤ c.data.xi
    · by_cases hl : c.lvlNeighborTooLow = true
      · rw [if_pos (by simpa using hs), if_pos hx, if_neg (by simp [hl]),
          if_neg (fun h => by simp [hl] at h)]
      · rw [if_pos (by simpa using hs), if_pos hx, if_pos (by simpa using hl),
          if_pos ⟨by simpa using hs, hx, by simpa using hl⟩]
    · rw [if_pos (by simpa using hs), if_neg hx, if_neg (fun h => hx h.2.1)]

/-- C9: calling `chooseRefine` a second time with the same threshold, on the state and the
counter left by a first call, returns that state and that counter unchanged. -/
theorem chooseRefine_idempotent (ops : InterfaceOps) (model : Model) (xiSplit : ℚ)
    (nbCellsY nbCellsZ : Int) (c : Cell) (nbCellsTotalAMR : Int) :
    (c.chooseRefine ops model xiSplit nbCellsY nbCellsZ nbCellsTotalAMR).1.chooseRefine ops model
        xiSplit nbCellsY nbCellsZ
        (c.chooseRefine ops model xiSplit nbCellsY nbCellsZ nbCellsTotalAMR).2
      = c.chooseRefine ops model xiSplit nbCellsY nbCellsZ nbCellsTotalAMR := by
  by_cases hg : c.data.split = false ∧ xiSplit ≤ c.data.xi ∧ c.lvlNeighborTooLow = false
  · obtain ⟨hs, hx, hl⟩ := hg
    have h1 : c.chooseRefine ops model xiSplit nbCellsY nbCellsZ nbCellsTotalAMR
        = (c.refineCellAndCellInterfaces ops model nbCellsY nbCellsZ,
            nbCellsTotalAMR +
              (((c.refineCellAndCellInterfaces ops model nbCellsY nbCellsZ).childrenCells.length
                : Int) - 1)) := by
      simp [Cell.chooseRefine, hs, hx, hl]
    rw [h1]
    simp [Cell.chooseRefine, split_refine]
  · have h1 : c.chooseRefine ops model xiSplit nbCellsY nbCellsZ nbCellsTotalAMR
        = (c, nbCellsTotalAMR) := by
      rw [chooseRefine_eq ops model xiSplit nbCellsY nbCellsZ c nbCellsTotalAMR, if_neg hg]
    rw [h1]
    exact h1

/-! ## The choice of coarsening (C10) -/

theorem foldl_noGrandChildren (cs : List Cell) (acc : Bool) :
    cs.foldl (fun acc ch => if ch.getNumberCellsChildren > 0 then false else acc) acc
      = (acc && cs.all (fun ch => decide (ch.getNumberCellsChildren = 0))) := by
  induction cs generalizing acc with
  | nil => simp
  | cons a t ih =>
    simp only [List.foldl_cons, List.all_cons]
    rw [ih]
    by_cases h : a.getNumberCellsChildren = 0
    · simp [h]
    · have h' : a.getNumberCellsChildren > 0 := Nat.pos_of_ne_zero h
      simp [h, h']

theorem deraffineGlobal_iff (xiJoin : ℚ) (c : Cell) :
    c.deraffineGlobal xiJoin = true ↔
      (c.data.xi < xiJoin ∧ (∀ ch ∈ c.childrenCells, ch.getNumberCellsChildren = 0) ∧
        c.lvlNeighborTooHigh = false) := by
  unfold Cell.deraffineGlobal
  simp only [foldl_noGrandChildren, Bool.true_and]
  by_cases hx : c.data.xi < xiJoin
  · by_cases hg : (c.childrenCells.all (fun ch => decide (ch.getNumberCellsChildren = 0))) = true
    · have hg' : ∀ ch ∈ c.childrenCells, ch.getNumberCellsChildren = 0 := by
        simpa using hg
      by_cases ht : c.lvlNeighborTooHigh = true
      · simp [hx, hg, ht]
      · simp only [Bool.not_eq_true] at ht
        rw [if_pos hx, if_pos hg, ht]
        exact ⟨fun _ => ⟨hx, hg', rfl⟩, fun _ => hg⟩
    · have hg' : ¬ ∀ ch ∈ c.childrenCells, ch.getNumberCellsChildren = 0 := by
        simpa using hg
      simp only [hx, hg, if_true]
      exact ⟨fun h => absurd h (by simp), fun h => absurd h.2.1 hg'⟩
  · simp [hx]

/-- C10, as stated, fails: a split cell whose own indicator 0 is below `xiJoin = 1/2` and whose
two leaf children have indicator 1, not below `xiJoin`, is coarsened by `chooseUnrefine`. -/
theorem chooseUnrefine_children_xi_counterexample :
    (exampleSplitCell.chooseUnrefine InterfaceOps.identity Model.trivial (1 / 2) 2).1.childrenCells
        = [] ∧
      (exampleSplitCell.chooseUnrefine InterfaceOps.identity Model.trivial (1 / 2) 2).1.data.split
        = false ∧
      (exampleSplitCell.chooseUnrefine InterfaceOps.identity Model.trivial (1 / 2) 2).2 = 1 ∧
      exampleSplitCell.data.split = true ∧
      exampleSplitCell.lvlNeighborTooHigh = false ∧
      (∀ ch ∈ exampleSplitCell.childrenCells, ch.getNumberCellsChildren = 0) ∧
      ¬ (∀ ch ∈ exampleSplitCell.childrenCells, ch.data.xi < 1 / 2) := by
  have hd : exampleSplitCell.deraffineGlobal (1 / 2) = true := by
    rw [deraffineGlobal_iff]
    refine ⟨?_, ?_, rfl⟩
    · show (0 : ℚ) < 1 / 2
      norm_num
    · intro ch hch
      simp [exampleSplitCell] at hch
      subst hch
      rfl
  have hs : exampleSplitCell.data.split = true := rfl
  have hr : exampleSplitCell.chooseUnrefine InterfaceOps.identity Model.trivial (1 / 2) 2
      = (exampleSplitCell.unrefineCellAndCellInterfaces InterfaceOps.identity Model.trivial,
          2 - ((exampleSplitCell.childrenCells.length : Int) - 1)) := by
    unfold Cell.chooseUnrefine
    rw [if_pos hs, if_pos hd]
  rw [hr]
  refine ⟨rfl, rfl, ?_, rfl, rfl, ?_, ?_⟩
  · simp [exampleSplitCell]
  · intro ch hch
    simp [exampleSplitCell] at hch
    subst hch
    rfl
  · intro h
    have h1 := h (Cell.mk { (Cell.new 1).data with xi := 1 } []) (by simp [exampleSplitCell])
    simp at h1
    norm_num at h1

/-- C10, amended: `chooseUnrefine` coarsens the cell exactly when the cell is split, its own
indicator is strictly below `xiJoin`, none of its children has children, and
`lvlNeighborTooHigh()` is false; the counter then decreases by the number of children minus one.
In every other case the cell and the counter are returned unchanged. -/
theorem chooseUnrefine_coarsens_iff (ops : InterfaceOps) (model : Model) (xiJoin : ℚ) (c : Cell)
    (nbCellsTotalAMR : Int) :
    c.chooseUnrefine ops model xiJoin nbCellsTotalAMR
      = (if c.data.split = true ∧ c.data.xi < xiJoin ∧
              (∀ ch ∈ c.childrenCells, ch.getNumberCellsChildren = 0) ∧
              c.lvlNeighborTooHigh = false then
          (c.unrefineCellAndCellInterfaces ops model,
            nbCellsTotalAMR - ((c.childrenCells.length : Int) - 1))
        else (c, nbCellsTotalAMR)) := by
  unfold Cell.chooseUnrefine
  by_cases hs : c.data.split = true
  · by_cases hd : c.deraffineGlobal xiJoin = true
    · have hd' := (deraffineGlobal_iff xiJoin c).mp hd
      rw [if_pos hs, if_pos hd, if_pos ⟨hs, hd'⟩]
    · have hd' : ¬ (c.data.split = true ∧ c.data.xi < xiJoin ∧
          (∀ ch ∈ c.childrenCells, ch.getNumberCellsChildren = 0) ∧
          c.lvlNeighborTooHigh = false) := fun h => hd ((deraffineGlobal_iff xiJoin c).mpr h.2)
      rw [if_pos hs, if_neg hd, if_neg hd']
  · have hd' : ¬ (c.data.split = true ∧ c.data.xi < xiJoin ∧
        (∀ ch ∈ c.childrenCells, ch.getNumberCellsChildren = 0) ∧
        c.lvlNeighborTooHigh = false) := fun h => hs h.1
    rw [if_neg hs, if_neg hd']

/-! ## The state of the children after a refinement (C6) -/

/-! ## Conservation of the leaf volume (C5) -/

theorem leafVolume_eq (c : Cell) :
    c.leafVolume
      = if c.childrenCells.length = 0 then c.data.element.volume
        else leafVolumeChildren c.childrenCells := by
  cases c with
  | mk d cs =>
    cases cs with
    | nil => simp [Cell.leafVolume]
    | cons a t => simp [Cell.leafVolume, leafVolumeChildren]

theorem leafVolume_strip (c : Cell) : c.stripCellInterfaces.leafVolume = c.leafVolume := by
  rw [leafVolume_eq, leafVolume_eq]; rfl

theorem leafVolumeChildren_eq_sum (cs : List Cell) :
    leafVolumeChildren cs = (cs.map Cell.leafVolume).sum := by
  induction cs with
  | nil => simp [leafVolumeChildren]
  | cons a t ih => simp [leafVolumeChildren, ih]

theorem leafVolumeChildren_modify (g : Cell → Cell) (cs : List Cell) (k : Nat)
    (h : ∀ x, cs[k]? = some x → (g x).leafVolume = x.leafVolume) :
    leafVolumeChildren (cs.modify g k) = leafVolumeChildren cs := by
  induction cs generalizing k with
  | nil => cases k <;> rfl
  | cons a t ih =>
    cases k with
    | zero =>
      have h0 := h a (by simp)
      simp [List.modify, leafVolumeChildren, h0]
    | succ k =>
      have ih' := ih k (fun x hx => h x (by simpa using hx))
      rw [List.modify_succ_cons]
      simp [leafVolumeChildren, ih']

theorem element_averageChildrenInParent (model : Model) (c : Cell) :
    (c.averageChildrenInParent model).data.element = c.data.element := by
  unfold Cell.averageChildrenInParent
  simp only
  split <;> rfl

theorem element_foldl_unrefineExternal (ops : InterfaceOps) (l : List Nat) (c : Cell) :
    (l.foldl (unrefineExternalCellInterface ops) c).data.element = c.data.element := by
  induction l generalizing c with
  | nil => rfl
  | cons a t ih =>
    simp only [List.foldl_cons]
    rw [ih]
    unfold unrefineExternalCellInterface
    split <;> rfl

theorem element_unrefine (ops : InterfaceOps) (model : Model) (c : Cell) :
    (c.unrefineCellAndCellInterfaces ops model).data.element = c.data.element := by
  unfold Cell.unrefineCellAndCellInterfaces
  simp only [Cell.data_mk]
  rw [element_foldl_unrefineExternal]
  simp only [Cell.data_mk]
  exact element_averageChildrenInParent model c

theorem element_refine (ops : InterfaceOps) (model : Model) (nbCellsY nbCellsZ : Int) (c : Cell) :
    (c.refineCellAndCellInterfaces ops model nbCellsY nbCellsZ).data.element = c.data.element := by
  have h := congrArg CellData.element (core_refine ops model nbCellsY nbCellsZ c)
  exact h

theorem leafVolume_unrefine (ops : InterfaceOps) (model : Model) (c : Cell) :
    (c.unrefineCellAndCellInterfaces ops model).leafVolume = c.data.element.volume := by
  rw [leafVolume_eq, children_unrefine, element_unrefine]
  rfl

theorem map_leafVolume_refine_leaf (ops : InterfaceOps) (model : Model) (nbCellsY nbCellsZ : Int)
    (c : Cell) (hleaf : c.childrenCells = []) :
    (c.refineCellAndCellInterfaces ops model nbCellsY nbCellsZ).childrenCells.map Cell.leafVolume
      = List.replicate (refineDims nbCellsY nbCellsZ).numberCellsChildren
          (c.data.element.volume / ((refineDims nbCellsY nbCellsZ).numberCellsChildren : ℚ)) := by
  have h := (sameCore_refine_leaf ops model nbCellsY nbCellsZ c hleaf).2
  simp only [Cell.childrenCells_mk] at h
  have h2 := congrArg (List.map Cell.leafVolume) h
  simp only [List.map_map] at h2
  have hfun : Cell.leafVolume ∘ Cell.stripCellInterfaces = Cell.leafVolume := by
    funext x; exact leafVolume_strip x
  rw [hfun] at h2
  rw [h2]
  apply List.ext_getElem
  · simp
  · intro n h1 h2
    simp [newChild, initChild, copyParentState, Cell.setElement, Cell.new, Cell.leafVolume,
      childElement]

theorem leafVolume_refine_leaf (ops : InterfaceOps) (model : Model) (nbCellsY nbCellsZ : Int)
    (c : Cell) (hleaf : c.childrenCells = []) :
    (c.refineCellAndCellInterfaces ops model nbCellsY nbCellsZ).leafVolume = c.leafVolume := by
  have hN := numberCellsChildren_pos nbCellsY nbCellsZ
  have hNq : ((refineDims nbCellsY nbCellsZ).numberCellsChildren : ℚ) ≠ 0 := by
    exact_mod_cast Nat.pos_iff_ne_zero.mp hN
  have hne : ¬ (c.refineCellAndCellInterfaces ops model nbCellsY nbCellsZ).childrenCells.length
      = 0 := by
    rw [List.length_eq_zero]; exact children_refine_ne_nil ops model nbCellsY nbCellsZ c
  rw [leafVolume_eq, if_neg hne,
    leafVolumeChildren_eq_sum, map_leafVolume_refine_leaf ops model nbCellsY nbCellsZ c hleaf,
    leafVolume_eq c, if_pos (by rw [hleaf]; rfl)]
  simp only [List.sum_replicate, nsmul_eq_mul]
  field_simp

theorem tiled_iff (c : Cell) :
    c.Tiled ↔ (c.childrenCells.length = 0 ∨
      leafVolumeChildren c.childrenCells = c.data.element.volume) ∧
      TiledChildren c.childrenCells := by
  cases c with
  | mk d cs => simp [Cell.Tiled]

theorem tiledChildren_iff (cs : List Cell) : TiledChildren cs ↔ ∀ ch ∈ cs, ch.Tiled := by
  induction cs with
  | nil => simp [TiledChildren]
  | cons a t ih => simp [TiledChildren, ih]

theorem leafVolume_of_tiled (c : Cell) (h : c.Tiled) : c.leafVolume = c.data.element.volume := by
  rw [leafVolume_eq]
  rcases ((tiled_iff c).mp h).1 with h0 | h1
  · rw [if_pos h0]
  · by_cases h0 : c.childrenCells.length = 0
    · rw [if_pos h0]
    · rw [if_neg h0, h1]

theorem tiledChildren_modify (g : Cell → Cell) (cs : List Cell) (k : Nat)
    (h : ∀ x, cs[k]? = some x → x.Tiled → (g x).Tiled) (hcs : TiledChildren cs) :
    TiledChildren (cs.modify g k) := by
  induction cs generalizing k with
  | nil => cases k <;> exact hcs
  | cons a t ih =>
    cases k with
    | zero =>
      rw [List.modify_zero_cons]
      exact ⟨h a (by simp) hcs.1, hcs.2⟩
    | succ k =>
      rw [List.modify_succ_cons]
      exact ⟨hcs.1, ih k (fun x hx => h x (by simpa using hx)) hcs.2⟩

theorem tiled_applyAt (f : Cell → Cell) (path : List Nat) (c x : Cell)
    (hx : c.atPath path = some x)
    (hf : x.Tiled → (f x).Tiled ∧ (f x).leafVolume = x.leafVolume) (hc : c.Tiled) :
    (c.applyAt f path).Tiled ∧ (c.applyAt f path).leafVolume = c.leafVolume := by
  induction path generalizing c with
  | nil =>
    simp only [Cell.atPath, Option.some.injEq] at hx
    subst hx
    exact hf hc
  | cons k path ih =>
    have hc' := (tiled_iff c).mp hc
    have hkids : ∀ y, c.childrenCells[k]? = some y → y.Tiled →
        (y.applyAt f path).Tiled ∧ (y.applyAt f path).leafVolume = y.leafVolume := by
      intro y hy hty
      exact ih y (by simpa [Cell.atPath, hy] using hx) hty
    have hall := (tiledChildren_iff c.childrenCells).mp hc'.2
    have hvol : leafVolumeChildren (c.childrenCells.modify (Cell.applyAt f path) k)
        = leafVolumeChildren c.childrenCells :=
      leafVolumeChildren_modify _ _ _
        (fun y hy => (hkids y hy (hall y (List.getElem?_mem hy))).2)
    constructor
    · simp only [Cell.applyAt]
      rw [tiled_iff]
      simp only [Cell.childrenCells_mk, Cell.data_mk, List.length_modify, hvol]
      exact ⟨hc'.1, tiledChildren_modify _ _ _ (fun y hy hty => (hkids y hy hty).1) hc'.2⟩
    · simp only [Cell.applyAt]
      rw [leafVolume_eq, leafVolume_eq c]
      simp only [Cell.childrenCells_mk, Cell.data_mk, List.length_modify, hvol]

theorem tiled_unrefine (ops : InterfaceOps) (model : Model) (c : Cell) :
    (c.unrefineCellAndCellInterfaces ops model).Tiled := by
  rw [tiled_iff, children_unrefine]
  exact ⟨Or.inl rfl, trivial⟩

theorem children_of_refine_leaf_are_leaves (ops : InterfaceOps) (model : Model)
    (nbCellsY nbCellsZ : Int) (c : Cell) (hleaf : c.childrenCells = []) :
    ∀ ch ∈ (c.refineCellAndCellInterfaces ops model nbCellsY nbCellsZ).childrenCells,
      ch.childrenCells = [] := by
  intro ch hch
  have h := (sameCore_refine_leaf ops model nbCellsY nbCellsZ c hleaf).2
  simp only [Cell.childrenCells_mk] at h
  have hmem : ch.stripCellInterfaces ∈
      (c.refineCellAndCellInterfaces ops model nbCellsY nbCellsZ).childrenCells.map
        Cell.stripCellInterfaces := List.mem_map_of_mem _ hch
  rw [h] at hmem
  simp only [List.map_map, List.mem_map, List.mem_range, Function.comp] at hmem
  obtain ⟨i, -, hi⟩ := hmem
  exact (child_fields_of_strip model c.data _ i ch hi.symm).2.2.1

theorem tiled_refine_leaf (ops : InterfaceOps) (model : Model) (nbCellsY nbCellsZ : Int)
    (c : Cell) (hleaf : c.childrenCells = []) :
    (c.refineCellAndCellInterfaces ops model nbCellsY nbCellsZ).Tiled := by
  rw [tiled_iff]
  refine ⟨Or.inr ?_, ?_⟩
  · have h := leafVolume_refine_leaf ops model nbCellsY nbCellsZ c hleaf
    have hne : ¬ (c.refineCellAndCellInterfaces ops model nbCellsY nbCellsZ).childrenCells.length
        = 0 := by
      rw [List.length_eq_zero]; exact children_refine_ne_nil ops model nbCellsY nbCellsZ c
    rw [leafVolume_eq, if_neg hne, leafVolume_eq c, if_pos (by rw [hleaf]; rfl)] at h
    rw [h, element_refine]
  · rw [tiledChildren_iff]
    intro ch hch
    rw [tiled_iff, children_of_refine_leaf_are_leaves ops model nbCellsY nbCellsZ c hleaf ch hch]
    exact ⟨Or.inl rfl, trivial⟩

theorem mesh_applyAt (f : Cell → Cell) (mesh : List Cell) (r : Nat) (path : List Nat)
    (root x : Cell) (hr : mesh[r]? = some root) (hx : root.atPath path = some x)
    (hf : x.Tiled → (f x).Tiled ∧ (f x).leafVolume = x.leafVolume) (hm : TiledChildren mesh) :
    TiledChildren (mesh.modify (Cell.applyAt f path) r) ∧
      leafVolumeChildren (mesh.modify (Cell.applyAt f path) r) = leafVolumeChildren mesh := by
  have hall := (tiledChildren_iff mesh).mp hm
  have hroot : ∀ y, mesh[r]? = some y → y.Tiled →
      (y.applyAt f path).Tiled ∧ (y.applyAt f path).leafVolume = y.leafVolume := by
    intro y hy hty
    rw [hr] at hy
    cases hy
    exact tiled_applyAt f path root x hx hf hty
  exact ⟨tiledChildren_modify _ _ _ (fun y hy hty => (hroot y hy hty).1) hm,
    leafVolumeChildren_modify _ _ _
      (fun y hy => (hroot y hy (hall y (List.getElem?_mem hy))).2)⟩

/-! ## Geometry of the children (C4) -/

theorem axis_refined_cover (p s t : ℚ) (hs : 0 < s) :
    inAxis p s t ↔
      ∃ b : Nat, b < 2 ∧ inAxis (p + 1 * s * (-0.25 + 0.5 * (b : ℚ))) ((1 - 1 * 0.5) * s) t := by
  unfold inAxis
  constructor
  · rintro ⟨h1, h2⟩
    by_cases h : t ≤ p
    · refine ⟨0, by decide, ?_, ?_⟩ <;> norm_num <;> linarith
    · refine ⟨1, by decide, ?_, ?_⟩ <;> norm_num <;> linarith
  · rintro ⟨b, hb, h1, h2⟩
    interval_cases b <;> norm_num at h1 h2 <;> constructor <;> linarith

theorem axis_kept (p s t : ℚ) (b : ℚ) :
    inAxis (p + 0 * s * (-0.25 + 0.5 * b)) ((1 - 0 * 0.5) * s) t ↔ inAxis p s t := by
  unfold inAxis
  norm_num

theorem axis_refined_disjoint (p s t : ℚ) (b b' : Nat) (hb : b < 2) (hb' : b' < 2)
    (h : inAxisOpen (p + 1 * s * (-0.25 + 0.5 * (b : ℚ))) ((1 - 1 * 0.5) * s) t)
    (h' : inAxisOpen (p + 1 * s * (-0.25 + 0.5 * (b' : ℚ))) ((1 - 1 * 0.5) * s) t) : b = b' := by
  unfold inAxisOpen at h h'
  obtain ⟨h1, h2⟩ := h
  obtain ⟨h3, h4⟩ := h'
  interval_cases b <;> interval_cases b' <;> first | rfl | (exfalso; norm_num at h1 h2 h3 h4; linarith)

theorem axis_refined_size_centre (p s : ℚ) (b : Nat) (hb : b < 2) :
    (1 - 1 * 0.5) * s = s / 2 ∧
      p + 1 * s * (-0.25 + 0.5 * (b : ℚ)) = p + (if b = 0 then -(s / 4) else s / 4) := by
  refine ⟨by ring, ?_⟩
  interval_cases b
  · norm_num; ring
  · norm_num; ring

theorem axis_kept_size_centre (p s b : ℚ) :
    (1 - 0 * 0.5) * s = s ∧ p + 0 * s * (-0.25 + 0.5 * b) = p := by
  norm_num

theorem refineDims_cases (nbCellsY nbCellsZ : Int) :
    (nbCellsZ ≠ 1 ∧ refineDims nbCellsY nbCellsZ = ⟨1, 1, 1, 8, 3⟩) ∨
      (nbCellsZ = 1 ∧ nbCellsY ≠ 1 ∧ refineDims nbCellsY nbCellsZ = ⟨1, 1, 0, 4, 2⟩) ∨
      (nbCellsZ = 1 ∧ nbCellsY = 1 ∧ refineDims nbCellsY nbCellsZ = ⟨1, 0, 0, 2, 1⟩) := by
  unfold refineDims
  by_cases hz : nbCellsZ = 1 <;> by_cases hy : nbCellsY = 1 <;> simp [hz, hy]

theorem childElement_inBox (e : Element) (rd : RefineDims) (i : Nat) (p : Coord) :
    (childElement e rd i).inBox p ↔
      inAxis (e.position.x + rd.dimX * e.size.x * (-0.25 + 0.5 * ((i % 2 : Nat) : ℚ)))
          ((1 - rd.dimX * 0.5) * e.size.x) p.x ∧
        inAxis (e.position.y + rd.dimY * e.size.y * (-0.25 + 0.5 * (((i / 2) % 2 : Nat) : ℚ)))
          ((1 - rd.dimY * 0.5) * e.size.y) p.y ∧
        inAxis (e.position.z + rd.dimZ * e.size.z * (-0.25 + 0.5 * (((i / 4) % 2 : Nat) : ℚ)))
          ((1 - rd.dimZ * 0.5) * e.size.z) p.z := Iff.rfl

theorem childElement_inInterior (e : Element) (rd : RefineDims) (i : Nat) (p : Coord) :
    (childElement e rd i).inInterior p ↔
      inAxisOpen (e.position.x + rd.dimX * e.size.x * (-0.25 + 0.5 * ((i % 2 : Nat) : ℚ)))
          ((1 - rd.dimX * 0.5) * e.size.x) p.x ∧
        inAxisOpen (e.position.y + rd.dimY * e.size.y * (-0.25 + 0.5 * (((i / 2) % 2 : Nat) : ℚ)))
          ((1 - rd.dimY * 0.5) * e.size.y) p.y ∧
        inAxisOpen (e.position.z + rd.dimZ * e.size.z * (-0.25 + 0.5 * (((i / 4) % 2 : Nat) : ℚ)))
          ((1 - rd.dimZ * 0.5) * e.size.z) p.z := Iff.rfl

/-- The boxes of the child elements cover exactly the box of the parent element. -/
theorem childElement_cover (e : Element) (nbCellsY nbCellsZ : Int) (hx : 0 < e.size.x)
    (hy : 0 < e.size.y) (hz : 0 < e.size.z) (p : Coord) :
    e.inBox p ↔ ∃ i : Nat, i < (refineDims nbCellsY nbCellsZ).numberCellsChildren ∧
      (childElement e (refineDims nbCellsY nbCellsZ) i).inBox p := by
  simp only [childElement_inBox]
  unfold Element.inBox
  rcases refineDims_cases nbCellsY nbCellsZ with ⟨-, h⟩ | ⟨-, -, h⟩ | ⟨-, -, h⟩ <;> rw [h] <;>
    simp only
  · rw [axis_refined_cover _ _ _ hx, axis_refined_cover _ _ _ hy, axis_refined_cover _ _ _ hz]
    constructor
    · rintro ⟨⟨bx, hbx, h1⟩, ⟨by', hby, h2⟩, ⟨bz, hbz, h3⟩⟩
      refine ⟨bx + 2 * by' + 4 * bz, by omega, ?_, ?_, ?_⟩
      · rw [show (bx + 2 * by' + 4 * bz) % 2 = bx by omega]; exact h1
      · rw [show (bx + 2 * by' + 4 * bz) / 2 % 2 = by' by omega]; exact h2
      · rw [show (bx + 2 * by' + 4 * bz) / 4 % 2 = bz by omega]; exact h3
    · rintro ⟨i, -, h1, h2, h3⟩
      exact ⟨⟨_, Nat.mod_lt _ (by decide), h1⟩, ⟨_, Nat.mod_lt _ (by decide), h2⟩,
        ⟨_, Nat.mod_lt _ (by decide), h3⟩⟩
  · simp only [axis_kept]
    rw [axis_refined_cover _ _ _ hx, axis_refined_cover _ _ _ hy]
    constructor
    · rintro ⟨⟨bx, hbx, h1⟩, ⟨by', hby, h2⟩, h3⟩
      refine ⟨bx + 2 * by', by omega, ?_, ?_, h3⟩
      · rw [show (bx + 2 * by') % 2 = bx by omega]; exact h1
      · rw [show (bx + 2 * by') / 2 % 2 = by' by omega]; exact h2
    · rintro ⟨i, -, h1, h2, h3⟩
      exact ⟨⟨_, Nat.mod_lt _ (by decide), h1⟩, ⟨_, Nat.mod_lt _ (by decide), h2⟩, h3⟩
  · simp only [axis_kept]
    rw [axis_refined_cover _ _ _ hx]
    constructor
    · rintro ⟨⟨bx, hbx, h1⟩, h2, h3⟩
      refine ⟨bx, by omega, ?_, h2, h3⟩
      rw [show bx % 2 = bx by omega]; exact h1
    · rintro ⟨i, -, h1, h2, h3⟩
      exact ⟨⟨_, Nat.mod_lt _ (by decide), h1⟩, h2, h3⟩

/-- Two child elements whose interiors meet have the same index. -/
theorem childElement_disjoint (e : Element) (nbCellsY nbCellsZ : Int) (i j : Nat)
    (hi : i < (refineDims nbCellsY nbCellsZ).numberCellsChildren)
    (hj : j < (refineDims nbCellsY nbCellsZ).numberCellsChildren) (p : Coord)
    (h1 : (childElement e (refineDims nbCellsY nbCellsZ) i).inInterior p)
    (h2 : (childElement e (refineDims nbCellsY nbCellsZ) j).inInterior p) : i = j := by
  rw [childElement_inInterior] at h1 h2
  rcases refineDims_cases nbCellsY nbCellsZ with ⟨-, h⟩ | ⟨-, -, h⟩ | ⟨-, -, h⟩ <;>
    rw [h] at h1 h2 hi hj <;> simp only at h1 h2 hi hj
  · have ex := axis_refined_disjoint _ _ _ _ _ (Nat.mod_lt _ (by decide))
      (Nat.mod_lt _ (by decide)) h1.1 h2.1
    have ey := axis_refined_disjoint _ _ _ _ _ (Nat.mod_lt _ (by decide))
      (Nat.mod_lt _ (by decide)) h1.2.1 h2.2.1
    have ez := axis_refined_disjoint _ _ _ _ _ (Nat.mod_lt _ (by decide))
      (Nat.mod_lt _ (by decide)) h1.2.2 h2.2.2
    omega
  · have ex := axis_refined_disjoint _ _ _ _ _ (Nat.mod_lt _ (by decide))
      (Nat.mod_lt _ (by decide)) h1.1 h2.1
    have ey := axis_refined_disjoint _ _ _ _ _ (Nat.mod_lt _ (by decide))
      (Nat.mod_lt _ (by decide)) h1.2.1 h2.2.1
    omega
  · have ex := axis_refined_disjoint _ _ _ _ _ (Nat.mod_lt _ (by decide))
      (Nat.mod_lt _ (by decide)) h1.1 h2.1
    omega

theorem childElement_of_refine_leaf (ops : InterfaceOps) (model : Model) (nbCellsY nbCellsZ : Int)
    (c : Cell) (hleaf : c.childrenCells = []) (i : Nat) (ch : Cell)
    (hi : i < (refineDims nbCellsY nbCellsZ).numberCellsChildren)
    (hch : (c.refineCellAndCellInterfaces ops model nbCellsY nbCellsZ).childrenCells[i]? = some ch) :
    ch.data.element = childElement c.data.element (refineDims nbCellsY nbCellsZ) i := by
  obtain ⟨ch', hch', hstrip⟩ := child_of_refine_leaf ops model nbCellsY nbCellsZ c hleaf i hi
  rw [hch] at hch'
  cases hch'
  exact (child_fields_of_strip model c.data _ i ch hstrip).2.2.2.1

/-! ## Internal interfaces created by a refinement (C7) -/

theorem refineInternalCellInterface_eq (nbCellsY nbCellsZ : Int) (c : Cell) (i : Nat)
    (hlen : c.data.childrenInternalCellInterfaces.length = i) :
    refineInternalCellInterface nbCellsY nbCellsZ c i
      = Cell.mk
          { c.data with
            childrenInternalCellInterfaces :=
              c.data.childrenInternalCellInterfaces
                ++ [internalCellInterfaceAt nbCellsY nbCellsZ c i] }
          ((c.childrenCells.modify
              (fun ch => ch.addCellInterface (internalCellInterfaceAt nbCellsY nbCellsZ c i))
              (internalCellInterfaceSpec nbCellsY nbCellsZ c.data.element i).1).modify
            (fun ch => ch.addCellInterface (internalCellInterfaceAt nbCellsY nbCellsZ c i))
            (internalCellInterfaceSpec nbCellsY nbCellsZ c.data.element i).2.1) := by
  unfold refineInternalCellInterface creerCellInterfaceChildInterne
  simp only
  subst hlen
  rw [modify_append_singleton]
  simp only [List.getElem?_append_right (le_refl _), Nat.sub_self, List.getElem?_cons_zero,
    List.get?_eq_getElem?]
  rfl

theorem Cell.ref_strip (c : Cell) : c.stripCellInterfaces.ref = c.ref := rfl

theorem childRef_of_sameCore (c c' : Cell) (h : c.SameCore c') (k : Nat) :
    c'.childRef k = c.childRef k := by
  unfold Cell.childRef
  have h1 : (c'.childrenCells.map Cell.stripCellInterfaces)[k]?
      = (c.childrenCells.map Cell.stripCellInterfaces)[k]? := by rw [h.2]
  simp only [List.getElem?_map] at h1
  rw [List.getD_eq_getElem?_getD, List.getD_eq_getElem?_getD]
  cases h2 : c'.childrenCells[k]? with
  | none =>
    cases h3 : c.childrenCells[k]? with
    | none => rfl
    | some b => simp [h2, h3] at h1
  | some a =>
    cases h3 : c.childrenCells[k]? with
    | none => simp [h2, h3] at h1
    | some b =>
      simp only [h2, h3, Option.map_some', Option.some.injEq] at h1
      simp only [Option.getD_some]
      rw [← Cell.ref_strip a, h1, Cell.ref_strip]

theorem internalCellInterfaceAt_of_sameCore (nbCellsY nbCellsZ : Int) (c c' : Cell)
    (h : c.SameCore c') (i : Nat) :
    internalCellInterfaceAt nbCellsY nbCellsZ c' i = internalCellInterfaceAt nbCellsY nbCellsZ c i := by
  unfold internalCellInterfaceAt
  have he : c'.data.element = c.data.element := by
    have h1 := congrArg CellData.element h.1
    exact h1
  have hl : c'.data.lvl = c.data.lvl := by
    have h1 := congrArg CellData.lvl h.1
    exact h1
  rw [he, hl, childRef_of_sameCore c c' h, childRef_of_sameCore c c' h]

theorem holdsAt_modify_add (cs : List Cell) (k k' : Nat) (b b' : CellInterface)
    (h : HoldsAt cs k b) : HoldsAt (cs.modify (fun ch => ch.addCellInterface b') k') k b := by
  obtain ⟨ch, hch, hb⟩ := h
  unfold HoldsAt
  rw [List.getElem?_modify, hch]
  by_cases hk : k' = k
  · refine ⟨ch.addCellInterface b', by simp [hk], ?_⟩
    simp [Cell.addCellInterface, hb]
  · exact ⟨ch, by simp [hk], hb⟩

theorem holdsAt_modify_add_self (cs : List Cell) (k : Nat) (b : CellInterface)
    (hk : k < cs.length) : HoldsAt (cs.modify (fun ch => ch.addCellInterface b) k) k b := by
  unfold HoldsAt
  rw [List.getElem?_modify, List.getElem?_eq_getElem hk]
  exact ⟨cs[k].addCellInterface b, by simp, by simp [Cell.addCellInterface]⟩

theorem holdsAt_foldl_add (ps : List (Nat × CellInterface)) (cs : List Cell) (k : Nat)
    (b : CellInterface) (h : HoldsAt cs k b) :
    HoldsAt (ps.foldl (fun cs p => cs.modify (fun ch => ch.addCellInterface p.2) p.1) cs) k b := by
  induction ps generalizing cs with
  | nil => exact h
  | cons p t ih => exact ih _ (holdsAt_modify_add cs k p.1 b p.2 h)

theorem length_of_sameCore (c c' : Cell) (h : c.SameCore c') :
    c'.childrenCells.length = c.childrenCells.length := by
  have h1 := congrArg List.length h.2
  simpa using h1

/-- State of the cell after `n` passes of the internal-interface loops, when the cell had no
internal child interface before. -/
theorem foldl_refineInternalCellInterface (nbCellsY nbCellsZ : Int) (c0 : Cell)
    (hint : c0.data.childrenInternalCellInterfaces = []) (n : Nat) :
    ((List.range n).foldl (refineInternalCellInterface nbCellsY nbCellsZ)
        c0).data.childrenInternalCellInterfaces
        = (List.range n).map (internalCellInterfaceAt nbCellsY nbCellsZ c0) ∧
      c0.SameCore ((List.range n).foldl (refineInternalCellInterface nbCellsY nbCellsZ) c0) ∧
      ∀ i : Nat, i < n →
        (internalCellInterfaceSpec nbCellsY nbCellsZ c0.data.element i).1
          < c0.childrenCells.length →
        (internalCellInterfaceSpec nbCellsY nbCellsZ c0.data.element i).2.1
          < c0.childrenCells.length →
        HoldsAt ((List.range n).foldl (refineInternalCellInterface nbCellsY nbCellsZ)
            c0).childrenCells
          (internalCellInterfaceSpec nbCellsY nbCellsZ c0.data.element i).1
          (internalCellInterfaceAt nbCellsY nbCellsZ c0 i) ∧
        HoldsAt ((List.range n).foldl (refineInternalCellInterface nbCellsY nbCellsZ)
            c0).childrenCells
          (internalCellInterfaceSpec nbCellsY nbCellsZ c0.data.element i).2.1
          (internalCellInterfaceAt nbCellsY nbCellsZ c0 i) := by
  induction n with
  | zero => exact ⟨by simpa using hint, Cell.SameCore.refl c0, fun i hi => absurd hi (by omega)⟩
  | succ n ih =>
    obtain ⟨h1, h2, h3⟩ := ih
    rw [List.range_succ, List.foldl_append]
    simp only [List.foldl_cons, List.foldl_nil]
    have hlen : ((List.range n).foldl (refineInternalCellInterface nbCellsY nbCellsZ)
        c0).data.childrenInternalCellInterfaces.length = n := by
      rw [h1]; simp
    have hel : ((List.range n).foldl (refineInternalCellInterface nbCellsY nbCellsZ)
        c0).data.element = c0.data.element := by
      have h4 := congrArg CellData.element h2.1
      exact h4
    rw [refineInternalCellInterface_eq nbCellsY nbCellsZ _ n hlen,
      internalCellInterfaceAt_of_sameCore nbCellsY nbCellsZ c0 _ h2, hel]
    refine ⟨?_, ?_, ?_⟩
    · simp only [Cell.data_mk, h1, List.map_append, List.map_cons, List.map_nil]
    · refine Cell.SameCore.trans h2 ⟨rfl, ?_⟩
      simp only [Cell.childrenCells_mk]
      rw [map_strip_modify_add, map_strip_modify_add]
    · intro i hi hg hd
      simp only [Cell.childrenCells_mk]
      rcases Nat.lt_succ_iff_lt_or_eq.mp hi with hlt | heq
      · obtain ⟨a, b⟩ := h3 i hlt hg hd
        exact ⟨holdsAt_modify_add _ _ _ _ _ (holdsAt_modify_add _ _ _ _ _ a),
          holdsAt_modify_add _ _ _ _ _ (holdsAt_modify_add _ _ _ _ _ b)⟩
      · subst heq
        have hl := length_of_sameCore c0 _ h2
        refine ⟨holdsAt_modify_add _ _ _ _ _ (holdsAt_modify_add_self _ _ _ (by rw [hl]; exact hg)),
          holdsAt_modify_add_self _ _ _ (by rw [List.length_modify, hl]; exact hd)⟩

theorem refineExternalCellInterface_internal (ops : InterfaceOps) (nbCellsY nbCellsZ : Int)
    (dX dY dZ : ℚ) (dim : Nat) (c : Cell) (b : Nat) :
    (refineExternalCellInterface ops nbCellsY nbCellsZ dX dY dZ dim c
        b).data.childrenInternalCellInterfaces = c.data.childrenInternalCellInterfaces ∧
      ∀ (k : Nat) (x : CellInterface), HoldsAt c.childrenCells k x →
        HoldsAt (refineExternalCellInterface ops nbCellsY nbCellsZ dX dY dZ dim c
          b).childrenCells k x := by
  unfold refineExternalCellInterface
  split
  · exact ⟨rfl, fun _ _ h => h⟩
  · split
    · exact ⟨rfl, fun k x h => holdsAt_foldl_add _ _ k x h⟩
    · exact ⟨rfl, fun _ _ h => h⟩

theorem foldl_refineExternalCellInterface_internal (ops : InterfaceOps) (nbCellsY nbCellsZ : Int)
    (dX dY dZ : ℚ) (dim : Nat) (l : List Nat) (c : Cell) :
    (l.foldl (refineExternalCellInterface ops nbCellsY nbCellsZ dX dY dZ dim)
        c).data.childrenInternalCellInterfaces = c.data.childrenInternalCellInterfaces ∧
      ∀ (k : Nat) (x : CellInterface), HoldsAt c.childrenCells k x →
        HoldsAt (l.foldl (refineExternalCellInterface ops nbCellsY nbCellsZ dX dY dZ dim)
          c).childrenCells k x := by
  induction l generalizing c with
  | nil => exact ⟨rfl, fun _ _ h => h⟩
  | cons a t ih =>
    simp only [List.foldl_cons]
    obtain ⟨h1, h2⟩ := refineExternalCellInterface_internal ops nbCellsY nbCellsZ dX dY dZ dim c a
    obtain ⟨h3, h4⟩ := ih (refineExternalCellInterface ops nbCellsY nbCellsZ dX dY dZ dim c a)
    exact ⟨h3.trans h1, fun k x h => h4 k x (h2 k x h)⟩

theorem numberInternalCellInterfaces_cases (nbCellsY nbCellsZ : Int) :
    (nbCellsZ ≠ 1 ∧ numberInternalCellInterfaces nbCellsY nbCellsZ = 12) ∨
      (nbCellsZ = 1 ∧ nbCellsY ≠ 1 ∧ numberInternalCellInterfaces nbCellsY nbCellsZ = 4) ∨
      (nbCellsZ = 1 ∧ nbCellsY = 1 ∧ numberInternalCellInterfaces nbCellsY nbCellsZ = 1) := by
  unfold numberInternalCellInterfaces
  by_cases hz : nbCellsZ = 1 <;> by_cases hy : nbCellsY = 1 <;> simp [hz, hy]

/-- The pairs of children joined by the internal interfaces, in creation order, are the pairs of
children whose indices differ in exactly one axis bit, each pair once. -/
theorem internalCellInterfaceSpec_pairs (nbCellsY nbCellsZ : Int) (e : Element) :
    List.Perm
      ((List.range (numberInternalCellInterfaces nbCellsY nbCellsZ)).map (fun j =>
        ((internalCellInterfaceSpec nbCellsY nbCellsZ e j).1,
          (internalCellInterfaceSpec nbCellsY nbCellsZ e j).2.1)))
      (adjacentPairs (refineDims nbCellsY nbCellsZ).dim
        (refineDims nbCellsY nbCellsZ).numberCellsChildren) := by
  rcases refineDims_cases nbCellsY nbCellsZ with ⟨hz, h⟩ | ⟨hz, hy, h⟩ | ⟨hz, hy, h⟩
  · rw [h]
    have hn : numberInternalCellInterfaces nbCellsY nbCellsZ = 12 := by
      simp [numberInternalCellInterfaces, hz]
    rw [hn]
    have hl : (List.range 12).map (fun j =>
        ((internalCellInterfaceSpec nbCellsY nbCellsZ e j).1,
          (internalCellInterfaceSpec nbCellsY nbCellsZ e j).2.1))
        = [(4, 5), (0, 1), (6, 7), (2, 3), (5, 7), (1, 3), (4, 6), (0, 2), (0, 4), (1, 5), (2, 6),
            (3, 7)] := by
      simp [List.range_succ, internalCellInterfaceSpec, hz]
    rw [hl]
    decide
  · rw [h]
    have hn : numberInternalCellInterfaces nbCellsY nbCellsZ = 4 := by
      simp [numberInternalCellInterfaces, hz, hy]
    rw [hn]
    have hl : (List.range 4).map (fun j =>
        ((internalCellInterfaceSpec nbCellsY nbCellsZ e j).1,
          (internalCellInterfaceSpec nbCellsY nbCellsZ e j).2.1))
        = [(0, 1), (2, 3), (0, 2), (1, 3)] := by
      simp [List.range_succ, internalCellInterfaceSpec, hz, hy]
    rw [hl]
    decide
  · rw [h]
    have hn : numberInternalCellInterfaces nbCellsY nbCellsZ = 1 := by
      simp [numberInternalCellInterfaces, hz, hy]
    rw [hn]
    have hl : (List.range 1).map (fun j =>
        ((internalCellInterfaceSpec nbCellsY nbCellsZ e j).1,
          (internalCellInterfaceSpec nbCellsY nbCellsZ e j).2.1))
        = [(0, 1)] := by
      simp [List.range_succ, internalCellInterfaceSpec, hz, hy]
    rw [hl]
    decide

/-- Each internal interface of the creation order joins a child whose bit for some axis is 0 to
the child whose index is larger by `2^axis`; its normal is the positive unit vector of that axis
and its face position is the midpoint of the centres of the two children. -/
theorem internalCellInterfaceSpec_face (nbCellsY nbCellsZ : Int) (e : Element) (j : Nat)
    (hj : j < numberInternalCellInterfaces nbCellsY nbCellsZ) :
    ∃ axis : Nat, axis < (refineDims nbCellsY nbCellsZ).dim ∧
      (internalCellInterfaceSpec nbCellsY nbCellsZ e j).2.1
        = (internalCellInterfaceSpec nbCellsY nbCellsZ e j).1 + 2 ^ axis ∧
      ((internalCellInterfaceSpec nbCellsY nbCellsZ e j).1 / 2 ^ axis) % 2 = 0 ∧
      (internalCellInterfaceSpec nbCellsY nbCellsZ e j).2.1
        < (refineDims nbCellsY nbCellsZ).numberCellsChildren ∧
      (internalCellInterfaceSpec nbCellsY nbCellsZ e j).2.2.normal = unitVector axis ∧
      (internalCellInterfaceSpec nbCellsY nbCellsZ e j).2.2.pos
        = midpoint
            (childElement e (refineDims nbCellsY nbCellsZ)
              (internalCellInterfaceSpec nbCellsY nbCellsZ e j).1).position
            (childElement e (refineDims nbCellsY nbCellsZ)
              (internalCellInterfaceSpec nbCellsY nbCellsZ e j).2.1).position := by
  rcases refineDims_cases nbCellsY nbCellsZ with ⟨hz, h⟩ | ⟨hz, hy, h⟩ | ⟨hz, hy, h⟩
  · rw [h]
    have hn : numberInternalCellInterfaces nbCellsY nbCellsZ = 12 := by
      simp [numberInternalCellInterfaces, hz]
    rw [hn] at hj
    have hax : j < 4 ∨ (4 ≤ j ∧ j < 8) ∨ 8 ≤ j := by omega
    rcases hax with h4 | h8 | h12
    · refine ⟨0, by decide, ?_⟩
      interval_cases j <;>
        simp [internalCellInterfaceSpec, hz, unitVector, midpoint, childElement] <;>
        refine ⟨?_, ?_, ?_⟩ <;> ring1
    · refine ⟨1, by decide, ?_⟩
      obtain ⟨h8a, h8b⟩ := h8
      interval_cases j <;>
        simp [internalCellInterfaceSpec, hz, unitVector, midpoint, childElement] <;>
        refine ⟨?_, ?_, ?_⟩ <;> ring1
    · refine ⟨2, by decide, ?_⟩
      interval_cases j <;>
        simp [internalCellInterfaceSpec, hz, unitVector, midpoint, childElement] <;>
        refine ⟨?_, ?_, ?_⟩ <;> ring1
  · rw [h]
    have hn : numberInternalCellInterfaces nbCellsY nbCellsZ = 4 := by
      simp [numberInternalCellInterfaces, hz, hy]
    rw [hn] at hj
    have hax : j < 2 ∨ 2 ≤ j := by omega
    rcases hax with h2 | h2
    · refine ⟨0, by decide, ?_⟩
      interval_cases j <;>
        simp [internalCellInterfaceSpec, hz, hy, unitVector, midpoint, childElement] <;>
        ring1
    · refine ⟨1, by decide, ?_⟩
      interval_cases j <;>
        simp [internalCellInterfaceSpec, hz, hy, unitVector, midpoint, childElement] <;>
        ring1
  · rw [h]
    have hn : numberInternalCellInterfaces nbCellsY nbCellsZ = 1 := by
      simp [numberInternalCellInterfaces, hz, hy]
    rw [hn] at hj
    refine ⟨0, by decide, ?_⟩
    interval_cases j
    simp [internalCellInterfaceSpec, hz, hy, unitVector, midpoint, childElement]
    ring1

/-! ## Averaging of the children into the parent (C12) -/

theorem getD_zipWith_add (a b : List ℚ) (h : a.length = b.length) (j : Nat) :
    (List.zipWith (fun x y => x + 1 * y) a b).getD j 0 = a.getD j 0 + b.getD j 0 := by
  simp only [List.getD_eq_getElem?_getD, List.getElem?_zipWith]
  by_cases hj : j < a.length
  · have hj2 : j < b.length := h ▸ hj
    simp [List.getElem?_eq_getElem hj, List.getElem?_eq_getElem hj2]
  · have hj2 : ¬ j < b.length := h ▸ hj
    simp [List.getElem?_eq_none (not_lt.mp hj), List.getElem?_eq_none (not_lt.mp hj2)]

theorem comps_eq_range_getD (l : List ℚ) : l = (List.range l.length).map (fun j => l.getD j 0) := by
  apply List.ext_getElem
  · simp
  · intro i h1 h2
    simp [List.getD_eq_getElem?_getD, List.getElem?_eq_getElem h1]

/-- Accumulating a list of buffers of one length into a buffer of that length adds, component by
component, the sum of the list. -/
theorem foldl_addFlux_comps (snaps : List Flux) (acc : Flux) (n : Nat)
    (hacc : acc.comps.length = n) (hs : ∀ s ∈ snaps, s.comps.length = n) :
    (snaps.foldl (fun a s => a.addFlux s 1) acc).comps
      = (List.range n).map
          (fun j => acc.comps.getD j 0 + (snaps.map (fun s => s.comps.getD j 0)).sum) := by
  induction snaps generalizing acc with
  | nil =>
    simp only [List.foldl_nil, List.map_nil, List.sum_nil, add_zero]
    rw [← hacc]; exact comps_eq_range_getD _
  | cons s t ih =>
    have hsl : s.comps.length = n := hs s (List.mem_cons_self _ _)
    have hacc2 : (acc.addFlux s 1).comps.length = n := by
      simp [Flux.addFlux, hacc, hsl]
    rw [List.foldl_cons, ih (acc.addFlux s 1) hacc2 (fun x hx => hs x (List.mem_cons_of_mem _ hx))]
    apply List.map_congr_left
    intro j _
    simp only [Flux.addFlux, List.map_cons, List.sum_cons]
    rw [getD_zipWith_add _ _ (hacc.trans hsl.symm)]
    ring

theorem getD_setToZero (f : Flux) (j : Nat) : f.setToZero.comps.getD j 0 = 0 := by
  simp only [Flux.setToZero, List.getD_eq_getElem?_getD, List.getElem?_map]
  cases f.comps[j]? <;> rfl

/-- The buffer from which `averageChildrenInParent` rebuilds the parent. -/
theorem averaged_cons_eq_meanFlux (model : Model) (c : Cell)
    (hs : ∀ ch ∈ c.childrenCells,
      (model.setBufferFlux ch.data.vecPhases ch.data.mixture c.data.numberPhases).comps.length
        = c.data.cons.comps.length) :
    (c.childrenCells.foldl
        (fun acc ch =>
          acc.addFlux (model.setBufferFlux ch.data.vecPhases ch.data.mixture c.data.numberPhases) 1)
        c.data.cons.setToZero).multiply (1 / (c.childrenCells.length : ℚ))
      = meanFlux (childSnapshots model c) c.data.cons.comps.length := by
  have h1 : c.childrenCells.foldl
        (fun acc ch =>
          acc.addFlux (model.setBufferFlux ch.data.vecPhases ch.data.mixture c.data.numberPhases) 1)
        c.data.cons.setToZero
      = (childSnapshots model c).foldl (fun a s => a.addFlux s 1) c.data.cons.setToZero := by
    unfold childSnapshots; rw [List.foldl_map]
  rw [h1]
  have h2 := foldl_addFlux_comps (childSnapshots model c) c.data.cons.setToZero
    c.data.cons.comps.length (by simp [Flux.setToZero]) (by
      intro s hs'
      unfold childSnapshots at hs'
      obtain ⟨ch, hch, rfl⟩ := List.mem_map.mp hs'
      exact hs ch hch)
  unfold Flux.multiply meanFlux
  rw [h2]
  congr 1
  rw [List.map_map]
  apply List.map_congr_left
  intro j _
  simp only [Function.comp, getD_setToZero, zero_add]
  simp [childSnapshots]

theorem foldl_add_eq_sum {α : Type} (f : α → ℚ) (l : List α) (a : ℚ) :
    l.foldl (fun acc x => acc + f x) a = a + (l.map f).sum := by
  induction l generalizing a with
  | nil => simp
  | cons x t ih => simp only [List.foldl_cons, List.map_cons, List.sum_cons]; rw [ih]; ring

theorem sum_map_mul_const {α : Type} (f : α → ℚ) (l : List α) (v : ℚ) :
    (l.map (fun x => f x * v)).sum = (l.map f).sum * v := by
  induction l with
  | nil => simp
  | cons x t ih => simp only [List.map_cons, List.sum_cons]; rw [ih]; ring

theorem getD_meanFlux (snaps : List Flux) (n j : Nat) (hs : ∀ s ∈ snaps, s.comps.length = n) :
    (meanFlux snaps n).comps.getD j 0
      = (snaps.map (fun s => s.comps.getD j 0)).sum * (1 / (snaps.length : ℚ)) := by
  unfold meanFlux
  simp only [List.getD_eq_getElem?_getD, List.getElem?_map]
  by_cases hj : j < n
  · simp [List.getElem?_range hj]
  · have h0 : (snaps.map (fun s => s.comps[j]?.getD 0)) = snaps.map (fun _ => (0 : ℚ)) := by
      apply List.map_congr_left
      intro s hs'
      have := hs s hs'
      rw [List.getElem?_eq_none (by omega)]; rfl
    have h1 : (List.range n)[j]? = none := List.getElem?_eq_none (by simpa using not_lt.mp hj)
    rw [h0, h1]
    simp

/-- The fields written by `averageChildrenInParent` on a cell that has children. -/
theorem averageChildrenInParent_of_children (model : Model) (c : Cell)
    (hN : 0 < c.childrenCells.length) :
    c.averageChildrenInParent model =
      Cell.mk
        { c.data with
          vecPhases := (model.relaxations
            (model.buildPrim ((c.childrenCells.foldl
              (fun acc ch => acc.addFlux
                (model.setBufferFlux ch.data.vecPhases ch.data.mixture c.data.numberPhases) 1)
              c.data.cons.setToZero).multiply (1 / (c.childrenCells.length : ℚ)))
              c.data.vecPhases c.data.mixture c.data.numberPhases).1
            (model.buildPrim ((c.childrenCells.foldl
              (fun acc ch => acc.addFlux
                (model.setBufferFlux ch.data.vecPhases ch.data.mixture c.data.numberPhases) 1)
              c.data.cons.setToZero).multiply (1 / (c.childrenCells.length : ℚ)))
              c.data.vecPhases c.data.mixture c.data.numberPhases).2 c.data.numberPhases).1
          mixture := (model.relaxations
            (model.buildPrim ((c.childrenCells.foldl
              (fun acc ch => acc.addFlux
                (model.setBufferFlux ch.data.vecPhases ch.data.mixture c.data.numberPhases) 1)
              c.data.cons.setToZero).multiply (1 / (c.childrenCells.length : ℚ)))
              c.data.vecPhases c.data.mixture c.data.numberPhases).1
            (model.buildPrim ((c.childrenCells.foldl
              (fun acc ch => acc.addFlux
                (model.setBufferFlux ch.data.vecPhases ch.data.mixture c.data.numberPhases) 1)
              c.data.cons.setToZero).multiply (1 / (c.childrenCells.length : ℚ)))
              c.data.vecPhases c.data.mixture c.data.numberPhases).2 c.data.numberPhases).2
          vecTransports := c.data.vecTransports.mapIdx (fun k t =>
            if k < c.data.numberTransports then
              (c.childrenCells.map (fun ch => ch.data.vecTransports.getD k 0)).sum
                / (c.childrenCells.length : ℚ)
            else t)
          cons := ((c.childrenCells.foldl
              (fun acc ch => acc.addFlux
                (model.setBufferFlux ch.data.vecPhases ch.data.mixture c.data.numberPhases) 1)
              c.data.cons.setToZero).multiply (1 / (c.childrenCells.length : ℚ))).setToZero
          consTransports := c.data.consTransports.mapIdx (fun k t =>
            if k < c.data.numberTransports then 0 else t) }
        c.childrenCells := by
  unfold Cell.averageChildrenInParent
  simp only [gt_iff_lt, hN, if_true]
  congr 2
  have h : ∀ k : Nat, c.childrenCells.foldl (fun acc ch => acc + ch.data.vecTransports.getD k 0) 0
      = (c.childrenCells.map (fun ch => ch.data.vecTransports.getD k 0)).sum := by
    intro k; rw [foldl_add_eq_sum, zero_add]
  simp only [h]

theorem getD_mapIdx_ite (l : List ℚ) (n k : Nat) (v : Nat → ℚ) (hk : k < n) (hl : k < l.length) :
    (l.mapIdx (fun k t => if k < n then v k else t)).getD k 0 = v k := by
  simp [List.getD_eq_getElem?_getD, List.getElem?_mapIdx, List.getElem?_eq_getElem hl, hk]

/-! ## Refinement followed by coarsening (C11) -/

/-- Two cell records with the same core agree on every field of the physical state. -/
theorem fields_of_core_eq {d d' : CellData} (h : d.core = d'.core) :
    d.vecPhases = d'.vecPhases ∧ d.mixture = d'.mixture ∧ d.vecTransports = d'.vecTransports ∧
      d.numberPhases = d'.numberPhases ∧ d.numberTransports = d'.numberTransports ∧
      d.cons = d'.cons ∧ d.consTransports = d'.consTransports := by
  have e1 := congrArg CellData.vecPhases h
  have e2 := congrArg CellData.mixture h
  have e3 := congrArg CellData.vecTransports h
  have e4 := congrArg CellData.numberPhases h
  have e5 := congrArg CellData.numberTransports h
  have e6 := congrArg CellData.cons h
  have e7 := congrArg CellData.consTransports h
  exact ⟨e1, e2, e3, e4, e5, e6, e7⟩

theorem sameCore_unrefineExternalCellInterface (ops : InterfaceOps) (c : Cell) (b : Nat) :
    c.SameCore (unrefineExternalCellInterface ops c b) := by
  unfold unrefineExternalCellInterface
  split
  · exact Cell.SameCore.refl c
  · exact ⟨rfl, rfl⟩

/-- The own fields left by a coarsening, apart from the interface lists, are those left by the
averaging with `split` cleared. -/
theorem core_unrefine (ops : InterfaceOps) (model : Model) (c : Cell) :
    (c.unrefineCellAndCellInterfaces ops model).data.core
      = ({ (c.averageChildrenInParent model).data with split := false } : CellData).core := by
  unfold Cell.unrefineCellAndCellInterfaces
  simp only [Cell.data_mk]
  have h := (sameCore_foldl (unrefineExternalCellInterface ops)
    (sameCore_unrefineExternalCellInterface ops)
    (List.range (Cell.mk { (c.averageChildrenInParent model).data with
        childrenInternalCellInterfaces := [] }
      (c.averageChildrenInParent model).childrenCells).data.cellInterfaces.length)
    (Cell.mk { (c.averageChildrenInParent model).data with childrenInternalCellInterfaces := [] }
      (c.averageChildrenInParent model).childrenCells)).1
  have h1 := congrArg (fun d : CellData => ({ d with split := false } : CellData)) h
  exact h1

theorem internal_unrefine (ops : InterfaceOps) (model : Model) (c : Cell) :
    (c.unrefineCellAndCellInterfaces ops model).data.childrenInternalCellInterfaces = [] := by
  unfold Cell.unrefineCellAndCellInterfaces
  simp only [Cell.data_mk]
  generalize (List.range _) = l
  generalize hc2 : (Cell.mk { (c.averageChildrenInParent model).data with
      childrenInternalCellInterfaces := [] } (c.averageChildrenInParent model).childrenCells) = c2
  have h0 : c2.data.childrenInternalCellInterfaces = [] := by rw [← hc2]; rfl
  clear hc2
  induction l generalizing c2 with
  | nil => exact h0
  | cons b t ih =>
    rw [List.foldl_cons]
    apply ih
    unfold unrefineExternalCellInterface
    split
    · exact h0
    · exact h0

/-- Every child of a refined leaf cell holds the level, the element, the indicator and the
physical state given by the children loop. -/
theorem children_of_refine_leaf_fields (ops : InterfaceOps) (model : Model)
    (nbCellsY nbCellsZ : Int) (c : Cell) (hleaf : c.childrenCells = []) (ch : Cell)
    (hch : ch ∈ (c.refineCellAndCellInterfaces ops model nbCellsY nbCellsZ).childrenCells) :
    ch.data.mixture = c.data.mixture ∧
      ch.data.vecPhases = (List.range c.data.numberPhases).map
        (fun k => c.data.vecPhases.getD k model.allocatePhase) ∧
      ch.data.vecTransports = (List.range c.data.numberTransports).map
        (fun k => c.data.vecTransports.getD k 0) := by
  obtain ⟨i, hi, hget⟩ := List.getElem_of_mem hch
  have hlen := length_children_refine_leaf ops model nbCellsY nbCellsZ c hleaf
  obtain ⟨ch', hch', hstrip⟩ :=
    child_of_refine_leaf ops model nbCellsY nbCellsZ c hleaf i (by rw [← hlen]; exact hi)
  rw [List.getElem?_eq_getElem hi, hget] at hch'
  cases hch'
  obtain ⟨-, -, -, -, -, hmx, hph, htr, -⟩ := child_fields_of_strip model c.data _ i ch hstrip
  exact ⟨hmx, hph, htr⟩

theorem map_getD_range_length {α : Type} (l : List α) (d : α) :
    (List.range l.length).map (fun k => l.getD k d) = l := by
  apply List.ext_getElem
  · simp
  · intro i h1 h2
    simp [List.getD_eq_getElem?_getD, List.getElem?_eq_getElem h2]

theorem sum_map_const {α : Type} (l : List α) (v : ℚ) :
    (l.map (fun _ => v)).sum = (l.length : ℚ) * v := by
  induction l with
  | nil => simp
  | cons x t ih => simp only [List.map_cons, List.sum_cons, List.length_cons]; rw [ih]; push_cast; ring

/-- The mean of `N > 0` copies of a buffer is that buffer. -/
theorem meanFlux_const {α : Type} (l : List α) (s : Flux) (hl : 0 < l.length) :
    meanFlux (l.map (fun _ => s)) s.comps.length = s := by
  unfold meanFlux
  have hq : (l.length : ℚ) ≠ 0 := by exact_mod_cast (Nat.pos_iff_ne_zero.mp hl)
  have : (List.range s.comps.length).map
      (fun j => ((l.map (fun _ => s)).map (fun s => s.comps.getD j 0)).sum
        * (1 / ((l.map (fun _ => s)).length : ℚ)))
      = (List.range s.comps.length).map (fun j => s.comps.getD j 0) := by
    apply List.map_congr_left
    intro j _
    rw [List.map_map, List.length_map]
    have h2 : ((fun s : Flux => s.comps.getD j 0) ∘ fun _ : α => s)
        = fun _ : α => s.comps.getD j 0 := rfl
    rw [h2, sum_map_const]
    field_simp
  rw [this, map_getD_range_length]

/-- The averaging over the children of a refined leaf cell: the transports are those of the cell
before its refinement. -/
theorem vecTransports_average_refine_leaf (ops : InterfaceOps) (model : Model)
    (nbCellsY nbCellsZ : Int) (c : Cell) (hleaf : c.childrenCells = []) :
    ((c.refineCellAndCellInterfaces ops model nbCellsY nbCellsZ).averageChildrenInParent
      model).data.vecTransports = c.data.vecTransports := by
  have hN : 0 < (c.refineCellAndCellInterfaces ops model nbCellsY nbCellsZ).childrenCells.length := by
    rw [length_children_refine_leaf ops model nbCellsY nbCellsZ c hleaf]
    exact numberCellsChildren_pos nbCellsY nbCellsZ
  have hq : ((c.refineCellAndCellInterfaces ops model nbCellsY nbCellsZ).childrenCells.length : ℚ)
      ≠ 0 := by exact_mod_cast (Nat.pos_iff_ne_zero.mp hN)
  have hcore := core_refine ops model nbCellsY nbCellsZ c
  have htr : (c.refineCellAndCellInterfaces ops model nbCellsY nbCellsZ).data.vecTransports
      = c.data.vecTransports := by
    have h1 := congrArg CellData.vecTransports hcore
    exact h1
  have hnt : (c.refineCellAndCellInterfaces ops model nbCellsY nbCellsZ).data.numberTransports
      = c.data.numberTransports := by
    have h1 := congrArg CellData.numberTransports hcore
    exact h1
  rw [averageChildrenInParent_of_children model _ hN]
  simp only [Cell.data_mk, htr, hnt]
  apply List.ext_getElem
  · simp
  · intro k h1 h2
    simp only [List.getElem_mapIdx]
    split
    · rename_i hk
      have hsum : (c.refineCellAndCellInterfaces ops model nbCellsY nbCellsZ).childrenCells.map
            (fun ch => ch.data.vecTransports.getD k 0)
          = (c.refineCellAndCellInterfaces ops model nbCellsY nbCellsZ).childrenCells.map
            (fun _ => c.data.vecTransports[k]) := by
        apply List.map_congr_left
        intro ch hch
        rw [(children_of_refine_leaf_fields ops model nbCellsY nbCellsZ c hleaf ch hch).2.2]
        simp [List.getD_eq_getElem?_getD, List.getElem?_range hk, List.getElem?_eq_getElem h2]
      rw [hsum, sum_map_const]
      field_simp
    · rfl

/-! ## The guard against too low a neighbor (C13) -/

/-- C13, counterexample: a cell of level 1 whose interface list holds a two-sided interface that
joins it to a right cell of level 0 answers `false` because that interface is split; a cell of
level 1 whose list holds no two-sided interface answers `true` because of a boundary interface
whose left cell has level 0. -/
theorem lvlNeighborTooLow_internal_counterexample :
    (exampleCellSplitInterface.lvlNeighborTooLow = false ∧
      ∃ b ∈ exampleCellSplitInterface.data.cellInterfaces, ∃ r : CellRef,
        b.data.kind = .internal r ∧ b.data.cellGauche = exampleCellSplitInterface.ref ∧
          r.lvl < exampleCellSplitInterface.data.lvl) ∧
    (exampleCellBoundaryInterface.lvlNeighborTooLow = true ∧
      ∀ b ∈ exampleCellBoundaryInterface.data.cellInterfaces, ¬ b.whoAmI = 0) := by
  refine ⟨⟨by decide, ?_⟩, by decide, ?_⟩
  · refine ⟨_, List.mem_singleton.mpr rfl, ⟨⟨⟨1, 0, 0⟩, 0⟩, 0⟩, rfl, rfl, by decide⟩
  · intro b hb
    have hb' : b = CellInterface.mk
        { kind := .boundary 0, lvl := 0, split := false, face := exampleFace,
          cellGauche := ⟨⟨⟨0, 0, 0⟩, 0⟩, 0⟩ } [] := List.mem_singleton.mp hb
    rw [hb']
    decide

/-- C13, amended: `lvlNeighborTooLow` returns true if and only if some interface of the list of
the cell that is not split either is two-sided (Internal) with its left or its right cell at a
level below the level of the cell, or is a boundary interface with its left cell at a level below
the level of the cell. -/
theorem lvlNeighborTooLow_iff (c : Cell) :
    c.lvlNeighborTooLow = true ↔
      ∃ b ∈ c.data.cellInterfaces, b.getSplit = false ∧
        ((∃ r : CellRef, b.data.kind = .internal r ∧
            (b.data.cellGauche.lvl < c.data.lvl ∨ r.lvl < c.data.lvl)) ∨
          (∃ code : Nat, b.data.kind = .boundary code ∧ b.data.cellGauche.lvl < c.data.lvl)) := by
  unfold Cell.lvlNeighborTooLow
  rw [List.any_eq_true]
  constructor
  · rintro ⟨b, hb, h⟩
    refine ⟨b, hb, ?_⟩
    rw [Bool.and_eq_true] at h
    obtain ⟨h1, h2⟩ := h
    refine ⟨by simpa using h1, ?_⟩
    cases hk : b.data.kind with
    | internal r =>
      rw [hk] at h2
      simp only [Bool.or_eq_true, decide_eq_true_eq] at h2
      exact Or.inl ⟨r, rfl, h2⟩
    | boundary code =>
      rw [hk] at h2
      simp only [decide_eq_true_eq] at h2
      exact Or.inr ⟨code, rfl, h2⟩
  · rintro ⟨b, hb, h1, h2⟩
    refine ⟨b, hb, ?_⟩
    rw [Bool.and_eq_true]
    refine ⟨by simpa using h1, ?_⟩
    rcases h2 with ⟨r, hk, h⟩ | ⟨code, hk, h⟩
    · rw [hk]
      simpa only [Bool.or_eq_true, decide_eq_true_eq] using h
    · rw [hk]
      simpa only [decide_eq_true_eq] using h

/-! ## The directional filter of the pack functions (C14) -/

theorem sendsChild_label (dir : Direction) (i : Nat) :
    sendsChild dir.label i = true ↔ dir.emits i := by
  cases dir <;> simp [sendsChild, Direction.label, Direction.emits] <;> omega

theorem visitChildren_nil {σ : Type} (visit : Cell → σ → σ) (keep : Nat → Bool) (i : Nat)
    (st : σ) : visitChildren visit keep [] i st = st := rfl

theorem visitChildren_cons {σ : Type} (visit : Cell → σ → σ) (keep : Nat → Bool) (ch : Cell)
    (rest : List Cell) (i : Nat) (st : σ) :
    visitChildren visit keep (ch :: rest) i st
      = visitChildren visit keep rest (i + 1) (if keep i then visit ch st else st) := by
  unfold visitChildren
  by_cases h : keep i = true
  · simp [List.enumFrom, List.filter_cons, h]
  · simp [List.enumFrom, List.filter_cons, h]

theorem fillBufferXiChildren_eq (lvl : Int) (which : String) (cs : List Cell) (i : Nat)
    (buffer : Int → ℚ) (counter : Int) :
    fillBufferXiChildren lvl which cs i buffer counter
      = visitChildren (fun ch st => ch.fillBufferXi lvl which st.1 st.2) (sendsChild which) cs i
          (buffer, counter) := by
  induction cs generalizing i buffer counter with
  | nil => rfl
  | cons ch rest ih =>
    rw [visitChildren_cons, fillBufferXiChildren]
    split <;> exact ih _ _ _

theorem fillBufferSplitChildren_eq (lvl : Int) (which : String) (cs : List Cell) (i : Nat)
    (buffer : Int → Bool) (counter : Int) :
    fillBufferSplitChildren lvl which cs i buffer counter
      = visitChildren (fun ch st => ch.fillBufferSplit lvl which st.1 st.2) (sendsChild which) cs i
          (buffer, counter) := by
  induction cs generalizing i buffer counter with
  | nil => rfl
  | cons ch rest ih =>
    rw [visitChildren_cons, fillBufferSplitChildren]
    split <;> exact ih _ _ _

theorem fillBufferTransportsAMRChildren_eq (lvl : Int) (which : String) (cs : List Cell) (i : Nat)
    (buffer : Int → ℚ) (counter : Int) :
    fillBufferTransportsAMRChildren lvl which cs i buffer counter
      = visitChildren (fun ch st => ch.fillBufferTransportsAMR lvl which st.1 st.2)
          (sendsChild which) cs i (buffer, counter) := by
  induction cs generalizing i buffer counter with
  | nil => rfl
  | cons ch rest ih =>
    rw [visitChildren_cons, fillBufferTransportsAMRChildren]
    split <;> exact ih _ _ _

theorem fillBufferPrimitivesAMRChildren_eq (bops : BufferOps) (lvl : Int) (which : String)
    (cs : List Cell) (i : Nat) (buffer : Int → ℚ) (counter : Int) :
    fillBufferPrimitivesAMRChildren bops lvl which cs i buffer counter
      = visitChildren (fun ch st => ch.fillBufferPrimitivesAMR bops lvl which st.1 st.2)
          (sendsChild which) cs i (buffer, counter) := by
  induction cs generalizing i buffer counter with
  | nil => rfl
  | cons ch rest ih =>
    rw [visitChildren_cons, fillBufferPrimitivesAMRChildren]
    split <;> exact ih _ _ _

/-! ## Unpacking after packing (C15) -/

theorem writeValues_append {α : Type} (buffer : Int → α) (counter : Int) (vs ws : List α) :
    writeValues buffer counter (vs ++ ws)
      = writeValues (writeValues buffer counter vs) (counter + (vs.length : Int)) ws := by
  induction vs generalizing buffer counter with
  | nil => simp [writeValues]
  | cons v t ih =>
    rw [List.cons_append, writeValues, writeValues, ih]
    have e : counter + 1 + (t.length : Int) = counter + ((v :: t).length : Int) := by
      simp only [List.length_cons]
      push_cast
      ring
    rw [e]

/-- Writes made after a counter leave the buffer as it is up to that counter. -/
theorem writeValues_below {α : Type} (buffer : Int → α) (counter : Int) (vs : List α) (p : Int)
    (hp : p ≤ counter) : writeValues buffer counter vs p = buffer p := by
  induction vs generalizing buffer counter with
  | nil => rfl
  | cons v t ih =>
    simp only [writeValues]
    rw [ih _ _ (by omega), Function.update_noteq (by omega)]

/-- The value written at rank `k` is read back at `counter + 1 + k`. -/
theorem writeValues_read {α : Type} (buffer : Int → α) (counter : Int) (vs : List α) (k : Nat)
    (hk : k < vs.length) : writeValues buffer counter vs (counter + 1 + (k : Int)) = vs[k] := by
  induction vs generalizing buffer counter k with
  | nil => simp at hk
  | cons v t ih =>
    simp only [writeValues]
    cases k with
    | zero =>
      rw [writeValues_below _ _ _ _ (by simp)]
      have e : counter + 1 + ((0 : Nat) : Int) = counter + 1 := by simp
      rw [e, Function.update_same]
      rfl
    | succ k =>
      have h := ih (Function.update buffer (counter + 1) v) (counter + 1) k
        (by simpa using hk)
      simp only [List.getElem_cons_succ]
      rw [← h]
      congr 1
      push_cast
      ring

/-- Writes appended after a list of values leave the buffer as it is up to the last of them. -/
theorem writeValues_append_below {α : Type} (buffer : Int → α) (counter : Int) (vs ws : List α)
    (p : Int) (hp : p ≤ counter + (vs.length : Int)) :
    writeValues buffer counter (vs ++ ws) p = writeValues buffer counter vs p := by
  rw [writeValues_append, writeValues_below _ _ _ _ hp]

mutual
/-- The pack of the indicator below a cell writes the indicators of the direction-filtered
descendants of the exchange level, in the order of the visits. -/
theorem fillBufferXi_sentCells (lvl : Int) (which : String) :
    ∀ (c : Cell) (buffer : Int → ℚ) (counter : Int),
      c.fillBufferXi lvl which buffer counter
        = (writeValues buffer counter ((c.sentCells lvl which).map (fun x => x.data.xi)),
            counter + ((c.sentCells lvl which).length : Int))
  | Cell.mk d cs, buffer, counter => by
    rw [Cell.fillBufferXi, Cell.sentCells]
    split
    · simp [writeValues]
    · exact fillBufferXiChildren_sentCells lvl which cs 0 buffer counter
theorem fillBufferXiChildren_sentCells (lvl : Int) (which : String) :
    ∀ (cs : List Cell) (i : Nat) (buffer : Int → ℚ) (counter : Int),
      fillBufferXiChildren lvl which cs i buffer counter
        = (writeValues buffer counter
            ((sentCellsChildren lvl which cs i).map (fun x => x.data.xi)),
            counter + ((sentCellsChildren lvl which cs i).length : Int))
  | [], i, buffer, counter => by
    simp [fillBufferXiChildren, sentCellsChildren, writeValues]
  | ch :: rest, i, buffer, counter => by
    rw [fillBufferXiChildren, sentCellsChildren]
    split
    · simp only []
      rw [fillBufferXi_sentCells lvl which ch, fillBufferXiChildren_sentCells lvl which rest]
      simp only [List.map_append, writeValues_append, List.length_map, List.length_append]
      push_cast
      rw [add_assoc]
    · rw [fillBufferXiChildren_sentCells lvl which rest]
      simp
end

mutual
/-- The pack of the split flag below a cell writes the flags of the direction-filtered
descendants of the exchange level, in the order of the visits. -/
theorem fillBufferSplit_sentCells (lvl : Int) (which : String) :
    ∀ (c : Cell) (buffer : Int → Bool) (counter : Int),
      c.fillBufferSplit lvl which buffer counter
        = (writeValues buffer counter ((c.sentCells lvl which).map (fun x => x.data.split)),
            counter + ((c.sentCells lvl which).length : Int))
  | Cell.mk d cs, buffer, counter => by
    rw [Cell.fillBufferSplit, Cell.sentCells]
    split
    · simp [writeValues]
    · exact fillBufferSplitChildren_sentCells lvl which cs 0 buffer counter
theorem fillBufferSplitChildren_sentCells (lvl : Int) (which : String) :
    ∀ (cs : List Cell) (i : Nat) (buffer : Int → Bool) (counter : Int),
      fillBufferSplitChildren lvl which cs i buffer counter
        = (writeValues buffer counter
            ((sentCellsChildren lvl which cs i).map (fun x => x.data.split)),
            counter + ((sentCellsChildren lvl which cs i).length : Int))
  | [], i, buffer, counter => by
    simp [fillBufferSplitChildren, sentCellsChildren, writeValues]
  | ch :: rest, i, buffer, counter => by
    rw [fillBufferSplitChildren, sentCellsChildren]
    split
    · simp only []
      rw [fillBufferSplit_sentCells lvl which ch, fillBufferSplitChildren_sentCells lvl which rest]
      simp only [List.map_append, writeValues_append, List.length_map, List.length_append]
      push_cast
      rw [add_assoc]
    · rw [fillBufferSplitChildren_sentCells lvl which rest]
      simp
end

/-- The transports written by a cell of the exchange level. -/
theorem fillTransports_eq (d : CellData) (buffer : Int → ℚ) (counter : Int) :
    fillTransports d buffer counter
      = (writeValues buffer counter
          ((List.range d.numberTransports).map (fun k => d.vecTransports.getD k 0)),
          counter + (d.numberTransports : Int)) := by
  unfold fillTransports
  generalize d.numberTransports = n
  induction n with
  | zero => simp [writeValues]
  | succ n ih =>
    rw [List.range_succ, List.foldl_append, ih, List.map_append, writeValues_append]
    simp only [List.foldl_cons, List.foldl_nil, List.map_cons, List.map_nil, writeValues,
      List.length_map, List.length_range]
    congr 1
    push_cast
    ring

mutual
/-- The pack of the transports below a cell writes the transports of the direction-filtered
descendants of the exchange level, in the order of the visits. -/
theorem fillBufferTransportsAMR_sentCells (lvl : Int) (which : String) :
    ∀ (c : Cell) (buffer : Int → ℚ) (counter : Int),
      c.fillBufferTransportsAMR lvl which buffer counter
        = (writeValues buffer counter
            ((c.sentCells lvl which).flatMap (fun x =>
              (List.range x.data.numberTransports).map (fun k => x.data.vecTransports.getD k 0))),
            counter + (((c.sentCells lvl which).flatMap (fun x =>
              (List.range x.data.numberTransports).map
                (fun k => x.data.vecTransports.getD k 0))).length : Int))
  | Cell.mk d cs, buffer, counter => by
    rw [Cell.fillBufferTransportsAMR, Cell.sentCells]
    split
    · rw [fillTransports_eq]
      simp
    · exact fillBufferTransportsAMRChildren_sentCells lvl which cs 0 buffer counter
theorem fillBufferTransportsAMRChildren_sentCells (lvl : Int) (which : String) :
    ∀ (cs : List Cell) (i : Nat) (buffer : Int → ℚ) (counter : Int),
      fillBufferTransportsAMRChildren lvl which cs i buffer counter
        = (writeValues buffer counter
            ((sentCellsChildren lvl which cs i).flatMap (fun x =>
              (List.range x.data.numberTransports).map (fun k => x.data.vecTransports.getD k 0))),
            counter + (((sentCellsChildren lvl which cs i).flatMap (fun x =>
              (List.range x.data.numberTransports).map
                (fun k => x.data.vecTransports.getD k 0))).length : Int))
  | [], i, buffer, counter => by
    simp [fillBufferTransportsAMRChildren, sentCellsChildren, writeValues]
  | ch :: rest, i, buffer, counter => by
    rw [fillBufferTransportsAMRChildren, sentCellsChildren]
    split
    · simp only []
      rw [fillBufferTransportsAMR_sentCells lvl which ch,
        fillBufferTransportsAMRChildren_sentCells lvl which rest]
      simp only [List.flatMap_append, writeValues_append, List.length_append]
      push_cast
      rw [add_assoc]
    · rw [fillBufferTransportsAMRChildren_sentCells lvl which rest]
      simp
end

theorem readCells_append (read : CellData → Int → CellData × Int) (xs ys : List Cell)
    (counter : Int) :
    readCells read (xs ++ ys) counter
      = ((readCells read xs counter).1 ++ (readCells read ys (readCells read xs counter).2).1,
          (readCells read ys (readCells read xs counter).2).2) := by
  induction xs generalizing counter with
  | nil => simp [readCells]
  | cons x t ih =>
    show readCells read (x :: (t ++ ys)) counter = _
    simp only [readCells]
    rw [ih]
    simp

theorem foldl_setTransport (buffer : Int → ℚ) (d : CellData) (counter : Int) (n : Nat) :
    (List.range n).foldl
        (fun (st : CellData × Int) k =>
          ({ st.1 with vecTransports := st.1.vecTransports.set k (buffer (st.2 + 1)) }, st.2 + 1))
        (d, counter)
      = ({ d with vecTransports := d.vecTransports.mapIdx (fun k t =>
            if k < n then buffer (counter + 1 + (k : Int)) else t) },
          counter + (n : Int)) := by
  induction n with
  | zero =>
    simp only [List.range_zero, List.foldl_nil, Nat.not_lt_zero, if_false, Nat.cast_zero, add_zero]
    have : d.vecTransports.mapIdx (fun _ t => t) = d.vecTransports := by
      apply List.ext_getElem
      · simp
      · intro i h1 h2; simp
    rw [this]
  | succ n ih =>
    rw [List.range_succ, List.foldl_append, ih]
    simp only [List.foldl_cons, List.foldl_nil]
    have hl : (d.vecTransports.mapIdx (fun k t =>
          if k < n then buffer (counter + 1 + (k : Int)) else t)).set n
            (buffer (counter + (n : Int) + 1))
        = d.vecTransports.mapIdx (fun k t =>
          if k < n + 1 then buffer (counter + 1 + (k : Int)) else t) := by
      apply List.ext_getElem
      · simp
      · intro i h1 h2
        simp only [List.getElem_set, List.getElem_mapIdx]
        by_cases hin : n = i
        · subst hin
          simp only [if_true, Nat.lt_succ_self]
          congr 1
          ring
        · simp only [hin, if_false]
          by_cases hlt : i < n
          · simp [hlt, Nat.lt_succ_of_lt hlt]
          · have : ¬ i < n + 1 := by omega
            simp [hlt, this]
    rw [hl]
    congr 1
    push_cast
    ring

/-- The transports read by a cell of the exchange level. -/
theorem getTransports_eq (buffer : Int → ℚ) (d : CellData) (counter : Int) :
    getTransports buffer d counter
      = ({ d with vecTransports := d.vecTransports.mapIdx (fun k t =>
            if k < d.numberTransports then buffer (counter + 1 + (k : Int)) else t) },
          counter + (d.numberTransports : Int)) :=
  foldl_setTransport buffer d counter d.numberTransports

mutual
/-- The unpack of the indicator below a cell: the descendants of the exchange level read one
after the other. -/
theorem getBufferXi_receivingCells (buffer : Int → ℚ) (lvl : Int) :
    ∀ (c : Cell) (counter : Int),
      ((c.getBufferXi buffer lvl counter).1.receivingCells lvl,
          (c.getBufferXi buffer lvl counter).2)
        = readCells (fun d cnt => ({ d with xi := buffer (cnt + 1) }, cnt + 1))
            (c.receivingCells lvl) counter
  | Cell.mk d cs, counter => by
    rw [Cell.getBufferXi, Cell.receivingCells]
    split
    · rename_i h
      simp only [readCells, Cell.data_mk, Cell.childrenCells_mk]
      rw [Cell.receivingCells, if_pos h]
    · rename_i h
      simp only []
      rw [Cell.receivingCells, if_neg h]
      exact getBufferXiChildren_receivingCells buffer lvl cs counter
theorem getBufferXiChildren_receivingCells (buffer : Int → ℚ) (lvl : Int) :
    ∀ (cs : List Cell) (counter : Int),
      (receivingCellsChildren lvl (getBufferXiChildren buffer lvl cs counter).1,
          (getBufferXiChildren buffer lvl cs counter).2)
        = readCells (fun d cnt => ({ d with xi := buffer (cnt + 1) }, cnt + 1))
            (receivingCellsChildren lvl cs) counter
  | [], counter => by simp [getBufferXiChildren, receivingCellsChildren, readCells]
  | ch :: rest, counter => by
    rw [getBufferXiChildren]
    simp only [receivingCellsChildren]
    rw [readCells_append]
    have h1 := getBufferXi_receivingCells buffer lvl ch counter
    have h2 := getBufferXiChildren_receivingCells buffer lvl rest
      (ch.getBufferXi buffer lvl counter).2
    rw [← h1]
    simp only []
    rw [← h2]
end

mutual
/-- The unpack of the split flag below a cell: the descendants of the exchange level read one
after the other. -/
theorem getBufferSplit_receivingCells (buffer : Int → Bool) (lvl : Int) :
    ∀ (c : Cell) (counter : Int),
      ((c.getBufferSplit buffer lvl counter).1.receivingCells lvl,
          (c.getBufferSplit buffer lvl counter).2)
        = readCells (fun d cnt => ({ d with split := buffer (cnt + 1) }, cnt + 1))
            (c.receivingCells lvl) counter
  | Cell.mk d cs, counter => by
    rw [Cell.getBufferSplit, Cell.receivingCells]
    split
    · rename_i h
      simp only [readCells, Cell.data_mk, Cell.childrenCells_mk]
      rw [Cell.receivingCells, if_pos h]
    · rename_i h
      simp only []
      rw [Cell.receivingCells, if_neg h]
      exact getBufferSplitChildren_receivingCells buffer lvl cs counter
theorem getBufferSplitChildren_receivingCells (buffer : Int → Bool) (lvl : Int) :
    ∀ (cs : List Cell) (counter : Int),
      (receivingCellsChildren lvl (getBufferSplitChildren buffer lvl cs counter).1,
          (getBufferSplitChildren buffer lvl cs counter).2)
        = readCells (fun d cnt => ({ d with split := buffer (cnt + 1) }, cnt + 1))
            (receivingCellsChildren lvl cs) counter
  | [], counter => by simp [getBufferSplitChildren, receivingCellsChildren, readCells]
  | ch :: rest, counter => by
    rw [getBufferSplitChildren]
    simp only [receivingCellsChildren]
    rw [readCells_append]
    have h1 := getBufferSplit_receivingCells buffer lvl ch counter
    have h2 := getBufferSplitChildren_receivingCells buffer lvl rest
      (ch.getBufferSplit buffer lvl counter).2
    rw [← h1]
    simp only []
    rw [← h2]
end

mutual
/-- The unpack of the transports below a cell: the descendants of the exchange level read one
after the other. -/
theorem getBufferTransportsAMR_receivingCells (buffer : Int → ℚ) (lvl : Int) :
    ∀ (c : Cell) (counter : Int),
      ((c.getBufferTransportsAMR buffer lvl counter).1.receivingCells lvl,
          (c.getBufferTransportsAMR buffer lvl counter).2)
        = readCells (getTransports buffer) (c.receivingCells lvl) counter
  | Cell.mk d cs, counter => by
    rw [Cell.getBufferTransportsAMR, Cell.receivingCells]
    split
    · rename_i h
      simp only [readCells, Cell.data_mk, Cell.childrenCells_mk]
      have hl : (getTransports buffer d counter).1.lvl = lvl := by
        rw [getTransports_eq]; exact h
      rw [Cell.receivingCells, if_pos hl]
    · rename_i h
      simp only []
      rw [Cell.receivingCells, if_neg h]
      exact getBufferTransportsAMRChildren_receivingCells buffer lvl cs counter
theorem getBufferTransportsAMRChildren_receivingCells (buffer : Int → ℚ) (lvl : Int) :
    ∀ (cs : List Cell) (counter : Int),
      (receivingCellsChildren lvl (getBufferTransportsAMRChildren buffer lvl cs counter).1,
          (getBufferTransportsAMRChildren buffer lvl cs counter).2)
        = readCells (getTransports buffer) (receivingCellsChildren lvl cs) counter
  | [], counter => by simp [getBufferTransportsAMRChildren, receivingCellsChildren, readCells]
  | ch :: rest, counter => by
    rw [getBufferTransportsAMRChildren]
    simp only [receivingCellsChildren]
    rw [readCells_append]
    have h1 := getBufferTransportsAMR_receivingCells buffer lvl ch counter
    have h2 := getBufferTransportsAMRChildren_receivingCells buffer lvl rest
      (ch.getBufferTransportsAMR buffer lvl counter).2
    rw [← h1]
    simp only []
    rw [← h2]
end

/-- Reading, cell by cell, a buffer in which the values of a corresponding list of cells were
written from the same counter gives each reading cell the payload of its counterpart and leaves
the counter where the writes left it. The reads of a cell depend on the buffer only through the
positions of the values of its counterpart. -/
theorem readCells_writeValues {α β : Type} (emit : CellData → List α)
    (read : (Int → α) → CellData → Int → CellData × Int) (payload : CellData → β)
    (compat : CellData → CellData → Prop)
    (hcount : ∀ (buffer : Int → α) (g o : CellData) (counter : Int), compat g o →
      (read buffer g counter).2 = counter + ((emit o).length : Int))
    (hlocal : ∀ (b1 b2 : Int → α) (g o : CellData) (counter : Int), compat g o →
      (∀ p : Int, counter < p → p ≤ counter + ((emit o).length : Int) → b1 p = b2 p) →
      read b1 g counter = read b2 g counter)
    (hread : ∀ (buffer : Int → α) (g o : CellData) (counter : Int), compat g o →
      payload (read (writeValues buffer counter (emit o)) g counter).1 = payload o)
    (gs os : List Cell) (h : List.Forall₂ (fun g o => compat g.data o.data) gs os)
    (buffer : Int → α) (counter : Int) :
    (readCells (read (writeValues buffer counter (os.flatMap (fun o => emit o.data)))) gs
        counter).1.map (fun x => payload x.data) = os.map (fun o => payload o.data) ∧
      (readCells (read (writeValues buffer counter (os.flatMap (fun o => emit o.data)))) gs
        counter).2 = counter + ((os.flatMap (fun o => emit o.data)).length : Int) := by
  induction h generalizing buffer counter with
  | nil => simp [readCells]
  | @cons g o gs os hgo _ ih =>
    have hw : writeValues buffer counter ((o :: os).flatMap (fun o => emit o.data))
        = writeValues (writeValues buffer counter (emit o.data))
            (counter + ((emit o.data).length : Int)) (os.flatMap (fun o => emit o.data)) := by
      rw [List.flatMap_cons, writeValues_append]
    have hhead : read (writeValues buffer counter ((o :: os).flatMap (fun o => emit o.data)))
          g.data counter
        = read (writeValues buffer counter (emit o.data)) g.data counter := by
      apply hlocal _ _ _ _ _ hgo
      intro p _ hp2
      rw [hw, writeValues_below _ _ _ _ hp2]
    simp only [readCells, hhead, List.map_cons, Cell.data_mk]
    rw [hcount _ _ _ _ hgo, hw]
    obtain ⟨ih1, ih2⟩ := ih (writeValues buffer counter (emit o.data))
      (counter + ((emit o.data).length : Int))
    refine ⟨?_, ?_⟩
    · rw [ih1, hread _ _ _ _ hgo]
    · rw [ih2, List.flatMap_cons, List.length_append]
      push_cast
      ring

theorem forall₂_true_of_length_eq (gs os : List Cell) (h : gs.length = os.length) :
    List.Forall₂ (fun (g o : Cell) => (fun (_ _ : CellData) => True) g.data o.data) gs os := by
  induction gs generalizing os with
  | nil =>
    cases os with
    | nil => exact List.Forall₂.nil
    | cons o t => simp at h
  | cons g t ih =>
    cases os with
    | nil => simp at h
    | cons o t' => exact List.Forall₂.cons trivial (ih t' (by simpa using h))

theorem flatMap_singleton_eq_map {α : Type} (f : Cell → α) (l : List Cell) :
    l.flatMap (fun x => [f x]) = l.map f := by
  induction l with
  | nil => rfl
  | cons a t ih => simp [List.flatMap_cons, ih]

/-- C15: when the cells of level `lvl` below a ghost correspond one to one, in the order of the
visits, to the direction-filtered descendants of level `lvl` of an owner, packing the owner with
`fillBufferTransportsAMR` (respectively `fillBufferXi`, `fillBufferSplit`) and unpacking the
buffer obtained from the same starting counter with `getBufferTransportsAMR` (respectively
`getBufferXi`, `getBufferSplit`) leaves the cells of level `lvl` below the ghost with the
transports (respectively the indicator, the split flag) of their counterparts, and both sides
leave the counter at the same value. For the transports, counterparts hold the same number of
transports, each as many as its transport array has entries. -/
theorem unpack_after_pack (lvl : Int) (which : String) (o g : Cell)
    (hlen : (g.receivingCells lvl).length = (o.sentCells lvl which).length) :
    (∀ (buffer : Int → ℚ) (counter : Int),
      List.Forall₂
        (fun (gc oc : Cell) => gc.data.numberTransports = oc.data.numberTransports ∧
          gc.data.vecTransports.length = gc.data.numberTransports ∧
          oc.data.vecTransports.length = oc.data.numberTransports)
        (g.receivingCells lvl) (o.sentCells lvl which) →
      ((g.getBufferTransportsAMR (o.fillBufferTransportsAMR lvl which buffer counter).1 lvl
          counter).1.receivingCells lvl).map (fun x => x.data.vecTransports)
        = (o.sentCells lvl which).map (fun x => x.data.vecTransports) ∧
      (g.getBufferTransportsAMR (o.fillBufferTransportsAMR lvl which buffer counter).1 lvl
          counter).2 = (o.fillBufferTransportsAMR lvl which buffer counter).2) ∧
    (∀ (buffer : Int → ℚ) (counter : Int),
      ((g.getBufferXi (o.fillBufferXi lvl which buffer counter).1 lvl
          counter).1.receivingCells lvl).map (fun x => x.data.xi)
        = (o.sentCells lvl which).map (fun x => x.data.xi) ∧
      (g.getBufferXi (o.fillBufferXi lvl which buffer counter).1 lvl counter).2
        = (o.fillBufferXi lvl which buffer counter).2) ∧
    (∀ (buffer : Int → Bool) (counter : Int),
      ((g.getBufferSplit (o.fillBufferSplit lvl which buffer counter).1 lvl
          counter).1.receivingCells lvl).map (fun x => x.data.split)
        = (o.sentCells lvl which).map (fun x => x.data.split) ∧
      (g.getBufferSplit (o.fillBufferSplit lvl which buffer counter).1 lvl counter).2
        = (o.fillBufferSplit lvl which buffer counter).2) := by
  refine ⟨?_, ?_, ?_⟩
  · intro buffer counter hcorr
    have hu := getBufferTransportsAMR_receivingCells
      (o.fillBufferTransportsAMR lvl which buffer counter).1 lvl g counter
    have h1 := congrArg Prod.fst hu
    have h2 := congrArg Prod.snd hu
    simp only at h1 h2
    rw [h1, h2, fillBufferTransportsAMR_sentCells]
    simp only
    refine readCells_writeValues
      (fun d => (List.range d.numberTransports).map (fun k => d.vecTransports.getD k 0))
      getTransports (fun d => d.vecTransports)
      (fun gd od => gd.numberTransports = od.numberTransports ∧
        gd.vecTransports.length = gd.numberTransports ∧
        od.vecTransports.length = od.numberTransports)
      ?_ ?_ ?_ _ _ hcorr buffer counter
    · intro b gd od c hc
      rw [getTransports_eq]
      simp [hc.1]
    · intro b1 b2 gd od c hc hb
      rw [getTransports_eq, getTransports_eq]
      congr 2
      apply List.ext_getElem
      · simp
      · intro i h1 h2
        simp only [List.getElem_mapIdx]
        split
        · rename_i hi
          apply hb
          · omega
          · simp only [List.length_map, List.length_range]
            have := hc.1
            omega
        · rfl
    · intro b gd od c hc
      rw [getTransports_eq]
      simp only
      apply List.ext_getElem
      · simp [hc.2.1, hc.2.2, hc.1]
      · intro i h1 h2
        simp only [List.getElem_mapIdx]
        have hi : i < gd.numberTransports := by
          have := hc.2.1
          simp at h1
          omega
        rw [if_pos hi, writeValues_read _ _ _ i (by simp; rw [← hc.1]; exact hi)]
        simp [List.getD_eq_getElem?_getD, List.getElem?_eq_getElem h2]
  · intro buffer counter
    have hu := getBufferXi_receivingCells (o.fillBufferXi lvl which buffer counter).1 lvl g counter
    have h1 := congrArg Prod.fst hu
    have h2 := congrArg Prod.snd hu
    simp only at h1 h2
    rw [h1, h2, fillBufferXi_sentCells]
    simp only
    have hr := readCells_writeValues (fun d => [d.xi])
      (fun (b : Int → ℚ) (d : CellData) (cnt : Int) => ({ d with xi := b (cnt + 1) }, cnt + 1))
      (fun d => d.xi) (fun _ _ => True)
      (by intro b gd od c _; simp)
      (by
        intro b1 b2 gd od c _ hb
        simp only [List.length_singleton, Nat.cast_one] at hb
        simp only [hb (c + 1) (by omega) (by omega)])
      (by intro b gd od c _; simp [writeValues])
      _ _ (forall₂_true_of_length_eq _ _ hlen) buffer counter
    rw [flatMap_singleton_eq_map (fun x => x.data.xi)] at hr
    simpa using hr
  · intro buffer counter
    have hu := getBufferSplit_receivingCells (o.fillBufferSplit lvl which buffer counter).1 lvl g
      counter
    have h1 := congrArg Prod.fst hu
    have h2 := congrArg Prod.snd hu
    simp only at h1 h2
    rw [h1, h2, fillBufferSplit_sentCells]
    simp only
    have hr := readCells_writeValues (fun d => [d.split])
      (fun (b : Int → Bool) (d : CellData) (cnt : Int) =>
        ({ d with split := b (cnt + 1) }, cnt + 1))
      (fun d => d.split) (fun _ _ => True)
      (by intro b gd od c _; simp)
      (by
        intro b1 b2 gd od c _ hb
        simp only [List.length_singleton, Nat.cast_one] at hb
        simp only [hb (c + 1) (by omega) (by omega)])
      (by intro b gd od c _; simp [writeValues])
      _ _ (forall₂_true_of_length_eq _ _ hlen) buffer counter
    rw [flatMap_singleton_eq_map (fun x => x.data.split)] at hr
    simpa using hr

theorem unpack_after_pack_witness :
    (exampleGhostCell.receivingCells 1).length = (exampleOwnerCell.sentCells 1 "RIGHT").length ∧
      ((exampleGhostCell.getBufferXi
          (exampleOwnerCell.fillBufferXi 1 "RIGHT" (fun _ => 0) 0).1 1 0).1.receivingCells 1).map
          (fun x => x.data.xi) = [5] ∧
      ((exampleGhostCell.getBufferTransportsAMR
          (exampleOwnerCell.fillBufferTransportsAMR 1 "RIGHT" (fun _ => 0) 0).1 1
            0).1.receivingCells 1).map (fun x => x.data.vecTransports) = [[3]] :=
  ⟨by decide,
    ((unpack_after_pack 1 "RIGHT" exampleOwnerCell exampleGhostCell (by decide)).2.1
      (fun _ => 0) 0).1,
    ((unpack_after_pack 1 "RIGHT" exampleOwnerCell exampleGhostCell (by decide)).1
      (fun _ => 0) 0 (List.Forall₂.cons (by decide) List.Forall₂.nil)).1⟩

/-! ## Initial topology: keys, ghost cells and exchange lists (C16, C17) -/

theorem map_modify_of_preserved {α β : Type} (g : α → β) (f : α → α) (hf : ∀ a, g (f a) = g a)
    (l : List α) (j : Nat) : (l.modify f j).map g = l.map g := by
  induction l generalizing j with
  | nil => cases j <;> rfl
  | cons a t ih =>
    cases j with
    | zero => simp [List.modify_zero_cons, hf]
    | succ j => simp [List.modify_succ_cons, ih]

theorem forall_mem_modify {α : Type} (P : α → Prop) (f : α → α) (hf : ∀ a, P a → P (f a))
    (l : List α) (j : Nat) (h : ∀ a ∈ l, P a) : ∀ a ∈ l.modify f j, P a := by
  induction l generalizing j with
  | nil => cases j <;> simp
  | cons a t ih =>
    cases j with
    | zero =>
      intro x hx
      simp only [List.modify_zero_cons, List.mem_cons] at hx
      rcases hx with rfl | hx
      · exact hf _ (h _ (List.mem_cons_self _ _))
      · exact h _ (List.mem_cons_of_mem _ hx)
    | succ j =>
      intro x hx
      simp only [List.modify_succ_cons, List.mem_cons] at hx
      rcases hx with rfl | hx
      · exact h _ (List.mem_cons_self _ _)
      · exact ih j (fun a ha => h a (List.mem_cons_of_mem _ ha)) x hx

theorem Cell.key_addCellInterface (c : Cell) (b : CellInterface) :
    (c.addCellInterface b).key = c.key := by
  cases c; rfl

theorem Cell.lvl_addCellInterface (c : Cell) (b : CellInterface) :
    (c.addCellInterface b).data.lvl = c.data.lvl := by
  cases c; rfl

theorem drop_modify_map_key (cs : List Cell) (b : CellInterface) (j n : Nat) :
    ((cs.modify (fun c => c.addCellInterface b) j).drop n).map Cell.key
      = (cs.drop n).map Cell.key := by
  rw [List.map_drop, List.map_drop,
    map_modify_of_preserved Cell.key _ (fun a => Cell.key_addCellInterface a b)]

theorem take_modify_map_key (cs : List Cell) (b : CellInterface) (j n : Nat) :
    ((cs.modify (fun c => c.addCellInterface b) j).take n).map Cell.key
      = (cs.take n).map Cell.key := by
  rw [List.map_take, List.map_take,
    map_modify_of_preserved Cell.key _ (fun a => Cell.key_addCellInterface a b)]

theorem findIdx?_key_eq_none (cs : List Cell) (nKey : Key) :
    cs.findIdx? (fun c => decide (c.data.element.key = nKey)) = none ↔ nKey ∉ cs.map Cell.key := by
  rw [List.findIdx?_eq_none_iff]
  simp only [decide_eq_false_iff_not, List.mem_map, not_exists, not_and, Cell.key]

theorem lvl_modify_add (cs : List Cell) (b : CellInterface) (j : Nat)
    (h : ∀ c ∈ cs, c.data.lvl = 0) :
    ∀ c ∈ cs.modify (fun c => c.addCellInterface b) j, c.data.lvl = 0 :=
  forall_mem_modify (fun c : Cell => c.data.lvl = 0) (fun c => c.addCellInterface b)
    (fun a ha => by
      show (a.addCellInterface b).data.lvl = 0
      rw [Cell.lvl_addCellInterface]; exact ha) cs j h

theorem key_baseCell (m : MeshCartesian) (key : Key) (numCell : Nat) :
    ((Cell.new 0).setElement (baseElement m key numCell)).key = key := rfl

theorem ref_baseCell (m : MeshCartesian) (key : Key) (numCell : Nat) :
    ((Cell.new 0).setElement (baseElement m key numCell)).ref = ⟨key, 0⟩ := rfl

theorem lvl_baseCell (m : MeshCartesian) (key : Key) (numCell : Nat) :
    ((Cell.new 0).setElement (baseElement m key numCell)).data.lvl = 0 := rfl

/-- The keys and the exchange lists after the branch of a ghost neighbor. -/
theorem connectGhost_keys (m : MeshCartesian) (n : Nat) (s : MeshContainers) (i : Nat) (ci : Cell)
    (nKey : Key) (neighbour : Int) (face : Face) (gl : Bool) :
    (connectGhost m n s i ci nKey neighbour face gl).cells.map Cell.key
        = s.cells.map Cell.key ++ (if nKey ∈ s.ghostKeys n then [] else [nKey]) ∧
      (∀ r : Int, (connectGhost m n s i ci nKey neighbour face gl).sendKeys r
        = if r = neighbour ∧ ci.key ∉ s.sendKeys neighbour then s.sendKeys r ++ [ci.key]
          else s.sendKeys r) ∧
      (∀ r : Int, (connectGhost m n s i ci nKey neighbour face gl).receiveKeys r
        = if r = neighbour ∧ nKey ∉ s.ghostKeys n then s.receiveKeys r ++ [nKey]
          else s.receiveKeys r) ∧
      ((∀ c ∈ s.cells, c.data.lvl = 0) →
        ∀ c ∈ (connectGhost m n s i ci nKey neighbour face gl).cells, c.data.lvl = 0) := by
  have hsend : ∀ r : Int,
      ((if (s.elementsToSend neighbour).any (fun r => decide (r.key = ci.data.element.key)) then
          s.elementsToSend
        else Function.update s.elementsToSend neighbour (s.elementsToSend neighbour ++ [ci.ref]))
        r).map CellRef.key
      = if r = neighbour ∧ ci.key ∉ s.sendKeys neighbour then s.sendKeys r ++ [ci.key]
        else s.sendKeys r := by
    intro r
    by_cases hany : (s.elementsToSend neighbour).any (fun r => decide (r.key = ci.data.element.key))
        = true
    · rw [if_pos hany]
      have : ci.key ∈ s.sendKeys neighbour := by
        rw [List.any_eq_true] at hany
        obtain ⟨x, hx, hxk⟩ := hany
        exact List.mem_map.mpr ⟨x, hx, by simpa using hxk⟩
      rw [if_neg (fun h => h.2 this)]
      rfl
    · rw [if_neg hany]
      have : ci.key ∉ s.sendKeys neighbour := by
        intro hmem
        apply hany
        rw [List.any_eq_true]
        obtain ⟨x, hx, hxk⟩ := List.mem_map.mp hmem
        exact ⟨x, hx, by simpa using hxk⟩
      by_cases hr : r = neighbour
      · subst hr
        rw [if_pos ⟨rfl, this⟩]
        simp [MeshContainers.sendKeys, Cell.ref, Cell.key]
      · rw [if_neg (fun h => hr h.1), Function.update_noteq hr]
        rfl
  unfold connectGhost
  simp only
  cases hfind : (s.cells.drop n).findIdx? (fun c => decide (c.data.element.key = nKey)) with
  | none =>
    have hnot : nKey ∉ s.ghostKeys n := (findIdx?_key_eq_none _ _).mp hfind
    have c0 : ¬ (nKey ∈ s.ghostKeys n) := hnot
    simp only
    refine ⟨?_, ?_, ?_, ?_⟩
    · rw [if_neg c0, List.map_append,
        map_modify_of_preserved Cell.key _ (fun a => Cell.key_addCellInterface a _)]
      rw [List.map_singleton, Cell.key_addCellInterface, key_baseCell]
    · intro r; exact hsend r
    · intro r
      by_cases hr : r = neighbour
      · have c1 : r = neighbour ∧ nKey ∉ s.ghostKeys n := ⟨hr, hnot⟩
        rw [if_pos c1]
        subst hr
        simp only [MeshContainers.receiveKeys, Function.update_same, List.map_append,
          List.map_singleton, ref_baseCell]
      · have c1 : ¬ (r = neighbour ∧ nKey ∉ s.ghostKeys n) := fun h => hr h.1
        rw [if_neg c1]
        simp [MeshContainers.receiveKeys, Function.update_noteq hr]
    · intro hl c hc
      rw [List.mem_append] at hc
      rcases hc with hc | hc
      · exact lvl_modify_add _ _ _ hl c hc
      · rw [List.mem_singleton] at hc
        rw [hc, Cell.lvl_addCellInterface, lvl_baseCell]
  | some g =>
    have hmem : nKey ∈ s.ghostKeys n := by
      by_contra hnot
      rw [(findIdx?_key_eq_none _ _).mpr hnot] at hfind
      cases hfind
    simp only
    refine ⟨?_, ?_, ?_, ?_⟩
    · rw [if_pos hmem, List.append_nil,
        map_modify_of_preserved Cell.key _ (fun a => Cell.key_addCellInterface a _),
        map_modify_of_preserved Cell.key _ (fun a => Cell.key_addCellInterface a _)]
    · intro r; exact hsend r
    · intro r
      have c1 : ¬ (r = neighbour ∧ nKey ∉ s.ghostKeys n) := fun h => h.2 hmem
      rw [if_neg c1]
      rfl
    · intro hl
      exact lvl_modify_add _ _ _ (lvl_modify_add _ _ _ hl)

/-- One pass of the loop over the offsets: either the branch of a ghost neighbor is taken, when
the neighbor key lies inside the domain and is not a key of the rank, or the keys of the cells and
the exchange lists are left as they are. -/
theorem createCellInterface_cases (m : MeshCartesian) (decomp : Decomposition) (n i : Nat)
    (s : MeshContainers) (idx : Nat) (K : List Key) (ci : Cell)
    (hget : s.cells.get? i = some ci) (hK : (s.cells.take n).map Cell.key = K) :
    (ghostNeighbor decomp K ci.key idx →
      ∃ (face : Face) (gl : Bool), createCellInterface m decomp n i s idx
        = connectGhost m n s i ci (ci.key.neighbor (offsets idx))
            (decomp.get_rank (ci.key.neighbor (offsets idx))) face gl) ∧
    (¬ ghostNeighbor decomp K ci.key idx →
      (createCellInterface m decomp n i s idx).cells.map Cell.key = s.cells.map Cell.key ∧
      (createCellInterface m decomp n i s idx).elementsToSend = s.elementsToSend ∧
      (createCellInterface m decomp n i s idx).elementsToReceive = s.elementsToReceive ∧
      ((∀ c ∈ s.cells, c.data.lvl = 0) →
        ∀ c ∈ (createCellInterface m decomp n i s idx).cells, c.data.lvl = 0)) := by
  have hfindK : ∀ nKey : Key,
      (s.cells.take n).findIdx? (fun c => decide (c.data.element.key = nKey)) = none
        ↔ nKey ∉ K := by
    intro nKey
    rw [findIdx?_key_eq_none, hK]
  unfold createCellInterface ghostNeighbor
  rw [hget]
  simp only
  by_cases hin : decomp.is_inside (ci.key.neighbor (offsets idx)).coordinate = true
  · have hin' : decomp.is_inside ⟨ci.data.element.key.coordinate.x + (offsets idx).x,
        ci.data.element.key.coordinate.y + (offsets idx).y,
        ci.data.element.key.coordinate.z + (offsets idx).z⟩ = true := hin
    rw [hin']
    simp only [Bool.not_true, Bool.false_eq_true, if_false]
    by_cases hpos : (offsets idx).x > 0 ∨ (offsets idx).y > 0 ∨ (offsets idx).z > 0
    · rw [if_pos hpos]
      cases hfind : (s.cells.take n).findIdx?
          (fun c => decide (c.data.element.key = ci.data.element.key.neighbor (offsets idx))) with
      | none =>
        have hnot := (hfindK _).mp hfind
        refine ⟨fun _ => ⟨_, _, rfl⟩, fun h => absurd ⟨hin, hnot⟩ h⟩
      | some j =>
        have hmem : ci.data.element.key.neighbor (offsets idx) ∈ K := by
          by_contra hnot
          rw [(hfindK _).mpr hnot] at hfind
          cases hfind
        refine ⟨fun h => absurd hmem h.2, fun _ => ⟨?_, rfl, rfl, ?_⟩⟩
        · simp only
          rw [map_modify_of_preserved Cell.key _ (fun a => Cell.key_addCellInterface a _),
            map_modify_of_preserved Cell.key _ (fun a => Cell.key_addCellInterface a _)]
        · intro hl
          exact lvl_modify_add _ _ _ (lvl_modify_add _ _ _ hl)
    · rw [if_neg hpos]
      cases hfind : (s.cells.take n).findIdx?
          (fun c => decide (c.data.element.key = ci.data.element.key.neighbor (offsets idx))) with
      | none =>
        have hnot := (hfindK _).mp hfind
        refine ⟨fun _ => ⟨_, _, rfl⟩, fun h => absurd ⟨hin, hnot⟩ h⟩
      | some j =>
        have hmem : ci.data.element.key.neighbor (offsets idx) ∈ K := by
          by_contra hnot
          rw [(hfindK _).mpr hnot] at hfind
          cases hfind
        exact ⟨fun h => absurd hmem h.2, fun _ => ⟨rfl, rfl, rfl, fun hl => hl⟩⟩
  · have hin' : decomp.is_inside ⟨ci.data.element.key.coordinate.x + (offsets idx).x,
        ci.data.element.key.coordinate.y + (offsets idx).y,
        ci.data.element.key.coordinate.z + (offsets idx).z⟩ = false := by
      simpa using hin
    rw [hin']
    simp only [Bool.not_false, if_true]
    refine ⟨fun h => absurd h.1 hin, fun _ => ⟨?_, trivial, trivial, ?_⟩⟩
    · rw [map_modify_of_preserved Cell.key _ (fun a => Cell.key_addCellInterface a _)]
    · intro hl
      exact lvl_modify_add _ _ _ hl

/-- The keys of the cells and of the exchange lists after one pass of the loop over the offsets. -/
theorem createCellInterface_keys (m : MeshCartesian) (decomp : Decomposition) (n i : Nat)
    (s : MeshContainers) (idx : Nat) (K : List Key) (ci : Cell)
    (hget : s.cells.get? i = some ci) (hK : (s.cells.take n).map Cell.key = K) :
    (createCellInterface m decomp n i s idx).cells.map Cell.key
        = s.cells.map Cell.key ++
          (if ghostNeighbor decomp K ci.key idx ∧ ci.key.neighbor (offsets idx) ∉ s.ghostKeys n
           then [ci.key.neighbor (offsets idx)] else []) ∧
      (∀ r : Int, (createCellInterface m decomp n i s idx).sendKeys r
        = if ghostNeighbor decomp K ci.key idx ∧
              r = decomp.get_rank (ci.key.neighbor (offsets idx)) ∧
              ci.key ∉ s.sendKeys (decomp.get_rank (ci.key.neighbor (offsets idx)))
          then s.sendKeys r ++ [ci.key] else s.sendKeys r) ∧
      (∀ r : Int, (createCellInterface m decomp n i s idx).receiveKeys r
        = if ghostNeighbor decomp K ci.key idx ∧
              r = decomp.get_rank (ci.key.neighbor (offsets idx)) ∧
              ci.key.neighbor (offsets idx) ∉ s.ghostKeys n
          then s.receiveKeys r ++ [ci.key.neighbor (offsets idx)] else s.receiveKeys r) ∧
      ((∀ c ∈ s.cells, c.data.lvl = 0) →
        ∀ c ∈ (createCellInterface m decomp n i s idx).cells, c.data.lvl = 0) := by
  obtain ⟨h1, h2⟩ := createCellInterface_cases m decomp n i s idx K ci hget hK
  by_cases hg : ghostNeighbor decomp K ci.key idx
  · obtain ⟨face, gl, he⟩ := h1 hg
    rw [he]
    obtain ⟨ha, hb, hc, hd⟩ := connectGhost_keys m n s i ci (ci.key.neighbor (offsets idx))
      (decomp.get_rank (ci.key.neighbor (offsets idx))) face gl
    refine ⟨?_, ?_, ?_, hd⟩
    · rw [ha]
      by_cases hmem : ci.key.neighbor (offsets idx) ∈ s.ghostKeys n
      · have c1 : ¬ (ghostNeighbor decomp K ci.key idx ∧
            ci.key.neighbor (offsets idx) ∉ s.ghostKeys n) := fun h => h.2 hmem
        rw [if_pos hmem, if_neg c1]
      · have c1 : ghostNeighbor decomp K ci.key idx ∧
            ci.key.neighbor (offsets idx) ∉ s.ghostKeys n := ⟨hg, hmem⟩
        rw [if_neg hmem, if_pos c1]
    · intro r
      rw [hb r]
      simp only [hg, true_and]
    · intro r
      rw [hc r]
      simp only [hg, true_and]
  · obtain ⟨ha, hb, hc, hd⟩ := h2 hg
    refine ⟨?_, ?_, ?_, hd⟩
    · rw [ha]
      simp only [hg, false_and, if_false, List.append_nil]
    · intro r
      simp only [hg, false_and, if_false, MeshContainers.sendKeys, hb]
    · intro r
      simp only [hg, false_and, if_false, MeshContainers.receiveKeys, hc]

theorem ghostKeys_eq (n : Nat) (s : MeshContainers) :
    s.ghostKeys n = (s.cells.map Cell.key).drop n := by
  unfold MeshContainers.ghostKeys
  rw [List.map_drop]

theorem length_le_of_take_map (cs : List Cell) (K : List Key)
    (hK : (cs.take K.length).map Cell.key = K) : K.length ≤ cs.length := by
  have h := congrArg List.length hK
  simp only [List.length_map, List.length_take] at h
  omega

/-- One pass of the loop over the offsets, for a cell of the rank, keeps what the loops
maintain. -/
theorem topologyInv_step (m : MeshCartesian) (decomp : Decomposition) (K : List Key) (i idx : Nat)
    (s : MeshContainers) (hi : i < K.length) (hidx : idx < 6) (h : TopologyInv decomp K s) :
    TopologyInv decomp K (createCellInterface m decomp K.length i s idx) := by
  obtain ⟨hK, hl, hnd, hrecv, hgo, hso⟩ := h
  have hlen := length_le_of_take_map s.cells K hK
  have hi' : i < s.cells.length := by omega
  have hget : s.cells.get? i = some s.cells[i] := by
    rw [List.get?_eq_getElem?, List.getElem?_eq_getElem hi']
  have hkey : (s.cells[i]).key = K[i] := by
    have h1 : ((s.cells.take K.length).map Cell.key)[i]? = K[i]? := by rw [hK]
    rw [List.getElem?_map, List.getElem?_take, if_pos hi, List.getElem?_eq_getElem hi',
      List.getElem?_eq_getElem hi] at h1
    simpa using h1
  have hkmem : (s.cells[i]).key ∈ K := by rw [hkey]; exact List.getElem_mem _
  obtain ⟨ha, hb, hc, hd⟩ := createCellInterface_keys m decomp K.length i s idx K _ hget hK
  have hgk : (createCellInterface m decomp K.length i s idx).ghostKeys K.length
      = s.ghostKeys K.length ++
        (if ghostNeighbor decomp K (s.cells[i]).key idx ∧
            (s.cells[i]).key.neighbor (offsets idx) ∉ s.ghostKeys K.length
         then [(s.cells[i]).key.neighbor (offsets idx)] else []) := by
    rw [ghostKeys_eq, ha, List.drop_append_of_le_length (by simpa using hlen), ← ghostKeys_eq]
  refine ⟨?_, hd hl, ?_, ?_, ?_, ?_⟩
  · rw [List.map_take, ha, List.take_append_of_le_length (by simpa using hlen), ← List.map_take]
    exact hK
  · rw [hgk]
    split
    · rename_i hc1
      rw [List.nodup_append]
      refine ⟨hnd, List.nodup_singleton _, ?_⟩
      intro x hx hx'
      rw [List.mem_singleton] at hx'
      subst hx'
      exact hc1.2 hx
    · simpa using hnd
  · intro r
    rw [hc r, hgk, List.filter_append, hrecv r]
    by_cases hg : ghostNeighbor decomp K (s.cells[i]).key idx ∧
        (s.cells[i]).key.neighbor (offsets idx) ∉ s.ghostKeys K.length
    · rw [if_pos hg]
      by_cases hr : r = decomp.get_rank ((s.cells[i]).key.neighbor (offsets idx))
      · have c1 : ghostNeighbor decomp K (s.cells[i]).key idx ∧
            r = decomp.get_rank ((s.cells[i]).key.neighbor (offsets idx)) ∧
            (s.cells[i]).key.neighbor (offsets idx) ∉ s.ghostKeys K.length := ⟨hg.1, hr, hg.2⟩
        rw [if_pos c1]
        simp [hr]
      · have c1 : ¬ (ghostNeighbor decomp K (s.cells[i]).key idx ∧
            r = decomp.get_rank ((s.cells[i]).key.neighbor (offsets idx)) ∧
            (s.cells[i]).key.neighbor (offsets idx) ∉ s.ghostKeys K.length) := fun h => hr h.2.1
        rw [if_neg c1]
        have : decomp.get_rank ((s.cells[i]).key.neighbor (offsets idx)) ≠ r := fun h => hr h.symm
        simp [this]
    · rw [if_neg hg]
      have c1 : ¬ (ghostNeighbor decomp K (s.cells[i]).key idx ∧
          r = decomp.get_rank ((s.cells[i]).key.neighbor (offsets idx)) ∧
          (s.cells[i]).key.neighbor (offsets idx) ∉ s.ghostKeys K.length) :=
        fun h => hg ⟨h.1, h.2.2⟩
      rw [if_neg c1]
      simp
  · intro g hg
    rw [hgk, List.mem_append] at hg
    rcases hg with hg | hg
    · exact hgo g hg
    · split at hg
      · rename_i hc1
        rw [List.mem_singleton] at hg
        exact ⟨_, hkmem, idx, hidx, hc1.1, hg.symm⟩
      · simp at hg
  · intro r k hk
    rw [hb r] at hk
    split at hk
    · rename_i hc1
      rw [List.mem_append, List.mem_singleton] at hk
      rcases hk with hk | hk
      · exact hso r k hk
      · subst hk
        exact ⟨hkmem, idx, hidx, hc1.1, hc1.2.1.symm⟩
    · exact hso r k hk

theorem foldl_flatMap_eq {α β σ : Type} (f : σ → β → σ) (g : α → List β) (l : List α) (s : σ) :
    (l.flatMap g).foldl f s = l.foldl (fun s a => (g a).foldl f s) s := by
  induction l generalizing s with
  | nil => rfl
  | cons a t ih => rw [List.flatMap_cons, List.foldl_append, ih, List.foldl_cons]

/-- The two nested loops visit the pairs (cell index, offset index) in the order of
`topologySteps`. -/
theorem foldl_topologySteps {σ : Type} (step : Nat → σ → Nat → σ) (n : Nat) (s : σ) :
    (List.range n).foldl (fun s i => (List.range 6).foldl (step i) s) s
      = (topologySteps n).foldl (fun s p => step p.1 s p.2) s := by
  unfold topologySteps
  rw [foldl_flatMap_eq]
  simp only [List.foldl_map]

theorem mem_topologySteps (n : Nat) (p : Nat × Nat) :
    p ∈ topologySteps n ↔ p.1 < n ∧ p.2 < 6 := by
  unfold topologySteps
  simp only [List.mem_flatMap, List.mem_range, List.mem_map]
  constructor
  · rintro ⟨i, hi, idx, hidx, rfl⟩
    exact ⟨hi, hidx⟩
  · rintro ⟨h1, h2⟩
    exact ⟨p.1, h1, p.2, h2, rfl⟩

theorem foldl_invariant {σ ι : Type} (f : σ → ι → σ) (Inv : σ → Prop) (l : List ι)
    (hinv : ∀ s, ∀ a ∈ l, Inv s → Inv (f s a)) (s : σ) (hs : Inv s) : Inv (l.foldl f s) := by
  induction l generalizing s with
  | nil => exact hs
  | cons a t ih =>
    rw [List.foldl_cons]
    exact ih (fun s b hb => hinv s b (List.mem_cons_of_mem _ hb)) _
      (hinv s a (List.mem_cons_self _ _) hs)

/-- A property established by the pass of each element and kept by every later pass holds for
every element after the loop. -/
theorem foldl_established {σ ι : Type} (f : σ → ι → σ) (Inv : σ → Prop) (Done : ι → σ → Prop)
    (l : List ι) (hinv : ∀ s, ∀ a ∈ l, Inv s → Inv (f s a))
    (hdone : ∀ s, ∀ a ∈ l, Inv s → Done a (f s a))
    (hmono : ∀ s, ∀ a ∈ l, ∀ b, Inv s → Done b s → Done b (f s a)) (s : σ) (hs : Inv s) :
    ∀ a ∈ l, Done a (l.foldl f s) := by
  induction l generalizing s with
  | nil => intro a ha; cases ha
  | cons x t ih =>
    intro a ha
    rw [List.foldl_cons]
    have hx : Inv (f s x) := hinv s x (List.mem_cons_self _ _) hs
    rcases List.mem_cons.mp ha with rfl | hat
    · have hd : Done a (f s a) := hdone s a (List.mem_cons_self _ _) hs
      have key : ∀ (u : List ι) (s' : σ), (∀ b ∈ u, b ∈ a :: t) → Inv s' → Done a s' →
          Done a (u.foldl f s') := by
        intro u
        induction u with
        | nil => intro s' _ _ hd'; exact hd'
        | cons y u ihu =>
          intro s' hsub hs' hd'
          rw [List.foldl_cons]
          exact ihu _ (fun b hb => hsub b (List.mem_cons_of_mem _ hb))
            (hinv s' y (hsub y (List.mem_cons_self _ _)) hs')
            (hmono s' y (hsub y (List.mem_cons_self _ _)) a hs' hd')
      exact key t _ (fun b hb => List.mem_cons_of_mem _ hb) hx hd
    · exact ih (fun s b hb => hinv s b (List.mem_cons_of_mem _ hb))
        (fun s b hb => hdone s b (List.mem_cons_of_mem _ hb))
        (fun s b hb => hmono s b (List.mem_cons_of_mem _ hb)) _ hx a hat

theorem sublist_of_append_singleton {α : Type} (l t : List α) (x : α) (h : l.Sublist (t ++ [x]))
    (hx : x ∉ l) : l.Sublist t := by
  have h1 : l.reverse.Sublist (x :: t.reverse) := by
    have := List.reverse_sublist.mpr h
    simpa using this
  rw [List.sublist_cons_iff] at h1
  rcases h1 with h1 | ⟨r, hr, _⟩
  · exact List.reverse_sublist.mp h1
  · exfalso
    apply hx
    have : x ∈ l.reverse := by rw [hr]; exact List.mem_cons_self _ _
    simpa using this

/-- The ghost keys and the send lists after one pass of the loop over the offsets for the cell of
index `i` of the rank, in terms of the key `K[i]` of that cell. -/
theorem createCellInterface_effect (m : MeshCartesian) (decomp : Decomposition) (K : List Key)
    (i idx : Nat) (s : MeshContainers) (hi : i < K.length) (h : TopologyInv decomp K s) :
    (createCellInterface m decomp K.length i s idx).ghostKeys K.length
        = s.ghostKeys K.length ++
          (if ghostNeighbor decomp K K[i] idx ∧
              K[i].neighbor (offsets idx) ∉ s.ghostKeys K.length
           then [K[i].neighbor (offsets idx)] else []) ∧
      (∀ r : Int, (createCellInterface m decomp K.length i s idx).sendKeys r
        = if ghostNeighbor decomp K K[i] idx ∧
              r = decomp.get_rank (K[i].neighbor (offsets idx)) ∧
              K[i] ∉ s.sendKeys (decomp.get_rank (K[i].neighbor (offsets idx)))
          then s.sendKeys r ++ [K[i]] else s.sendKeys r) := by
  obtain ⟨hK, -⟩ := h
  have hlen := length_le_of_take_map s.cells K hK
  have hi' : i < s.cells.length := by omega
  have hget : s.cells.get? i = some s.cells[i] := by
    rw [List.get?_eq_getElem?, List.getElem?_eq_getElem hi']
  have hkey : (s.cells[i]).key = K[i] := by
    have h1 : ((s.cells.take K.length).map Cell.key)[i]? = K[i]? := by rw [hK]
    rw [List.getElem?_map, List.getElem?_take, if_pos hi, List.getElem?_eq_getElem hi',
      List.getElem?_eq_getElem hi] at h1
    simpa using h1
  obtain ⟨ha, hb, -, -⟩ := createCellInterface_keys m decomp K.length i s idx K _ hget hK
  rw [hkey] at ha hb
  refine ⟨?_, hb⟩
  rw [ghostKeys_eq, ha, List.drop_append_of_le_length (by simpa using hlen), ← ghostKeys_eq]

/-- After the two loops started without ghost cell and with empty exchange lists: what the loops
maintain holds, the keys of each send list follow the order of the keys of the rank, and every
neighbor relation to a key outside the rank has its ghost cell and its entry in the send list of
the rank of the neighbor. -/
theorem topology_loops (m : MeshCartesian) (decomp : Decomposition) (K : List Key)
    (s0 : MeshContainers) (h0 : TopologyInv decomp K s0) (hs0 : ∀ r : Int, s0.sendKeys r = []) :
    TopologyInv decomp K
        ((List.range K.length).foldl
          (fun s i => (List.range 6).foldl (createCellInterface m decomp K.length i) s) s0) ∧
      (∀ r : Int, (((List.range K.length).foldl
          (fun s i => (List.range 6).foldl (createCellInterface m decomp K.length i) s)
          s0).sendKeys r).Sublist K) ∧
      (∀ (i : Nat) (hi : i < K.length) (idx : Nat), idx < 6 → ghostNeighbor decomp K K[i] idx →
        K[i].neighbor (offsets idx) ∈ ((List.range K.length).foldl
          (fun s i => (List.range 6).foldl (createCellInterface m decomp K.length i) s)
          s0).ghostKeys K.length ∧
        K[i] ∈ ((List.range K.length).foldl
          (fun s i => (List.range 6).foldl (createCellInterface m decomp K.length i) s)
          s0).sendKeys (decomp.get_rank (K[i].neighbor (offsets idx)))) := by
  refine ⟨?_, ?_, ?_⟩
  · rw [foldl_topologySteps]
    apply foldl_invariant _ (TopologyInv decomp K) _ _ _ h0
    intro s p hp hs
    rw [mem_topologySteps] at hp
    exact topologyInv_step m decomp K p.1 p.2 s hp.1 hp.2 hs
  · have key : ∀ n' : Nat, n' ≤ K.length →
        TopologyInv decomp K ((List.range n').foldl
          (fun s i => (List.range 6).foldl (createCellInterface m decomp K.length i) s) s0) ∧
        ∀ r : Int, (((List.range n').foldl
          (fun s i => (List.range 6).foldl (createCellInterface m decomp K.length i) s)
          s0).sendKeys r).Sublist (K.take n') := by
      intro n'
      induction n' with
      | zero =>
        intro _
        refine ⟨h0, fun r => ?_⟩
        simp only [List.range_zero, List.foldl_nil, hs0 r, List.take_zero]
        exact List.Sublist.refl _
      | succ n' ih =>
        intro hn
        obtain ⟨hinv, hsub⟩ := ih (by omega)
        have erange : List.range (n' + 1) = List.range n' ++ [n'] := List.range_succ n'
        rw [erange, List.foldl_append, List.foldl_cons, List.foldl_nil]
        have hlt : n' < K.length := by omega
        have htake : K.take (n' + 1) = K.take n' ++ [K[n']] := by
          rw [List.take_succ, List.getElem?_eq_getElem hlt]; rfl
        apply foldl_invariant _
          (fun s => TopologyInv decomp K s ∧ ∀ r : Int, (s.sendKeys r).Sublist (K.take (n' + 1)))
        · intro s idx hidx ⟨hs1, hs2⟩
          rw [List.mem_range] at hidx
          refine ⟨topologyInv_step m decomp K n' idx s hlt hidx hs1, fun r => ?_⟩
          rw [(createCellInterface_effect m decomp K n' idx s hlt hs1).2 r]
          split
          · rename_i hc
            have h1 := hs2 r
            rw [htake] at h1 ⊢
            rw [hc.2.1] at h1 ⊢
            exact List.Sublist.append (sublist_of_append_singleton _ _ _ h1 hc.2.2)
              (List.Sublist.refl _)
          · exact hs2 r
        · refine ⟨hinv, fun r => ?_⟩
          rw [htake]
          exact (hsub r).trans (List.sublist_append_left _ _)
    intro r
    have := (key K.length (le_refl _)).2 r
    rwa [List.take_length] at this
  · intro i hi idx hidx hg
    rw [foldl_topologySteps]
    have hall := foldl_established
      (fun (s : MeshContainers) (p : Nat × Nat) => createCellInterface m decomp K.length p.1 s p.2)
      (TopologyInv decomp K)
      (fun p s => ∀ (hp : p.1 < K.length), ghostNeighbor decomp K K[p.1] p.2 →
        K[p.1].neighbor (offsets p.2) ∈ s.ghostKeys K.length ∧
        K[p.1] ∈ s.sendKeys (decomp.get_rank (K[p.1].neighbor (offsets p.2))))
      (topologySteps K.length)
      (by
        intro s p hp hs
        rw [mem_topologySteps] at hp
        exact topologyInv_step m decomp K p.1 p.2 s hp.1 hp.2 hs)
      (by
        intro s p hp hs hp1 hgn
        obtain ⟨e1, e2⟩ := createCellInterface_effect m decomp K p.1 p.2 s hp1 hs
        constructor
        · rw [e1]
          by_cases hmem : K[p.1].neighbor (offsets p.2) ∈ s.ghostKeys K.length
          · exact List.mem_append_left _ hmem
          · have c1 : ghostNeighbor decomp K K[p.1] p.2 ∧
                K[p.1].neighbor (offsets p.2) ∉ s.ghostKeys K.length := ⟨hgn, hmem⟩
            rw [if_pos c1]
            exact List.mem_append_right _ (List.mem_singleton.mpr rfl)
        · rw [e2]
          by_cases hmem : K[p.1] ∈ s.sendKeys (decomp.get_rank (K[p.1].neighbor (offsets p.2)))
          · have c1 : ¬ (ghostNeighbor decomp K K[p.1] p.2 ∧
                decomp.get_rank (K[p.1].neighbor (offsets p.2))
                  = decomp.get_rank (K[p.1].neighbor (offsets p.2)) ∧
                K[p.1] ∉ s.sendKeys (decomp.get_rank (K[p.1].neighbor (offsets p.2)))) :=
              fun h => h.2.2 hmem
            rw [if_neg c1]
            exact hmem
          · have c1 : ghostNeighbor decomp K K[p.1] p.2 ∧
                decomp.get_rank (K[p.1].neighbor (offsets p.2))
                  = decomp.get_rank (K[p.1].neighbor (offsets p.2)) ∧
                K[p.1] ∉ s.sendKeys (decomp.get_rank (K[p.1].neighbor (offsets p.2))) :=
              ⟨hgn, rfl, hmem⟩
            rw [if_pos c1]
            exact List.mem_append_right _ (List.mem_singleton.mpr rfl))
      (by
        intro s p hp q hs hq hq1 hgn
        rw [mem_topologySteps] at hp
        obtain ⟨e1, e2⟩ := createCellInterface_effect m decomp K p.1 p.2 s hp.1 hs
        obtain ⟨d1, d2⟩ := hq hq1 hgn
        constructor
        · rw [e1]
          exact List.mem_append_left _ d1
        · rw [e2]
          split
          · exact List.mem_append_left _ d2
          · exact d2)
      s0 h0 (i, idx) ((mem_topologySteps _ _).mpr ⟨hi, hidx⟩)
    exact hall hi hg

theorem map_key_mapIdx_baseCell (m : MeshCartesian) (K : List Key) :
    (K.mapIdx (fun i key => (Cell.new 0).setElement (baseElement m key i))).map Cell.key = K := by
  apply List.ext_getElem
  · simp
  · intro i h1 h2
    simp only [List.getElem_map, List.getElem_mapIdx]
    rfl

/-- The containers handed over by `initializeGeometrieAMR` satisfy what the loops maintain. -/
theorem topologyInv_initial (m : MeshCartesian) (decomp : Decomposition) (K : List Key) :
    TopologyInv decomp K
      ⟨K.mapIdx (fun i key => (Cell.new 0).setElement (baseElement m key i)), [],
        fun _ => [], fun _ => []⟩ := by
  have hlen : (K.mapIdx (fun i key => (Cell.new 0).setElement (baseElement m key i))).length
      = K.length := by simp
  refine ⟨?_, ?_, ?_, ?_, ?_, ?_⟩
  · simp only
    rw [← hlen, List.take_length, map_key_mapIdx_baseCell]
  · intro c hc
    simp only at hc
    obtain ⟨i, hi, rfl⟩ := List.getElem_of_mem hc
    rw [List.getElem_mapIdx]
    rfl
  · simp only [MeshContainers.ghostKeys]
    rw [← hlen, List.drop_length]
    exact List.nodup_nil
  · intro r
    simp only [MeshContainers.ghostKeys, MeshContainers.receiveKeys]
    rw [← hlen, List.drop_length]
    rfl
  · intro g hg
    simp only [MeshContainers.ghostKeys] at hg
    rw [← hlen, List.drop_length] at hg
    cases hg
  · intro r k hk
    cases hk

/-- The state after the two loops of `createCellInterfacesFacesAndGhostCells` on the rank
`rankCpu`. -/
theorem initializeGeometrieAMR_eq (m : MeshCartesian) (decomp : Decomposition)
    (keyLess : Key → Key → Bool) (Ncpu rankCpu : Int) :
    ∃ s1 : MeshContainers,
      s1 = (List.range (decomp.get_keys rankCpu).length).foldl
          (fun s i => (List.range 6).foldl
            (createCellInterface m decomp (decomp.get_keys rankCpu).length i) s)
          ⟨(decomp.get_keys rankCpu).mapIdx
            (fun i key => (Cell.new 0).setElement (baseElement m key i)), [],
            fun _ => [], fun _ => []⟩ ∧
      (initializeGeometrieAMR m decomp keyLess Ncpu rankCpu).cells = s1.cells ∧
      (initializeGeometrieAMR m decomp keyLess Ncpu rankCpu).elementsToSend = s1.elementsToSend ∧
      (∀ r : Int, (initializeGeometrieAMR m decomp keyLess Ncpu rankCpu).elementsToReceive r
        = if Ncpu > 1 ∧ 0 ≤ r ∧ r < Ncpu then
            (s1.elementsToReceive r).insertionSort (fun a b => keyLess b.key a.key = false)
          else s1.elementsToReceive r) := by
  refine ⟨_, rfl, ?_, ?_, ?_⟩
  · unfold initializeGeometrieAMR createCellInterfacesFacesAndGhostCells
    simp only [List.length_mapIdx]
    split <;> rfl
  · unfold initializeGeometrieAMR createCellInterfacesFacesAndGhostCells
    simp only [List.length_mapIdx]
    split <;> rfl
  · intro r
    unfold initializeGeometrieAMR createCellInterfacesFacesAndGhostCells
    simp only [List.length_mapIdx]
    by_cases hN : Ncpu > 1
    · rw [if_pos hN]
      simp only [hN, true_and]
    · rw [if_neg hN]
      simp only [hN, false_and, if_false]

/-- The exchange lists built on a rank, `K` being the keys of the rank: the keys of a send list
follow the order of `K` and are the keys of `K` with a neighbor inside the domain, not in `K`, of
the rank of the list; the keys of a receive list are pairwise distinct and are the neighbors
inside the domain, not in `K`, of the keys of `K`, that belong to the rank of the list; no two
ghost cells have the same key. -/
theorem exchange_lists_of_rank (m : MeshCartesian) (decomp : Decomposition)
    (keyLess : Key → Key → Bool) (Ncpu rankCpu : Int) :
    (∀ r : Int, ((initializeGeometrieAMR m decomp keyLess Ncpu rankCpu).sendKeys r).Sublist
        (decomp.get_keys rankCpu)) ∧
      (∀ (r : Int) (k : Key), k ∈ (initializeGeometrieAMR m decomp keyLess Ncpu rankCpu).sendKeys r ↔
        k ∈ decomp.get_keys rankCpu ∧ ∃ idx : Nat, idx < 6 ∧
          ghostNeighbor decomp (decomp.get_keys rankCpu) k idx ∧
          decomp.get_rank (k.neighbor (offsets idx)) = r) ∧
      (∀ r : Int, ((initializeGeometrieAMR m decomp keyLess Ncpu rankCpu).receiveKeys r).Nodup) ∧
      (∀ (r : Int) (g : Key),
        g ∈ (initializeGeometrieAMR m decomp keyLess Ncpu rankCpu).receiveKeys r ↔
        decomp.get_rank g = r ∧ ∃ k ∈ decomp.get_keys rankCpu, ∃ idx : Nat, idx < 6 ∧
          ghostNeighbor decomp (decomp.get_keys rankCpu) k idx ∧ k.neighbor (offsets idx) = g) ∧
      ((initializeGeometrieAMR m decomp keyLess Ncpu rankCpu).ghostKeys
        (decomp.get_keys rankCpu).length).Nodup := by
  obtain ⟨s1, hs1, hcells, hsend, hrecv⟩ := initializeGeometrieAMR_eq m decomp keyLess Ncpu rankCpu
  obtain ⟨hinv, hsub, hdone⟩ := topology_loops m decomp (decomp.get_keys rankCpu)
    ⟨(decomp.get_keys rankCpu).mapIdx
      (fun i key => (Cell.new 0).setElement (baseElement m key i)), [], fun _ => [], fun _ => []⟩
    (topologyInv_initial m decomp _) (fun _ => rfl)
  rw [← hs1] at hinv hsub hdone
  obtain ⟨-, -, hnd, hrk, hgo, hso⟩ := hinv
  have hsk : ∀ r : Int, (initializeGeometrieAMR m decomp keyLess Ncpu rankCpu).sendKeys r
      = s1.sendKeys r := by
    intro r; unfold MeshContainers.sendKeys; rw [hsend]
  have hgk : (initializeGeometrieAMR m decomp keyLess Ncpu rankCpu).ghostKeys
      (decomp.get_keys rankCpu).length = s1.ghostKeys (decomp.get_keys rankCpu).length := by
    unfold MeshContainers.ghostKeys; rw [hcells]
  have hperm : ∀ r : Int, ((initializeGeometrieAMR m decomp keyLess Ncpu rankCpu).receiveKeys r).Perm
      (s1.receiveKeys r) := by
    intro r
    unfold MeshContainers.receiveKeys
    rw [hrecv r]
    split
    · exact (List.perm_insertionSort _ _).map _
    · exact List.Perm.refl _
  have hmemg : ∀ (r : Int) (g : Key), g ∈ s1.receiveKeys r ↔
      decomp.get_rank g = r ∧ ∃ k ∈ decomp.get_keys rankCpu, ∃ idx : Nat, idx < 6 ∧
        ghostNeighbor decomp (decomp.get_keys rankCpu) k idx ∧ k.neighbor (offsets idx) = g := by
    intro r g
    rw [hrk r, List.mem_filter]
    simp only [decide_eq_true_eq]
    constructor
    · rintro ⟨hg, hr⟩
      exact ⟨hr, hgo g hg⟩
    · rintro ⟨hr, k, hk, idx, hidx, hgn, rfl⟩
      obtain ⟨i, hi, rfl⟩ := List.getElem_of_mem hk
      exact ⟨(hdone i hi idx hidx hgn).1, hr⟩
  refine ⟨?_, ?_, ?_, ?_, ?_⟩
  · intro r; rw [hsk]; exact hsub r
  · intro r k
    rw [hsk]
    constructor
    · intro hk; exact hso r k hk
    · rintro ⟨hk, idx, hidx, hgn, rfl⟩
      obtain ⟨i, hi, rfl⟩ := List.getElem_of_mem hk
      exact (hdone i hi idx hidx hgn).2
  · intro r
    rw [(hperm r).nodup_iff, hrk r]
    exact hnd.filter _
  · intro r g
    rw [(hperm r).mem_iff]
    exact hmemg r g
  · rw [hgk]; exact hnd

theorem oppositeIndex_lt (idx : Nat) (h : idx < 6) : oppositeIndex idx < 6 := by
  unfold oppositeIndex
  split <;> omega

theorem neighbor_oppositeIndex (k : Key) (idx : Nat) (h : idx < 6) :
    (k.neighbor (offsets idx)).neighbor (offsets (oppositeIndex idx)) = k := by
  cases k with
  | mk c l =>
    cases c with
    | mk x y z =>
      interval_cases idx <;> simp [oppositeIndex, offsets, Key.neighbor]

theorem neighbor_level (k : Key) (o : KeyCoord) : (k.neighbor o).level = k.level := rfl

theorem exampleDecomposition_owns : exampleDecomposition.Owns := by
  constructor
  · intro r
    unfold exampleDecomposition
    simp only
    split
    · exact List.nodup_singleton _
    · split
      · exact List.nodup_singleton _
      · exact List.nodup_nil
  · intro r k
    cases k with
    | mk c l =>
      cases c with
      | mk x y z =>
        unfold exampleDecomposition
        simp only [decide_eq_true_eq]
        by_cases h0 : r = 0
        · subst h0
          simp only [if_true, List.mem_singleton, Key.mk.injEq, KeyCoord.mk.injEq]
          constructor
          · rintro ⟨⟨rfl, rfl, rfl⟩, rfl⟩
            simp
          · rintro ⟨hl, ⟨_, _, hy, hz⟩, hx⟩
            exact ⟨⟨hx, hy, hz⟩, hl⟩
        · by_cases h1 : r = 1
          · subst h1
            simp only [if_true, List.mem_singleton, Key.mk.injEq, KeyCoord.mk.injEq,
              show ¬ ((1 : Int) = 0) by decide, if_false]
            constructor
            · rintro ⟨⟨rfl, rfl, rfl⟩, rfl⟩
              simp
            · rintro ⟨hl, ⟨_, _, hy, hz⟩, hx⟩
              exact ⟨⟨hx, hy, hz⟩, hl⟩
          · simp only [h0, h1, if_false, List.not_mem_nil, false_iff]
            rintro ⟨_, ⟨hx0, hx2, _, _⟩, hx⟩
            omega

/-- With a decomposition in which each rank holds the base keys it owns, the keys of the send
list of a rank `rankA` for another rank `rankB`, and the keys of the receive list of `rankB` for
`rankA`, are the keys of `rankA` that have a neighbor among the keys of `rankB`. -/
theorem mem_send_receive (m : MeshCartesian) (decomp : Decomposition)
    (keyLess : Key → Key → Bool) (Ncpu rankA rankB : Int) (hdec : decomp.Owns)
    (hAB : rankA ≠ rankB) (k : Key) :
    (k ∈ (initializeGeometrieAMR m decomp keyLess Ncpu rankA).sendKeys rankB ↔
        k ∈ adjacentKeys decomp rankA rankB) ∧
      (k ∈ (initializeGeometrieAMR m decomp keyLess Ncpu rankB).receiveKeys rankA ↔
        k ∈ adjacentKeys decomp rankA rankB) := by
  obtain ⟨-, hown⟩ := hdec
  have hadj : k ∈ adjacentKeys decomp rankA rankB ↔
      k ∈ decomp.get_keys rankA ∧ ∃ idx : Nat, idx < 6 ∧
        k.neighbor (offsets idx) ∈ decomp.get_keys rankB := by
    unfold adjacentKeys
    simp only [List.mem_filter, List.any_eq_true, List.mem_range, decide_eq_true_eq]
  constructor
  · rw [(exchange_lists_of_rank m decomp keyLess Ncpu rankA).2.1 rankB k, hadj]
    constructor
    · rintro ⟨hk, idx, hidx, ⟨hin, _⟩, hr⟩
      refine ⟨hk, idx, hidx, (hown rankB _).mpr ⟨?_, hin, hr⟩⟩
      rw [neighbor_level]
      exact ((hown rankA k).mp hk).1
    · rintro ⟨hk, idx, hidx, hn⟩
      obtain ⟨_, hin, hr⟩ := (hown rankB _).mp hn
      refine ⟨hk, idx, hidx, ⟨hin, ?_⟩, hr⟩
      intro hmem
      have := ((hown rankA _).mp hmem).2.2
      exact hAB (this.symm.trans hr)
  · rw [(exchange_lists_of_rank m decomp keyLess Ncpu rankB).2.2.2.1 rankA k, hadj]
    constructor
    · rintro ⟨hr, k', hk', idx, hidx, ⟨hin, _⟩, rfl⟩
      have hl : (k'.neighbor (offsets idx)).level = 0 := by
        rw [neighbor_level]; exact ((hown rankB k').mp hk').1
      refine ⟨(hown rankA _).mpr ⟨hl, hin, hr⟩, oppositeIndex idx, oppositeIndex_lt idx hidx, ?_⟩
      rw [neighbor_oppositeIndex k' idx hidx]
      exact hk'
    · rintro ⟨hk, idx, hidx, hn⟩
      obtain ⟨_, hink, hrk⟩ := (hown rankA k).mp hk
      refine ⟨hrk, k.neighbor (offsets idx), hn, oppositeIndex idx, oppositeIndex_lt idx hidx,
        ⟨?_, ?_⟩, neighbor_oppositeIndex k idx hidx⟩
      · rw [neighbor_oppositeIndex k idx hidx]; exact hink
      · rw [neighbor_oppositeIndex k idx hidx]
        intro hmem
        have := ((hown rankB _).mp hmem).2.2
        exact hAB (hrk.symm.trans this)

/-- C16: for a decomposition in which each rank holds, once each, the base keys inside the domain
that it owns, and for two distinct ranks A and B, after `createCellInterfacesFacesAndGhostCells`
has run on both ranks the send list of A for B has as many cells as the receive list of B for A
has ghost cells, both numbers being the number of keys of A with a face neighbor among the keys of
B, and neither list holds two cells of the same key. -/
theorem send_receive_same_number (m : MeshCartesian) (decomp : Decomposition)
    (keyLess : Key → Key → Bool) (Ncpu rankA rankB : Int) (hdec : decomp.Owns)
    (hAB : rankA ≠ rankB) :
    ((initializeGeometrieAMR m decomp keyLess Ncpu rankA).elementsToSend rankB).length
        = ((initializeGeometrieAMR m decomp keyLess Ncpu rankB).elementsToReceive rankA).length ∧
      ((initializeGeometrieAMR m decomp keyLess Ncpu rankA).elementsToSend rankB).length
        = (adjacentKeys decomp rankA rankB).length ∧
      (((initializeGeometrieAMR m decomp keyLess Ncpu rankA).elementsToSend rankB).map
        CellRef.key).Nodup ∧
      (((initializeGeometrieAMR m decomp keyLess Ncpu rankB).elementsToReceive rankA).map
        CellRef.key).Nodup := by
  have hA := exchange_lists_of_rank m decomp keyLess Ncpu rankA
  have hB := exchange_lists_of_rank m decomp keyLess Ncpu rankB
  have hndA : ((initializeGeometrieAMR m decomp keyLess Ncpu rankA).sendKeys rankB).Nodup :=
    (hA.1 rankB).nodup (hdec.1 rankA)
  have hndB : ((initializeGeometrieAMR m decomp keyLess Ncpu rankB).receiveKeys rankA).Nodup :=
    hB.2.2.1 rankA
  have hndF : (adjacentKeys decomp rankA rankB).Nodup := (hdec.1 rankA).filter _
  have p1 : ((initializeGeometrieAMR m decomp keyLess Ncpu rankA).sendKeys rankB).Perm
      (adjacentKeys decomp rankA rankB) :=
    (List.perm_ext_iff_of_nodup hndA hndF).mpr
      (fun k => (mem_send_receive m decomp keyLess Ncpu rankA rankB hdec hAB k).1)
  have p2 : ((initializeGeometrieAMR m decomp keyLess Ncpu rankB).receiveKeys rankA).Perm
      (adjacentKeys decomp rankA rankB) :=
    (List.perm_ext_iff_of_nodup hndB hndF).mpr
      (fun k => (mem_send_receive m decomp keyLess Ncpu rankA rankB hdec hAB k).2)
  have l1 := p1.length_eq
  have l2 := p2.length_eq
  simp only [MeshContainers.sendKeys, MeshContainers.receiveKeys, List.length_map] at l1 l2
  exact ⟨l1.trans l2.symm, l1, hndA, hndB⟩

theorem send_receive_same_number_witness :
    exampleDecomposition.Owns ∧ (0 : Int) ≠ 1 ∧
      ((initializeGeometrieAMR exampleMesh exampleDecomposition exampleKeyLess 2 0).elementsToSend
          1).length
        = ((initializeGeometrieAMR exampleMesh exampleDecomposition exampleKeyLess 2
          1).elementsToReceive 0).length :=
  ⟨exampleDecomposition_owns, by decide,
    (send_receive_same_number exampleMesh exampleDecomposition exampleKeyLess 2 0 1
      exampleDecomposition_owns (by decide)).1⟩

theorem cellInterfaces_modify_add (l : List Cell) (b : CellInterface) (a j : Nat) :
    ((l.modify (fun c => c.addCellInterface b) a)[j]?).map (fun c => c.data.cellInterfaces)
      = (l[j]?).map (fun c => c.data.cellInterfaces ++ (if a = j then [b] else [])) := by
  rw [List.getElem?_modify]
  cases l[j]? with
  | none => rfl
  | some c =>
    by_cases h : a = j
    · simp [h, Cell.addCellInterface]
    · simp [h]

theorem offsets_injective (k : Key) (idx idx' : Nat) (h : idx < 6) (h' : idx' < 6)
    (he : k.neighbor (offsets idx) = k.neighbor (offsets idx')) : idx = idx' := by
  cases k with
  | mk c l =>
    cases c with
    | mk x y z =>
      interval_cases idx <;> interval_cases idx' <;>
        first
        | rfl
        | (exfalso
           simp [offsets, Key.neighbor] at he)

theorem neighbor_ne_self (k : Key) (idx : Nat) (h : idx < 6) : k.neighbor (offsets idx) ≠ k := by
  cases k with
  | mk c l =>
    cases c with
    | mk x y z =>
      interval_cases idx <;> simp [offsets, Key.neighbor]

theorem oppositeIndex_oppositeIndex (idx : Nat) (h : idx < 6) :
    oppositeIndex (oppositeIndex idx) = idx := by
  interval_cases idx <;> rfl

theorem oppositeIndex_positive (idx : Nat) (h : idx < 6) :
    ((offsets (oppositeIndex idx)).x > 0 ∨ (offsets (oppositeIndex idx)).y > 0 ∨
        (offsets (oppositeIndex idx)).z > 0)
      ↔ ¬ ((offsets idx).x > 0 ∨ (offsets idx).y > 0 ∨ (offsets idx).z > 0) := by
  interval_cases idx <;> simp [oppositeIndex, offsets]

theorem normal_offsetFace (m : MeshCartesian) (c : KeyCoord) (idx : Nat) (h : idx < 6) :
    (offsetFace m c (offsets idx) false).normal
      = ⟨((offsets idx).x : ℚ), ((offsets idx).y : ℚ), ((offsets idx).z : ℚ)⟩ := by
  interval_cases idx <;> simp [offsetFace, offsetFrame, offsets]

theorem offsets_eq_of_cast_eq (idx idx' : Nat) (h : idx < 6) (h' : idx' < 6)
    (he : (⟨((offsets idx).x : ℚ), ((offsets idx).y : ℚ), ((offsets idx).z : ℚ)⟩ : Coord)
      = ⟨((offsets idx').x : ℚ), ((offsets idx').y : ℚ), ((offsets idx').z : ℚ)⟩) :
    idx = idx' := by
  interval_cases idx <;> interval_cases idx' <;>
    first
    | rfl
    | (exfalso
       simp [offsets] at he
       try norm_num at he)

/-- Two passes of cells of the rank that create the same interface are the same pass. -/
theorem interfaceOf_injective (m : MeshCartesian) (decomp : Decomposition) (K : List Key)
    (k k' : Key) (idx idx' : Nat) (b : CellInterface) (hk : k ∈ K) (hk' : k' ∈ K) (h : idx < 6)
    (h' : idx' < 6) (e : interfaceOf m decomp K k idx = some b)
    (e' : interfaceOf m decomp K k' idx' = some b) : k = k' ∧ idx = idx' := by
  unfold interfaceOf at e e'
  split at e
  · -- boundary
    split at e'
    · rw [← e'] at e
      simp only [Option.some.injEq, CellInterface.mk.injEq, and_true] at e
      have e1 := congrArg CellInterfaceData.cellGauche e
      have e2 := congrArg (fun d => d.face.normal) e
      simp only [CellRef.mk.injEq, and_true] at e1
      subst e1
      simp only [normal_offsetFace m _ _ h, normal_offsetFace m _ _ h'] at e2
      exact ⟨rfl, offsets_eq_of_cast_eq idx idx' h h' e2⟩
    · split at e'
      · rw [← e'] at e
        simp only [Option.some.injEq, CellInterface.mk.injEq, and_true] at e
        have e1 := congrArg CellInterfaceData.kind e
        simp at e1
      · split at e'
        · cases e'
        · rw [← e'] at e
          simp only [Option.some.injEq, CellInterface.mk.injEq, and_true] at e
          have e1 := congrArg CellInterfaceData.kind e
          simp at e1
  · split at e
    · -- positive offset
      split at e'
      · rw [← e'] at e
        simp only [Option.some.injEq, CellInterface.mk.injEq, and_true] at e
        have e1 := congrArg CellInterfaceData.kind e
        simp at e1
      · split at e'
        · rw [← e'] at e
          simp only [Option.some.injEq, CellInterface.mk.injEq, and_true] at e
          have e1 := congrArg CellInterfaceData.cellGauche e
          have e2 := congrArg CellInterfaceData.kind e
          simp only [CellRef.mk.injEq, and_true] at e1
          subst e1
          simp only [InterfaceKind.internal.injEq, CellRef.mk.injEq, and_true] at e2
          exact ⟨rfl, offsets_injective k idx idx' h h' e2⟩
        · split at e'
          · cases e'
          · rename_i hnot
            rw [← e'] at e
            simp only [Option.some.injEq, CellInterface.mk.injEq, and_true] at e
            have e1 := congrArg CellInterfaceData.cellGauche e
            simp only [CellRef.mk.injEq, and_true] at e1
            exact absurd (e1 ▸ hk) hnot
    · split at e
      · cases e
      · rename_i hnot
        split at e'
        · rw [← e'] at e
          simp only [Option.some.injEq, CellInterface.mk.injEq, and_true] at e
          have e1 := congrArg CellInterfaceData.kind e
          simp at e1
        · split at e'
          · rw [← e'] at e
            simp only [Option.some.injEq, CellInterface.mk.injEq, and_true] at e
            have e1 := congrArg CellInterfaceData.cellGauche e
            simp only [CellRef.mk.injEq, and_true] at e1
            exact absurd (e1 ▸ hk') hnot
          · split at e'
            · cases e'
            · rw [← e'] at e
              simp only [Option.some.injEq, CellInterface.mk.injEq, and_true] at e
              have e1 := congrArg CellInterfaceData.cellGauche e
              have e2 := congrArg CellInterfaceData.kind e
              simp only [InterfaceKind.internal.injEq, CellRef.mk.injEq, and_true] at e2
              subst e2
              simp only [CellRef.mk.injEq, and_true] at e1
              exact ⟨rfl, offsets_injective k idx idx' h h' e1⟩

theorem map_modify_add {β : Type} (g : List CellInterface → β) (l : List Cell) (b : CellInterface)
    (a j : Nat) :
    ((l.modify (fun c => c.addCellInterface b) a)[j]?).map (fun c => g c.data.cellInterfaces)
      = (l[j]?).map (fun c => g (c.data.cellInterfaces ++ (if a = j then [b] else []))) := by
  rw [List.getElem?_modify]
  cases l[j]? with
  | none => rfl
  | some c =>
    by_cases h : a = j
    · simp [h, Cell.addCellInterface]
    · simp [h]

/-- A cell found by its key has this key, and level 0 when all cells have. -/
theorem ref_of_findIdx? (cs : List Cell) (g : Nat) (nKey : Key) (hl : ∀ c ∈ cs, c.data.lvl = 0)
    (hfind : cs.findIdx? (fun c => decide (c.data.element.key = nKey)) = some g) :
    ∃ h : g < cs.length, (cs[g]).key = nKey ∧ (cs[g]).ref = ⟨nKey, 0⟩ := by
  obtain ⟨hg, hp, _⟩ := List.findIdx?_eq_some_iff_getElem.mp hfind
  have hk : (cs[g]).data.element.key = nKey := by simpa using hp
  refine ⟨hg, hk, ?_⟩
  unfold Cell.ref
  rw [hk, hl _ (List.getElem_mem _)]

/-- Under what the loops maintain, the cell of index `j` of the rank has the key `K[j]`. -/
theorem key_of_topologyInv (decomp : Decomposition) (K : List Key) (s : MeshContainers) (j : Nat)
    (hj : j < K.length) (h : TopologyInv decomp K s) :
    ∃ hj' : j < s.cells.length, (s.cells[j]).data.element.key = K[j] ∧
      (s.cells[j]).ref = ⟨K[j], 0⟩ := by
  obtain ⟨hK, hl, _⟩ := h
  have hlen := length_le_of_take_map s.cells K hK
  have hj' : j < s.cells.length := by omega
  have hkey : (s.cells[j]).key = K[j] := by
    have h1 : ((s.cells.take K.length).map Cell.key)[j]? = K[j]? := by rw [hK]
    rw [List.getElem?_map, List.getElem?_take, if_pos hj, List.getElem?_eq_getElem hj',
      List.getElem?_eq_getElem hj] at h1
    simpa using h1
  refine ⟨hj', hkey, ?_⟩
  unfold Cell.ref
  rw [show (s.cells[j]).data.element.key = K[j] from hkey, hl _ (List.getElem_mem _)]

/-- The interface lists of the cells of the rank after the branch of a ghost neighbor: the new
interface, between the current cell and the ghost cell of key `nKey`, is pushed onto the current
cell only. -/
theorem connectGhost_interfaces (m : MeshCartesian) (n : Nat) (s : MeshContainers) (i : Nat)
    (ci : Cell) (nKey : Key) (neighbour : Int) (face : Face) (gl : Bool) (j : Nat)
    (hl : ∀ c ∈ s.cells, c.data.lvl = 0) (hj : j < n) (hn : n ≤ s.cells.length) :
    ((connectGhost m n s i ci nKey neighbour face gl).cells[j]?).map
        (fun c => c.data.cellInterfaces)
      = (s.cells[j]?).map (fun c => c.data.cellInterfaces ++
          (if i = j then
            [if gl = true then
              CellInterface.mk
                { kind := .internal ci.ref, lvl := 0, split := false, face := face,
                  cellGauche := ⟨nKey, 0⟩ } []
            else
              CellInterface.mk
                { kind := .internal ⟨nKey, 0⟩, lvl := 0, split := false, face := face,
                  cellGauche := ci.ref } []]
          else [])) := by
  unfold connectGhost
  simp only
  cases hfind : (s.cells.drop n).findIdx? (fun c => decide (c.data.element.key = nKey)) with
  | none =>
    simp only
    rw [List.getElem?_append_left (by rw [List.length_modify]; omega), cellInterfaces_modify_add,
      ref_baseCell]
  | some g =>
    simp only
    obtain ⟨hg, -, hr⟩ := ref_of_findIdx? (s.cells.drop n) g nKey
      (fun c hc => hl c (List.mem_of_mem_drop hc)) hfind
    have hg' : n + g < s.cells.length := by
      rw [List.length_drop] at hg
      omega
    have hr' : (s.cells.getD (n + g) (Cell.new 0)).ref = ⟨nKey, 0⟩ := by
      rw [List.getD_eq_getElem _ _ hg']
      rw [List.getElem_drop] at hr
      exact hr
    have hne : ¬ (n + g = j) := by omega
    rw [hr', cellInterfaces_modify_add]
    simp only [if_neg hne, List.append_nil]
    rw [cellInterfaces_modify_add]

/-- One pass of the loop over the offsets, for the cell of index `i` of the rank, appends to the
interface list of the cell of index `j` of the rank the interfaces of `interfacesPushed`. -/
theorem createCellInterface_interfaces (m : MeshCartesian) (decomp : Decomposition) (K : List Key)
    (i idx j : Nat) (s : MeshContainers) (hnd : K.Nodup) (hi : i < K.length) (hj : j < K.length)
    (hidx : idx < 6) (h : TopologyInv decomp K s) :
    ((createCellInterface m decomp K.length i s idx).cells[j]?).map
        (fun c => c.data.cellInterfaces)
      = (s.cells[j]?).map
          (fun c => c.data.cellInterfaces ++ interfacesPushed m decomp K K[j] K[i] idx) := by
  obtain ⟨hi', hkey, href⟩ := key_of_topologyInv decomp K s i hi h
  obtain ⟨hK, hl, -⟩ := h
  have hlen := length_le_of_take_map s.cells K hK
  have hget : s.cells.get? i = some s.cells[i] := by
    rw [List.get?_eq_getElem?, List.getElem?_eq_getElem hi']
  have hij : K[i] = K[j] ↔ i = j := hnd.getElem_inj_iff
  have hfindK : ∀ nKey : Key,
      (s.cells.take K.length).findIdx? (fun c => decide (c.data.element.key = nKey)) = none
        ↔ nKey ∉ K := by
    intro nKey
    rw [findIdx?_key_eq_none, hK]
  unfold createCellInterface interfacesPushed interfaceOf
  rw [hget]
  simp only [hkey, href]
  by_cases hin : decomp.is_inside (K[i].neighbor (offsets idx)).coordinate = true
  · have hin' : decomp.is_inside ⟨K[i].coordinate.x + (offsets idx).x,
        K[i].coordinate.y + (offsets idx).y, K[i].coordinate.z + (offsets idx).z⟩ = true := hin
    rw [hin']
    simp only [hin, Bool.not_true, Bool.false_eq_true, Bool.true_eq_false, if_false, true_and]
    by_cases hpos : (offsets idx).x > 0 ∨ (offsets idx).y > 0 ∨ (offsets idx).z > 0
    · simp only [if_pos hpos, true_and]
      cases hfind : (s.cells.take K.length).findIdx?
          (fun c => decide (c.data.element.key = K[i].neighbor (offsets idx))) with
      | none =>
        have hnot := (hfindK _).mp hfind
        simp only
        rw [connectGhost_interfaces m K.length s i _ _ _ _ _ j hl hj hlen, href]
        have hne : ¬ (K[i].neighbor (offsets idx) = K[j]) := fun e =>
          hnot (e ▸ List.getElem_mem _)
        simp only [hij, hne, if_false, Bool.false_eq_true, and_false, ite_self]
      | some j' =>
        obtain ⟨hj1, hk1, hr1⟩ := ref_of_findIdx? (s.cells.take K.length) j' _
          (fun c hc => hl c (List.mem_of_mem_take hc)) hfind
        have hj2 : j' < K.length := by
          rw [List.length_take] at hj1
          omega
        have hj3 : j' < s.cells.length := by omega
        have hr2 : (s.cells.getD j' (Cell.new 0)).ref = ⟨K[i].neighbor (offsets idx), 0⟩ := by
          rw [List.getD_eq_getElem _ _ hj3]
          rw [List.getElem_take] at hr1
          exact hr1
        have hk2 : K[j'] = K[i].neighbor (offsets idx) := by
          have h1 : ((s.cells.take K.length).map Cell.key)[j']? = K[j']? := by rw [hK]
          rw [List.getElem?_map, List.getElem?_eq_getElem hj1, List.getElem?_eq_getElem hj2] at h1
          rw [← hk1]
          simpa using h1.symm
        have hjj : K[i].neighbor (offsets idx) = K[j] ↔ j' = j := by
          rw [← hk2]
          exact hnd.getElem_inj_iff
        have hne : i ≠ j' := by
          intro e
          subst e
          exact neighbor_ne_self _ idx hidx hk2.symm
        simp only [hr2]
        rw [cellInterfaces_modify_add,
          map_modify_add (fun l => l ++ if j' = j then [_] else [])]
        simp only [hij, hjj, hpos, true_and]
        by_cases e1 : i = j
        · have e2 : ¬ (j' = j) := fun e => hne (e1.trans e.symm)
          simp only [e1, e2, if_true, if_false, List.append_nil]
        · simp only [e1, if_false, List.append_nil]
    · simp only [if_neg hpos, false_and, if_false]
      cases hfind : (s.cells.take K.length).findIdx?
          (fun c => decide (c.data.element.key = K[i].neighbor (offsets idx))) with
      | none =>
        have hnot := (hfindK _).mp hfind
        simp only
        rw [connectGhost_interfaces m K.length s i _ _ _ _ _ j hl hj hlen, href]
        simp only [hij, hnot, hpos, if_false, if_true, false_and, and_false, ite_self,
          Bool.true_eq_false]
      | some j' =>
        have hmem : K[i].neighbor (offsets idx) ∈ K := by
          by_contra hnot
          rw [(hfindK _).mpr hnot] at hfind
          cases hfind
        simp only [hmem, if_true, List.append_nil]
  · have hin0 : decomp.is_inside (K[i].neighbor (offsets idx)).coordinate = false := by
      simpa using hin
    have hin' : decomp.is_inside ⟨K[i].coordinate.x + (offsets idx).x,
        K[i].coordinate.y + (offsets idx).y, K[i].coordinate.z + (offsets idx).z⟩ = false := hin0
    rw [hin']
    simp only [hin0, Bool.not_false, if_true, Bool.false_eq_true, false_and, if_false]
    rw [cellInterfaces_modify_add]
    simp only [hij]

/-- The passes `l` of the loops append to the interface list of the cell of index `j` of the rank
the interfaces of `interfacesPushedBy`. -/
theorem foldl_createCellInterface_interfaces (m : MeshCartesian) (decomp : Decomposition)
    (K : List Key) (j : Nat) (hnd : K.Nodup) (hj : j < K.length) (l : List (Nat × Nat))
    (hlm : ∀ p ∈ l, p.1 < K.length ∧ p.2 < 6) (s : MeshContainers) (h : TopologyInv decomp K s) :
    ((l.foldl (fun s p => createCellInterface m decomp K.length p.1 s p.2) s).cells[j]?).map
        (fun c => c.data.cellInterfaces)
      = (s.cells[j]?).map
          (fun c => c.data.cellInterfaces ++ interfacesPushedBy m decomp K K[j] l) := by
  induction l generalizing s with
  | nil =>
    simp only [List.foldl_nil, interfacesPushedBy, List.flatMap_nil, List.append_nil]
  | cons p t ih =>
    obtain ⟨hp1, hp2⟩ := hlm p (List.mem_cons_self _ _)
    rw [List.foldl_cons, ih (fun q hq => hlm q (List.mem_cons_of_mem _ hq)) _
      (topologyInv_step m decomp K p.1 p.2 s hp1 hp2 h)]
    have hstep := congrArg
      (Option.map (fun l => l ++ interfacesPushedBy m decomp K K[j] t))
      (createCellInterface_interfaces m decomp K p.1 p.2 j s hnd hp1 hj hp2 h)
    simp only [Option.map_map] at hstep
    have e1 : (fun c : Cell => c.data.cellInterfaces ++ interfacesPushedBy m decomp K K[j] t)
        = (fun l => l ++ interfacesPushedBy m decomp K K[j] t) ∘
          (fun c : Cell => c.data.cellInterfaces) := rfl
    rw [e1, hstep]
    have e2 : interfacesPushedBy m decomp K K[j] (p :: t)
        = interfacesPushed m decomp K K[j] K[p.1] p.2 ++ interfacesPushedBy m decomp K K[j] t := by
      unfold interfacesPushedBy
      rw [List.flatMap_cons, List.getD_eq_getElem _ _ hp1]
    rw [e2]
    congr 1
    funext c
    simp only [Function.comp, List.append_assoc]

/-- The interface list of the cell of index `j` of the rank after the construction: the interfaces
pushed by all the passes of the loops. -/
theorem interfaces_of_rank (m : MeshCartesian) (decomp : Decomposition)
    (keyLess : Key → Key → Bool) (Ncpu rankCpu : Int) (j : Nat)
    (hnd : (decomp.get_keys rankCpu).Nodup) (hj : j < (decomp.get_keys rankCpu).length) :
    ∃ c : Cell, (initializeGeometrieAMR m decomp keyLess Ncpu rankCpu).cells[j]? = some c ∧
      c.key = (decomp.get_keys rankCpu)[j] ∧
      c.data.cellInterfaces
        = interfacesPushedBy m decomp (decomp.get_keys rankCpu) (decomp.get_keys rankCpu)[j]
            (topologySteps (decomp.get_keys rankCpu).length) := by
  obtain ⟨s1, hs1, hcells, -, -⟩ := initializeGeometrieAMR_eq m decomp keyLess Ncpu rankCpu
  obtain ⟨hinv, -, -⟩ := topology_loops m decomp (decomp.get_keys rankCpu)
    ⟨(decomp.get_keys rankCpu).mapIdx
      (fun i key => (Cell.new 0).setElement (baseElement m key i)), [], fun _ => [], fun _ => []⟩
    (topologyInv_initial m decomp _) (fun _ => rfl)
  rw [← hs1] at hinv
  obtain ⟨hj', hkey, -⟩ := key_of_topologyInv decomp _ s1 j hj hinv
  rw [foldl_topologySteps] at hs1
  have hfold := foldl_createCellInterface_interfaces m decomp (decomp.get_keys rankCpu) j hnd hj
    (topologySteps (decomp.get_keys rankCpu).length)
    (fun p hp => (mem_topologySteps _ p).mp hp) _ (topologyInv_initial m decomp _)
  rw [← hs1] at hfold
  simp only [List.getElem?_mapIdx, List.getElem?_eq_getElem hj, List.getElem?_eq_getElem hj']
    at hfold
  refine ⟨s1.cells[j], ?_, hkey, ?_⟩
  · rw [hcells, List.getElem?_eq_getElem hj']
  · have h2 := Option.some.inj hfold
    exact h2.trans (List.nil_append _)

theorem topologySteps_nodup (n : Nat) : (topologySteps n).Nodup := by
  unfold topologySteps
  rw [List.nodup_flatMap]
  constructor
  · intro i _
    exact (List.nodup_range 6).map (fun a b e => (Prod.mk.inj e).2)
  · apply (List.nodup_range n).pairwise_of_forall_ne
    intro a _ b _ hab
    intro p hp hq
    rw [List.mem_map] at hp hq
    obtain ⟨x, -, rfl⟩ := hp
    obtain ⟨y, -, e⟩ := hq
    exact hab (Prod.mk.inj e).1.symm

theorem mem_interfacesPushed (m : MeshCartesian) (decomp : Decomposition) (K : List Key)
    (kj ki : Key) (idx : Nat) (b : CellInterface) :
    b ∈ interfacesPushed m decomp K kj ki idx ↔
      interfaceOf m decomp K ki idx = some b ∧
        (ki = kj ∨ (decomp.is_inside (ki.neighbor (offsets idx)).coordinate = true ∧
          ((offsets idx).x > 0 ∨ (offsets idx).y > 0 ∨ (offsets idx).z > 0) ∧
          ki.neighbor (offsets idx) = kj)) := by
  unfold interfacesPushed
  cases interfaceOf m decomp K ki idx with
  | none => simp
  | some b' =>
    simp only [Option.some.injEq]
    by_cases h1 : ki = kj
    · simp only [h1, if_true, List.mem_singleton, true_or, and_true]
      exact eq_comm
    · simp only [h1, if_false, false_or]
      split
      · rename_i h2
        rw [List.mem_singleton]
        exact ⟨fun e => ⟨e.symm, h2⟩, fun e => e.1.symm⟩
      · rename_i h2
        constructor
        · intro e
          cases e
        · intro e
          exact absurd e.2 h2

theorem interfacesPushed_nodup (m : MeshCartesian) (decomp : Decomposition) (K : List Key)
    (kj ki : Key) (idx : Nat) : (interfacesPushed m decomp K kj ki idx).Nodup := by
  unfold interfacesPushed
  split
  · exact List.nodup_nil
  · split
    · exact List.nodup_singleton _
    · split
      · exact List.nodup_singleton _
      · exact List.nodup_nil

theorem mem_interfacesPushedBy (m : MeshCartesian) (decomp : Decomposition) (K : List Key)
    (j : Nat) (hj : j < K.length) (b : CellInterface) :
    b ∈ interfacesPushedBy m decomp K K[j] (topologySteps K.length) ↔
      ∃ (i : Nat) (hi : i < K.length) (idx : Nat), idx < 6 ∧
        b ∈ interfacesPushed m decomp K K[j] K[i] idx := by
  unfold interfacesPushedBy
  rw [List.mem_flatMap]
  constructor
  · rintro ⟨p, hp, hb⟩
    rw [mem_topologySteps] at hp
    rw [List.getD_eq_getElem _ _ hp.1] at hb
    exact ⟨p.1, hp.1, p.2, hp.2, hb⟩
  · rintro ⟨i, hi, idx, hidx, hb⟩
    refine ⟨(i, idx), (mem_topologySteps _ _).mpr ⟨hi, hidx⟩, ?_⟩
    simp only
    rw [List.getD_eq_getElem _ _ hi]
    exact hb

/-- No interface is pushed twice onto a cell of the rank. -/
theorem interfacesPushedBy_nodup (m : MeshCartesian) (decomp : Decomposition) (K : List Key)
    (hnd : K.Nodup) (kj : Key) :
    (interfacesPushedBy m decomp K kj (topologySteps K.length)).Nodup := by
  unfold interfacesPushedBy
  rw [List.nodup_flatMap]
  constructor
  · intro p _
    exact interfacesPushed_nodup _ _ _ _ _ _
  · apply (topologySteps_nodup K.length).pairwise_of_forall_ne
    intro p hp q hq hpq b hb1 hb2
    rw [mem_topologySteps] at hp hq
    simp only at hb1 hb2
    rw [List.getD_eq_getElem _ _ hp.1, mem_interfacesPushed] at hb1
    rw [List.getD_eq_getElem _ _ hq.1, mem_interfacesPushed] at hb2
    obtain ⟨e1, e2⟩ := interfaceOf_injective m decomp K _ _ _ _ b (List.getElem_mem _)
      (List.getElem_mem _) hp.2 hq.2 hb1.1 hb2.1
    exact hpq (Prod.ext (hnd.getElem_inj_iff.mp e1) e2)

theorem interfaceOf_eq_none_iff (m : MeshCartesian) (decomp : Decomposition) (K : List Key)
    (k : Key) (idx : Nat) :
    interfaceOf m decomp K k idx = none ↔
      decomp.is_inside (k.neighbor (offsets idx)).coordinate = true ∧
        ¬ ((offsets idx).x > 0 ∨ (offsets idx).y > 0 ∨ (offsets idx).z > 0) ∧
        k.neighbor (offsets idx) ∈ K := by
  unfold interfaceOf
  by_cases h1 : decomp.is_inside (k.neighbor (offsets idx)).coordinate = false
  · simp [h1]
  · rw [if_neg h1]
    have h1' : decomp.is_inside (k.neighbor (offsets idx)).coordinate = true := by simpa using h1
    by_cases h2 : (offsets idx).x > 0 ∨ (offsets idx).y > 0 ∨ (offsets idx).z > 0
    · rw [if_pos h2]
      simp only [h2, not_true_eq_false, false_and, and_false]
      constructor
      · intro h
        cases h
      · intro h
        exact h.elim
    · rw [if_neg h2]
      by_cases h3 : k.neighbor (offsets idx) ∈ K
      · rw [if_pos h3]
        exact ⟨fun _ => ⟨h1', h2, h3⟩, fun _ => rfl⟩
      · rw [if_neg h3]
        constructor
        · intro h
          cases h
        · intro h
          exact absurd h.2.2 h3

/-- The interface that a cell holds for an offset is created by its own pass over this offset,
or, on a negative offset towards a cell of the rank, by the pass of this neighbor over the
opposite offset. -/
theorem expectedInterface_creator (m : MeshCartesian) (decomp : Decomposition) (K : List Key)
    (k : Key) (idx : Nat) (hidx : idx < 6) (hk : decomp.is_inside k.coordinate = true) :
    interfaceOf m decomp K k idx = some (expectedInterface m decomp K k idx) ∨
      (interfaceOf m decomp K k idx = none ∧
        interfaceOf m decomp K (k.neighbor (offsets idx)) (oppositeIndex idx)
          = some (expectedInterface m decomp K k idx)) := by
  cases h : interfaceOf m decomp K k idx with
  | some b =>
    left
    unfold expectedInterface
    rw [h]
  | none =>
    right
    refine ⟨rfl, ?_⟩
    obtain ⟨h1, h2, h3⟩ := (interfaceOf_eq_none_iff m decomp K k idx).mp h
    unfold expectedInterface
    rw [h]
    unfold interfaceOf
    simp only [neighbor_oppositeIndex k idx hidx]
    have hk' : ¬ (decomp.is_inside k.coordinate = false) := by simp [hk]
    rw [if_neg hk', if_pos ((oppositeIndex_positive idx hidx).mpr h2)]

/-- The interfaces pushed onto a cell of the rank are the six interfaces expected for its
offsets, when the keys of the rank lie inside the domain. -/
theorem mem_interfacesPushedBy_iff (m : MeshCartesian) (decomp : Decomposition) (K : List Key)
    (hin : ∀ k ∈ K, decomp.is_inside k.coordinate = true) (j : Nat) (hj : j < K.length)
    (b : CellInterface) :
    b ∈ interfacesPushedBy m decomp K K[j] (topologySteps K.length) ↔
      b ∈ (List.range 6).map (expectedInterface m decomp K K[j]) := by
  rw [mem_interfacesPushedBy m decomp K j hj, List.mem_map]
  have hkj : K[j] ∈ K := List.getElem_mem _
  constructor
  · rintro ⟨i, hi, idx, hidx, hb⟩
    rw [mem_interfacesPushed] at hb
    obtain ⟨hb1, hb2⟩ := hb
    rcases hb2 with e | ⟨h1, h2, h3⟩
    · refine ⟨idx, List.mem_range.mpr hidx, ?_⟩
      rw [e] at hb1
      unfold expectedInterface
      rw [hb1]
    · refine ⟨oppositeIndex idx, List.mem_range.mpr (oppositeIndex_lt idx hidx), ?_⟩
      have hback : K[j].neighbor (offsets (oppositeIndex idx)) = K[i] := by
        rw [← h3]
        exact neighbor_oppositeIndex _ idx hidx
      have hnone : interfaceOf m decomp K K[j] (oppositeIndex idx) = none := by
        rw [interfaceOf_eq_none_iff, hback]
        refine ⟨hin _ (List.getElem_mem _), ?_, List.getElem_mem _⟩
        rw [oppositeIndex_positive idx hidx]
        exact fun hn => hn h2
      rcases expectedInterface_creator m decomp K K[j] (oppositeIndex idx)
        (oppositeIndex_lt idx hidx) (hin _ hkj) with hc | ⟨-, hc⟩
      · rw [hnone] at hc
        cases hc
      · rw [hback, oppositeIndex_oppositeIndex idx hidx, hb1] at hc
        exact (Option.some.inj hc).symm
  · rintro ⟨idx, hidx, rfl⟩
    rw [List.mem_range] at hidx
    rcases expectedInterface_creator m decomp K K[j] idx hidx (hin _ hkj) with hc | ⟨hn, hc⟩
    · exact ⟨j, hj, idx, hidx, (mem_interfacesPushed _ _ _ _ _ _ _).mpr ⟨hc, Or.inl rfl⟩⟩
    · obtain ⟨h1, h2, h3⟩ := (interfaceOf_eq_none_iff m decomp K K[j] idx).mp hn
      obtain ⟨i, hi, hki⟩ := List.getElem_of_mem h3
      refine ⟨i, hi, oppositeIndex idx, oppositeIndex_lt idx hidx, ?_⟩
      rw [mem_interfacesPushed, hki]
      refine ⟨hc, Or.inr ?_⟩
      rw [neighbor_oppositeIndex _ idx hidx]
      exact ⟨hin _ hkj, (oppositeIndex_positive idx hidx).mpr h2, rfl⟩

/-- The six interfaces expected for the offsets of a cell of the rank are pairwise distinct. -/
theorem expectedInterface_nodup (m : MeshCartesian) (decomp : Decomposition) (K : List Key)
    (k : Key) (hk : k ∈ K) (hin : decomp.is_inside k.coordinate = true) :
    ((List.range 6).map (expectedInterface m decomp K k)).Nodup := by
  apply List.Nodup.map_on _ (List.nodup_range 6)
  intro idx hidx idx' hidx' e
  rw [List.mem_range] at hidx hidx'
  rcases expectedInterface_creator m decomp K k idx hidx hin with hc | ⟨hn, hc⟩
  · rcases expectedInterface_creator m decomp K k idx' hidx' hin with hc' | ⟨hn', hc'⟩
    · rw [← e] at hc'
      exact (interfaceOf_injective m decomp K _ _ _ _ _ hk hk hidx hidx' hc hc').2
    · rw [← e] at hc'
      have hk' := ((interfaceOf_eq_none_iff m decomp K k idx').mp hn').2.2
      have := (interfaceOf_injective m decomp K _ _ _ _ _ hk hk' hidx
        (oppositeIndex_lt idx' hidx') hc hc').1
      exact absurd this.symm (neighbor_ne_self k idx' hidx')
  · have hk1 := ((interfaceOf_eq_none_iff m decomp K k idx).mp hn).2.2
    rcases expectedInterface_creator m decomp K k idx' hidx' hin with hc' | ⟨hn', hc'⟩
    · rw [← e] at hc'
      have := (interfaceOf_injective m decomp K _ _ _ _ _ hk1 hk
        (oppositeIndex_lt idx hidx) hidx' hc hc').1
      exact absurd this (neighbor_ne_self k idx hidx)
    · rw [← e] at hc'
      have hk' := ((interfaceOf_eq_none_iff m decomp K k idx').mp hn').2.2
      have := (interfaceOf_injective m decomp K _ _ _ _ _ hk1 hk'
        (oppositeIndex_lt idx hidx) (oppositeIndex_lt idx' hidx') hc hc').1
      exact offsets_injective k idx idx' hidx hidx' this

theorem keepsGhosts_refl (n : Nat) (l : List Cell) : KeepsGhosts n l l :=
  fun c hc => ⟨c, hc, rfl, fun _ hb => hb⟩

theorem keepsGhosts_trans (n : Nat) (l l1 l2 : List Cell) (h1 : KeepsGhosts n l l1)
    (h2 : KeepsGhosts n l1 l2) : KeepsGhosts n l l2 := by
  intro c hc
  obtain ⟨d, hd, hk, hb⟩ := h1 c hc
  obtain ⟨e, he, hk', hb'⟩ := h2 d hd
  exact ⟨e, he, hk'.trans hk, fun b hbc => hb' b (hb b hbc)⟩

theorem keepsGhosts_modify (n : Nat) (l : List Cell) (b : CellInterface) (a : Nat) :
    KeepsGhosts n l (l.modify (fun c => c.addCellInterface b) a) := by
  intro c hc
  obtain ⟨p, hp, rfl⟩ := List.getElem_of_mem hc
  have hp' : p < ((l.modify (fun c => c.addCellInterface b) a).drop n).length := by
    rw [List.length_drop, List.length_modify]
    rw [List.length_drop] at hp
    exact hp
  refine ⟨((l.modify (fun c => c.addCellInterface b) a).drop n)[p], List.getElem_mem _, ?_, ?_⟩
  · rw [List.getElem_drop, List.getElem_drop, List.getElem_modify]
    split
    · exact Cell.key_addCellInterface _ _
    · rfl
  · intro b' hb'
    rw [List.getElem_drop, List.getElem_modify]
    rw [List.getElem_drop] at hb'
    split
    · exact List.mem_append_left _ hb'
    · exact hb'

theorem keepsGhosts_append (n : Nat) (l t : List Cell) : KeepsGhosts n l (l ++ t) := by
  intro c hc
  refine ⟨c, ?_, rfl, fun _ hb => hb⟩
  rw [List.drop_append_eq_append_drop]
  exact List.mem_append_left _ hc

/-- One pass of the loop over the offsets keeps the ghost cells and their interfaces. -/
theorem keepsGhosts_createCellInterface (m : MeshCartesian) (decomp : Decomposition) (n i : Nat)
    (s : MeshContainers) (idx : Nat) :
    KeepsGhosts n s.cells (createCellInterface m decomp n i s idx).cells := by
  have hg : ∀ (ci : Cell) (nKey : Key) (nb : Int) (face : Face) (gl : Bool),
      KeepsGhosts n s.cells (connectGhost m n s i ci nKey nb face gl).cells := by
    intro ci nKey nb face gl
    unfold connectGhost
    simp only
    split
    · exact keepsGhosts_trans _ _ _ _ (keepsGhosts_modify _ _ _ _) (keepsGhosts_append _ _ _)
    · exact keepsGhosts_trans _ _ _ _ (keepsGhosts_modify _ _ _ _) (keepsGhosts_modify _ _ _ _)
  unfold createCellInterface
  split
  · exact keepsGhosts_refl _ _
  · simp only
    split
    · exact keepsGhosts_modify _ _ _ _
    · split
      · split
        · exact keepsGhosts_trans _ _ _ _ (keepsGhosts_modify _ _ _ _) (keepsGhosts_modify _ _ _ _)
        · exact hg _ _ _ _ _
      · split
        · exact keepsGhosts_refl _ _
        · exact hg _ _ _ _ _

theorem ghost_of_append (n : Nat) (l : List Cell) (i : Nat) (x : Cell) (b : CellInterface)
    (hn : n ≤ l.length) :
    ∃ d ∈ (l.modify (fun c => c.addCellInterface b) i ++ [x.addCellInterface b]).drop n,
      d.key = x.key ∧ b ∈ d.data.cellInterfaces := by
  refine ⟨x.addCellInterface b, ?_, Cell.key_addCellInterface _ _, ?_⟩
  · rw [List.drop_append_of_le_length (by rw [List.length_modify]; exact hn)]
    exact List.mem_append_right _ (List.mem_singleton.mpr rfl)
  · exact List.mem_append_right _ (List.mem_singleton.mpr rfl)

theorem ghost_of_modify (n : Nat) (l : List Cell) (i g : Nat) (b : CellInterface) (k : Key)
    (h : n + g < l.length) (hk : (l[n + g]).key = k) :
    ∃ d ∈ ((l.modify (fun c => c.addCellInterface b) i).modify
        (fun c => c.addCellInterface b) (n + g)).drop n,
      d.key = k ∧ b ∈ d.data.cellInterfaces := by
  have h1 : n + g < ((l.modify (fun c => c.addCellInterface b) i).modify
      (fun c => c.addCellInterface b) (n + g)).length := by
    rw [List.length_modify, List.length_modify]
    exact h
  refine ⟨((l.modify (fun c => c.addCellInterface b) i).modify
      (fun c => c.addCellInterface b) (n + g))[n + g], ?_, ?_, ?_⟩
  · have h2 : g < (((l.modify (fun c => c.addCellInterface b) i).modify
        (fun c => c.addCellInterface b) (n + g)).drop n).length := by
      rw [List.length_drop]
      omega
    have h3 := List.getElem_mem h2
    rw [List.getElem_drop] at h3
    exact h3
  · rw [List.getElem_modify, if_pos rfl, Cell.key_addCellInterface, List.getElem_modify]
    split
    · rw [Cell.key_addCellInterface]
      exact hk
    · exact hk
  · rw [List.getElem_modify, if_pos rfl]
    exact List.mem_append_right _ (List.mem_singleton.mpr rfl)

/-- After the branch of a ghost neighbor, the ghost cell of key `nKey` holds the new interface. -/
theorem connectGhost_ghost (m : MeshCartesian) (n : Nat) (s : MeshContainers) (i : Nat)
    (ci : Cell) (nKey : Key) (neighbour : Int) (face : Face) (gl : Bool)
    (hl : ∀ c ∈ s.cells, c.data.lvl = 0) (hn : n ≤ s.cells.length) :
    ∃ d ∈ (connectGhost m n s i ci nKey neighbour face gl).cells.drop n, d.key = nKey ∧
      (if gl = true then
          CellInterface.mk
            { kind := .internal ci.ref, lvl := 0, split := false, face := face,
              cellGauche := ⟨nKey, 0⟩ } []
        else
          CellInterface.mk
            { kind := .internal ⟨nKey, 0⟩, lvl := 0, split := false, face := face,
              cellGauche := ci.ref } []) ∈ d.data.cellInterfaces := by
  unfold connectGhost
  simp only
  cases hfind : (s.cells.drop n).findIdx? (fun c => decide (c.data.element.key = nKey)) with
  | none =>
    simp only
    rw [ref_baseCell]
    exact ghost_of_append n s.cells i _ _ hn
  | some g =>
    simp only
    obtain ⟨hg, hk, hr⟩ := ref_of_findIdx? (s.cells.drop n) g nKey
      (fun c hc => hl c (List.mem_of_mem_drop hc)) hfind
    have hg' : n + g < s.cells.length := by
      rw [List.length_drop] at hg
      omega
    have hr' : (s.cells.getD (n + g) (Cell.new 0)).ref = ⟨nKey, 0⟩ := by
      rw [List.getD_eq_getElem _ _ hg']
      rw [List.getElem_drop] at hr
      exact hr
    rw [hr']
    rw [List.getElem_drop] at hk
    exact ghost_of_modify n s.cells i g _ nKey hg' hk

/-- On a ghost neighbor, the interface created by the pass of a cell of the rank is held by the
ghost cell after the pass. -/
theorem createCellInterface_ghost (m : MeshCartesian) (decomp : Decomposition) (K : List Key)
    (i idx : Nat) (s : MeshContainers) (hi : i < K.length) (h : TopologyInv decomp K s)
    (hg : ghostNeighbor decomp K K[i] idx) (b : CellInterface)
    (hb : interfaceOf m decomp K K[i] idx = some b) :
    ∃ d ∈ (createCellInterface m decomp K.length i s idx).cells.drop K.length,
      d.key = K[i].neighbor (offsets idx) ∧ b ∈ d.data.cellInterfaces := by
  obtain ⟨hi', hkey, href⟩ := key_of_topologyInv decomp K s i hi h
  obtain ⟨hK, hl, -⟩ := h
  have hlen := length_le_of_take_map s.cells K hK
  have hget : s.cells.get? i = some s.cells[i] := by
    rw [List.get?_eq_getElem?, List.getElem?_eq_getElem hi']
  have hfind : (s.cells.take K.length).findIdx?
      (fun c => decide (c.data.element.key = K[i].neighbor (offsets idx))) = none := by
    rw [findIdx?_key_eq_none, hK]
    exact hg.2
  have hin' : decomp.is_inside ⟨K[i].coordinate.x + (offsets idx).x,
      K[i].coordinate.y + (offsets idx).y, K[i].coordinate.z + (offsets idx).z⟩ = true := hg.1
  have hin0 : ¬ (decomp.is_inside (K[i].neighbor (offsets idx)).coordinate = false) := by
    simp [hg.1]
  unfold interfaceOf at hb
  rw [if_neg hin0] at hb
  unfold createCellInterface
  rw [hget]
  simp only [hkey, hin', Bool.not_true, Bool.false_eq_true, if_false, hfind]
  have hcg := fun face gl => connectGhost_ghost m K.length s i s.cells[i]
    (K[i].neighbor (offsets idx)) (decomp.get_rank (K[i].neighbor (offsets idx))) face gl hl hlen
  by_cases hpos : (offsets idx).x > 0 ∨ (offsets idx).y > 0 ∨ (offsets idx).z > 0
  · rw [if_pos hpos] at hb ⊢
    have := hcg (offsetFace m K[i].coordinate (offsets idx) false) false
    simp only [Bool.false_eq_true, if_false, href] at this
    rw [← Option.some.inj hb]
    exact this
  · rw [if_neg hpos, if_neg hg.2] at hb
    rw [if_neg hpos]
    have := hcg (offsetFace m K[i].coordinate (offsets idx) true) true
    simp only [if_true, href] at this
    rw [← Option.some.inj hb]
    exact this

/-- After the loops, every interface created towards a ghost neighbor is held by the ghost cell of
the key of the neighbor. -/
theorem ghost_holds_interface (m : MeshCartesian) (decomp : Decomposition) (K : List Key)
    (s0 : MeshContainers) (h0 : TopologyInv decomp K s0) (i : Nat) (hi : i < K.length)
    (idx : Nat) (hidx : idx < 6) (hg : ghostNeighbor decomp K K[i] idx) (b : CellInterface)
    (hb : interfaceOf m decomp K K[i] idx = some b) :
    ∃ d ∈ ((List.range K.length).foldl
        (fun s i => (List.range 6).foldl (createCellInterface m decomp K.length i) s)
        s0).cells.drop K.length,
      d.key = K[i].neighbor (offsets idx) ∧ b ∈ d.data.cellInterfaces := by
  rw [foldl_topologySteps]
  have hall := foldl_established
    (fun (s : MeshContainers) (p : Nat × Nat) => createCellInterface m decomp K.length p.1 s p.2)
    (TopologyInv decomp K)
    (fun p s => ∀ (hp : p.1 < K.length), ghostNeighbor decomp K K[p.1] p.2 →
      ∀ b : CellInterface, interfaceOf m decomp K K[p.1] p.2 = some b →
        ∃ d ∈ s.cells.drop K.length,
          d.key = K[p.1].neighbor (offsets p.2) ∧ b ∈ d.data.cellInterfaces)
    (topologySteps K.length)
    (by
      intro s p hp hs
      rw [mem_topologySteps] at hp
      exact topologyInv_step m decomp K p.1 p.2 s hp.1 hp.2 hs)
    (by
      intro s p _ hs hp1 hgn b' hb'
      exact createCellInterface_ghost m decomp K p.1 p.2 s hp1 hs hgn b' hb')
    (by
      intro s p _ q _ hq hq1 hgn b' hb'
      obtain ⟨d, hd, hk, hbd⟩ := hq hq1 hgn b' hb'
      obtain ⟨e, he, hke, hbe⟩ := keepsGhosts_createCellInterface m decomp K.length p.1 s p.2 d hd
      exact ⟨e, he, hke.trans hk, hbe b' hbd⟩)
    s0 h0 (i, idx) ((mem_topologySteps _ _).mpr ⟨hi, hidx⟩)
  exact hall hi hg b hb

/-- The interface expected for an offset of a cell: its class and its two cells. -/
theorem expectedInterface_ends (m : MeshCartesian) (decomp : Decomposition) (K : List Key)
    (k : Key) (idx : Nat) :
    (decomp.is_inside (k.neighbor (offsets idx)).coordinate = false →
        (expectedInterface m decomp K k idx).data.kind = .boundary (boundaryCode m (offsets idx)) ∧
        (expectedInterface m decomp K k idx).data.cellGauche = ⟨k, 0⟩) ∧
      (decomp.is_inside (k.neighbor (offsets idx)).coordinate = true →
        ((offsets idx).x > 0 ∨ (offsets idx).y > 0 ∨ (offsets idx).z > 0) →
        (expectedInterface m decomp K k idx).data.kind = .internal ⟨k.neighbor (offsets idx), 0⟩ ∧
        (expectedInterface m decomp K k idx).data.cellGauche = ⟨k, 0⟩) ∧
      (decomp.is_inside (k.neighbor (offsets idx)).coordinate = true →
        ¬ ((offsets idx).x > 0 ∨ (offsets idx).y > 0 ∨ (offsets idx).z > 0) →
        (expectedInterface m decomp K k idx).data.kind = .internal ⟨k, 0⟩ ∧
        (expectedInterface m decomp K k idx).data.cellGauche = ⟨k.neighbor (offsets idx), 0⟩) := by
  unfold expectedInterface interfaceOf
  refine ⟨fun h1 => ?_, fun h1 h2 => ?_, fun h1 h2 => ?_⟩
  · rw [if_pos h1]
    exact ⟨rfl, rfl⟩
  · have h0 : ¬ (decomp.is_inside (k.neighbor (offsets idx)).coordinate = false) := by simp [h1]
    rw [if_neg h0, if_pos h2]
    exact ⟨rfl, rfl⟩
  · have h0 : ¬ (decomp.is_inside (k.neighbor (offsets idx)).coordinate = false) := by simp [h1]
    rw [if_neg h0, if_neg h2]
    by_cases h3 : k.neighbor (offsets idx) ∈ K
    · rw [if_pos h3]
      exact ⟨rfl, rfl⟩
    · rw [if_neg h3]
      exact ⟨rfl, rfl⟩

/-- Two cells of the rank adjacent across a positive offset have in common the interface created
by the pass of the first cell over this offset, and no other interface. -/
theorem shared_interface (m : MeshCartesian) (decomp : Decomposition) (K : List Key)
    (hin : ∀ k ∈ K, decomp.is_inside k.coordinate = true) (j jn idx : Nat)
    (hj : j < K.length) (hjn : jn < K.length) (hidx : idx < 6)
    (hpos : (offsets idx).x > 0 ∨ (offsets idx).y > 0 ∨ (offsets idx).z > 0)
    (hadj : K[j].neighbor (offsets idx) = K[jn]) (b : CellInterface) :
    (b ∈ interfacesPushedBy m decomp K K[j] (topologySteps K.length) ∧
        b ∈ interfacesPushedBy m decomp K K[jn] (topologySteps K.length)) ↔
      b = CellInterface.mk
        { kind := .internal ⟨K[jn], 0⟩, lvl := 0, split := false,
          face := offsetFace m K[j].coordinate (offsets idx) false, cellGauche := ⟨K[j], 0⟩ } [] := by
  have hinn : decomp.is_inside (K[j].neighbor (offsets idx)).coordinate = true := by
    rw [hadj]
    exact hin _ (List.getElem_mem _)
  have hB : interfaceOf m decomp K K[j] idx = some (CellInterface.mk
      { kind := .internal ⟨K[jn], 0⟩, lvl := 0, split := false,
        face := offsetFace m K[j].coordinate (offsets idx) false, cellGauche := ⟨K[j], 0⟩ } []) := by
    unfold interfaceOf
    have h0 : ¬ (decomp.is_inside (K[j].neighbor (offsets idx)).coordinate = false) := by
      simp [hinn]
    rw [if_neg h0, if_pos hpos, hadj]
  rw [mem_interfacesPushedBy m decomp K j hj, mem_interfacesPushedBy m decomp K jn hjn]
  constructor
  · rintro ⟨⟨i, hi, idx1, hidx1, h1⟩, ⟨i', hi', idx2, hidx2, h2⟩⟩
    rw [mem_interfacesPushed] at h1 h2
    obtain ⟨e1, e2⟩ := interfaceOf_injective m decomp K _ _ _ _ b (List.getElem_mem _)
      (List.getElem_mem _) hidx1 hidx2 h1.1 h2.1
    rcases h1.2 with a1 | ⟨-, p1, a1⟩
    · rcases h2.2 with a2 | ⟨-, -, a2⟩
      · exfalso
        apply neighbor_ne_self K[j] idx hidx
        rw [hadj, ← a2, ← e1, a1]
      · have e3 : K[j].neighbor (offsets idx1) = K[j].neighbor (offsets idx) := by
          rw [hadj, ← a2, ← e1, a1, e2]
        have e4 := offsets_injective K[j] idx1 idx hidx1 hidx e3
        rw [a1, e4, hB] at h1
        exact (Option.some.inj h1.1).symm
    · rcases h2.2 with a2 | ⟨-, -, a2⟩
      · exfalso
        have e3 : K[jn].neighbor (offsets idx1) = K[jn].neighbor (offsets (oppositeIndex idx)) := by
          rw [← a2, ← e1, a1, e1, a2, ← hadj, neighbor_oppositeIndex _ idx hidx]
        have e4 := offsets_injective K[jn] idx1 (oppositeIndex idx) hidx1
          (oppositeIndex_lt idx hidx) e3
        rw [e4] at p1
        exact (oppositeIndex_positive idx hidx).mp p1 hpos
      · exfalso
        apply neighbor_ne_self K[j] idx hidx
        rw [hadj, ← a2, ← e2, ← e1, a1]
  · intro e
    subst e
    constructor
    · exact ⟨j, hj, idx, hidx, (mem_interfacesPushed _ _ _ _ _ _ _).mpr ⟨hB, Or.inl rfl⟩⟩
    · exact ⟨j, hj, idx, hidx,
        (mem_interfacesPushed _ _ _ _ _ _ _).mpr ⟨hB, Or.inr ⟨hinn, hpos, hadj⟩⟩⟩

/-- C18: for a decomposition in which each rank holds, once each, the base keys inside the domain
that it owns, after `createCellInterfacesFacesAndGhostCells` every cell of the rank holds exactly
six interfaces, which are, in some order, the interfaces of its six offsets: for an offset whose
neighbor coordinate is outside the domain a boundary interface with the cell as left cell,
otherwise an internal interface between the cell and the neighbor, the cell being the left cell on
a positive offset and the right cell on a negative offset. When the neighbor is not a cell of the
rank, the ghost cell of the key of the neighbor holds this interface too. Two cells of the rank
adjacent across a positive offset have exactly one interface in common, with the cell as left cell
and the neighbor as right cell. No two ghost cells have the same key. -/
theorem six_interfaces_per_cell (m : MeshCartesian) (decomp : Decomposition)
    (keyLess : Key → Key → Bool) (Ncpu rankCpu : Int) (hdec : decomp.Owns) (j : Nat)
    (hj : j < (decomp.get_keys rankCpu).length) :
    ∃ c : Cell, (initializeGeometrieAMR m decomp keyLess Ncpu rankCpu).cells[j]? = some c ∧
      c.key = (decomp.get_keys rankCpu)[j] ∧
      c.data.cellInterfaces.length = 6 ∧
      c.data.cellInterfaces.Perm
        ((List.range 6).map (expectedInterface m decomp (decomp.get_keys rankCpu) c.key)) ∧
      (∀ idx : Nat, idx < 6 →
        (decomp.is_inside (c.key.neighbor (offsets idx)).coordinate = false →
          (expectedInterface m decomp (decomp.get_keys rankCpu) c.key idx).data.kind
            = .boundary (boundaryCode m (offsets idx)) ∧
          (expectedInterface m decomp (decomp.get_keys rankCpu) c.key idx).data.cellGauche
            = ⟨c.key, 0⟩) ∧
        (decomp.is_inside (c.key.neighbor (offsets idx)).coordinate = true →
          ((offsets idx).x > 0 ∨ (offsets idx).y > 0 ∨ (offsets idx).z > 0) →
          (expectedInterface m decomp (decomp.get_keys rankCpu) c.key idx).data.kind
            = .internal ⟨c.key.neighbor (offsets idx), 0⟩ ∧
          (expectedInterface m decomp (decomp.get_keys rankCpu) c.key idx).data.cellGauche
            = ⟨c.key, 0⟩) ∧
        (decomp.is_inside (c.key.neighbor (offsets idx)).coordinate = true →
          ¬ ((offsets idx).x > 0 ∨ (offsets idx).y > 0 ∨ (offsets idx).z > 0) →
          (expectedInterface m decomp (decomp.get_keys rankCpu) c.key idx).data.kind
            = .internal ⟨c.key, 0⟩ ∧
          (expectedInterface m decomp (decomp.get_keys rankCpu) c.key idx).data.cellGauche
            = ⟨c.key.neighbor (offsets idx), 0⟩)) ∧
      (∀ idx : Nat, idx < 6 → ghostNeighbor decomp (decomp.get_keys rankCpu) c.key idx →
        ∃ d ∈ (initializeGeometrieAMR m decomp keyLess Ncpu rankCpu).cells.drop
            (decomp.get_keys rankCpu).length,
          d.key = c.key.neighbor (offsets idx) ∧
          expectedInterface m decomp (decomp.get_keys rankCpu) c.key idx
            ∈ d.data.cellInterfaces) ∧
      (∀ idx : Nat, idx < 6 → ((offsets idx).x > 0 ∨ (offsets idx).y > 0 ∨ (offsets idx).z > 0) →
        ∀ (jn : Nat) (cn : Cell), jn < (decomp.get_keys rankCpu).length →
          (initializeGeometrieAMR m decomp keyLess Ncpu rankCpu).cells[jn]? = some cn →
          cn.key = c.key.neighbor (offsets idx) →
          ∀ b : CellInterface, (b ∈ c.data.cellInterfaces ∧ b ∈ cn.data.cellInterfaces) ↔
            b = CellInterface.mk
              { kind := .internal ⟨cn.key, 0⟩, lvl := 0, split := false,
                face := offsetFace m c.key.coordinate (offsets idx) false,
                cellGauche := ⟨c.key, 0⟩ } []) ∧
      ((initializeGeometrieAMR m decomp keyLess Ncpu rankCpu).ghostKeys
        (decomp.get_keys rankCpu).length).Nodup := by
  have hnd : (decomp.get_keys rankCpu).Nodup := hdec.1 rankCpu
  have hin : ∀ k ∈ decomp.get_keys rankCpu, decomp.is_inside k.coordinate = true :=
    fun k hk => (((hdec.2 rankCpu k).mp hk).2).1
  obtain ⟨c, hc, hkey, hifaces⟩ := interfaces_of_rank m decomp keyLess Ncpu rankCpu j hnd hj
  have hperm : c.data.cellInterfaces.Perm
      ((List.range 6).map (expectedInterface m decomp (decomp.get_keys rankCpu) c.key)) := by
    rw [hifaces, hkey]
    exact (List.perm_ext_iff_of_nodup (interfacesPushedBy_nodup m decomp _ hnd _)
      (expectedInterface_nodup m decomp _ _ (List.getElem_mem _)
        (hin _ (List.getElem_mem _)))).mpr
      (fun b => mem_interfacesPushedBy_iff m decomp _ hin j hj b)
  refine ⟨c, hc, hkey, ?_, hperm, ?_, ?_, ?_, ?_⟩
  · rw [hperm.length_eq, List.length_map, List.length_range]
  · intro idx _
    exact expectedInterface_ends m decomp _ c.key idx
  · intro idx hidx hg
    rw [hkey] at hg ⊢
    have hsome : interfaceOf m decomp (decomp.get_keys rankCpu) (decomp.get_keys rankCpu)[j] idx
        = some (expectedInterface m decomp (decomp.get_keys rankCpu)
          (decomp.get_keys rankCpu)[j] idx) := by
      rcases expectedInterface_creator m decomp (decomp.get_keys rankCpu) _ idx hidx
        (hin _ (List.getElem_mem _)) with h1 | ⟨h1, -⟩
      · exact h1
      · exact absurd ((interfaceOf_eq_none_iff m decomp _ _ idx).mp h1).2.2 hg.2
    obtain ⟨s1, hs1, hcells, -, -⟩ := initializeGeometrieAMR_eq m decomp keyLess Ncpu rankCpu
    rw [hcells, hs1]
    exact ghost_holds_interface m decomp (decomp.get_keys rankCpu) _
      (topologyInv_initial m decomp _) j hj idx hidx hg _ hsome
  · intro idx hidx hpos jn cn hjn hcn hadj b
    obtain ⟨c', hc', hkey', hifaces'⟩ :=
      interfaces_of_rank m decomp keyLess Ncpu rankCpu jn hnd hjn
    rw [hcn] at hc'
    cases Option.some.inj hc'
    rw [hifaces, hifaces', hkey', hkey]
    rw [hkey, hkey'] at hadj
    exact shared_interface m decomp (decomp.get_keys rankCpu) hin j jn idx hj hjn hidx hpos
      hadj.symm b
  · exact (exchange_lists_of_rank m decomp keyLess Ncpu rankCpu).2.2.2.2

theorem six_interfaces_per_cell_witness :
    exampleDecomposition.Owns ∧ 0 < (exampleDecomposition.get_keys 0).length ∧
      ∃ c : Cell,
        (initializeGeometrieAMR exampleMesh exampleDecomposition exampleKeyLess 2 0).cells[0]?
          = some c ∧ c.data.cellInterfaces.length = 6 :=
  ⟨exampleDecomposition_owns, by decide,
    (six_interfaces_per_cell exampleMesh exampleDecomposition exampleKeyLess 2 0
      exampleDecomposition_owns 0 (by decide)).imp (fun _ h => ⟨h.1, h.2.2.1⟩)⟩

/-! ## Refinement of a ghost cell -/

theorem getD_append_singleton_length {α : Type} (l : List α) (a d : α) :
    (l ++ [a]).getD (l.length + 1 - 1) d = a := by
  simp [List.getD_eq_getElem?_getD]

theorem modify_append_singleton_length {α : Type} (f : α → α) (l : List α) (a : α) :
    (l ++ [a]).modify f (l.length + 1 - 1) = l ++ [f a] := by
  induction l with
  | nil => rfl
  | cons x t ih =>
    simp only [List.cons_append, List.length_cons, Nat.add_sub_cancel] at ih ⊢
    rw [List.modify_succ_cons, ih]

theorem children_after_init (b : CellInterface) (g r : CellRef) :
    ( b.initialize g r).cellInterfacesChildren = b.cellInterfacesChildren := by
  unfold CellInterface.initialize CellInterface.initializeDroite CellInterface.initializeGauche
  split <;> rfl

/-- A pass of the double loop for a key that no child has yet, the neighbor being at the level of
the ghost: a child is created with one child interface. -/
theorem refineGhostChild_new (model : Model) (rd : RefineDims) (p : Nat) (loc : GhostLocals)
    (ck : Cell) (ij : Nat × Nat) (bik : CellInterface)
    (hget : ck.data.cellInterfaces.get? p = some bik)
    (hfound : ck.childrenCells.findIdx? (fun ch => decide (ch.data.element.key
      = ⟨(loc.child_coord.addAt ((loc.idx + 1) % rd.dim) (ij.1 : Int)).addAt
        ((loc.idx + 2) % rd.dim) (ij.2 : Int), ck.data.element.key.level + 1⟩)) = none)
    (hlvl : loc.GhostCellNeighbor.lvl = ck.data.lvl) :
    refineGhostChild model rd p loc ck ij
      = Cell.mk
          { ck.data with
            cellInterfaces := ck.data.cellInterfaces.set p
              (CellInterface.mk ( bik.initialize ck.ref (ghostNewChild model rd loc ck ij).ref).data
                (bik.cellInterfacesChildren ++
                  [ghostNewChildInterface rd loc
                    ( bik.initialize ck.ref (ghostNewChild model rd loc ck ij).ref)
                    (ghostNewChild model rd loc ck ij)])) }
          (ck.childrenCells ++
            [(ghostNewChild model rd loc ck ij).addCellInterface
              (ghostNewChildInterface rd loc
                ( bik.initialize ck.ref (ghostNewChild model rd loc ck ij).ref)
                (ghostNewChild model rd loc ck ij))]) := by
  unfold refineGhostChild
  rw [hget]
  simp only [hfound, hlvl, if_true, List.length_append, List.length_singleton,
    getD_append_singleton_length, modify_append_singleton_length]
  unfold CellInterface.creerCellInterfaceChild creerCellInterfaceChildInterne
  simp only [CellInterface.cellInterfacesChildren_mk, CellInterface.interfaceData_mk,
    List.length_append, List.length_singleton, getD_append_singleton_length,
    modify_append_singleton_length, children_after_init]
  rfl

theorem key_ghostNewChild (model : Model) (rd : RefineDims) (loc : GhostLocals) (ck : Cell)
    (ij : Nat × Nat) :
    (ghostNewChild model rd loc ck ij).key = ghostNextKey rd loc ck.data.element.key.level ij :=
  rfl

theorem lvl_ghostNewChild (model : Model) (rd : RefineDims) (loc : GhostLocals) (ck : Cell)
    (ij : Nat × Nat) : (ghostNewChild model rd loc ck ij).data.lvl = ck.data.lvl + 1 := rfl

theorem childrenCells_ghostNewChild (model : Model) (rd : RefineDims) (loc : GhostLocals)
    (ck : Cell) (ij : Nat × Nat) : (ghostNewChild model rd loc ck ij).childrenCells = [] := rfl

theorem cellInterfaces_ghostNewChild (model : Model) (rd : RefineDims) (loc : GhostLocals)
    (ck : Cell) (ij : Nat × Nat) :
    (ghostNewChild model rd loc ck ij).data.cellInterfaces = [] := rfl

theorem ends_ghostNewChildInterface (rd : RefineDims) (loc : GhostLocals) (bi1 : CellInterface)
    (child : Cell) :
    if loc.GhostCellIsLeft = true then
      (ghostNewChildInterface rd loc bi1 child).data.cellGauche = child.ref ∧
        (ghostNewChildInterface rd loc bi1 child).data.kind = .internal loc.GhostCellNeighbor
    else
      (ghostNewChildInterface rd loc bi1 child).data.kind = .internal child.ref ∧
        (ghostNewChildInterface rd loc bi1 child).data.cellGauche = loc.GhostCellNeighbor := by
  unfold ghostNewChildInterface
  cases loc.GhostCellIsLeft <;> exact ⟨rfl, rfl⟩

/-- One pass of the double loop for a key that no child has yet, the neighbor being at the level
of the ghost, keeps what the loop maintains and appends the key. -/
theorem ghostChildrenInv_step (model : Model) (rd : RefineDims) (c : Cell) (p : Nat)
    (bi : CellInterface) (loc : GhostLocals) (keys : List Key) (ck : Cell) (ij : Nat × Nat)
    (hlvl : loc.GhostCellNeighbor.lvl = c.data.lvl)
    (hinv : GhostChildrenInv c p bi loc keys ck)
    (hnew : ghostNextKey rd loc c.data.element.key.level ij ∉ keys) :
    GhostChildrenInv c p bi loc (keys ++ [ghostNextKey rd loc c.data.element.key.level ij])
      (refineGhostChild model rd p loc ck ij) := by
  obtain ⟨he, hl, hlen, hoth, hkeys, bik, hget, hnum, hch⟩ := hinv
  have hfound : ck.childrenCells.findIdx? (fun ch => decide (ch.data.element.key
      = ⟨(loc.child_coord.addAt ((loc.idx + 1) % rd.dim) (ij.1 : Int)).addAt
        ((loc.idx + 2) % rd.dim) (ij.2 : Int), ck.data.element.key.level + 1⟩)) = none := by
    rw [findIdx?_key_eq_none, hkeys, he]
    exact hnew
  have hlvl' : loc.GhostCellNeighbor.lvl = ck.data.lvl := by rw [hl]; exact hlvl
  have hp : p < ck.data.cellInterfaces.length := by
    rw [List.get?_eq_getElem?] at hget
    exact (List.getElem?_eq_some_iff.mp hget).1
  rw [refineGhostChild_new model rd p loc ck ij bik hget hfound hlvl']
  refine ⟨he, hl, ?_, ?_, ?_,
    CellInterface.mk ( bik.initialize ck.ref (ghostNewChild model rd loc ck ij).ref).data
      (bik.cellInterfacesChildren ++
        [ghostNewChildInterface rd loc
          ( bik.initialize ck.ref (ghostNewChild model rd loc ck ij).ref)
          (ghostNewChild model rd loc ck ij)]), ?_, ?_, ?_⟩
  · simp only [Cell.data_mk, List.length_set]
    exact hlen
  · intro q hq
    simp only [Cell.data_mk]
    rw [List.get?_eq_getElem?, List.getElem?_set_ne (fun e => hq e.symm),
      ← List.get?_eq_getElem?]
    exact hoth q hq
  · simp only [Cell.childrenCells_mk, List.map_append, List.map_singleton,
      Cell.key_addCellInterface, key_ghostNewChild, hkeys, he]
  · simp only [Cell.data_mk]
    rw [List.get?_eq_getElem?, List.getElem?_set_self hp]
  · simp only [CellInterface.cellInterfacesChildren_mk, List.length_append,
      List.length_singleton, hnum]
    omega
  · intro ch hc
    simp only [Cell.childrenCells_mk, List.mem_append, List.mem_singleton] at hc
    rcases hc with hc | hc
    · obtain ⟨h1, h2, x, h3, h4, h5⟩ := hch ch hc
      refine ⟨h1, h2, x, h3, ?_, h5⟩
      simp only [CellInterface.cellInterfacesChildren_mk]
      exact List.mem_append_left _ h4
    · subst hc
      refine ⟨?_, rfl, _, rfl, ?_, ?_⟩
      · rw [Cell.lvl_addCellInterface, lvl_ghostNewChild, hl]
      · simp only [CellInterface.cellInterfacesChildren_mk]
        exact List.mem_append_right _ (List.mem_singleton.mpr rfl)
      · exact ends_ghostNewChildInterface rd loc _ _

/-- The keys of the passes of the double loop, for a face across the axis `a` of the mesh, are
the keys of the children of the ghost whose coordinate bit on this axis is `bit`. -/
theorem ghostKeys_perm (k0 : Key) (nbCellsY nbCellsZ : Int) (a : Nat)
    (ha : a < (refineDims nbCellsY nbCellsZ).dim) (bit : Int) (hbit : bit = 0 ∨ bit = 1)
    (left : Bool) (nb : CellRef) :
    ((ghostPairs (refineDims nbCellsY nbCellsZ)).map
        (ghostNextKey (refineDims nbCellsY nbCellsZ)
          ⟨(k0.child 0).coordinate.addAt a bit, left, nb, a⟩ k0.level)).Perm
      (k0.faceChildren (refineDims nbCellsY nbCellsZ).numberCellsChildren a bit) := by
  unfold refineDims at ha ⊢
  split_ifs at ha ⊢ <;> simp only at ha <;> interval_cases a <;> rcases hbit with rfl | rfl <;>
    simp [ghostPairs, ghostNextKey, KeyCoord.addAt, Key.faceChildren, Key.child, childBits,
      KeyCoord.get, List.range_succ, List.flatMap, List.filter] <;>
    try exact List.Perm.swap _ _ _

theorem ghostKeys_nodup (k0 : Key) (nbCellsY nbCellsZ : Int) (a : Nat)
    (ha : a < (refineDims nbCellsY nbCellsZ).dim) (bit : Int) (hbit : bit = 0 ∨ bit = 1)
    (left : Bool) (nb : CellRef) :
    ((ghostPairs (refineDims nbCellsY nbCellsZ)).map
        (ghostNextKey (refineDims nbCellsY nbCellsZ)
          ⟨(k0.child 0).coordinate.addAt a bit, left, nb, a⟩ k0.level)).Nodup := by
  unfold refineDims at ha ⊢
  split_ifs at ha ⊢ <;> simp only at ha <;> interval_cases a <;> rcases hbit with rfl | rfl <;>
    simp [ghostPairs, ghostNextKey, KeyCoord.addAt, List.range_succ, List.flatMap]

theorem ghostPairs_length (nbCellsY nbCellsZ : Int) :
    (ghostPairs (refineDims nbCellsY nbCellsZ)).length
      = 2 ^ ((refineDims nbCellsY nbCellsZ).dim - 1) := by
  unfold refineDims
  split_ifs <;> simp [ghostPairs, List.range_succ, List.flatMap]

theorem truncToInt_intCast (z : Int) : truncToInt (z : ℚ) = z := by
  unfold truncToInt
  split <;> simp

/-- The locals computed for an interface whose face is across the axis `a`. -/
theorem ghostLocals_of_axis (c : Cell) (bi : CellInterface) (cd : CellRef) (a : Nat) (ha : a < 3)
    (hn : bi.data.face.normal = normalOfAxis a) :
    ghostLocals c bi cd
      = ⟨(c.data.element.key.child 0).coordinate.addAt a
            (if c.ref = bi.data.cellGauche then 1 else 0),
          decide (c.ref = bi.data.cellGauche),
          if c.ref = bi.data.cellGauche then cd else bi.data.cellGauche, a⟩ := by
  unfold ghostLocals
  rw [hn]
  have e1 : ∀ z : Int, truncToInt ((z : ℚ) + 1) = z + 1 := by
    intro z
    have := truncToInt_intCast (z + 1)
    push_cast at this
    exact this
  have e0 : ∀ z : Int, truncToInt ((z : ℚ) + 0) = z := by
    intro z
    rw [add_zero]
    exact truncToInt_intCast z
  interval_cases a <;> by_cases hl : c.ref = bi.data.cellGauche <;>
    simp [normalOfAxis, KeyCoord.addAt, hl, e1, e0, truncToInt_intCast] <;> norm_num

/-- The passes of the double loop for keys that are pairwise distinct and that no child has yet
keep what the loop maintains and append these keys. -/
theorem ghostChildrenInv_foldl (model : Model) (rd : RefineDims) (c : Cell) (p : Nat)
    (bi : CellInterface) (loc : GhostLocals) (hlvl : loc.GhostCellNeighbor.lvl = c.data.lvl)
    (l : List (Nat × Nat)) :
    ∀ (keys : List Key) (ck : Cell), GhostChildrenInv c p bi loc keys ck →
      (keys ++ l.map (ghostNextKey rd loc c.data.element.key.level)).Nodup →
      GhostChildrenInv c p bi loc (keys ++ l.map (ghostNextKey rd loc c.data.element.key.level))
        (l.foldl (refineGhostChild model rd p loc) ck) := by
  induction l with
  | nil =>
    intro keys ck hinv _
    simpa using hinv
  | cons ij t ih =>
    intro keys ck hinv hnd
    rw [List.map_cons] at hnd ⊢
    have hnew : ghostNextKey rd loc c.data.element.key.level ij ∉ keys := by
      intro hmem
      have := (List.nodup_append.mp hnd).2.2
      exact this hmem (List.mem_cons_self _ _)
    have hstep := ghostChildrenInv_step model rd c p bi loc keys ck ij hlvl hinv hnew
    have e : keys ++ ghostNextKey rd loc c.data.element.key.level ij ::
        t.map (ghostNextKey rd loc c.data.element.key.level)
        = (keys ++ [ghostNextKey rd loc c.data.element.key.level ij]) ++
          t.map (ghostNextKey rd loc c.data.element.key.level) := by
      rw [List.append_assoc, List.singleton_append]
    rw [e] at hnd ⊢
    rw [List.foldl_cons]
    exact ih _ _ hstep hnd

theorem foldl_fixed {σ ι : Type} (f : σ → ι → σ) (l : List ι) (s : σ)
    (h : ∀ q ∈ l, f s q = s) : l.foldl f s = s := by
  induction l with
  | nil => rfl
  | cons a t ih =>
    rw [List.foldl_cons, h a (List.mem_cons_self _ _)]
    exact ih (fun q hq => h q (List.mem_cons_of_mem _ hq))

/-- A loop in which a single pass acts is this pass. -/
theorem foldl_one_active {σ ι : Type} (f : σ → ι → σ) (l : List ι) (s : σ) (p : ι)
    (hnd : l.Nodup) (hp : p ∈ l) (h1 : ∀ q ∈ l, q ≠ p → f s q = s)
    (h2 : ∀ q ∈ l, q ≠ p → f (f s p) q = f s p) : l.foldl f s = f s p := by
  induction l with
  | nil => cases hp
  | cons a t ih =>
    rw [List.foldl_cons]
    rw [List.nodup_cons] at hnd
    by_cases e : a = p
    · subst e
      apply foldl_fixed
      intro q hq
      exact h2 q (List.mem_cons_of_mem _ hq) (fun e => hnd.1 (e ▸ hq))
    · rw [h1 a (List.mem_cons_self _ _) e]
      have hp' : p ∈ t := by
        rcases List.mem_cons.mp hp with h | h
        · exact absurd h.symm e
        · exact h
      exact ih hnd.2 hp' (fun q hq => h1 q (List.mem_cons_of_mem _ hq))
        (fun q hq => h2 q (List.mem_cons_of_mem _ hq))

/-- The pass of the loop over the interfaces does nothing for a boundary interface and for a
split interface. -/
theorem refineGhostCellInterface_skip (model : Model) (rd : RefineDims) (c : Cell) (q : Nat)
    (h : ∀ bq : CellInterface, c.data.cellInterfaces.get? q = some bq →
      (∃ code : Nat, bq.data.kind = .boundary code) ∨ bq.data.split = true) :
    refineGhostCellInterface model rd c q = c := by
  unfold refineGhostCellInterface
  cases hget : c.data.cellInterfaces.get? q with
  | none => rfl
  | some bq =>
    simp only
    rcases h bq hget with ⟨code, hk⟩ | hs
    · rw [hk]
    · cases hkind : bq.data.kind with
      | boundary code => rfl
      | internal cd =>
        simp only [CellInterface.getSplit, hs, Bool.not_true, Bool.false_eq_true, if_false]

/-- The refinement of a ghost cell without children that holds, at index `p`, its only two-sided
interface that is not split, the face of this interface being across an axis of the mesh and the
neighbor across it being at the level of the ghost: the result is, up to the final sort of the
children, the cell after the passes of the double loop for this interface. -/
theorem refineCellAndCellInterfacesGhost_eq (model : Model) (nbCellsY nbCellsZ : Int) (c : Cell)
    (p : Nat) (bi : CellInterface) (cd : CellRef) (a : Nat)
    (hchildren : c.childrenCells = [])
    (hget : c.data.cellInterfaces.get? p = some bi)
    (hkind : bi.data.kind = .internal cd) (hsplit : bi.data.split = false)
    (hothers : ∀ (q : Nat) (bq : CellInterface), q ≠ p → c.data.cellInterfaces.get? q = some bq →
      (∃ code : Nat, bq.data.kind = .boundary code) ∨ bq.data.split = true)
    (ha : a < (refineDims nbCellsY nbCellsZ).dim) (hn : bi.data.face.normal = normalOfAxis a)
    (hlvl : (if c.ref = bi.data.cellGauche then cd else bi.data.cellGauche).lvl = c.data.lvl) :
    ∃ c1 : Cell,
      c.refineCellAndCellInterfacesGhost model nbCellsY nbCellsZ
        = Cell.mk c1.data (c1.childrenCells.insertionSort
            (fun x y => ghostSortIndex (c.data.element.key.child 0).coordinate x
              ≤ ghostSortIndex (c.data.element.key.child 0).coordinate y)) ∧
      GhostChildrenInv c p bi (ghostLocals c bi cd)
        ((ghostPairs (refineDims nbCellsY nbCellsZ)).map
          (ghostNextKey (refineDims nbCellsY nbCellsZ)
            ⟨(c.data.element.key.child 0).coordinate.addAt a
              (if c.ref = bi.data.cellGauche then 1 else 0),
              decide (c.ref = bi.data.cellGauche),
              if c.ref = bi.data.cellGauche then cd else bi.data.cellGauche, a⟩
            c.data.element.key.level)) c1 := by
  have ha3 : a < 3 := by
    have : (refineDims nbCellsY nbCellsZ).dim ≤ 3 := by
      unfold refineDims
      split_ifs <;> simp
    omega
  have hloc := ghostLocals_of_axis c bi cd a ha3 hn
  have hp : p < c.data.cellInterfaces.length := by
    rw [List.get?_eq_getElem?] at hget
    exact (List.getElem?_eq_some_iff.mp hget).1
  have hpass : refineGhostCellInterface model (refineDims nbCellsY nbCellsZ) c p
      = (ghostPairs (refineDims nbCellsY nbCellsZ)).foldl
          (refineGhostChild model (refineDims nbCellsY nbCellsZ) p (ghostLocals c bi cd)) c := by
    unfold refineGhostCellInterface
    rw [hget]
    simp only [hkind, CellInterface.getSplit, hsplit, Bool.not_false, if_true]
    rfl
  have hinv0 : GhostChildrenInv c p bi (ghostLocals c bi cd) [] c := by
    refine ⟨rfl, rfl, rfl, fun _ _ => rfl, ?_, bi, hget, ?_, ?_⟩
    · rw [hchildren]; rfl
    · simp
    · intro ch hc
      rw [hchildren] at hc
      cases hc
  have hbit : (if c.ref = bi.data.cellGauche then (1 : Int) else 0) = 0 ∨
      (if c.ref = bi.data.cellGauche then (1 : Int) else 0) = 1 := by
    split
    · exact Or.inr rfl
    · exact Or.inl rfl
  have hnd := ghostKeys_nodup c.data.element.key nbCellsY nbCellsZ a ha _ hbit
    (decide (c.ref = bi.data.cellGauche))
    (if c.ref = bi.data.cellGauche then cd else bi.data.cellGauche)
  have hlvl' : (ghostLocals c bi cd).GhostCellNeighbor.lvl = c.data.lvl := by
    rw [hloc]
    exact hlvl
  have hinv := ghostChildrenInv_foldl model (refineDims nbCellsY nbCellsZ) c p bi
    (ghostLocals c bi cd) hlvl' (ghostPairs (refineDims nbCellsY nbCellsZ)) [] c hinv0
    (by rw [List.nil_append, hloc]; exact hnd)
  rw [List.nil_append, ← hpass] at hinv
  have hfold : (List.range c.data.cellInterfaces.length).foldl
      (refineGhostCellInterface model (refineDims nbCellsY nbCellsZ)) c
      = refineGhostCellInterface model (refineDims nbCellsY nbCellsZ) c p := by
    apply foldl_one_active _ _ _ _ (List.nodup_range _) (List.mem_range.mpr hp)
    · intro q _ hq
      exact refineGhostCellInterface_skip model _ c q (fun bq hbq => hothers q bq hq hbq)
    · intro q _ hq
      apply refineGhostCellInterface_skip
      intro bq hbq
      rw [hinv.2.2.2.1 q hq] at hbq
      exact hothers q bq hq hbq
  refine ⟨refineGhostCellInterface model (refineDims nbCellsY nbCellsZ) c p, ?_, ?_⟩
  · unfold Cell.refineCellAndCellInterfacesGhost
    simp only [hfold]
  · rw [← hloc]
    exact hinv

/-- C19: for a ghost cell `c` marked split, without children, that holds at index `p` its only
two-sided interface `bi` that is not split, the face of `bi` being across an axis `a` of the mesh
and the neighbor across `bi` being at the level of the ghost, `chooseRefineDeraffineGhost` leaves
the ghost with `2 ^ (dim - 1)` children of level `lvl + 1`, whose keys are the keys of the
children of the ghost with coordinate bit 1 on the axis `a` when the ghost is the left cell of
`bi` and 0 otherwise; `bi` receives one child interface per child, which is the only interface of
this child and joins it to the neighbor; and the children are appended to the ghost list of level
`lvl + 1`. For a ghost cell `g` marked not split that has children, the method leaves no child
and the ghost lists as they are. -/
theorem chooseRefineDeraffineGhost_children (ops : InterfaceOps) (model : Model)
    (nbCellsY nbCellsZ : Int) (c : Cell) (cellsLvlGhost : Int → List Cell) (p : Nat)
    (bi : CellInterface) (cd : CellRef) (a : Nat) (g : Cell)
    (hc : c.data.split = true) (hchildren : c.childrenCells = [])
    (hget : c.data.cellInterfaces.get? p = some bi)
    (hkind : bi.data.kind = .internal cd) (hsplit : bi.data.split = false)
    (hothers : ∀ (q : Nat) (bq : CellInterface), q ≠ p → c.data.cellInterfaces.get? q = some bq →
      (∃ code : Nat, bq.data.kind = .boundary code) ∨ bq.data.split = true)
    (ha : a < (refineDims nbCellsY nbCellsZ).dim) (hn : bi.data.face.normal = normalOfAxis a)
    (hlvl : (if c.ref = bi.data.cellGauche then cd else bi.data.cellGauche).lvl = c.data.lvl)
    (hg : g.data.split = false) (hgc : g.childrenCells ≠ []) :
    ((c.chooseRefineDeraffineGhost ops model nbCellsY nbCellsZ cellsLvlGhost).1.childrenCells.length
        = 2 ^ ((refineDims nbCellsY nbCellsZ).dim - 1) ∧
      (∀ ch ∈ (c.chooseRefineDeraffineGhost ops model nbCellsY nbCellsZ
          cellsLvlGhost).1.childrenCells, ch.data.lvl = c.data.lvl + 1) ∧
      ((c.chooseRefineDeraffineGhost ops model nbCellsY nbCellsZ
          cellsLvlGhost).1.childrenCells.map Cell.key).Perm
        (c.data.element.key.faceChildren (refineDims nbCellsY nbCellsZ).numberCellsChildren a
          (if c.ref = bi.data.cellGauche then 1 else 0)) ∧
      (∃ bnew : CellInterface,
        (c.chooseRefineDeraffineGhost ops model nbCellsY nbCellsZ
          cellsLvlGhost).1.data.cellInterfaces.get? p = some bnew ∧
        bnew.cellInterfacesChildren.length
          = bi.cellInterfacesChildren.length + 2 ^ ((refineDims nbCellsY nbCellsZ).dim - 1) ∧
        ∀ ch ∈ (c.chooseRefineDeraffineGhost ops model nbCellsY nbCellsZ
            cellsLvlGhost).1.childrenCells,
          ∃ x : CellInterface, ch.data.cellInterfaces = [x] ∧ x ∈ bnew.cellInterfacesChildren ∧
            if c.ref = bi.data.cellGauche then
              x.data.cellGauche = ch.ref ∧ x.data.kind = .internal cd
            else x.data.kind = .internal ch.ref ∧ x.data.cellGauche = bi.data.cellGauche) ∧
      (c.chooseRefineDeraffineGhost ops model nbCellsY nbCellsZ cellsLvlGhost).2 (c.data.lvl + 1)
        = cellsLvlGhost (c.data.lvl + 1) ++
          (c.chooseRefineDeraffineGhost ops model nbCellsY nbCellsZ
            cellsLvlGhost).1.childrenCells) ∧
    ((g.chooseRefineDeraffineGhost ops model nbCellsY nbCellsZ cellsLvlGhost).1.childrenCells = [] ∧
      (g.chooseRefineDeraffineGhost ops model nbCellsY nbCellsZ cellsLvlGhost).2
        = cellsLvlGhost) := by
  constructor
  · obtain ⟨c1, hc1, he, hl, -, -, hkeys, bik, hgetk, hnum, hch⟩ :=
      refineCellAndCellInterfacesGhost_eq model nbCellsY nbCellsZ c p bi cd a hchildren hget hkind
        hsplit hothers ha hn hlvl
    have ha3 : a < 3 := by
      have : (refineDims nbCellsY nbCellsZ).dim ≤ 3 := by
        unfold refineDims
        split_ifs <;> simp
      omega
    have hloc := ghostLocals_of_axis c bi cd a ha3 hn
    have hr : (c.chooseRefineDeraffineGhost ops model nbCellsY nbCellsZ cellsLvlGhost)
        = (c.refineCellAndCellInterfacesGhost model nbCellsY nbCellsZ,
            Function.update cellsLvlGhost
              ((c.refineCellAndCellInterfacesGhost model nbCellsY nbCellsZ).data.lvl + 1)
              (cellsLvlGhost
                  ((c.refineCellAndCellInterfacesGhost model nbCellsY nbCellsZ).data.lvl + 1) ++
                (c.refineCellAndCellInterfacesGhost model nbCellsY nbCellsZ).childrenCells)) := by
      unfold Cell.chooseRefineDeraffineGhost
      simp only [hc, hchildren, List.length_nil, if_true]
    rw [hr, hc1]
    simp only [Cell.childrenCells_mk, Cell.data_mk]
    have hperm := List.perm_insertionSort
      (fun x y => ghostSortIndex (c.data.element.key.child 0).coordinate x
        ≤ ghostSortIndex (c.data.element.key.child 0).coordinate y) c1.childrenCells
    have hlen : c1.childrenCells.length = 2 ^ ((refineDims nbCellsY nbCellsZ).dim - 1) := by
      have := congrArg List.length hkeys
      rw [List.length_map, List.length_map, ghostPairs_length] at this
      exact this
    have hbit : (if c.ref = bi.data.cellGauche then (1 : Int) else 0) = 0 ∨
        (if c.ref = bi.data.cellGauche then (1 : Int) else 0) = 1 := by
      split
      · exact Or.inr rfl
      · exact Or.inl rfl
    refine ⟨?_, ?_, ?_, ?_, ?_⟩
    · rw [hperm.length_eq, hlen]
    · intro ch hmem
      exact (hch ch (hperm.mem_iff.mp hmem)).1
    · refine (hperm.map Cell.key).trans ?_
      rw [hkeys]
      exact ghostKeys_perm _ nbCellsY nbCellsZ a ha _ hbit _ _
    · refine ⟨bik, hgetk, ?_, ?_⟩
      · rw [hnum, List.length_map, ghostPairs_length]
      · intro ch hmem
        obtain ⟨-, -, x, hx1, hx2, hx3⟩ := hch ch (hperm.mem_iff.mp hmem)
        refine ⟨x, hx1, hx2, ?_⟩
        rw [hloc] at hx3
        by_cases hleft : c.ref = bi.data.cellGauche
        · simpa [hleft] using hx3
        · simpa [hleft] using hx3
    · rw [hl, Function.update_same]
  · have hpos : g.childrenCells.length > 0 := List.length_pos.mpr hgc
    unfold Cell.chooseRefineDeraffineGhost
    simp only [hg, Bool.false_eq_true, if_false, hpos, if_true,
      Cell.unrefineCellAndCellInterfacesGhost, Cell.childrenCells_mk, List.append_nil,
      Function.update_eq_self, and_self]

theorem chooseRefineDeraffineGhost_children_witness :
    (exampleGhostLeaf.chooseRefineDeraffineGhost InterfaceOps.identity Model.trivial 1 1
        (fun _ => [])).1.childrenCells.length = 1 ∧
      (exampleUnsplitGhost.chooseRefineDeraffineGhost InterfaceOps.identity Model.trivial 1 1
        (fun _ => [])).1.childrenCells = [] := by
  have h := chooseRefineDeraffineGhost_children InterfaceOps.identity Model.trivial 1 1
    exampleGhostLeaf (fun _ => []) 0
    (CellInterface.mk
      { kind := .internal ⟨⟨⟨1, 0, 0⟩, 0⟩, 0⟩, lvl := 0, split := false,
        face := ⟨⟨1, 0, 0⟩, ⟨0, 1, 0⟩, ⟨0, 0, 1⟩, ⟨0, 0, 0⟩, ⟨0, 1, 1⟩, 1⟩,
        cellGauche := ⟨⟨⟨0, 0, 0⟩, 0⟩, 0⟩ } [])
    ⟨⟨⟨1, 0, 0⟩, 0⟩, 0⟩ 0 exampleUnsplitGhost rfl rfl rfl rfl rfl
    (by
      intro q bq hq hbq
      cases q with
      | zero => exact absurd rfl hq
      | succ n => cases hbq)
    (by decide) (by simp [normalOfAxis])
    (by simp [exampleGhostLeaf, Cell.ref, Cell.new, Element.empty]) rfl
    (by simp [exampleUnsplitGhost])
  exact ⟨h.1.1.trans (by simp [refineDims]), h.2.1⟩

/-! ## Order of the children of a refined ghost cell -/

/-- The children that pass the test of a direction label are the children whose coordinate bit on
the axis of the label is the bit of the label. -/
theorem faceChildren_eq_filter_sendsChild (k : Key) (nbCellsY nbCellsZ : Int) (d : Direction)
    (hd : d.axis < (refineDims nbCellsY nbCellsZ).dim) :
    k.faceChildren (refineDims nbCellsY nbCellsZ).numberCellsChildren d.axis d.bit
      = ((List.range (refineDims nbCellsY nbCellsZ).numberCellsChildren).filter
          (sendsChild d.label)).map k.child := by
  unfold Key.faceChildren
  congr 1
  unfold refineDims at hd ⊢
  split_ifs at hd ⊢ <;> cases d <;> simp [Direction.axis] at hd <;> decide

/-- In 1D, in 2D, and in 3D for a face across the z axis, the keys of the passes of the double
loop, sorted by the sort index, are the keys of the children of the ghost with the bit `bit` on
the axis `a`, in increasing child index. -/
theorem ghostKeys_sorted_eq (k0 : Key) (nbCellsY nbCellsZ : Int) (a : Nat)
    (ha : a < (refineDims nbCellsY nbCellsZ).dim)
    (hcase : (refineDims nbCellsY nbCellsZ).dim < 3 ∨ a = 2) (bit : Int)
    (hbit : bit = 0 ∨ bit = 1) (left : Bool) (nb : CellRef) :
    ((ghostPairs (refineDims nbCellsY nbCellsZ)).map
        (ghostNextKey (refineDims nbCellsY nbCellsZ)
          ⟨(k0.child 0).coordinate.addAt a bit, left, nb, a⟩ k0.level)).insertionSort
        (fun k k' => keySortIndex (k0.child 0).coordinate k
          ≤ keySortIndex (k0.child 0).coordinate k')
      = k0.faceChildren (refineDims nbCellsY nbCellsZ).numberCellsChildren a bit := by
  unfold refineDims at ha hcase ⊢
  split_ifs at ha hcase ⊢ <;> simp only at ha hcase <;> interval_cases a <;>
    simp at hcase <;> rcases hbit with rfl | rfl <;>
    simp [ghostPairs, ghostNextKey, KeyCoord.addAt, Key.faceChildren, Key.child, childBits,
      KeyCoord.get, List.range_succ, List.flatMap, List.filter, keySortIndex, KeyCoord.sub,
      List.insertionSort, List.orderedInsert]

/-- In 3D, for a face across the x axis or the y axis, the keys of the passes of the double loop,
sorted by the sort index, are not in increasing child index. -/
theorem ghostKeys_sorted_ne (k0 : Key) (nbCellsY nbCellsZ : Int) (a : Nat)
    (hdim : (refineDims nbCellsY nbCellsZ).dim = 3) (ha : a < 2) (bit : Int)
    (hbit : bit = 0 ∨ bit = 1) (left : Bool) (nb : CellRef) :
    ((ghostPairs (refineDims nbCellsY nbCellsZ)).map
        (ghostNextKey (refineDims nbCellsY nbCellsZ)
          ⟨(k0.child 0).coordinate.addAt a bit, left, nb, a⟩ k0.level)).insertionSort
        (fun k k' => keySortIndex (k0.child 0).coordinate k
          ≤ keySortIndex (k0.child 0).coordinate k')
      ≠ k0.faceChildren (refineDims nbCellsY nbCellsZ).numberCellsChildren a bit := by
  unfold refineDims at hdim ⊢
  split_ifs at hdim ⊢ <;> simp only at hdim <;> try omega
  interval_cases a <;> rcases hbit with rfl | rfl <;>
    simp [ghostPairs, ghostNextKey, KeyCoord.addAt, Key.faceChildren, Key.child, childBits,
      KeyCoord.get, List.range_succ, List.flatMap, List.filter, keySortIndex, KeyCoord.sub,
      List.insertionSort, List.orderedInsert]

theorem sentCells_of_lvl (lvl : Int) (which : String) (ch : Cell) (h : ch.data.lvl = lvl) :
    ch.sentCells lvl which = [ch] := by
  cases ch with
  | mk d cs =>
    have h' : d.lvl = lvl := h
    rw [Cell.sentCells, if_pos h']

theorem receivingCells_of_lvl (lvl : Int) (ch : Cell) (h : ch.data.lvl = lvl) :
    ch.receivingCells lvl = [ch] := by
  cases ch with
  | mk d cs =>
    have h' : d.lvl = lvl := h
    rw [Cell.receivingCells, if_pos h']

/-- The keys of the cells reached through children that are all of the exchange level: the keys
of the children whose index passes the test of the direction label. -/
theorem sentCellsChildren_keys (lvl : Int) (which : String) (f : Nat → Key) :
    ∀ (cs : List Cell) (i : Nat),
      (∀ (j : Nat) (hj : j < cs.length), (cs[j]).data.lvl = lvl ∧ (cs[j]).key = f (i + j)) →
      (sentCellsChildren lvl which cs i).map Cell.key
        = ((List.range' i cs.length).filter (sendsChild which)).map f
  | [], i, _ => by simp [sentCellsChildren]
  | ch :: rest, i, h => by
    have h0 := h 0 (by simp)
    simp only [List.getElem_cons_zero, Nat.add_zero] at h0
    have hrest := sentCellsChildren_keys lvl which f rest (i + 1) (by
      intro j hj
      have := h (j + 1) (by simpa using hj)
      simp only [List.getElem_cons_succ] at this
      rw [show i + 1 + j = i + (j + 1) by omega]
      exact this)
    rw [sentCellsChildren, List.map_append, hrest, sentCells_of_lvl lvl which ch h0.1,
      List.length_cons, List.range'_succ, List.filter_cons]
    by_cases hs : sendsChild which i = true
    · simp only [hs, if_true, List.map_cons, List.map_nil, List.singleton_append, h0.2]
    · simp only [hs, Bool.false_eq_true, if_false, List.map_nil, List.nil_append]

theorem receivingCellsChildren_of_lvl (lvl : Int) :
    ∀ cs : List Cell, (∀ ch ∈ cs, ch.data.lvl = lvl) → receivingCellsChildren lvl cs = cs
  | [], _ => by simp [receivingCellsChildren]
  | ch :: rest, h => by
    rw [receivingCellsChildren, receivingCells_of_lvl lvl ch (h ch (List.mem_cons_self _ _)),
      receivingCellsChildren_of_lvl lvl rest (fun x hx => h x (List.mem_cons_of_mem _ hx))]
    rfl

/-- The keys of the children that a refined leaf cell emits for the exchange of the level of its
children under a direction label: the keys `child(i)` of the indices `i` that pass the test of the
label, in increasing order. -/
theorem sentCells_refine_leaf_keys (ops : InterfaceOps) (model : Model) (nbCellsY nbCellsZ : Int)
    (o : Cell) (hleaf : o.childrenCells = []) (which : String) :
    ((o.refineCellAndCellInterfaces ops model nbCellsY nbCellsZ).sentCells (o.data.lvl + 1)
        which).map Cell.key
      = ((List.range (refineDims nbCellsY nbCellsZ).numberCellsChildren).filter
          (sendsChild which)).map o.data.element.key.child := by
  have hcore := (sameCore_refine_leaf ops model nbCellsY nbCellsZ o hleaf).1
  have hlvl : (o.refineCellAndCellInterfaces ops model nbCellsY nbCellsZ).data.lvl = o.data.lvl := by
    have e := congrArg CellData.lvl hcore
    exact e
  have hlen := length_children_refine_leaf ops model nbCellsY nbCellsZ o hleaf
  have hne : ¬ ((o.refineCellAndCellInterfaces ops model nbCellsY nbCellsZ).data.lvl
      = o.data.lvl + 1) := by
    rw [hlvl]
    omega
  cases hr : o.refineCellAndCellInterfaces ops model nbCellsY nbCellsZ with
  | mk d cs =>
    rw [hr] at hne hlen
    simp only [Cell.data_mk, Cell.childrenCells_mk] at hne hlen
    rw [Cell.sentCells, if_neg hne, List.range_eq_range', ← hlen]
    apply sentCellsChildren_keys
    intro j hj
    obtain ⟨ch, hch, hstrip⟩ := child_of_refine_leaf ops model nbCellsY nbCellsZ o hleaf j
      (by rw [← hlen]; exact hj)
    rw [hr] at hch
    simp only [Cell.childrenCells_mk] at hch
    have e : cs[j] = ch := by
      rw [List.getElem?_eq_getElem hj] at hch
      exact Option.some.inj hch
    obtain ⟨h1, -, -, h4, -⟩ := child_fields_of_strip model o.data _ j ch hstrip
    rw [e, Nat.zero_add]
    refine ⟨h1, ?_⟩
    unfold Cell.key
    rw [h4, childElement_key]

/-- The keys of the children that a ghost cell refined by `refineCellAndCellInterfacesGhost`
receives for the exchange of the level of its children, in the order of the unpacking: the keys of
the passes of the double loop, sorted by the sort index. -/
theorem receivingCells_refine_ghost_keys (model : Model) (nbCellsY nbCellsZ : Int) (c : Cell)
    (p : Nat) (bi : CellInterface) (cd : CellRef) (a : Nat)
    (hchildren : c.childrenCells = [])
    (hget : c.data.cellInterfaces.get? p = some bi)
    (hkind : bi.data.kind = .internal cd) (hsplit : bi.data.split = false)
    (hothers : ∀ (q : Nat) (bq : CellInterface), q ≠ p → c.data.cellInterfaces.get? q = some bq →
      (∃ code : Nat, bq.data.kind = .boundary code) ∨ bq.data.split = true)
    (ha : a < (refineDims nbCellsY nbCellsZ).dim) (hn : bi.data.face.normal = normalOfAxis a)
    (hlvl : (if c.ref = bi.data.cellGauche then cd else bi.data.cellGauche).lvl = c.data.lvl) :
    ((c.refineCellAndCellInterfacesGhost model nbCellsY nbCellsZ).receivingCells
        (c.data.lvl + 1)).map Cell.key
      = ((ghostPairs (refineDims nbCellsY nbCellsZ)).map
          (ghostNextKey (refineDims nbCellsY nbCellsZ)
            ⟨(c.data.element.key.child 0).coordinate.addAt a
              (if c.ref = bi.data.cellGauche then 1 else 0),
              decide (c.ref = bi.data.cellGauche),
              if c.ref = bi.data.cellGauche then cd else bi.data.cellGauche, a⟩
            c.data.element.key.level)).insertionSort
          (fun k k' => keySortIndex (c.data.element.key.child 0).coordinate k
            ≤ keySortIndex (c.data.element.key.child 0).coordinate k') := by
  obtain ⟨c1, hc1, -, hl, -, -, hkeys, bik, -, -, hch⟩ :=
    refineCellAndCellInterfacesGhost_eq model nbCellsY nbCellsZ c p bi cd a hchildren hget hkind
      hsplit hothers ha hn hlvl
  have hperm := List.perm_insertionSort
    (fun x y => ghostSortIndex (c.data.element.key.child 0).coordinate x
      ≤ ghostSortIndex (c.data.element.key.child 0).coordinate y) c1.childrenCells
  have hne : ¬ (c1.data.lvl = c.data.lvl + 1) := by
    rw [hl]
    omega
  rw [hc1, Cell.receivingCells, if_neg hne, receivingCellsChildren_of_lvl _ _
    (fun ch hmem => (hch ch (hperm.mem_iff.mp hmem)).1), ← hkeys]
  exact List.map_insertionSort _ _ Cell.key _ (fun x _ y _ => Iff.rfl)

/-- C20: a ghost cell `c` without children that holds at index `p` its only two-sided interface
`bi` that is not split, across an axis `a` of the mesh and with the neighbor at the level of the
ghost, is refined by `refineCellAndCellInterfacesGhost`; a leaf cell `o` of the same key and
level is refined by `refineCellAndCellInterfaces` and packs its children under the direction
label `d` whose test selects the children with the bit of the ghost children on the axis `a`. In
1D, in 2D, and in 3D for a face across the z axis, the keys of the children in the order of the
unpacking by the ghost are the keys of the children in the order of the packing by the owner. In
3D for a face across the x axis or the y axis they are not: the sort index
`dir[0] + 2*dir[1] + 4*dir[1]` does not order the children by `x + 2*y + 4*z`. -/
theorem ghost_children_order (ops : InterfaceOps) (model : Model) (nbCellsY nbCellsZ : Int)
    (c o : Cell) (p : Nat) (bi : CellInterface) (cd : CellRef) (a : Nat) (d : Direction)
    (hchildren : c.childrenCells = [])
    (hget : c.data.cellInterfaces.get? p = some bi)
    (hkind : bi.data.kind = .internal cd) (hsplit : bi.data.split = false)
    (hothers : ∀ (q : Nat) (bq : CellInterface), q ≠ p → c.data.cellInterfaces.get? q = some bq →
      (∃ code : Nat, bq.data.kind = .boundary code) ∨ bq.data.split = true)
    (ha : a < (refineDims nbCellsY nbCellsZ).dim) (hn : bi.data.face.normal = normalOfAxis a)
    (hlvl : (if c.ref = bi.data.cellGauche then cd else bi.data.cellGauche).lvl = c.data.lvl)
    (hleaf : o.childrenCells = []) (hkey : o.data.element.key = c.data.element.key)
    (holvl : o.data.lvl = c.data.lvl) (hdaxis : d.axis = a)
    (hdbit : d.bit = if c.ref = bi.data.cellGauche then 1 else 0) :
    (((refineDims nbCellsY nbCellsZ).dim < 3 ∨ a = 2) →
      ((c.refineCellAndCellInterfacesGhost model nbCellsY nbCellsZ).receivingCells
          (c.data.lvl + 1)).map Cell.key
        = ((o.refineCellAndCellInterfaces ops model nbCellsY nbCellsZ).sentCells (c.data.lvl + 1)
            d.label).map Cell.key) ∧
    ((refineDims nbCellsY nbCellsZ).dim = 3 → a < 2 →
      ((c.refineCellAndCellInterfacesGhost model nbCellsY nbCellsZ).receivingCells
          (c.data.lvl + 1)).map Cell.key
        ≠ ((o.refineCellAndCellInterfaces ops model nbCellsY nbCellsZ).sentCells (c.data.lvl + 1)
            d.label).map Cell.key) := by
  have hbit : (if c.ref = bi.data.cellGauche then (1 : Int) else 0) = 0 ∨
      (if c.ref = bi.data.cellGauche then (1 : Int) else 0) = 1 := by
    split
    · exact Or.inr rfl
    · exact Or.inl rfl
  have hrecv := receivingCells_refine_ghost_keys model nbCellsY nbCellsZ c p bi cd a hchildren
    hget hkind hsplit hothers ha hn hlvl
  have hsent := sentCells_refine_leaf_keys ops model nbCellsY nbCellsZ o hleaf d.label
  rw [holvl, hkey, ← faceChildren_eq_filter_sendsChild _ nbCellsY nbCellsZ d
    (by rw [hdaxis]; exact ha), hdaxis, hdbit] at hsent
  rw [hrecv, hsent]
  constructor
  · intro hcase
    exact ghostKeys_sorted_eq _ nbCellsY nbCellsZ a ha hcase _ hbit _ _
  · intro hdim ha2
    exact ghostKeys_sorted_ne _ nbCellsY nbCellsZ a hdim ha2 _ hbit _ _

theorem ghost_children_order_witness :
    ((exampleGhostLeaf.refineCellAndCellInterfacesGhost Model.trivial 1 1).receivingCells
        (exampleGhostLeaf.data.lvl + 1)).map Cell.key
      = ((exampleOwnerLeaf.refineCellAndCellInterfaces InterfaceOps.identity Model.trivial 1
          1).sentCells (exampleGhostLeaf.data.lvl + 1) Direction.right.label).map Cell.key :=
  (ghost_children_order InterfaceOps.identity Model.trivial 1 1 exampleGhostLeaf exampleOwnerLeaf 0
    (CellInterface.mk
      { kind := .internal ⟨⟨⟨1, 0, 0⟩, 0⟩, 0⟩, lvl := 0, split := false,
        face := ⟨⟨1, 0, 0⟩, ⟨0, 1, 0⟩, ⟨0, 0, 1⟩, ⟨0, 0, 0⟩, ⟨0, 1, 1⟩, 1⟩,
        cellGauche := ⟨⟨⟨0, 0, 0⟩, 0⟩, 0⟩ } [])
    ⟨⟨⟨1, 0, 0⟩, 0⟩, 0⟩ 0 Direction.right rfl rfl rfl rfl
    (by
      intro q bq hq hbq
      cases q with
      | zero => exact absurd rfl hq
      | succ n => cases hbq)
    (by decide) (by simp [normalOfAxis])
    (by simp [exampleGhostLeaf, Cell.ref, Cell.new, Element.empty]) rfl rfl rfl rfl
    (by simp [exampleGhostLeaf, Cell.ref, Cell.new, Element.empty, Direction.bit])).1
    (Or.inl (by decide))

/-- C20, failing input: in 3D, the ghost cell `exampleGhostLeaf`, right cell of an interface across the x axis, stores
its four children in the order of the keys `(2,0,0)`, `(2,0,1)`, `(2,1,0)`, `(2,1,1)`, whereas the
owner of the cell emits under the label `RIGHT` the children 0, 2, 4 and 6, of keys `(2,0,0)`,
`(2,1,0)`, `(2,0,1)`, `(2,1,1)`: the second and the third values are unpacked into the wrong
children. The sort index of the key `(2,0,1)` is smaller than the sort index of the key `(2,1,0)`,
so that no order of the children sorted by this index has `(2,1,0)` before `(2,0,1)`. -/
theorem ghost_children_order_counterexample :
    ((exampleGhostLeaf.refineCellAndCellInterfacesGhost Model.trivial 2 2).receivingCells
        1).map Cell.key
      = [⟨⟨2, 0, 0⟩, 1⟩, ⟨⟨2, 0, 1⟩, 1⟩, ⟨⟨2, 1, 0⟩, 1⟩, ⟨⟨2, 1, 1⟩, 1⟩] ∧
    ((exampleOwnerLeaf.refineCellAndCellInterfaces InterfaceOps.identity Model.trivial 2
        2).sentCells 1 "RIGHT").map Cell.key
      = [⟨⟨2, 0, 0⟩, 1⟩, ⟨⟨2, 1, 0⟩, 1⟩, ⟨⟨2, 0, 1⟩, 1⟩, ⟨⟨2, 1, 1⟩, 1⟩] ∧
    keySortIndex (exampleGhostLeaf.data.element.key.child 0).coordinate ⟨⟨2, 0, 1⟩, 1⟩
      < keySortIndex (exampleGhostLeaf.data.element.key.child 0).coordinate ⟨⟨2, 1, 0⟩, 1⟩ := by
  have hrecv := receivingCells_refine_ghost_keys Model.trivial 2 2 exampleGhostLeaf 0
    (CellInterface.mk
      { kind := .internal ⟨⟨⟨1, 0, 0⟩, 0⟩, 0⟩, lvl := 0, split := false,
        face := ⟨⟨1, 0, 0⟩, ⟨0, 1, 0⟩, ⟨0, 0, 1⟩, ⟨0, 0, 0⟩, ⟨0, 1, 1⟩, 1⟩,
        cellGauche := ⟨⟨⟨0, 0, 0⟩, 0⟩, 0⟩ } [])
    ⟨⟨⟨1, 0, 0⟩, 0⟩, 0⟩ 0 rfl rfl rfl rfl
    (by
      intro q bq hq hbq
      cases q with
      | zero => exact absurd rfl hq
      | succ n => cases hbq)
    (by decide) (by simp [normalOfAxis])
    (by simp [exampleGhostLeaf, Cell.ref, Cell.new, Element.empty])
  have hsent := sentCells_refine_leaf_keys InterfaceOps.identity Model.trivial 2 2
    exampleOwnerLeaf rfl "RIGHT"
  refine ⟨?_, ?_, ?_⟩
  · refine hrecv.trans ?_
    decide
  · refine hsent.trans ?_
    decide
  · decide

/-- C26: `lvlNeighborTooHigh` returns true if and only if some interface of the list of the cell
that has the level of the cell has at least one split child interface, or some interface of the
list whose level differs from the level of the cell is itself split. -/
theorem lvlNeighborTooHigh_iff (c : Cell) :
    c.lvlNeighborTooHigh = true ↔
      (∃ b ∈ c.data.cellInterfaces, b.getLvl = c.data.lvl ∧
          ∃ bChild ∈ b.cellInterfacesChildren, bChild.getSplit = true) ∨
        (∃ b ∈ c.data.cellInterfaces, b.getLvl ≠ c.data.lvl ∧ b.getSplit = true) := by
  unfold Cell.lvlNeighborTooHigh
  rw [List.any_eq_true]
  constructor
  · rintro ⟨b, hb, h⟩
    by_cases hl : b.getLvl = c.data.lvl
    · rw [if_pos hl, List.any_eq_true] at h
      exact Or.inl ⟨b, hb, hl, h⟩
    · rw [if_neg hl] at h
      exact Or.inr ⟨b, hb, hl, h⟩
  · rintro (⟨b, hb, hl, h⟩ | ⟨b, hb, hl, h⟩)
    · refine ⟨b, hb, ?_⟩
      rw [if_pos hl, List.any_eq_true]
      exact h
    · refine ⟨b, hb, ?_⟩
      rw [if_neg hl]
      exact h

/-- Writes touch only the positions after the starting counter up to the last value written. -/
theorem writeValues_outside {α : Type} (buffer : Int → α) (counter : Int) (vs : List α) (p : Int)
    (hp : p ≤ counter ∨ counter + (vs.length : Int) < p) :
    writeValues buffer counter vs p = buffer p := by
  induction vs generalizing buffer counter with
  | nil => rfl
  | cons v t ih =>
    simp only [writeValues]
    have hlen : ((v :: t).length : Int) = (t.length : Int) + 1 := by simp
    rw [hlen] at hp
    have hnn : (0 : Int) ≤ (t.length : Int) := Int.natCast_nonneg _
    rw [ih _ _ (by omega), Function.update_noteq (by omega)]
mutual
/-- The count of the elements to send below a cell adds to the counter the number of the
direction-filtered descendants of the exchange level. -/
theorem fillNumberElementsToSendToNeighbour_sentCells (lvl : Int) (which : String) :
    ∀ (c : Cell) (n : Int),
      c.fillNumberElementsToSendToNeighbour lvl which n
        = n + ((c.sentCells lvl which).length : Int)
  | Cell.mk d cs, n => by
    rw [Cell.fillNumberElementsToSendToNeighbour, Cell.sentCells]
    split
    · simp
    · exact fillNumberElementsToSendToNeighbourChildren_sentCells lvl which cs 0 n
theorem fillNumberElementsToSendToNeighbourChildren_sentCells (lvl : Int) (which : String) :
    ∀ (cs : List Cell) (i : Nat) (n : Int),
      fillNumberElementsToSendToNeighbourChildren lvl which cs i n
        = n + ((sentCellsChildren lvl which cs i).length : Int)
  | [], i, n => by
    simp [fillNumberElementsToSendToNeighbourChildren, sentCellsChildren]
  | ch :: rest, i, n => by
    rw [fillNumberElementsToSendToNeighbourChildren, sentCellsChildren]
    split
    · rw [fillNumberElementsToSendToNeighbour_sentCells lvl which ch,
        fillNumberElementsToSendToNeighbourChildren_sentCells lvl which rest]
      simp only [List.length_append]
      push_cast
      rw [add_assoc]
    · rw [fillNumberElementsToSendToNeighbourChildren_sentCells lvl which rest]
      simp
end

/-- The number of transports written for a list of cells that hold `nT` transports each. -/
theorem length_flatMap_transports (nT : Nat) (l : List Cell)
    (h : ∀ x ∈ l, x.data.numberTransports = nT) :
    (l.flatMap (fun x =>
      (List.range x.data.numberTransports).map (fun k => x.data.vecTransports.getD k 0))).length
      = nT * l.length := by
  induction l with
  | nil => simp
  | cons a t ih =>
    rw [List.flatMap_cons, List.length_append, ih (fun x hx => h x (List.mem_cons_of_mem _ hx)),
      List.length_map, List.length_range, h a (List.mem_cons_self _ _), List.length_cons]
    ring

/-- C25: for every cell subtree, exchange level and direction string, the amount by which
`fillNumberElementsToSendToNeighbour` increases its counter is the number of cells that the pack
functions emit; `fillBufferXi` and `fillBufferSplit` advance their counter by that amount, writing
one entry per cell at the successive positions after the starting counter, and when the emitted
cells hold `numberTransports` transports each, `fillBufferTransportsAMR` advances its counter by
`numberTransports` times that amount. -/
theorem number_elements_eq_entries_written (lvl : Int) (which : String) (c : Cell)
    (numberTransports : Nat) (n counter : Int) (bufferXi bufferTr : Int → ℚ)
    (bufferSplit : Int → Bool)
    (hT : ∀ x ∈ c.sentCells lvl which, x.data.numberTransports = numberTransports) :
    c.fillNumberElementsToSendToNeighbour lvl which n - n = ((c.sentCells lvl which).length : Int) ∧
      (c.fillBufferXi lvl which bufferXi counter).2 - counter
        = c.fillNumberElementsToSendToNeighbour lvl which n - n ∧
      (c.fillBufferSplit lvl which bufferSplit counter).2 - counter
        = c.fillNumberElementsToSendToNeighbour lvl which n - n ∧
      (c.fillBufferTransportsAMR lvl which bufferTr counter).2 - counter
        = (numberTransports : Int) * (c.fillNumberElementsToSendToNeighbour lvl which n - n) ∧
      (∀ p : Int, p ≤ counter ∨ (c.fillBufferXi lvl which bufferXi counter).2 < p →
        (c.fillBufferXi lvl which bufferXi counter).1 p = bufferXi p) ∧
      (∀ p : Int, p ≤ counter ∨ (c.fillBufferSplit lvl which bufferSplit counter).2 < p →
        (c.fillBufferSplit lvl which bufferSplit counter).1 p = bufferSplit p) ∧
      (∀ p : Int, p ≤ counter ∨ (c.fillBufferTransportsAMR lvl which bufferTr counter).2 < p →
        (c.fillBufferTransportsAMR lvl which bufferTr counter).1 p = bufferTr p) := by
  rw [fillNumberElementsToSendToNeighbour_sentCells, fillBufferXi_sentCells,
    fillBufferSplit_sentCells, fillBufferTransportsAMR_sentCells,
    length_flatMap_transports numberTransports _ hT]
  refine ⟨by ring, by simp, by simp, by push_cast; ring, ?_, ?_, ?_⟩
  · intro p hp
    exact writeValues_outside _ _ _ _ (by simpa using hp)
  · intro p hp
    exact writeValues_outside _ _ _ _ (by simpa using hp)
  · intro p hp
    refine writeValues_outside _ _ _ _ ?_
    rw [length_flatMap_transports numberTransports _ hT]
    simpa using hp

theorem number_elements_eq_entries_written_witness :
    (∀ x ∈ exampleCountedCell.sentCells 1 "LEFT", x.data.numberTransports = 2) ∧
      exampleCountedCell.fillNumberElementsToSendToNeighbour 1 "LEFT" 0 - 0
        = ((exampleCountedCell.sentCells 1 "LEFT").length : Int) ∧
      (exampleCountedCell.fillBufferXi 1 "LEFT" (fun _ => 0) 0).2 - 0
        = exampleCountedCell.fillNumberElementsToSendToNeighbour 1 "LEFT" 0 - 0 ∧
      (exampleCountedCell.fillBufferSplit 1 "LEFT" (fun _ => false) 0).2 - 0
        = exampleCountedCell.fillNumberElementsToSendToNeighbour 1 "LEFT" 0 - 0 ∧
      (exampleCountedCell.fillBufferTransportsAMR 1 "LEFT" (fun _ => 0) 0).2 - 0
        = ((2 : Nat) : Int) * (exampleCountedCell.fillNumberElementsToSendToNeighbour 1 "LEFT" 0 - 0) :=
  have hT : ∀ x ∈ exampleCountedCell.sentCells 1 "LEFT", x.data.numberTransports = 2 := by
    intro x hx
    simp [exampleCountedCell, Cell.sentCells, sentCellsChildren, sendsChild, Cell.new] at hx
    rcases hx with rfl | rfl <;> rfl
  have h := number_elements_eq_entries_written 1 "LEFT" exampleCountedCell 2 0 0 (fun _ => 0)
    (fun _ => 0) (fun _ => false) hT
  ⟨hT, h.1, h.2.1, h.2.2.1, h.2.2.2.1⟩

theorem numberLeaves_eq (c : Cell) :
    c.numberLeaves = if c.childrenCells.length = 0 then 1 else numberLeavesChildren c.childrenCells := by
  cases c with
  | mk d cs =>
    cases cs with
    | nil => simp [Cell.numberLeaves]
    | cons a t => simp [Cell.numberLeaves, numberLeavesChildren]

theorem numberLeavesChildren_of_leaves (cs : List Cell) (h : ∀ ch ∈ cs, ch.childrenCells = []) :
    numberLeavesChildren cs = cs.length := by
  induction cs with
  | nil => rfl
  | cons a t ih =>
    rw [numberLeavesChildren, ih (fun ch hch => h ch (List.mem_cons_of_mem _ hch)),
      numberLeaves_eq, if_pos (by rw [h a (List.mem_cons_self _ _)]; rfl), List.length_cons,
      Nat.add_comm]

theorem numberLeavesChildren_modify (g : Cell → Cell) (cs : List Cell) (k : Nat) (x : Cell)
    (hx : cs[k]? = some x) :
    numberLeavesChildren (cs.modify g k) + x.numberLeaves
      = numberLeavesChildren cs + (g x).numberLeaves := by
  induction cs generalizing k with
  | nil => simp at hx
  | cons a t ih =>
    cases k with
    | zero =>
      simp only [List.getElem?_cons_zero, Option.some.injEq] at hx
      subst hx
      rw [List.modify_zero_cons]
      simp only [numberLeavesChildren]
      omega
    | succ k =>
      rw [List.modify_succ_cons]
      simp only [numberLeavesChildren]
      have := ih k (by simpa using hx)
      omega

theorem numberLeaves_applyAt (f : Cell → Cell) (path : List Nat) (c x : Cell)
    (hx : c.atPath path = some x) :
    (c.applyAt f path).numberLeaves + x.numberLeaves = c.numberLeaves + (f x).numberLeaves := by
  induction path generalizing c with
  | nil =>
    simp only [Cell.atPath, Option.some.injEq] at hx
    subst hx
    simp only [Cell.applyAt]
    omega
  | cons k path ih =>
    simp only [Cell.atPath] at hx
    cases hk : c.childrenCells[k]? with
    | none => rw [hk] at hx; simp at hx
    | some y =>
      rw [hk] at hx
      have hy : y.atPath path = some x := by simpa using hx
      have hne : c.childrenCells ≠ [] := by
        intro h
        rw [h] at hk
        simp at hk
      have hne' : c.childrenCells.modify (Cell.applyAt f path) k ≠ [] := by
        intro h
        have := congrArg List.length h
        rw [List.length_modify] at this
        exact hne (List.length_eq_zero.mp this)
      simp only [Cell.applyAt]
      rw [numberLeaves_eq, numberLeaves_eq c]
      simp only [Cell.childrenCells_mk]
      rw [if_neg (fun h => hne' (List.length_eq_zero.mp h)),
        if_neg (fun h => hne (List.length_eq_zero.mp h))]
      have h1 := numberLeavesChildren_modify (Cell.applyAt f path) c.childrenCells k y hk
      have h2 := ih y hy
      omega

theorem numberLeaves_refine_leaf (ops : InterfaceOps) (model : Model) (nbCellsY nbCellsZ : Int)
    (c : Cell) (hleaf : c.childrenCells = []) :
    (c.refineCellAndCellInterfaces ops model nbCellsY nbCellsZ).numberLeaves
      = (refineDims nbCellsY nbCellsZ).numberCellsChildren := by
  rw [numberLeaves_eq,
    if_neg (fun h => children_refine_ne_nil ops model nbCellsY nbCellsZ c (List.length_eq_zero.mp h)),
    numberLeavesChildren_of_leaves _
      (children_of_refine_leaf_are_leaves ops model nbCellsY nbCellsZ c hleaf),
    length_children_refine_leaf ops model nbCellsY nbCellsZ c hleaf]

theorem numberLeaves_mesh_applyAt (f : Cell → Cell) (mesh : List Cell) (r : Nat)
    (path : List Nat) (root x : Cell) (hr : mesh[r]? = some root)
    (hx : root.atPath path = some x) :
    numberLeavesChildren (mesh.modify (Cell.applyAt f path) r) + x.numberLeaves
      = numberLeavesChildren mesh + (f x).numberLeaves := by
  have h1 := numberLeavesChildren_modify (Cell.applyAt f path) mesh r root hr
  have h2 := numberLeaves_applyAt f path root x hx
  omega

theorem numberLeaves_unrefine (ops : InterfaceOps) (model : Model) (c : Cell) :
    (c.unrefineCellAndCellInterfaces ops model).numberLeaves = 1 := by
  rw [numberLeaves_eq, children_unrefine]
  rfl

theorem chooseUnrefine_eq (ops : InterfaceOps) (model : Model) (xiJoin : ℚ) (c : Cell)
    (nbCellsTotalAMR : Int) :
    c.chooseUnrefine ops model xiJoin nbCellsTotalAMR
      = (if c.data.split = true ∧ c.data.xi < xiJoin ∧
              (∀ ch ∈ c.childrenCells, ch.getNumberCellsChildren = 0) ∧
              c.lvlNeighborTooHigh = false then
          (c.unrefineCellAndCellInterfaces ops model,
            nbCellsTotalAMR - ((c.childrenCells.length : Int) - 1))
        else (c, nbCellsTotalAMR)) := by
  unfold Cell.chooseUnrefine
  by_cases hs : c.data.split = true
  · by_cases hd : c.deraffineGlobal xiJoin = true
    · have hd' := (deraffineGlobal_iff xiJoin c).mp hd
      rw [if_pos hs, if_pos hd, if_pos ⟨hs, hd'⟩]
    · have hd' : ¬ (c.data.split = true ∧ c.data.xi < xiJoin ∧
          (∀ ch ∈ c.childrenCells, ch.getNumberCellsChildren = 0) ∧
          c.lvlNeighborTooHigh = false) := fun h => hd ((deraffineGlobal_iff xiJoin c).mpr h.2)
      rw [if_pos hs, if_neg hd, if_neg hd']
  · have hd' : ¬ (c.data.split = true ∧ c.data.xi < xiJoin ∧
        (∀ ch ∈ c.childrenCells, ch.getNumberCellsChildren = 0) ∧
        c.lvlNeighborTooHigh = false) := fun h => hs h.1
    rw [if_neg hs, if_neg hd']

/-- The leaves below a split cell whose children have no child are its children. -/
theorem numberLeaves_of_children_leaves (c : Cell) (hne : c.childrenCells ≠ [])
    (h : ∀ ch ∈ c.childrenCells, ch.getNumberCellsChildren = 0) :
    c.numberLeaves = c.childrenCells.length := by
  rw [numberLeaves_eq, if_neg (fun h0 => hne (List.length_eq_zero.mp h0)),
    numberLeavesChildren_of_leaves _ (fun ch hch => List.length_eq_zero.mp (h ch hch))]

/-- C30: in a mesh, the list of the owned base cells, whose number of leaves is the value of the
counter `nbCellsTotalAMR`, for a cell `c` anywhere in a tree that is split exactly when it has
children: the counter starts at the number of the owned base cells, which are the leaves of the
initial mesh; `chooseRefine` adds the number of children minus one when it refines `c` and
returns the cell and the counter unchanged otherwise; `chooseUnrefine` subtracts the number of
children minus one when it coarsens `c` and returns the cell and the counter unchanged
otherwise; `refineCell` adds the number of children minus one when `c` is a leaf; after each of
the three calls the counter is the number of leaves of the mesh; and a coarsening by
`chooseUnrefine` of the cell that `chooseRefine` has just refined restores the counter. -/
theorem nbCellsTotalAMR_counts_leaves (ops : InterfaceOps) (model : Model) (xiSplit xiJoin : ℚ)
    (nbCellsY nbCellsZ : Int) (mesh : List Cell) (r : Nat) (path : List Nat) (root c : Cell)
    (nb : Int) (hr : mesh[r]? = some root) (hx : root.atPath path = some c)
    (hc : c.data.split = true ↔ c.childrenCells ≠ [])
    (hnb : nb = (numberLeavesChildren mesh : Int)) :
    (∀ cells : List Cell, (∀ b ∈ cells, b.childrenCells = []) →
        initialNbCellsTotalAMR cells = (numberLeavesChildren cells : Int)) ∧
      ((c.data.split = false ∧ xiSplit ≤ c.data.xi ∧ c.lvlNeighborTooLow = false →
          (c.chooseRefine ops model xiSplit nbCellsY nbCellsZ nb).2
            = nb + (((c.chooseRefine ops model xiSplit nbCellsY nbCellsZ
                nb).1.childrenCells.length : Int) - 1)) ∧
        (¬ (c.data.split = false ∧ xiSplit ≤ c.data.xi ∧ c.lvlNeighborTooLow = false) →
          c.chooseRefine ops model xiSplit nbCellsY nbCellsZ nb = (c, nb)) ∧
        (c.chooseRefine ops model xiSplit nbCellsY nbCellsZ nb).2
          = (numberLeavesChildren (mesh.modify (Cell.applyAt
              (fun x => (x.chooseRefine ops model xiSplit nbCellsY nbCellsZ nb).1) path) r)
              : Int)) ∧
      ((c.data.split = true ∧ c.data.xi < xiJoin ∧
            (∀ ch ∈ c.childrenCells, ch.getNumberCellsChildren = 0) ∧
            c.lvlNeighborTooHigh = false →
          (c.chooseUnrefine ops model xiJoin nb).2 = nb - ((c.childrenCells.length : Int) - 1) ∧
            (c.chooseUnrefine ops model xiJoin nb).1.childrenCells = []) ∧
        (¬ (c.data.split = true ∧ c.data.xi < xiJoin ∧
            (∀ ch ∈ c.childrenCells, ch.getNumberCellsChildren = 0) ∧
            c.lvlNeighborTooHigh = false) →
          c.chooseUnrefine ops model xiJoin nb = (c, nb)) ∧
        (c.chooseUnrefine ops model xiJoin nb).2
          = (numberLeavesChildren (mesh.modify (Cell.applyAt
              (fun x => (x.chooseUnrefine ops model xiJoin nb).1) path) r) : Int)) ∧
      (c.childrenCells = [] →
        (refineCell ops model nbCellsY nbCellsZ c nb).2
            = nb + (((refineCell ops model nbCellsY nbCellsZ c nb).1.childrenCells.length : Int)
                - 1) ∧
          (refineCell ops model nbCellsY nbCellsZ c nb).2
            = (numberLeavesChildren (mesh.modify (Cell.applyAt
                (fun x => (refineCell ops model nbCellsY nbCellsZ x nb).1) path) r) : Int)) ∧
      (c.data.split = false ∧ xiSplit ≤ c.data.xi ∧ c.lvlNeighborTooLow = false →
        (c.chooseRefine ops model xiSplit nbCellsY nbCellsZ nb).1.data.xi < xiJoin ∧
          (c.chooseRefine ops model xiSplit nbCellsY nbCellsZ nb).1.lvlNeighborTooHigh = false →
        (c.chooseRefine ops model xiSplit nbCellsY nbCellsZ nb).1.chooseUnrefine ops model xiJoin
            (c.chooseRefine ops model xiSplit nbCellsY nbCellsZ nb).2
          = (((c.chooseRefine ops model xiSplit nbCellsY nbCellsZ
                nb).1.unrefineCellAndCellInterfaces ops model), nb)) := by
  have hleafOfNotSplit : c.data.split = false → c.childrenCells = [] := by
    intro hs
    by_contra hne
    rw [hc.mpr hne] at hs
    cases hs
  refine ⟨?_, ⟨?_, ?_, ?_⟩, ⟨?_, ?_, ?_⟩, ?_, ?_⟩
  · intro cells hcells
    rw [numberLeavesChildren_of_leaves cells hcells]
    rfl
  · intro hg
    rw [chooseRefine_eq, if_pos hg]
  · intro hg
    rw [chooseRefine_eq, if_neg hg]
  · have hm := numberLeaves_mesh_applyAt
      (fun x => (x.chooseRefine ops model xiSplit nbCellsY nbCellsZ nb).1) mesh r path root c hr hx
    simp only [] at hm
    by_cases hg : c.data.split = false ∧ xiSplit ≤ c.data.xi ∧ c.lvlNeighborTooLow = false
    · have hleaf := hleafOfNotSplit hg.1
      rw [chooseRefine_eq, if_pos hg] at hm ⊢
      simp only [] at hm ⊢
      rw [numberLeaves_refine_leaf ops model nbCellsY nbCellsZ c hleaf, numberLeaves_eq c,
        if_pos (by rw [hleaf]; rfl)] at hm
      rw [length_children_refine_leaf ops model nbCellsY nbCellsZ c hleaf]
      omega
    · rw [chooseRefine_eq, if_neg hg] at hm ⊢
      simp only [] at hm ⊢
      omega
  · intro hg
    rw [chooseUnrefine_eq, if_pos hg]
    exact ⟨rfl, rfl⟩
  · intro hg
    rw [chooseUnrefine_eq, if_neg hg]
  · have hm := numberLeaves_mesh_applyAt
      (fun x => (x.chooseUnrefine ops model xiJoin nb).1) mesh r path root c hr hx
    simp only [] at hm
    by_cases hg : c.data.split = true ∧ c.data.xi < xiJoin ∧
        (∀ ch ∈ c.childrenCells, ch.getNumberCellsChildren = 0) ∧ c.lvlNeighborTooHigh = false
    · rw [chooseUnrefine_eq, if_pos hg] at hm ⊢
      simp only [] at hm ⊢
      rw [numberLeaves_unrefine, numberLeaves_of_children_leaves c (hc.mp hg.1) hg.2.2.1] at hm
      have hpos : 0 < c.childrenCells.length := List.length_pos.mpr (hc.mp hg.1)
      omega
    · rw [chooseUnrefine_eq, if_neg hg] at hm ⊢
      simp only [] at hm ⊢
      omega
  · intro hleaf
    refine ⟨rfl, ?_⟩
    have hm := numberLeaves_mesh_applyAt
      (fun x => (refineCell ops model nbCellsY nbCellsZ x nb).1) mesh r path root c hr hx
    simp only [refineCell, Cell.getNumberCellsChildren] at hm ⊢
    rw [numberLeaves_refine_leaf ops model nbCellsY nbCellsZ c hleaf, numberLeaves_eq c,
      if_pos (by rw [hleaf]; rfl)] at hm
    rw [length_children_refine_leaf ops model nbCellsY nbCellsZ c hleaf]
    omega
  · intro hg hg2
    have hleaf := hleafOfNotSplit hg.1
    rw [chooseRefine_eq, if_pos hg] at hg2 ⊢
    simp only [] at hg2 ⊢
    rw [chooseUnrefine_eq, if_pos ⟨split_refine ops model nbCellsY nbCellsZ c, hg2.1,
      fun ch hch => by
        rw [Cell.getNumberCellsChildren,
          children_of_refine_leaf_are_leaves ops model nbCellsY nbCellsZ c hleaf ch hch]
        rfl,
      hg2.2⟩]
    congr 1
    ring

theorem nbCellsTotalAMR_counts_leaves_witness :
    [exampleLeafCell][0]? = some exampleLeafCell ∧
      exampleLeafCell.atPath [] = some exampleLeafCell ∧
      (exampleLeafCell.data.split = true ↔ exampleLeafCell.childrenCells ≠ []) ∧
      (1 : Int) = (numberLeavesChildren [exampleLeafCell] : Int) ∧
      (exampleLeafCell.chooseRefine InterfaceOps.identity Model.trivial 0 1 1 1).2
        = (numberLeavesChildren ([exampleLeafCell].modify (Cell.applyAt
            (fun x => (x.chooseRefine InterfaceOps.identity Model.trivial 0 1 1 1).1) []) 0)
            : Int) :=
  have hc : exampleLeafCell.data.split = true ↔ exampleLeafCell.childrenCells ≠ [] := by
    simp [exampleLeafCell, Cell.new]
  ⟨rfl, rfl, hc, rfl,
    (nbCellsTotalAMR_counts_leaves InterfaceOps.identity Model.trivial 0 1 1 1 [exampleLeafCell]
      0 [] exampleLeafCell exampleLeafCell 1 rfl rfl hc rfl).2.1.2.2⟩

theorem guardSomme_pos (s : ℚ) : (1 : ℚ) / 10 ^ 12 < guardSomme s := by
  unfold guardSomme
  split
  · norm_num
  · linarith

theorem option_map_add (st : GradientSums) (o : Option ℚ) (f g : ℚ → GradientSums)
    (h : ∀ x, f x = st.add (g x)) : o.map f = (o.map g).map st.add := by
  cases o with
  | none => rfl
  | some x => simp [h]

theorem option_bind_add (st : GradientSums) (o : Option ℚ) (f g : ℚ → Option GradientSums)
    (h : ∀ x, f x = (g x).map st.add) : o.bind f = (o.bind g).map st.add := by
  cases o with
  | none => rfl
  | some x => simp [h]

theorem addProjected_eq_add (st : GradientSums) (n : Coord) (g : ℚ) (d : Coord) :
    st.addProjected n g d
      = st.add ((⟨0, 0, 0, ⟨0, 0, 0⟩⟩ : GradientSums).addProjected n g d) := by
  simp [GradientSums.add, GradientSums.addProjected]

theorem addDistances_eq_add (st : GradientSums) (d : Coord) :
    st.addDistances d = st.add ((⟨0, 0, 0, ⟨0, 0, 0⟩⟩ : GradientSums).addDistances d) := by
  simp [GradientSums.add, GradientSums.addDistances]

/-- One pass adds its contribution to the locals. -/
theorem computeGradientStep_eq_add (eo : ElementOps) (so : StateOps) (cellAt : CellRef → Cell)
    (c : Cell) (nameVariable : String) (numPhase : Nat) (st : GradientSums) (b : CellInterface) :
    computeGradientStep eo so cellAt c nameVariable numPhase st b
      = (interfaceContribution eo so cellAt c nameVariable numPhase b).map st.add := by
  unfold interfaceContribution computeGradientStep
  have hst : st.add ⟨0, 0, 0, ⟨0, 0, 0⟩⟩ = st := by
    simp [GradientSums.add]
  by_cases hs : b.getSplit = true
  · simp [hs, hst]
  · simp only [hs, Bool.not_false, Bool.false_eq_true, if_true, Bool.not_eq_true]
    split
    · exact option_bind_add st _ _ _ (fun cg => option_bind_add st _ _ _ (fun cd =>
        option_map_add st _ _ _ (fun g => addProjected_eq_add st _ _ _)))
    · split_ifs <;>
        first
        | exact option_bind_add st _ _ _ (fun cg =>
            option_map_add st _ _ _ (fun g => addProjected_eq_add st _ _ _))
        | exact congrArg some (addDistances_eq_add st _)
        | exact congrArg some hst.symm

theorem axes_of_addDistances (d : Coord) (p : GradientSums)
    (h : some ((⟨0, 0, 0, ⟨0, 0, 0⟩⟩ : GradientSums).addDistances d) = some p) :
    p.sommeDistanceX = d.x ∧ p.sommeDistanceY = d.y ∧ p.sommeDistanceZ = d.z ∧
      ∃ k : Coord, p.grad = ⟨k.x * d.x, k.y * d.y, k.z * d.z⟩ := by
  simp only [Option.some.injEq] at h
  subst h
  exact ⟨by simp [GradientSums.addDistances], by simp [GradientSums.addDistances],
    by simp [GradientSums.addDistances], ⟨0, 0, 0⟩, by simp [GradientSums.addDistances]⟩

theorem axes_of_addProjected (n d : Coord) (p : GradientSums) (o : Option ℚ) (F : ℚ → ℚ)
    (h : o.map (fun g => (⟨0, 0, 0, ⟨0, 0, 0⟩⟩ : GradientSums).addProjected n (F g) d) = some p) :
    p.sommeDistanceX = d.x ∧ p.sommeDistanceY = d.y ∧ p.sommeDistanceZ = d.z ∧
      ∃ k : Coord, p.grad = ⟨k.x * d.x, k.y * d.y, k.z * d.z⟩ := by
  simp only [Option.map_eq_some'] at h
  obtain ⟨g, -, rfl⟩ := h
  exact ⟨by simp [GradientSums.addProjected], by simp [GradientSums.addProjected],
    by simp [GradientSums.addProjected], ⟨n.x * F g, n.y * F g, n.z * F g⟩,
    by simp [GradientSums.addProjected]⟩

/-- The distances of a contribution are the distances of the pass, and each component of its
gradient is a multiple of the distance along its axis. -/
theorem interfaceContribution_axes (eo : ElementOps) (so : StateOps) (cellAt : CellRef → Cell)
    (c : Cell) (nameVariable : String) (numPhase : Nat) (b : CellInterface) (p : GradientSums)
    (h : interfaceContribution eo so cellAt c nameVariable numPhase b = some p) :
    p.sommeDistanceX = (interfaceDistances eo cellAt c b).x ∧
      p.sommeDistanceY = (interfaceDistances eo cellAt c b).y ∧
      p.sommeDistanceZ = (interfaceDistances eo cellAt c b).z ∧
      ∃ k : Coord, p.grad = ⟨k.x * (interfaceDistances eo cellAt c b).x,
        k.y * (interfaceDistances eo cellAt c b).y, k.z * (interfaceDistances eo cellAt c b).z⟩ := by
  unfold interfaceContribution computeGradientStep at h
  unfold interfaceDistances
  by_cases hs : b.getSplit = true
  · simp only [hs, Bool.not_true, Bool.false_eq_true, if_false, Option.some.injEq] at h ⊢
    subst h
    exact ⟨rfl, rfl, rfl, ⟨0, 0, 0⟩, by simp⟩
  · simp only [hs, Bool.not_false, Bool.false_eq_true, if_true, Bool.not_eq_true] at h ⊢
    split at h
    · simp only [Option.bind_eq_some] at h
      obtain ⟨cg, -, cd, -, h⟩ := h
      exact axes_of_addProjected _ _ p _ (fun g => g) h
    · by_cases h1 : b.whoAmI = 1
      · rw [if_pos h1] at h
        rw [if_pos (Or.inl h1)]
        exact axes_of_addDistances _ p h
      · rw [if_neg h1] at h
        by_cases h6 : b.whoAmI = 6
        · rw [if_pos h6] at h
          rw [if_pos (Or.inr (Or.inl h6))]
          by_cases hv : nameVariable = "u" ∨ nameVariable = "v" ∨ nameVariable = "w"
          · rw [if_pos hv] at h
            simp only [Option.bind_eq_some] at h
            obtain ⟨cg, -, h⟩ := h
            exact axes_of_addProjected _ _ p _ _ h
          · rw [if_neg hv] at h
            exact axes_of_addDistances _ p h
        · rw [if_neg h6] at h
          by_cases h2 : b.whoAmI = 2
          · rw [if_pos h2] at h
            rw [if_pos (Or.inr (Or.inr h2))]
            by_cases hv : nameVariable = "u" ∨ nameVariable = "v" ∨ nameVariable = "w"
            · rw [if_pos hv] at h
              simp only [Option.bind_eq_some] at h
              obtain ⟨cg, -, h⟩ := h
              exact axes_of_addProjected _ _ p _ (fun g => g) h
            · rw [if_neg hv] at h
              exact axes_of_addDistances _ p h
          · rw [if_neg h2] at h
            rw [if_neg (by rintro (h | h | h) <;> contradiction)]
            simp only [Option.some.injEq] at h
            subst h
            exact ⟨rfl, rfl, rfl, ⟨0, 0, 0⟩, by simp⟩

/-- The loop over the interfaces has a result when every pass has a contribution. -/
theorem foldlM_computeGradientStep_some (eo : ElementOps) (so : StateOps)
    (cellAt : CellRef → Cell) (c : Cell) (nameVariable : String) (numPhase : Nat)
    (l : List CellInterface)
    (h : ∀ b ∈ l, (interfaceContribution eo so cellAt c nameVariable numPhase b).isSome = true)
    (st : GradientSums) :
    ∃ st', l.foldlM (computeGradientStep eo so cellAt c nameVariable numPhase) st = some st' := by
  induction l generalizing st with
  | nil => exact ⟨st, rfl⟩
  | cons a t ih =>
    obtain ⟨p, hp⟩ := Option.isSome_iff_exists.mp (h a (List.mem_cons_self _ _))
    rw [List.foldlM_cons, computeGradientStep_eq_add, hp]
    exact ih (fun b hb => h b (List.mem_cons_of_mem _ hb)) (st.add p)

/-- A quantity of the locals that adds up over the passes is, after the loop, its starting value
plus the sum of the quantities of the contributions. -/
theorem foldlM_computeGradientStep_sum (eo : ElementOps) (so : StateOps)
    (cellAt : CellRef → Cell) (c : Cell) (nameVariable : String) (numPhase : Nat)
    (φ : GradientSums → ℚ) (hφ : ∀ s p : GradientSums, φ (s.add p) = φ s + φ p)
    (l : List CellInterface) (st st' : GradientSums)
    (h : l.foldlM (computeGradientStep eo so cellAt c nameVariable numPhase) st = some st') :
    φ st' = φ st + (l.map (fun b =>
      ((interfaceContribution eo so cellAt c nameVariable numPhase b).map φ).getD 0)).sum := by
  induction l generalizing st with
  | nil =>
    simp only [List.foldlM_nil, pure, Option.some.injEq] at h
    subst h
    simp
  | cons a t ih =>
    rw [List.foldlM_cons, computeGradientStep_eq_add] at h
    cases hp : interfaceContribution eo so cellAt c nameVariable numPhase a with
    | none =>
      rw [hp] at h
      cases h
    | some p =>
      rw [hp] at h
      have h' := ih (st.add p) h
      rw [h', hφ, List.map_cons, List.sum_cons, hp]
      simp only [Option.map_some', Option.getD_some]
      ring

/-- Along an axis on which no pass has a distance, the contribution of a pass to the sum of the
distances and to the gradient is zero. -/
theorem interfaceContribution_zero_axis (eo : ElementOps) (so : StateOps)
    (cellAt : CellRef → Cell) (c : Cell) (nameVariable : String) (numPhase : Nat)
    (b : CellInterface) :
    ((interfaceDistances eo cellAt c b).x = 0 →
        ((interfaceContribution eo so cellAt c nameVariable numPhase b).map
            GradientSums.sommeDistanceX).getD 0 = 0 ∧
          ((interfaceContribution eo so cellAt c nameVariable numPhase b).map
            (fun s => s.grad.x)).getD 0 = 0) ∧
      ((interfaceDistances eo cellAt c b).y = 0 →
        ((interfaceContribution eo so cellAt c nameVariable numPhase b).map
            GradientSums.sommeDistanceY).getD 0 = 0 ∧
          ((interfaceContribution eo so cellAt c nameVariable numPhase b).map
            (fun s => s.grad.y)).getD 0 = 0) ∧
      ((interfaceDistances eo cellAt c b).z = 0 →
        ((interfaceContribution eo so cellAt c nameVariable numPhase b).map
            GradientSums.sommeDistanceZ).getD 0 = 0 ∧
          ((interfaceContribution eo so cellAt c nameVariable numPhase b).map
            (fun s => s.grad.z)).getD 0 = 0) := by
  cases hp : interfaceContribution eo so cellAt c nameVariable numPhase b with
  | none => simp
  | some p =>
    obtain ⟨hx, hy, hz, k, hk⟩ :=
      interfaceContribution_axes eo so cellAt c nameVariable numPhase b p hp
    simp only [Option.map_some', Option.getD_some]
    refine ⟨fun h0 => ⟨hx.trans h0, ?_⟩, fun h0 => ⟨hy.trans h0, ?_⟩,
      fun h0 => ⟨hz.trans h0, ?_⟩⟩
    · rw [hk, h0, mul_zero]
    · rw [hk, h0, mul_zero]
    · rw [hk, h0, mul_zero]

theorem sum_map_eq_zero {α : Type} (f : α → ℚ) (l : List α) (h : ∀ b ∈ l, f b = 0) :
    (l.map f).sum = 0 := by
  induction l with
  | nil => rfl
  | cons a t ih =>
    rw [List.map_cons, List.sum_cons, h a (List.mem_cons_self _ _),
      ih (fun b hb => h b (List.mem_cons_of_mem _ hb)), add_zero]

/-- C23: in `computeGradient`, when every pass of the loop over the interfaces has a value (no
quotient by a zero distance, no scalar missing), the loop ends with sums `st` and the method
returns `grad` divided axis by axis by the guarded sums; a guarded sum is 1 when the sum is at
most `1e-12` and the sum itself otherwise, so that it is always above `1e-12` and the final
division is never a division by zero; and the component of the gradient is 0 on every axis along
which no interface that is not split has a distance, as on every axis of a cell without
interfaces. -/
theorem computeGradient_guarded (eo : ElementOps) (so : StateOps) (cellAt : CellRef → Cell)
    (c : Cell) (nameVariable : String) (numPhase : Nat)
    (hdef : ∀ b ∈ c.data.cellInterfaces,
      (interfaceContribution eo so cellAt c nameVariable numPhase b).isSome = true) :
    (∀ s : ℚ, (1 : ℚ) / 10 ^ 12 < guardSomme s ∧ guardSomme s ≠ 0 ∧
        (s ≤ 1 / 10 ^ 12 → guardSomme s = 1) ∧ (1 / 10 ^ 12 < s → guardSomme s = s)) ∧
      ∃ (st : GradientSums) (g : Coord),
        gradientSums eo so cellAt c nameVariable numPhase = some st ∧
        c.computeGradient eo so cellAt nameVariable numPhase = some g ∧
        g = ⟨st.grad.x / guardSomme st.sommeDistanceX, st.grad.y / guardSomme st.sommeDistanceY,
          st.grad.z / guardSomme st.sommeDistanceZ⟩ ∧
        ((∀ b ∈ c.data.cellInterfaces, b.getSplit = false →
            (interfaceDistances eo cellAt c b).x = 0) → g.x = 0) ∧
        ((∀ b ∈ c.data.cellInterfaces, b.getSplit = false →
            (interfaceDistances eo cellAt c b).y = 0) → g.y = 0) ∧
        ((∀ b ∈ c.data.cellInterfaces, b.getSplit = false →
            (interfaceDistances eo cellAt c b).z = 0) → g.z = 0) ∧
        (c.data.cellInterfaces = [] → g = ⟨0, 0, 0⟩) := by
  constructor
  · intro s
    have hpos := guardSomme_pos s
    refine ⟨hpos, ?_, ?_, ?_⟩
    · intro h0
      rw [h0] at hpos
      norm_num at hpos
    · intro hs
      unfold guardSomme
      rw [if_pos hs]
    · intro hs
      unfold guardSomme
      rw [if_neg (not_le.mpr hs)]
  · obtain ⟨st, hst⟩ := foldlM_computeGradientStep_some eo so cellAt c nameVariable numPhase
      c.data.cellInterfaces hdef ⟨0, 0, 0, ⟨0, 0, 0⟩⟩
    have hsplit : ∀ b : CellInterface, b.getSplit ≠ false → interfaceDistances eo cellAt c b
        = ⟨0, 0, 0⟩ := by
      intro b hb
      unfold interfaceDistances
      have hb' : b.getSplit = true := by simpa using hb
      simp [hb']
    refine ⟨st, _, hst, ?_, rfl, ?_, ?_, ?_, ?_⟩
    · unfold Cell.computeGradient gradientSums
      rw [hst]
      rfl
    · intro h0
      have hall : ∀ b ∈ c.data.cellInterfaces, (interfaceDistances eo cellAt c b).x = 0 := by
        intro b hb
        by_cases hs : b.getSplit = false
        · exact h0 b hb hs
        · rw [hsplit b hs]
      have hg := foldlM_computeGradientStep_sum eo so cellAt c nameVariable numPhase
        (fun s => s.grad.x) (fun s p => rfl) _ _ _ hst
      rw [sum_map_eq_zero _ _ (fun b hb =>
        ((interfaceContribution_zero_axis eo so cellAt c nameVariable numPhase b).1
          (hall b hb)).2)] at hg
      simp only [add_zero] at hg
      simp only [hg, zero_div]
    · intro h0
      have hall : ∀ b ∈ c.data.cellInterfaces, (interfaceDistances eo cellAt c b).y = 0 := by
        intro b hb
        by_cases hs : b.getSplit = false
        · exact h0 b hb hs
        · rw [hsplit b hs]
      have hg := foldlM_computeGradientStep_sum eo so cellAt c nameVariable numPhase
        (fun s => s.grad.y) (fun s p => rfl) _ _ _ hst
      rw [sum_map_eq_zero _ _ (fun b hb =>
        ((interfaceContribution_zero_axis eo so cellAt c nameVariable numPhase b).2.1
          (hall b hb)).2)] at hg
      simp only [add_zero] at hg
      simp only [hg, zero_div]
    · intro h0
      have hall : ∀ b ∈ c.data.cellInterfaces, (interfaceDistances eo cellAt c b).z = 0 := by
        intro b hb
        by_cases hs : b.getSplit = false
        · exact h0 b hb hs
        · rw [hsplit b hs]
      have hg := foldlM_computeGradientStep_sum eo so cellAt c nameVariable numPhase
        (fun s => s.grad.z) (fun s p => rfl) _ _ _ hst
      rw [sum_map_eq_zero _ _ (fun b hb =>
        ((interfaceContribution_zero_axis eo so cellAt c nameVariable numPhase b).2.2
          (hall b hb)).2)] at hg
      simp only [add_zero] at hg
      simp only [hg, zero_div]
    · intro hnil
      rw [hnil] at hst
      simp only [List.foldlM_nil, pure, Option.some.injEq] at hst
      subst hst
      simp

theorem exampleWallCell_contributions :
    ∀ b ∈ exampleWallCell.data.cellInterfaces,
      (interfaceContribution exampleElementOps exampleStateOps exampleCellAt exampleWallCell "v" 0
        b).isSome = true := by
  intro b hb
  have h3 : ¬ ((4 : ℚ) - 3 = 0) := by norm_num
  have h4 : ¬ ((3 : ℚ) - 1 = 0) := by norm_num
  have hb' : b = exampleWallInterface ∨ b = exampleInnerInterface := by
    simpa [exampleWallCell, Cell.data] using hb
  rcases hb' with rfl | rfl
  · simp [interfaceContribution, computeGradientStep, exampleWallInterface,
      CellInterface.getSplit, CellInterface.data, CellInterface.whoAmI, exampleCellAt,
      exampleWallCell, Cell.data, Cell.new, Cell.selectScalar, exampleStateOps,
      exampleElementOps, quotient, h3]
  · simp [interfaceContribution, computeGradientStep, exampleInnerInterface,
      CellInterface.getSplit, CellInterface.data, CellInterface.whoAmI, exampleCellAt,
      exampleWallCell, exampleWallNeighbor, Cell.data, Cell.new, Cell.selectScalar,
      exampleStateOps, exampleElementOps, quotient, h4]

theorem computeGradient_guarded_witness :
    (∀ b ∈ exampleWallCell.data.cellInterfaces,
      (interfaceContribution exampleElementOps exampleStateOps exampleCellAt exampleWallCell "v" 0
        b).isSome = true) ∧
      ∃ (st : GradientSums) (g : Coord),
        gradientSums exampleElementOps exampleStateOps exampleCellAt exampleWallCell "v" 0
          = some st ∧
        exampleWallCell.computeGradient exampleElementOps exampleStateOps exampleCellAt "v" 0
          = some g ∧
        g = ⟨st.grad.x / guardSomme st.sommeDistanceX, st.grad.y / guardSomme st.sommeDistanceY,
          st.grad.z / guardSomme st.sommeDistanceZ⟩ :=
  ⟨exampleWallCell_contributions,
    match (computeGradient_guarded exampleElementOps exampleStateOps exampleCellAt
      exampleWallCell "v" 0 exampleWallCell_contributions).2 with
    | ⟨st, g, h1, h2, h3, _⟩ => ⟨st, g, h1, h2, h3⟩⟩

/-- C22, counterexample: the leaf `exampleWallCell`, of width 2, has a wall as `+x` face and a
two-sided interface to a neighbor at distance 2 as `−x` face; its velocity component `v` and the
one of the neighbor are both 1; the x-component of `computeGradient("v")` is `1 / 2`, not 0. -/
theorem computeGradient_wall_v_counterexample :
    exampleWallCell.data.cellInterfaces = [exampleWallInterface, exampleInnerInterface] ∧
      exampleWallCell.childrenCells = [] ∧
      exampleWallCell.data.element.size.x = 2 ∧
      exampleWallInterface.whoAmI = 2 ∧
      exampleWallInterface.data.face.normal = ⟨1, 0, 0⟩ ∧
      exampleInnerInterface.whoAmI = 0 ∧
      exampleElementOps.distance exampleWallNeighbor.data.element exampleWallCell.data.element
        = 2 ∧
      exampleWallCell.selectScalar exampleStateOps "v" 0 = some 1 ∧
      exampleWallNeighbor.selectScalar exampleStateOps "v" 0 = some 1 ∧
      exampleWallCell.computeGradient exampleElementOps exampleStateOps exampleCellAt "v" 0
        = some ⟨1 / 2, 0, 0⟩ ∧
      ¬ ∃ g : Coord,
        exampleWallCell.computeGradient exampleElementOps exampleStateOps exampleCellAt "v" 0
          = some g ∧ g.x = 0 := by
  have h1 : |(4 : ℚ) - 3| = 1 := by norm_num
  have h2 : |(3 : ℚ) - 1| = 2 := by norm_num
  have h3 : ¬ ((4 : ℚ) - 3 = 0) := by norm_num
  have h4 : ¬ ((3 : ℚ) - 1 = 0) := by norm_num
  have hg : exampleWallCell.computeGradient exampleElementOps exampleStateOps exampleCellAt
      "v" 0 = some ⟨1 / 2, 0, 0⟩ := by
    simp [Cell.computeGradient, gradientSums, exampleWallCell, computeGradientStep,
      exampleWallInterface, exampleInnerInterface, CellInterface.getSplit, CellInterface.data,
      CellInterface.whoAmI, Cell.data, Cell.new, exampleCellAt, exampleWallNeighbor,
      Cell.selectScalar, exampleStateOps, exampleElementOps, quotient, Element.empty,
      GradientSums.addProjected, GradientSums.addDistances, boundaryDistances,
      internalDistances, guardSomme, h1, h2, h3, h4]
    norm_num
  refine ⟨rfl, rfl, rfl, rfl, rfl, rfl, ?_, ?_, ?_, hg, ?_⟩
  · simp [exampleElementOps, exampleWallNeighbor, exampleWallCell, Cell.data, h2]
  · simp [Cell.selectScalar, exampleWallCell, exampleStateOps, Cell.data, Cell.new]
  · simp [Cell.selectScalar, exampleWallNeighbor, exampleStateOps, Cell.data, Cell.new]
  · rintro ⟨g, hg', hx⟩
    rw [hg] at hg'
    simp only [Option.some.injEq] at hg'
    rw [← hg'] at hx
    norm_num at hx

/-- The contribution of a wall interface to the gradient of a velocity component. -/
theorem interfaceContribution_wall (eo : ElementOps) (so : StateOps) (cellAt : CellRef → Cell)
    (c : Cell) (nameVariable : String) (numPhase : Nat) (b : CellInterface) (cg : ℚ)
    (hs : b.getSplit = false) (hw : b.whoAmI = 2)
    (hn : nameVariable = "u" ∨ nameVariable = "v" ∨ nameVariable = "w")
    (hcg : (cellAt b.data.cellGauche).selectScalar so nameVariable numPhase = some cg)
    (hd : eo.distanceFace c.data.element b.data.face ≠ 0) :
    interfaceContribution eo so cellAt c nameVariable numPhase b
      = some ((⟨0, 0, 0, ⟨0, 0, 0⟩⟩ : GradientSums).addProjected b.data.face.normal
          (cg / eo.distanceFace c.data.element b.data.face)
          (boundaryDistances eo c.data.element b.data.face)) := by
  unfold interfaceContribution computeGradientStep
  have hk : ∃ code, b.data.kind = .boundary code := by
    unfold CellInterface.whoAmI at hw
    cases hk : b.data.kind with
    | internal r => rw [hk] at hw; cases hw
    | boundary code => exact ⟨code, rfl⟩
  obtain ⟨code, hk⟩ := hk
  simp only [hs, Bool.not_false, if_true, hk]
  rw [if_neg (by rw [hw]; decide), if_neg (by rw [hw]; decide), if_pos hw, if_pos hn, hcg]
  simp [quotient, hd]

/-- The contribution of a two-sided interface. -/
theorem interfaceContribution_internal (eo : ElementOps) (so : StateOps)
    (cellAt : CellRef → Cell) (c : Cell) (nameVariable : String) (numPhase : Nat)
    (b : CellInterface) (r : CellRef) (cg cd : ℚ)
    (hs : b.getSplit = false) (hk : b.data.kind = .internal r)
    (hcg : (cellAt b.data.cellGauche).selectScalar so nameVariable numPhase = some cg)
    (hcd : (cellAt r).selectScalar so nameVariable numPhase = some cd)
    (hd : eo.distance (cellAt b.data.cellGauche).data.element (cellAt r).data.element ≠ 0) :
    interfaceContribution eo so cellAt c nameVariable numPhase b
      = some ((⟨0, 0, 0, ⟨0, 0, 0⟩⟩ : GradientSums).addProjected b.data.face.normal
          ((cd - cg)
            / eo.distance (cellAt b.data.cellGauche).data.element (cellAt r).data.element)
          (internalDistances eo (cellAt b.data.cellGauche).data.element
            (cellAt r).data.element)) := by
  unfold interfaceContribution computeGradientStep
  simp only [hs, Bool.not_false, if_true, hk, hcg, hcd]
  simp [quotient, hd]

/-- C22, amended: for a cell whose `+x` face is a wall at distance `dx / 2` and whose `−x` face
is a two-sided interface to a neighbor at distance `dx`, with `2 * dx` above the guard
`1e-12`, with the velocity component `v` equal to `val` in the cell and in the neighbor, and
whose other interfaces have no distance along `x`, the x-component of `computeGradient("v")` is
`val / dx`. -/
theorem computeGradient_wall_v (eo : ElementOps) (so : StateOps) (cellAt : CellRef → Cell)
    (c : Cell) (numPhase : Nat) (wall inner : CellInterface) (others : List CellInterface)
    (r : CellRef) (dx val : ℚ)
    (hperm : c.data.cellInterfaces.Perm (wall :: inner :: others))
    (hdx : (1 : ℚ) / 10 ^ 12 < 2 * dx)
    (hv : c.selectScalar so "v" numPhase = some val)
    (hws : wall.getSplit = false) (hww : wall.whoAmI = 2)
    (hwn : wall.data.face.normal = ⟨1, 0, 0⟩) (hwc : cellAt wall.data.cellGauche = c)
    (hwd : eo.distanceFace c.data.element wall.data.face = dx / 2)
    (hwx : |eo.distanceFaceX c.data.element wall.data.face| = dx / 2)
    (his : inner.getSplit = false) (hik : inner.data.kind = .internal r)
    (hic : cellAt r = c)
    (hin : (cellAt inner.data.cellGauche).selectScalar so "v" numPhase = some val)
    (hid : eo.distance (cellAt inner.data.cellGauche).data.element c.data.element = dx)
    (hix : |eo.distanceX (cellAt inner.data.cellGauche).data.element c.data.element| = dx)
    (ho : ∀ b ∈ others, (interfaceContribution eo so cellAt c "v" numPhase b).isSome = true ∧
      (b.getSplit = false → (interfaceDistances eo cellAt c b).x = 0)) :
    ∃ g : Coord, c.computeGradient eo so cellAt "v" numPhase = some g ∧ g.x = val / dx := by
  have hdx0 : (0 : ℚ) < dx := by
    have : (0 : ℚ) < 1 / 10 ^ 12 := by norm_num
    linarith
  have hcw := interfaceContribution_wall eo so cellAt c "v" numPhase wall val hws hww
    (Or.inr (Or.inl rfl)) (by rw [hwc]; exact hv) (by rw [hwd]; positivity)
  have hci := interfaceContribution_internal eo so cellAt c "v" numPhase inner r val val his hik
    hin (by rw [hic]; exact hv) (by rw [hic, hid]; exact ne_of_gt hdx0)
  have hdef : ∀ b ∈ c.data.cellInterfaces,
      (interfaceContribution eo so cellAt c "v" numPhase b).isSome = true := by
    intro b hb
    rcases List.mem_cons.mp (hperm.mem_iff.mp hb) with rfl | hb
    · rw [hcw]; rfl
    · rcases List.mem_cons.mp hb with rfl | hb
      · rw [hci]; rfl
      · exact (ho b hb).1
  obtain ⟨st, hst⟩ := foldlM_computeGradientStep_some eo so cellAt c "v" numPhase
    c.data.cellInterfaces hdef ⟨0, 0, 0, ⟨0, 0, 0⟩⟩
  have hothers : ∀ b ∈ others, (interfaceDistances eo cellAt c b).x = 0 := by
    intro b hb
    by_cases hs : b.getSplit = false
    · exact (ho b hb).2 hs
    · unfold interfaceDistances
      have hb' : b.getSplit = true := by simpa using hs
      simp [hb']
  have hsx := foldlM_computeGradientStep_sum eo so cellAt c "v" numPhase
    GradientSums.sommeDistanceX (fun s p => rfl) _ _ _ hst
  have hgx := foldlM_computeGradientStep_sum eo so cellAt c "v" numPhase
    (fun s => s.grad.x) (fun s p => rfl) _ _ _ hst
  rw [(hperm.map _).sum_eq, List.map_cons, List.map_cons, List.sum_cons, List.sum_cons,
    sum_map_eq_zero _ _ (fun b hb =>
      ((interfaceContribution_zero_axis eo so cellAt c "v" numPhase b).1 (hothers b hb)).1),
    hcw, hci] at hsx
  rw [(hperm.map _).sum_eq, List.map_cons, List.map_cons, List.sum_cons, List.sum_cons,
    sum_map_eq_zero _ _ (fun b hb =>
      ((interfaceContribution_zero_axis eo so cellAt c "v" numPhase b).1 (hothers b hb)).2),
    hcw, hci] at hgx
  simp only [Option.map_some', Option.getD_some, GradientSums.addProjected, boundaryDistances,
    internalDistances, hwx, hic, hix, hwn, hwd, hid, zero_add, add_zero, sub_self,
    zero_div, mul_zero, one_mul] at hsx hgx
  refine ⟨⟨st.grad.x / guardSomme st.sommeDistanceX, st.grad.y / guardSomme st.sommeDistanceY,
    st.grad.z / guardSomme st.sommeDistanceZ⟩, ?_, ?_⟩
  · unfold Cell.computeGradient gradientSums
    rw [hst]
    rfl
  · have hsum : st.sommeDistanceX = 2 * dx := by rw [hsx]; ring
    have hguard : guardSomme st.sommeDistanceX = 2 * dx := by
      unfold guardSomme
      rw [hsum, if_neg (not_le.mpr hdx)]
    simp only [hguard, hgx]
    field_simp
    ring

theorem computeGradient_wall_v_witness :
    ∃ g : Coord,
      exampleWallCell.computeGradient exampleElementOps exampleStateOps exampleCellAt "v" 0
        = some g ∧ g.x = 1 / 2 :=
  computeGradient_wall_v exampleElementOps exampleStateOps exampleCellAt exampleWallCell 0
    exampleWallInterface exampleInnerInterface [] ⟨⟨⟨1, 0, 0⟩, 0⟩, 0⟩ 2 1
    (List.Perm.refl _) (by norm_num)
    (by simp [Cell.selectScalar, exampleWallCell, exampleStateOps, Cell.data, Cell.new])
    rfl rfl rfl (by simp [exampleCellAt, exampleWallInterface, CellInterface.data])
    (by simp [exampleElementOps, exampleWallInterface, exampleWallCell, Cell.data,
      CellInterface.data]; norm_num)
    (by simp [exampleElementOps, exampleWallInterface, exampleWallCell, Cell.data,
      CellInterface.data]; norm_num)
    rfl rfl (by simp [exampleCellAt])
    (by simp [Cell.selectScalar, exampleCellAt, exampleInnerInterface, CellInterface.data,
      exampleWallNeighbor, exampleStateOps, Cell.data, Cell.new])
    (by simp [exampleElementOps, exampleCellAt, exampleInnerInterface, CellInterface.data,
      exampleWallNeighbor, exampleWallCell, Cell.data]; norm_num)
    (by simp [exampleElementOps, exampleCellAt, exampleInnerInterface, CellInterface.data,
      exampleWallNeighbor, exampleWallCell, Cell.data]; norm_num)
    (by intro b hb; cases hb)

theorem foldl_filter_of_ignored {σ : Type} (pass : σ → Cell → σ)
    (h : ∀ (s : σ) (c : Cell), c.getSplit = true → pass s c = s) (l : List Cell) (st : σ) :
    (l.filter (fun c => !c.getSplit)).foldl pass st = l.foldl pass st := by
  induction l generalizing st with
  | nil => rfl
  | cons a t ih =>
    by_cases hs : a.getSplit = true
    · rw [List.filter_cons_of_neg (by simp [hs]), List.foldl_cons, h st a hs, ih]
    · rw [List.filter_cons_of_pos (by simpa using hs), List.foldl_cons, List.foldl_cons, ih]

/-- A double loop whose pass leaves the state as it is on the split cells is a single loop over
the cells that are not split, in the order of the traversal. -/
theorem forEachCellLvl_eq_foldl_leaves {σ : Type} (lvlMax : Int) (cellsLvl : Nat → List Cell)
    (pass : σ → Cell → σ) (h : ∀ (s : σ) (c : Cell), c.getSplit = true → pass s c = s) (st : σ) :
    forEachCellLvl lvlMax cellsLvl pass st = (leafCellsLvl lvlMax cellsLvl).foldl pass st := by
  unfold forEachCellLvl leafCellsLvl
  generalize levelsUpTo lvlMax = levels
  induction levels generalizing st with
  | nil => rfl
  | cons a t ih =>
    rw [List.foldl_cons, List.flatMap_cons, List.foldl_append, foldl_filter_of_ignored pass h, ih]

theorem getSplit_of_mem_leafCellsLvl (lvlMax : Int) (cellsLvl : Nat → List Cell) (c : Cell)
    (hc : c ∈ leafCellsLvl lvlMax cellsLvl) : c.getSplit = false := by
  unfold leafCellsLvl at hc
  rw [List.mem_flatMap] at hc
  obtain ⟨lvl, -, hc⟩ := hc
  simpa using (List.mem_filter.mp hc).2

theorem foldl_count_leaves (l : List Cell) (h : ∀ c ∈ l, c.getSplit = false) (n : Int) :
    l.foldl (fun numberCells c => if !c.getSplit then numberCells + 1 else numberCells) n
      = n + (l.length : Int) := by
  induction l generalizing n with
  | nil => simp
  | cons a t ih =>
    rw [List.foldl_cons, ih (fun c hc => h c (List.mem_cons_of_mem _ hc)),
      h a (List.mem_cons_self _ _)]
    simp only [Bool.not_false, if_true, List.length_cons]
    push_cast
    ring

theorem length_cornerCoordinates (numberCellsZ : Int) (c : Cell) :
    (cornerCoordinates numberCellsZ c).length = 3 * pointsPerCell numberCellsZ := by
  unfold cornerCoordinates pointsPerCell
  split <;> rfl

theorem recupereNoeudsCell_leaf (numberCellsZ : Int) (j : List ℚ) (c : Cell)
    (h : c.getSplit = false) :
    recupereNoeudsCell (if numberCellsZ > 1 then 1 else 0) j c
      = j ++ cornerCoordinates numberCellsZ c := by
  unfold recupereNoeudsCell cornerCoordinates
  by_cases hz : numberCellsZ > 1
  · simp only [h, hz, Bool.not_false, if_true, Int.cast_one, mul_one]
    norm_num
    refine ⟨?_, ?_, ?_, ?_, ?_, ?_, ?_, ?_, ?_, ?_, ?_, ?_, ?_, ?_, ?_, ?_, ?_, ?_, ?_, ?_,
      ?_, ?_, ?_, ?_⟩ <;> ring
  · simp only [h, hz, Bool.not_false, if_true, if_false, Int.cast_zero, mul_zero, sub_zero,
      List.append_nil]
    norm_num
    refine ⟨?_, ?_, ?_, ?_, ?_, ?_, ?_, ?_⟩ <;> ring

theorem foldl_recupereNoeudsCell (numberCellsZ : Int) (l : List Cell)
    (h : ∀ c ∈ l, c.getSplit = false) (j : List ℚ) :
    l.foldl (recupereNoeudsCell (if numberCellsZ > 1 then 1 else 0)) j
      = j ++ l.flatMap (cornerCoordinates numberCellsZ) := by
  induction l generalizing j with
  | nil => simp
  | cons a t ih =>
    rw [List.foldl_cons, recupereNoeudsCell_leaf numberCellsZ j a (h a (List.mem_cons_self _ _)),
      ih (fun c hc => h c (List.mem_cons_of_mem _ hc)), List.flatMap_cons, List.append_assoc]

theorem foldl_connectivite4 (p : Int) (l : List Cell) (h : ∀ c ∈ l, c.getSplit = false)
    (j : List ℚ) (n : Int) (hp : p = 4) :
    l.foldl (fun (st : List ℚ × Int) c =>
        if !c.getSplit then
          (st.1 ++ [((st.2 * p : Int) : ℚ), ((st.2 * p + 1 : Int) : ℚ),
            ((st.2 * p + 2 : Int) : ℚ), ((st.2 * p + 3 : Int) : ℚ)], st.2 + 1)
        else st) (j, n)
      = (j ++ (List.range (4 * l.length)).map (fun (k : Nat) => ((n * 4 + (k : Int) : Int) : ℚ)),
          n + (l.length : Int)) := by
  subst hp
  induction l generalizing j n with
  | nil => simp
  | cons a t ih =>
    rw [List.foldl_cons, h a (List.mem_cons_self _ _)]
    simp only [Bool.not_false, if_true]
    rw [ih (fun c hc => h c (List.mem_cons_of_mem _ hc))]
    have e : 4 * (a :: t).length = 4 + 4 * t.length := by
      rw [List.length_cons]; ring
    rw [e, List.range_add, List.map_append, List.map_map]
    have e4 : List.range 4 = [0, 1, 2, 3] := by decide
    rw [e4]
    simp only [List.map_cons, List.map_nil, List.append_assoc, List.length_cons]
    refine Prod.ext ?_ ?_
    · simp only
      congr 1
      congr 1
      · simp
      · apply List.map_congr_left
        intro k _
        simp only [Function.comp]
        push_cast
        ring
    · simp only
      push_cast
      ring

theorem foldl_connectivite8 (p : Int) (l : List Cell) (h : ∀ c ∈ l, c.getSplit = false)
    (j : List ℚ) (n : Int) (hp : p = 8) :
    l.foldl (fun (st : List ℚ × Int) c =>
        if !c.getSplit then
          (st.1 ++ [((st.2 * p : Int) : ℚ), ((st.2 * p + 1 : Int) : ℚ),
            ((st.2 * p + 2 : Int) : ℚ), ((st.2 * p + 3 : Int) : ℚ),
            ((st.2 * p + 4 : Int) : ℚ), ((st.2 * p + 5 : Int) : ℚ),
            ((st.2 * p + 6 : Int) : ℚ), ((st.2 * p + 7 : Int) : ℚ)], st.2 + 1)
        else st) (j, n)
      = (j ++ (List.range (8 * l.length)).map (fun (k : Nat) => ((n * 8 + (k : Int) : Int) : ℚ)),
          n + (l.length : Int)) := by
  subst hp
  induction l generalizing j n with
  | nil => simp
  | cons a t ih =>
    rw [List.foldl_cons, h a (List.mem_cons_self _ _)]
    simp only [Bool.not_false, if_true]
    rw [ih (fun c hc => h c (List.mem_cons_of_mem _ hc))]
    have e : 8 * (a :: t).length = 8 + 8 * t.length := by
      rw [List.length_cons]; ring
    rw [e, List.range_add, List.map_append, List.map_map]
    have e8 : List.range 8 = [0, 1, 2, 3, 4, 5, 6, 7] := by decide
    rw [e8]
    simp only [List.map_cons, List.map_nil, List.append_assoc, List.length_cons]
    refine Prod.ext ?_ ?_
    · simp only
      congr 1
      congr 1
      · simp
      · apply List.map_congr_left
        intro k _
        simp only [Function.comp]
        push_cast
        ring
    · simp only
      push_cast
      ring

theorem foldl_offsets (p : Int) (l : List Cell) (h : ∀ c ∈ l, c.getSplit = false)
    (j : List ℚ) (n : Int) :
    l.foldl (fun (st : List ℚ × Int) c =>
        if !c.getSplit then (st.1 ++ [(((st.2 + 1) * p : Int) : ℚ)], st.2 + 1) else st) (j, n)
      = (j ++ (List.range l.length).map (fun (k : Nat) => (((n + (k : Int) + 1) * p : Int) : ℚ)),
          n + (l.length : Int)) := by
  induction l generalizing j n with
  | nil => simp
  | cons a t ih =>
    rw [List.foldl_cons, h a (List.mem_cons_self _ _)]
    simp only [Bool.not_false, if_true]
    rw [ih (fun c hc => h c (List.mem_cons_of_mem _ hc))]
    have e : (a :: t).length = 1 + t.length := by
      rw [List.length_cons]; ring
    rw [e, List.range_add, List.map_append, List.map_map]
    have e1 : List.range 1 = [0] := by decide
    rw [e1]
    simp only [List.map_cons, List.map_nil, List.append_assoc]
    refine Prod.ext ?_ ?_
    · simp only
      congr 1
      congr 1
      · simp
      · apply List.map_congr_left
        intro k _
        simp only [Function.comp]
        push_cast
        ring
    · simp only
      push_cast
      ring

theorem length_flatMap_const {α β : Type} (f : α → List β) (k : Nat) (l : List α)
    (h : ∀ a, (f a).length = k) : (l.flatMap f).length = k * l.length := by
  induction l with
  | nil => simp
  | cons a t ih =>
    rw [List.flatMap_cons, List.length_append, ih, h, List.length_cons]
    ring

theorem getLast?_map_range {β : Type} (f : Nat → β) (n : Nat) :
    ((List.range n).map f).getLast? = if n = 0 then none else some (f (n - 1)) := by
  cases n with
  | zero => rfl
  | succ m =>
    rw [List.range_succ, List.map_append]
    simp

/-- C24: for level arrays whose cells that are not split in the levels `0..lvlMax` are `L`, and
`p = 8` when `numberCellsZ > 1` and `p = 4` otherwise: `ecritHeaderPiece` writes `p * L` points
and `L` cells; `recupereNoeuds` appends, for the cells that are not split in the order of the
levels and then of the arrays, the three coordinates of each of the `p` corner points of the
cell, `3 * p * L` values in all; `recupereConnectivite` appends the sequence `0, 1, ...,
p * L − 1`; `recupereOffsets` appends `p, 2p, ..., L * p`, whose last value, when there is one,
is the number of points `p * L`. -/
theorem vtk_piece_of_leaves (numberCellsZ lvlMax : Int) (cellsLvl : Nat → List Cell)
    (jeuDonnees : List ℚ) :
    ecritHeaderPiece numberCellsZ lvlMax cellsLvl
        = (((pointsPerCell numberCellsZ * (leafCellsLvl lvlMax cellsLvl).length : Nat) : Int),
            (((leafCellsLvl lvlMax cellsLvl).length : Nat) : Int)) ∧
      recupereNoeuds numberCellsZ lvlMax cellsLvl jeuDonnees
        = jeuDonnees ++ (leafCellsLvl lvlMax cellsLvl).flatMap (cornerCoordinates numberCellsZ) ∧
      (∀ c : Cell, (cornerCoordinates numberCellsZ c).length = 3 * pointsPerCell numberCellsZ) ∧
      (recupereNoeuds numberCellsZ lvlMax cellsLvl jeuDonnees).length
        = jeuDonnees.length
          + 3 * pointsPerCell numberCellsZ * (leafCellsLvl lvlMax cellsLvl).length ∧
      recupereConnectivite numberCellsZ lvlMax cellsLvl jeuDonnees
        = jeuDonnees ++ (List.range
            (pointsPerCell numberCellsZ * (leafCellsLvl lvlMax cellsLvl).length)).map
            (fun (k : Nat) => (k : ℚ)) ∧
      recupereOffsets numberCellsZ lvlMax cellsLvl jeuDonnees
        = jeuDonnees ++ (List.range (leafCellsLvl lvlMax cellsLvl).length).map
            (fun (k : Nat) => (((k + 1) * pointsPerCell numberCellsZ : Nat) : ℚ)) ∧
      (recupereOffsets numberCellsZ lvlMax cellsLvl []).getLast?
        = (if (leafCellsLvl lvlMax cellsLvl).length = 0 then none
          else some (((pointsPerCell numberCellsZ * (leafCellsLvl lvlMax cellsLvl).length : Nat)
            : ℚ))) := by
  have hleaf := getSplit_of_mem_leafCellsLvl lvlMax cellsLvl
  have hnoeuds : recupereNoeuds numberCellsZ lvlMax cellsLvl jeuDonnees
      = jeuDonnees ++ (leafCellsLvl lvlMax cellsLvl).flatMap (cornerCoordinates numberCellsZ) := by
    unfold recupereNoeuds
    simp only []
    rw [forEachCellLvl_eq_foldl_leaves _ _ _
      (fun s c hc => by unfold recupereNoeudsCell; simp [hc]),
      foldl_recupereNoeudsCell numberCellsZ _ hleaf]
  have hoff : ∀ j : List ℚ, recupereOffsets numberCellsZ lvlMax cellsLvl j
      = j ++ (List.range (leafCellsLvl lvlMax cellsLvl).length).map
          (fun (k : Nat) => (((k + 1) * pointsPerCell numberCellsZ : Nat) : ℚ)) := by
    intro j
    unfold recupereOffsets
    simp only []
    rw [forEachCellLvl_eq_foldl_leaves _ _ _ (fun s c hc => by simp [hc]),
      foldl_offsets _ _ hleaf]
    simp only []
    congr 1
    apply List.map_congr_left
    intro k _
    unfold pointsPerCell
    split <;> push_cast <;> ring
  refine ⟨?_, hnoeuds, length_cornerCoordinates numberCellsZ, ?_, ?_, hoff jeuDonnees, ?_⟩
  · unfold ecritHeaderPiece
    simp only []
    rw [forEachCellLvl_eq_foldl_leaves _ _ _ (fun s c hc => by simp [hc]),
      foldl_count_leaves _ hleaf]
    unfold pointsPerCell
    split <;> simp
  · rw [hnoeuds, List.length_append,
      length_flatMap_const _ _ _ (length_cornerCoordinates numberCellsZ)]
  · unfold recupereConnectivite pointsPerCell
    by_cases hz : numberCellsZ > 1
    · simp only [hz, if_true, Int.cast_one]
      rw [if_neg (by norm_num),
        forEachCellLvl_eq_foldl_leaves _ _ _ (fun s c hc => by simp [hc]),
        foldl_connectivite8 8 _ hleaf _ _ rfl]
      simp
    · simp only [hz, if_false, Int.cast_zero]
      rw [if_pos (by norm_num),
        forEachCellLvl_eq_foldl_leaves _ _ _ (fun s c hc => by simp [hc]),
        foldl_connectivite4 4 _ hleaf _ _ rfl]
      simp
  · rw [hoff, List.nil_append, getLast?_map_range]
    by_cases hL : (leafCellsLvl lvlMax cellsLvl).length = 0
    · rw [if_pos hL, if_pos hL]
    · rw [if_neg hL, if_neg hL]
      congr 2
      have : (leafCellsLvl lvlMax cellsLvl).length - 1 + 1
          = (leafCellsLvl lvlMax cellsLvl).length := Nat.sub_add_cancel (Nat.pos_of_ne_zero hL)
      rw [this, Nat.mul_comm]

theorem integrationProcedure_top (run : Run) (dt : ℚ) (lvl : Int) (hpos : 0 < lvl)
    (h : ¬ lvl < run.lvlMax) :
    integrationProcedure run dt lvl
      = refinementEvents run lvl ++ slopesEvents run lvl ++
          [RunEvent.advancingProcedure (dt * (2 : ℚ) ^ (-lvl)) lvl] ++
          (slopesEvents run lvl ++ [RunEvent.advancingProcedure (dt * (2 : ℚ) ^ (-lvl)) lvl]) := by
  rw [integrationProcedure]
  simp only [dif_neg h, if_pos hpos, List.append_nil]

theorem integrationProcedure_mid (run : Run) (dt : ℚ) (lvl : Int) (hpos : 0 < lvl)
    (h : lvl < run.lvlMax) :
    integrationProcedure run dt lvl
      = refinementEvents run lvl ++ slopesEvents run lvl ++
          (prepareAddPhysEvents run lvl ++ integrationProcedure run dt (lvl + 1)) ++
          [RunEvent.advancingProcedure (dt * (2 : ℚ) ^ (-lvl)) lvl] ++
          (slopesEvents run lvl ++ integrationProcedure run dt (lvl + 1) ++
            [RunEvent.advancingProcedure (dt * (2 : ℚ) ^ (-lvl)) lvl]) := by
  rw [integrationProcedure]
  simp only [dif_pos h, if_pos hpos]

theorem integrationProcedure_zero (run : Run) (dt : ℚ) (h : 0 < run.lvlMax) :
    integrationProcedure run dt 0
      = refinementEvents run 0 ++ slopesEvents run 0 ++
          (prepareAddPhysEvents run 0 ++ integrationProcedure run dt 1) ++
          [RunEvent.advancingProcedure dt 0] := by
  rw [integrationProcedure]
  simp [h]

theorem integrationProcedure_zero_only (run : Run) (dt : ℚ) (h : ¬ 0 < run.lvlMax) :
    integrationProcedure run dt 0
      = refinementEvents run 0 ++ slopesEvents run 0 ++ [RunEvent.advancingProcedure dt 0] := by
  rw [integrationProcedure]
  simp [h]

theorem countP_isAdvancing_side (run : Run) (lvl l : Int) :
    (refinementEvents run lvl).countP (RunEvent.isAdvancing l) = 0 ∧
      (slopesEvents run lvl).countP (RunEvent.isAdvancing l) = 0 ∧
      (prepareAddPhysEvents run lvl).countP (RunEvent.isAdvancing l) = 0 := by
  refine ⟨?_, ?_, ?_⟩
  · unfold refinementEvents
    split_ifs <;> simp [RunEvent.isAdvancing]
  · unfold slopesEvents
    split_ifs <;> simp [RunEvent.isAdvancing]
  · unfold prepareAddPhysEvents
    split_ifs <;> simp [RunEvent.isAdvancing]

theorem countP_isRaffinement_side (run : Run) (lvl l : Int) :
    (refinementEvents run lvl).countP (RunEvent.isRaffinement l)
        = (if 0 < run.lvlMax ∧ lvl = l then 1 else 0) ∧
      (slopesEvents run lvl).countP (RunEvent.isRaffinement l) = 0 ∧
      (prepareAddPhysEvents run lvl).countP (RunEvent.isRaffinement l) = 0 := by
  refine ⟨?_, ?_, ?_⟩
  · unfold refinementEvents
    split_ifs <;> simp_all [RunEvent.isRaffinement]
  · unfold slopesEvents
    split_ifs <;> simp [RunEvent.isRaffinement]
  · unfold prepareAddPhysEvents
    split_ifs <;> simp [RunEvent.isRaffinement]

theorem mem_side_not_advancing (run : Run) (lvl : Int) (d : ℚ) (l : Int) :
    RunEvent.advancingProcedure d l ∉ refinementEvents run lvl ∧
      RunEvent.advancingProcedure d l ∉ slopesEvents run lvl ∧
      RunEvent.advancingProcedure d l ∉ prepareAddPhysEvents run lvl := by
  refine ⟨?_, ?_, ?_⟩
  · unfold refinementEvents
    split_ifs <;> simp
  · unfold slopesEvents
    split_ifs <;> simp
  · unfold prepareAddPhysEvents
    split_ifs <;> simp

theorem countP_isAdvancing_singleton (d : ℚ) (lvl l : Int) :
    [RunEvent.advancingProcedure d lvl].countP (RunEvent.isAdvancing l)
      = if lvl = l then 1 else 0 := by
  by_cases h : lvl = l <;> simp [RunEvent.isAdvancing, h]

theorem countP_isRaffinement_singleton (d : ℚ) (lvl l : Int) :
    [RunEvent.advancingProcedure d lvl].countP (RunEvent.isRaffinement l) = 0 := by
  simp [RunEvent.isRaffinement]

/-- The calls of `advancingProcedure` and of `procedureRaffinement` made by one call of
`integrationProcedure` at a level `lvl ≥ 1`: at each level `l` from `lvl` to `lvlMax`,
`2 ^ (l − lvl + 1)` advancing steps, each of time step `dt * 2 ^ (−l)`, and `2 ^ (l − lvl)`
refinement procedures; none at the other levels. -/
theorem integrationProcedure_counts (run : Run) (dt : ℚ) :
    ∀ (k : Nat) (lvl : Int), 0 < lvl → run.lvlMax = lvl + (k : Int) →
      (∀ l : Int, (integrationProcedure run dt lvl).countP (RunEvent.isAdvancing l)
          = if lvl ≤ l ∧ l ≤ run.lvlMax then 2 ^ ((l - lvl).toNat + 1) else 0) ∧
        (∀ l : Int, (integrationProcedure run dt lvl).countP (RunEvent.isRaffinement l)
          = if lvl ≤ l ∧ l ≤ run.lvlMax then 2 ^ (l - lvl).toNat else 0) ∧
        (∀ (d : ℚ) (l : Int), RunEvent.advancingProcedure d l ∈ integrationProcedure run dt lvl →
          d = dt * (2 : ℚ) ^ (-l)) := by
  intro k
  induction k with
  | zero =>
    intro lvl hpos hmax
    have hmax' : run.lvlMax = lvl := by simpa using hmax
    have hlt : ¬ lvl < run.lvlMax := by omega
    have h0 : 0 < run.lvlMax := by omega
    rw [integrationProcedure_top run dt lvl hpos hlt]
    refine ⟨?_, ?_, ?_⟩
    · intro l
      simp only [List.countP_append, (countP_isAdvancing_side run lvl l).1,
        (countP_isAdvancing_side run lvl l).2.1, countP_isAdvancing_singleton]
      by_cases hl : lvl = l
      · subst hl
        rw [if_pos rfl, if_pos ⟨le_refl _, by omega⟩]
        simp
      · rw [if_neg hl, if_neg (by omega)]
    · intro l
      simp only [List.countP_append, (countP_isRaffinement_side run lvl l).1,
        (countP_isRaffinement_side run lvl l).2.1, countP_isRaffinement_singleton]
      by_cases hl : lvl = l
      · subst hl
        rw [if_pos ⟨h0, rfl⟩, if_pos ⟨le_refl _, by omega⟩]
        simp
      · rw [if_neg (fun h => hl h.2), if_neg (by omega)]
    · intro d l hmem
      simp only [List.mem_append, List.mem_singleton, RunEvent.advancingProcedure.injEq] at hmem
      have hs := mem_side_not_advancing run lvl d l
      rcases hmem with ((h | h) | h) | (h | h)
      · exact absurd h hs.1
      · exact absurd h hs.2.1
      · rw [h.1, h.2]
      · exact absurd h hs.2.1
      · rw [h.1, h.2]
  | succ k ih =>
    intro lvl hpos hmax
    have hlt : lvl < run.lvlMax := by push_cast at hmax; omega
    have h0 : 0 < run.lvlMax := by omega
    obtain ⟨ihA, ihR, ihD⟩ := ih (lvl + 1) (by omega) (by push_cast at hmax; omega)
    rw [integrationProcedure_mid run dt lvl hpos hlt]
    refine ⟨?_, ?_, ?_⟩
    · intro l
      simp only [List.countP_append, (countP_isAdvancing_side run lvl l).1,
        (countP_isAdvancing_side run lvl l).2.1, (countP_isAdvancing_side run lvl l).2.2,
        countP_isAdvancing_singleton, ihA l]
      by_cases hl : lvl = l
      · subst hl
        rw [if_pos rfl, if_neg (by omega), if_pos ⟨le_refl _, by omega⟩]
        simp
      · rw [if_neg hl]
        by_cases hl2 : lvl + 1 ≤ l ∧ l ≤ run.lvlMax
        · rw [if_pos hl2, if_pos ⟨by omega, hl2.2⟩]
          have e : (l - lvl).toNat = (l - (lvl + 1)).toNat + 1 := by omega
          rw [e, pow_succ _ ((l - (lvl + 1)).toNat + 1)]
          ring
        · rw [if_neg hl2, if_neg (by omega)]
    · intro l
      simp only [List.countP_append, (countP_isRaffinement_side run lvl l).1,
        (countP_isRaffinement_side run lvl l).2.1, (countP_isRaffinement_side run lvl l).2.2,
        countP_isRaffinement_singleton, ihR l]
      by_cases hl : lvl = l
      · subst hl
        rw [if_pos ⟨h0, rfl⟩, if_neg (by omega), if_pos ⟨le_refl _, by omega⟩]
        simp
      · rw [if_neg (fun h => hl h.2)]
        by_cases hl2 : lvl + 1 ≤ l ∧ l ≤ run.lvlMax
        · rw [if_pos hl2, if_pos ⟨by omega, hl2.2⟩]
          have e : (l - lvl).toNat = (l - (lvl + 1)).toNat + 1 := by omega
          rw [e, pow_succ]
          ring
        · rw [if_neg hl2, if_neg (by omega)]
    · intro d l hmem
      simp only [List.mem_append, List.mem_singleton, RunEvent.advancingProcedure.injEq] at hmem
      have hs := mem_side_not_advancing run lvl d l
      rcases hmem with (((h | h) | (h | h)) | h) | ((h | h) | h)
      · exact absurd h hs.1
      · exact absurd h hs.2.1
      · exact absurd h hs.2.2
      · exact ihD d l h
      · rw [h.1, h.2]
      · exact absurd h hs.2.1
      · exact ihD d l h
      · rw [h.1, h.2]

/-- C28: for `lvlMax ≥ 0`, the call `integrationProcedure(dt, 0, ...)`, which the embedding
proves to end, calls `advancingProcedure` exactly `2 ^ l` times at each level `l` from 0 to
`lvlMax` and at no other level, each time with the time step `dt * 2 ^ (−l)`, so that each level
advances by `dt` in all; when `lvlMax > 0` it calls `procedureRaffinement` once at level 0 and
`2 ^ (l − 1)` times at each level `l` from 1 to `lvlMax` (once at level 1), and when `lvlMax = 0`
it does not call it. -/
theorem integrationProcedure_schedule (run : Run) (dt : ℚ) (h : 0 ≤ run.lvlMax) :
    (∀ l : Int, 0 ≤ l → l ≤ run.lvlMax →
        (integrationProcedure run dt 0).countP (RunEvent.isAdvancing l) = 2 ^ l.toNat) ∧
      (∀ l : Int, l < 0 ∨ run.lvlMax < l →
        (integrationProcedure run dt 0).countP (RunEvent.isAdvancing l) = 0) ∧
      (∀ (d : ℚ) (l : Int), RunEvent.advancingProcedure d l ∈ integrationProcedure run dt 0 →
        d = dt * (2 : ℚ) ^ (-l)) ∧
      (∀ l : Int, 0 ≤ l → l ≤ run.lvlMax →
        (((integrationProcedure run dt 0).countP (RunEvent.isAdvancing l) : Nat) : ℚ)
          * (dt * (2 : ℚ) ^ (-l)) = dt) ∧
      (0 < run.lvlMax →
        (integrationProcedure run dt 0).countP (RunEvent.isRaffinement 0) = 1 ∧
          (integrationProcedure run dt 0).countP (RunEvent.isRaffinement 1) = 1 ∧
          ∀ l : Int, 1 ≤ l → l ≤ run.lvlMax →
            (integrationProcedure run dt 0).countP (RunEvent.isRaffinement l)
              = 2 ^ (l - 1).toNat) ∧
      (run.lvlMax = 0 →
        ∀ l : Int, (integrationProcedure run dt 0).countP (RunEvent.isRaffinement l) = 0) := by
  have hA : ∀ l : Int, (integrationProcedure run dt 0).countP (RunEvent.isAdvancing l)
      = if 0 ≤ l ∧ l ≤ run.lvlMax then 2 ^ l.toNat else 0 := by
    intro l
    by_cases h0 : 0 < run.lvlMax
    · obtain ⟨ihA, -, -⟩ := integrationProcedure_counts run dt (run.lvlMax - 1).toNat 1
        (by norm_num) (by omega)
      rw [integrationProcedure_zero run dt h0]
      simp only [List.countP_append, (countP_isAdvancing_side run 0 l).1,
        (countP_isAdvancing_side run 0 l).2.1, (countP_isAdvancing_side run 0 l).2.2,
        countP_isAdvancing_singleton, ihA l]
      by_cases hl : (0 : Int) = l
      · subst hl
        rw [if_pos rfl, if_neg (by omega), if_pos ⟨le_refl _, h⟩]
        simp
      · rw [if_neg hl]
        by_cases hl2 : 1 ≤ l ∧ l ≤ run.lvlMax
        · rw [if_pos hl2, if_pos ⟨by omega, hl2.2⟩]
          have e : l.toNat = (l - 1).toNat + 1 := by omega
          rw [e]
          ring
        · rw [if_neg hl2, if_neg (by omega)]
    · rw [integrationProcedure_zero_only run dt h0]
      simp only [List.countP_append, (countP_isAdvancing_side run 0 l).1,
        (countP_isAdvancing_side run 0 l).2.1, countP_isAdvancing_singleton]
      by_cases hl : (0 : Int) = l
      · subst hl
        rw [if_pos rfl, if_pos ⟨le_refl _, h⟩]
        simp
      · rw [if_neg hl, if_neg (by omega)]
  have hR : 0 < run.lvlMax →
      ∀ l : Int, (integrationProcedure run dt 0).countP (RunEvent.isRaffinement l)
        = if l = 0 then 1 else if 1 ≤ l ∧ l ≤ run.lvlMax then 2 ^ (l - 1).toNat else 0 := by
    intro h0 l
    obtain ⟨-, ihR, -⟩ := integrationProcedure_counts run dt (run.lvlMax - 1).toNat 1
      (by norm_num) (by omega)
    rw [integrationProcedure_zero run dt h0]
    simp only [List.countP_append, (countP_isRaffinement_side run 0 l).1,
      (countP_isRaffinement_side run 0 l).2.1, (countP_isRaffinement_side run 0 l).2.2,
      countP_isRaffinement_singleton, ihR l]
    by_cases hl : l = 0
    · subst hl
      rw [if_pos ⟨h0, rfl⟩, if_neg (by omega), if_pos rfl]
    · rw [if_neg (fun hh => hl hh.2.symm), if_neg hl]
      simp
  refine ⟨?_, ?_, ?_, ?_, ?_, ?_⟩
  · intro l h1 h2
    rw [hA l, if_pos ⟨h1, h2⟩]
  · intro l hl
    rw [hA l, if_neg (by omega)]
  · intro d l hmem
    by_cases h0 : 0 < run.lvlMax
    · obtain ⟨-, -, ihD⟩ := integrationProcedure_counts run dt (run.lvlMax - 1).toNat 1
        (by norm_num) (by omega)
      rw [integrationProcedure_zero run dt h0] at hmem
      simp only [List.mem_append, List.mem_singleton, RunEvent.advancingProcedure.injEq] at hmem
      have hs := mem_side_not_advancing run 0 d l
      rcases hmem with ((h | h) | (h | h)) | h
      · exact absurd h hs.1
      · exact absurd h hs.2.1
      · exact absurd h hs.2.2
      · exact ihD d l h
      · rw [h.1, h.2]
        simp
    · rw [integrationProcedure_zero_only run dt h0] at hmem
      simp only [List.mem_append, List.mem_singleton, RunEvent.advancingProcedure.injEq] at hmem
      have hs := mem_side_not_advancing run 0 d l
      rcases hmem with (h | h) | h
      · exact absurd h hs.1
      · exact absurd h hs.2.1
      · rw [h.1, h.2]
        simp
  · intro l h1 h2
    rw [hA l, if_pos ⟨h1, h2⟩]
    have e : (2 : ℚ) ^ (-l) = ((2 : ℚ) ^ l.toNat)⁻¹ := by
      rw [zpow_neg]
      congr 1
      conv_lhs => rw [← Int.toNat_of_nonneg h1]
      exact zpow_natCast 2 l.toNat
    rw [e]
    push_cast
    field_simp
  · intro h0
    refine ⟨?_, ?_, ?_⟩
    · rw [hR h0 0, if_pos rfl]
    · rw [hR h0 1, if_neg (by norm_num), if_pos ⟨le_refl _, by omega⟩]
      simp
    · intro l h1 h2
      rw [hR h0 l, if_neg (by omega), if_pos ⟨h1, h2⟩]
  · intro h0 l
    rw [integrationProcedure_zero_only run dt (by omega)]
    simp only [List.countP_append, (countP_isRaffinement_side run 0 l).1,
      (countP_isRaffinement_side run 0 l).2.1, countP_isRaffinement_singleton]
    rw [if_neg (fun hh => by omega)]

theorem integrationProcedure_schedule_witness :
    (0 : Int) ≤ exampleRun.lvlMax ∧
      (integrationProcedure exampleRun 1 0).countP (RunEvent.isAdvancing 2) = 2 ^ (2 : Int).toNat ∧
      (integrationProcedure exampleRun 1 0).countP (RunEvent.isRaffinement 2)
        = 2 ^ ((2 : Int) - 1).toNat :=
  ⟨by decide,
    (integrationProcedure_schedule exampleRun 1 (by decide)).1 2 (by decide) (by decide),
    ((integrationProcedure_schedule exampleRun 1 (by decide)).2.2.2.2.1 (by decide)).2.2 2
      (by decide) (by decide)⟩

theorem Cell.element_addCellInterface (c : Cell) (b : CellInterface) :
    (c.addCellInterface b).data.element = c.data.element := by
  cases c; rfl

/-- What a pass of the double loop of the ghost refinement leaves in the elements: the element of
the ghost is kept and the element of every child is either the element that a child had before
the pass or the element written for the key of the pass. -/
theorem elements_refineGhostChild (model : Model) (rd : RefineDims) (p : Nat)
    (loc : GhostLocals) (ck : Cell) (ij : Nat × Nat) (P : Element → Prop)
    (hold : ∀ ch ∈ ck.childrenCells, P ch.data.element)
    (hnew : P (ghostChildElement ck.data.element rd
      ((loc.child_coord.addAt ((loc.idx + 1) % rd.dim) (ij.1 : Int)).addAt
        ((loc.idx + 2) % rd.dim) (ij.2 : Int)) loc.child_coord (ck.data.element.key.level + 1))) :
    (refineGhostChild model rd p loc ck ij).data.element = ck.data.element ∧
      ∀ ch ∈ (refineGhostChild model rd p loc ck ij).childrenCells, P ch.data.element := by
  unfold refineGhostChild
  cases hget : ck.data.cellInterfaces.get? p with
  | none => exact ⟨rfl, hold⟩
  | some bi =>
    simp only []
    have hcs1 : ∀ ch ∈ (match ck.childrenCells.findIdx? (fun ch => decide (ch.data.element.key
          = ⟨(loc.child_coord.addAt ((loc.idx + 1) % rd.dim) (ij.1 : Int)).addAt
            ((loc.idx + 2) % rd.dim) (ij.2 : Int), ck.data.element.key.level + 1⟩)) with
        | some _ => ck.childrenCells
        | none => ck.childrenCells ++ [copyParentState model ck.data
            ((Cell.new (ck.data.lvl + 1)).setElement
              (ghostChildElement ck.data.element rd
                ((loc.child_coord.addAt ((loc.idx + 1) % rd.dim) (ij.1 : Int)).addAt
                  ((loc.idx + 2) % rd.dim) (ij.2 : Int)) loc.child_coord
                (ck.data.element.key.level + 1)))]), P ch.data.element := by
      intro ch hch
      split at hch
      · exact hold ch hch
      · rcases List.mem_append.mp hch with h | h
        · exact hold ch h
        · rw [List.mem_singleton.mp h]
          exact hnew
    split
    · exact ⟨rfl, forall_mem_modify (fun ch : Cell => P ch.data.element) _
        (fun a ha => by
          show P (a.addCellInterface _).data.element
          rw [Cell.element_addCellInterface]; exact ha) _ _ hcs1⟩
    · exact ⟨rfl, forall_mem_modify (fun ch : Cell => P ch.data.element) _
        (fun a ha => by
          show P (a.addCellInterface _).data.element
          rw [Cell.element_addCellInterface]; exact ha) _ _ hcs1⟩

/-- The elements of the children after the double loop of the ghost refinement over a list of
pairs, on a ghost without children: every child has the element written for the key of one of
the passes. -/
theorem elements_foldl_refineGhostChild (model : Model) (rd : RefineDims) (p : Nat)
    (loc : GhostLocals) (c : Cell) (hchildren : c.childrenCells = []) (l : List (Nat × Nat)) :
    (l.foldl (refineGhostChild model rd p loc) c).data.element = c.data.element ∧
      ∀ ch ∈ (l.foldl (refineGhostChild model rd p loc) c).childrenCells,
        ∃ ij ∈ l, ch.data.element = ghostChildElement c.data.element rd
          ((loc.child_coord.addAt ((loc.idx + 1) % rd.dim) (ij.1 : Int)).addAt
            ((loc.idx + 2) % rd.dim) (ij.2 : Int)) loc.child_coord
          (c.data.element.key.level + 1) := by
  refine foldl_invariant (refineGhostChild model rd p loc)
    (fun ck => ck.data.element = c.data.element ∧ ∀ ch ∈ ck.childrenCells,
      ∃ ij ∈ l, ch.data.element = ghostChildElement c.data.element rd
        ((loc.child_coord.addAt ((loc.idx + 1) % rd.dim) (ij.1 : Int)).addAt
          ((loc.idx + 2) % rd.dim) (ij.2 : Int)) loc.child_coord
        (c.data.element.key.level + 1)) l ?_ c ?_
  · intro ck ij hij hinv
    have h := elements_refineGhostChild model rd p loc ck ij
      (fun e => ∃ ij ∈ l, e = ghostChildElement c.data.element rd
        ((loc.child_coord.addAt ((loc.idx + 1) % rd.dim) (ij.1 : Int)).addAt
          ((loc.idx + 2) % rd.dim) (ij.2 : Int)) loc.child_coord
        (c.data.element.key.level + 1)) hinv.2 ⟨ij, hij, by rw [hinv.1]⟩
    exact ⟨h.1.trans hinv.1, h.2⟩
  · refine ⟨rfl, ?_⟩
    intro ch hch
    rw [hchildren] at hch
    cases hch

/-- The refinement of a ghost cell without children that holds, at index `p`, its only two-sided
interface that is not split, across an axis of the mesh and with the neighbor at the level of the
ghost: the children of the result are, up to their order, the children left by the passes of the
double loop for this interface. -/
theorem refineCellAndCellInterfacesGhost_fold (model : Model) (nbCellsY nbCellsZ : Int) (c : Cell)
    (p : Nat) (bi : CellInterface) (cd : CellRef) (a : Nat)
    (hchildren : c.childrenCells = [])
    (hget : c.data.cellInterfaces.get? p = some bi)
    (hkind : bi.data.kind = .internal cd) (hsplit : bi.data.split = false)
    (hothers : ∀ (q : Nat) (bq : CellInterface), q ≠ p → c.data.cellInterfaces.get? q = some bq →
      (∃ code : Nat, bq.data.kind = .boundary code) ∨ bq.data.split = true)
    (ha : a < (refineDims nbCellsY nbCellsZ).dim) (hn : bi.data.face.normal = normalOfAxis a)
    (hlvl : (if c.ref = bi.data.cellGauche then cd else bi.data.cellGauche).lvl = c.data.lvl) :
    ∀ ch : Cell, ch ∈ (c.refineCellAndCellInterfacesGhost model nbCellsY nbCellsZ).childrenCells ↔
      ch ∈ ((ghostPairs (refineDims nbCellsY nbCellsZ)).foldl
        (refineGhostChild model (refineDims nbCellsY nbCellsZ) p (ghostLocals c bi cd))
        c).childrenCells := by
  have ha3 : a < 3 := by
    have : (refineDims nbCellsY nbCellsZ).dim ≤ 3 := by
      unfold refineDims
      split_ifs <;> simp
    omega
  have hloc := ghostLocals_of_axis c bi cd a ha3 hn
  have hp : p < c.data.cellInterfaces.length := by
    rw [List.get?_eq_getElem?] at hget
    exact (List.getElem?_eq_some_iff.mp hget).1
  have hpass : refineGhostCellInterface model (refineDims nbCellsY nbCellsZ) c p
      = (ghostPairs (refineDims nbCellsY nbCellsZ)).foldl
          (refineGhostChild model (refineDims nbCellsY nbCellsZ) p (ghostLocals c bi cd)) c := by
    unfold refineGhostCellInterface
    rw [hget]
    simp only [hkind, CellInterface.getSplit, hsplit, Bool.not_false, if_true]
    rfl
  have hinv0 : GhostChildrenInv c p bi (ghostLocals c bi cd) [] c := by
    refine ⟨rfl, rfl, rfl, fun _ _ => rfl, ?_, bi, hget, ?_, ?_⟩
    · rw [hchildren]; rfl
    · simp
    · intro ch hc
      rw [hchildren] at hc
      cases hc
  have hbit : (if c.ref = bi.data.cellGauche then (1 : Int) else 0) = 0 ∨
      (if c.ref = bi.data.cellGauche then (1 : Int) else 0) = 1 := by
    split
    · exact Or.inr rfl
    · exact Or.inl rfl
  have hnd := ghostKeys_nodup c.data.element.key nbCellsY nbCellsZ a ha _ hbit
    (decide (c.ref = bi.data.cellGauche))
    (if c.ref = bi.data.cellGauche then cd else bi.data.cellGauche)
  have hlvl' : (ghostLocals c bi cd).GhostCellNeighbor.lvl = c.data.lvl := by
    rw [hloc]
    exact hlvl
  have hinv := ghostChildrenInv_foldl model (refineDims nbCellsY nbCellsZ) c p bi
    (ghostLocals c bi cd) hlvl' (ghostPairs (refineDims nbCellsY nbCellsZ)) [] c hinv0
    (by rw [List.nil_append, hloc]; exact hnd)
  rw [List.nil_append, ← hpass] at hinv
  have hfold : (List.range c.data.cellInterfaces.length).foldl
      (refineGhostCellInterface model (refineDims nbCellsY nbCellsZ)) c
      = refineGhostCellInterface model (refineDims nbCellsY nbCellsZ) c p := by
    apply foldl_one_active _ _ _ _ (List.nodup_range _) (List.mem_range.mpr hp)
    · intro q _ hq
      exact refineGhostCellInterface_skip model _ c q (fun bq hbq => hothers q bq hq hbq)
    · intro q _ hq
      apply refineGhostCellInterface_skip
      intro bq hbq
      rw [hinv.2.2.2.1 q hq] at hbq
      exact hothers q bq hq hbq
  intro ch
  unfold Cell.refineCellAndCellInterfacesGhost
  simp only [hfold, Cell.childrenCells_mk]
  rw [← hpass]
  exact (List.perm_insertionSort _ _).mem_iff

/-- No pass of the double loop moves the key along the axis of the face. -/
theorem ghostNext_normal_axis (nbCellsY nbCellsZ : Int) (a : Nat)
    (ha : a < (refineDims nbCellsY nbCellsZ).dim) (cc : KeyCoord) (ij : Nat × Nat)
    (hij : ij ∈ ghostPairs (refineDims nbCellsY nbCellsZ)) :
    (((cc.addAt ((a + 1) % (refineDims nbCellsY nbCellsZ).dim) (ij.1 : Int)).addAt
      ((a + 2) % (refineDims nbCellsY nbCellsZ).dim) (ij.2 : Int)).sub cc).get a = 0 := by
  obtain ⟨i, j⟩ := ij
  unfold refineDims at ha hij ⊢
  split_ifs at ha hij ⊢
  · simp [ghostPairs, List.range_succ, List.flatMap] at hij
    simp only at ha
    rcases hij with ⟨rfl, rfl⟩ | ⟨rfl, rfl⟩ | ⟨rfl, rfl⟩ | ⟨rfl, rfl⟩ <;> interval_cases a <;>
      simp [KeyCoord.addAt, KeyCoord.sub, KeyCoord.get]
  · simp [ghostPairs, List.range_succ, List.flatMap] at hij
    simp only at ha
    rcases hij with ⟨rfl, rfl⟩ | ⟨rfl, rfl⟩ <;> interval_cases a <;>
      simp [KeyCoord.addAt, KeyCoord.sub, KeyCoord.get]
  · simp [ghostPairs, List.range_succ, List.flatMap] at hij
    simp only at ha
    obtain ⟨rfl, rfl⟩ := hij
    interval_cases a
    simp [KeyCoord.addAt, KeyCoord.sub, KeyCoord.get]

/-- Along an axis on which the key of a ghost child has the coordinate of `child_coord`, the ghost
child is placed at the centre of its parent. -/
theorem ghostChildElement_position_axis (parent : Element) (rd : RefineDims)
    (next cc : KeyCoord) (level : Int) (a : Nat) (h : (next.sub cc).get a = 0) :
    (ghostChildElement parent rd next cc level).position.get a = parent.position.get a := by
  unfold KeyCoord.get at h
  unfold ghostChildElement Coord.get
  by_cases h0 : a = 0
  · simp only [h0, if_true] at h ⊢
    rw [h]
    simp
  · by_cases h1 : a = 1
    · simp only [h1, if_true, one_ne_zero, if_false] at h ⊢
      rw [h]
      simp
    · simp only [h0, h1, if_false] at h ⊢
      rw [h]
      simp

/-- The child of index `i` of an owned cell is placed, along a refined axis, at the centre of its
parent minus a quarter of the size when its coordinate bit is 0 and plus a quarter of the size
when it is 1. -/
theorem childElement_position_axis (parent : Element) (nbCellsY nbCellsZ : Int) (i a : Nat)
    (ha : a < (refineDims nbCellsY nbCellsZ).dim) :
    (childElement parent (refineDims nbCellsY nbCellsZ) i).position.get a
      = parent.position.get a
        + (-0.25 + 0.5 * (((childBits i).get a : Int) : ℚ)) * parent.size.get a := by
  have e : ∀ n : Nat, (((n : Nat) : Int) : ℚ) = (n : ℚ) := fun n => Int.cast_natCast n
  unfold refineDims at ha ⊢
  split_ifs at ha ⊢ <;> simp only at ha <;> interval_cases a <;>
    simp only [childElement, Coord.get, childBits, KeyCoord.get, if_true, if_false, one_ne_zero,
      OfNat.ofNat_ne_zero, OfNat.ofNat_ne_one, e, one_mul] <;> ring

/-- The geometry of the children of a refined ghost cell compared with the children of an owned
leaf of the same position, size and key: same keys and sizes; along the axis of the face the ghost
child keeps the centre of the parent and the owned child is moved by a quarter of the size. -/
theorem ghost_child_elements (ops : InterfaceOps) (model : Model) (nbCellsY nbCellsZ : Int)
    (c o : Cell) (p : Nat) (bi : CellInterface) (cd : CellRef) (a : Nat)
    (hchildren : c.childrenCells = [])
    (hget : c.data.cellInterfaces.get? p = some bi)
    (hkind : bi.data.kind = .internal cd) (hsplit : bi.data.split = false)
    (hothers : ∀ (q : Nat) (bq : CellInterface), q ≠ p → c.data.cellInterfaces.get? q = some bq →
      (∃ code : Nat, bq.data.kind = .boundary code) ∨ bq.data.split = true)
    (ha : a < (refineDims nbCellsY nbCellsZ).dim) (hn : bi.data.face.normal = normalOfAxis a)
    (hlvl : (if c.ref = bi.data.cellGauche then cd else bi.data.cellGauche).lvl = c.data.lvl)
    (ho : o.childrenCells = [])
    (hpos : o.data.element.position = c.data.element.position)
    (hsize : o.data.element.size = c.data.element.size)
    (hkey : o.data.element.key = c.data.element.key) :
    ∀ ch ∈ (c.refineCellAndCellInterfacesGhost model nbCellsY nbCellsZ).childrenCells,
      ∃ (i : Nat) (och : Cell), i < (refineDims nbCellsY nbCellsZ).numberCellsChildren ∧
        (o.refineCellAndCellInterfaces ops model nbCellsY nbCellsZ).childrenCells[i]? = some och ∧
        och.data.element.key = ch.data.element.key ∧
        ch.data.element.size = och.data.element.size ∧
        ch.data.element.position.get a = c.data.element.position.get a ∧
        och.data.element.position.get a
          = c.data.element.position.get a
            + (if c.ref = bi.data.cellGauche then 0.25 else -0.25)
              * c.data.element.size.get a := by
  intro ch hch
  have ha3 : a < 3 := by
    have : (refineDims nbCellsY nbCellsZ).dim ≤ 3 := by
      unfold refineDims
      split_ifs <;> simp
    omega
  have hloc := ghostLocals_of_axis c bi cd a ha3 hn
  rw [refineCellAndCellInterfacesGhost_fold model nbCellsY nbCellsZ c p bi cd a hchildren hget
    hkind hsplit hothers ha hn hlvl] at hch
  obtain ⟨ij, hij, hel⟩ := (elements_foldl_refineGhostChild model (refineDims nbCellsY nbCellsZ)
    p (ghostLocals c bi cd) c hchildren (ghostPairs (refineDims nbCellsY nbCellsZ))).2 ch hch
  rw [hloc] at hel
  simp only at hel
  have hbit : (if c.ref = bi.data.cellGauche then (1 : Int) else 0) = 0 ∨
      (if c.ref = bi.data.cellGauche then (1 : Int) else 0) = 1 := by
    split
    · exact Or.inr rfl
    · exact Or.inl rfl
  have hmem : ch.data.element.key ∈ c.data.element.key.faceChildren
      (refineDims nbCellsY nbCellsZ).numberCellsChildren a
      (if c.ref = bi.data.cellGauche then 1 else 0) := by
    refine (ghostKeys_perm c.data.element.key nbCellsY nbCellsZ a ha _ hbit
      (decide (c.ref = bi.data.cellGauche))
      (if c.ref = bi.data.cellGauche then cd else bi.data.cellGauche)).mem_iff.mp ?_
    rw [List.mem_map]
    refine ⟨ij, hij, ?_⟩
    rw [hel]
    rfl
  unfold Key.faceChildren at hmem
  rw [List.mem_map] at hmem
  obtain ⟨i, hi, hki⟩ := hmem
  rw [List.mem_filter, List.mem_range, decide_eq_true_eq] at hi
  obtain ⟨och, hoch, hstrip⟩ := child_of_refine_leaf ops model nbCellsY nbCellsZ o ho i hi.1
  have hoel := (child_fields_of_strip model o.data _ i och hstrip).2.2.2.1
  refine ⟨i, och, hi.1, hoch, ?_, ?_, ?_, ?_⟩
  · rw [hoel, childElement_key, hkey, hki]
  · rw [hoel, hel]
    show (childElement c.data.element _ i).size = _
    simp only [childElement, hsize]
  · rw [hel]
    exact ghostChildElement_position_axis _ _ _ _ _ a
      (ghostNext_normal_axis nbCellsY nbCellsZ a ha _ ij hij)
  · rw [hoel, childElement_position_axis _ nbCellsY nbCellsZ i a ha, hi.2, hpos, hsize]
    split <;> norm_num

/-- C27: for a ghost cell `c` without children that holds at index `p` its only two-sided
interface `bi` that is not split, across an axis `a` of the mesh and with the neighbor at the
level of the ghost, and for an owned leaf `o` with the position, the size and the key of `c`:
every child `ch` that `refineCellAndCellInterfacesGhost` creates has the key of a child `och`
that `refineCellAndCellInterfaces` creates for `o` and has the size of `och`; along the axis `a`
the ghost child is placed at the centre of the parent, whereas the owned child is placed at the
centre of the parent plus a quarter of the size when the ghost is the left cell of `bi` and
minus a quarter of the size otherwise, so that the two positions differ whenever the size of the
parent along `a` is not zero. -/
theorem ghost_child_geometry (ops : InterfaceOps) (model : Model) (nbCellsY nbCellsZ : Int)
    (c o : Cell) (p : Nat) (bi : CellInterface) (cd : CellRef) (a : Nat)
    (hchildren : c.childrenCells = [])
    (hget : c.data.cellInterfaces.get? p = some bi)
    (hkind : bi.data.kind = .internal cd) (hsplit : bi.data.split = false)
    (hothers : ∀ (q : Nat) (bq : CellInterface), q ≠ p → c.data.cellInterfaces.get? q = some bq →
      (∃ code : Nat, bq.data.kind = .boundary code) ∨ bq.data.split = true)
    (ha : a < (refineDims nbCellsY nbCellsZ).dim) (hn : bi.data.face.normal = normalOfAxis a)
    (hlvl : (if c.ref = bi.data.cellGauche then cd else bi.data.cellGauche).lvl = c.data.lvl)
    (ho : o.childrenCells = [])
    (hpos : o.data.element.position = c.data.element.position)
    (hsize : o.data.element.size = c.data.element.size)
    (hkey : o.data.element.key = c.data.element.key) :
    ∀ ch ∈ (c.refineCellAndCellInterfacesGhost model nbCellsY nbCellsZ).childrenCells,
      ∃ (i : Nat) (och : Cell), i < (refineDims nbCellsY nbCellsZ).numberCellsChildren ∧
        (o.refineCellAndCellInterfaces ops model nbCellsY nbCellsZ).childrenCells[i]? = some och ∧
        och.data.element.key = ch.data.element.key ∧
        ch.data.element.size = och.data.element.size ∧
        ch.data.element.position.get a = c.data.element.position.get a ∧
        och.data.element.position.get a
          = c.data.element.position.get a
            + (if c.ref = bi.data.cellGauche then 0.25 else -0.25)
              * c.data.element.size.get a ∧
        (c.data.element.size.get a ≠ 0 →
          ch.data.element.position ≠ och.data.element.position) := by
  intro ch hch
  obtain ⟨i, och, hi, hoch, hk, hs, hp1, hp2⟩ :=
    ghost_child_elements ops model nbCellsY nbCellsZ c o p bi cd a hchildren hget hkind hsplit
      hothers ha hn hlvl ho hpos hsize hkey ch hch
  refine ⟨i, och, hi, hoch, hk, hs, hp1, hp2, ?_⟩
  intro hne heq
  rw [heq, hp2] at hp1
  have hq : (if c.ref = bi.data.cellGauche then (0.25 : ℚ) else -0.25)
      * c.data.element.size.get a = 0 := by linarith
  rcases mul_eq_zero.mp hq with h | h
  · split at h <;> norm_num at h
  · exact hne h

theorem ghost_child_geometry_witness :
    exampleGhostLeaf.childrenCells = [] ∧ exampleOwnerLeaf.childrenCells = [] ∧
      ∀ ch ∈ (exampleGhostLeaf.refineCellAndCellInterfacesGhost Model.trivial 1 1).childrenCells,
        ∃ (i : Nat) (och : Cell), i < (refineDims 1 1).numberCellsChildren ∧
          (exampleOwnerLeaf.refineCellAndCellInterfaces InterfaceOps.identity Model.trivial 1
            1).childrenCells[i]? = some och ∧
          och.data.element.key = ch.data.element.key ∧
          ch.data.element.size = och.data.element.size ∧
          ch.data.element.position.get 0 = exampleGhostLeaf.data.element.position.get 0 ∧
          och.data.element.position.get 0
            = exampleGhostLeaf.data.element.position.get 0
              + (if exampleGhostLeaf.ref = (⟨⟨⟨0, 0, 0⟩, 0⟩, 0⟩ : CellRef) then 0.25 else -0.25)
                * exampleGhostLeaf.data.element.size.get 0 ∧
          (exampleGhostLeaf.data.element.size.get 0 ≠ 0 →
            ch.data.element.position ≠ och.data.element.position) :=
  ⟨rfl, rfl,
    ghost_child_geometry InterfaceOps.identity Model.trivial 1 1 exampleGhostLeaf exampleOwnerLeaf
      0
      (CellInterface.mk
        { kind := .internal ⟨⟨⟨1, 0, 0⟩, 0⟩, 0⟩, lvl := 0, split := false,
          face := ⟨⟨1, 0, 0⟩, ⟨0, 1, 0⟩, ⟨0, 0, 1⟩, ⟨0, 0, 0⟩, ⟨0, 1, 1⟩, 1⟩,
          cellGauche := ⟨⟨⟨0, 0, 0⟩, 0⟩, 0⟩ } [])
      ⟨⟨⟨1, 0, 0⟩, 0⟩, 0⟩ 0 rfl rfl rfl rfl
      (by
        intro q bq hq hbq
        cases q with
        | zero => exact absurd rfl hq
        | succ n => cases hbq)
      (by decide) (by simp [normalOfAxis])
      (by simp [exampleGhostLeaf, Cell.ref, Cell.new, Element.empty]) rfl rfl rfl rfl⟩

/-- C27, failing input: in 1D, the ghost cell `exampleGhostLeaf`, of key `(1, 0, 0)`, centre 0 and
size 1 along `x`, right cell of its interface, receives one child, and every child it receives
is placed at `x = 0`, the centre of the ghost, whereas the child of the same key of the owned
leaf `exampleOwnerLeaf`, of the same key, centre and size, is placed at `x = −1/4`. -/
theorem ghost_child_geometry_counterexample :
    (exampleGhostLeaf.refineCellAndCellInterfacesGhost Model.trivial 1 1).childrenCells.length
        = 1 ∧
      ∀ ch ∈ (exampleGhostLeaf.refineCellAndCellInterfacesGhost Model.trivial 1 1).childrenCells,
        ∃ och ∈ (exampleOwnerLeaf.refineCellAndCellInterfaces InterfaceOps.identity Model.trivial
            1 1).childrenCells,
          och.data.element.key = ch.data.element.key ∧
          ch.data.element.position.x = 0 ∧ och.data.element.position.x = -1 / 4 ∧
          ch.data.element.position ≠ och.data.element.position := by
  have hbi : exampleGhostLeaf.data.cellInterfaces.get? 0 = some (CellInterface.mk
      { kind := .internal ⟨⟨⟨1, 0, 0⟩, 0⟩, 0⟩, lvl := 0, split := false,
        face := ⟨⟨1, 0, 0⟩, ⟨0, 1, 0⟩, ⟨0, 0, 1⟩, ⟨0, 0, 0⟩, ⟨0, 1, 1⟩, 1⟩,
        cellGauche := ⟨⟨⟨0, 0, 0⟩, 0⟩, 0⟩ } []) := rfl
  have hothers : ∀ (q : Nat) (bq : CellInterface), q ≠ 0 →
      exampleGhostLeaf.data.cellInterfaces.get? q = some bq →
      (∃ code : Nat, bq.data.kind = .boundary code) ∨ bq.data.split = true := by
    intro q bq hq hbq
    cases q with
    | zero => exact absurd rfl hq
    | succ n => cases hbq
  have hlvl : (if exampleGhostLeaf.ref = (⟨⟨⟨0, 0, 0⟩, 0⟩, 0⟩ : CellRef)
      then (⟨⟨⟨1, 0, 0⟩, 0⟩, 0⟩ : CellRef) else ⟨⟨⟨0, 0, 0⟩, 0⟩, 0⟩).lvl
      = exampleGhostLeaf.data.lvl := by
    simp [exampleGhostLeaf, Cell.ref, Cell.new, Element.empty]
  have href : ¬ exampleGhostLeaf.ref = (⟨⟨⟨0, 0, 0⟩, 0⟩, 0⟩ : CellRef) := by decide
  constructor
  · obtain ⟨c1, hc1, -, -, -, -, hkeys, -⟩ :=
      refineCellAndCellInterfacesGhost_eq Model.trivial 1 1 exampleGhostLeaf 0 _
        ⟨⟨⟨1, 0, 0⟩, 0⟩, 0⟩ 0 rfl hbi rfl rfl hothers (by decide) (by simp [normalOfAxis]) hlvl
    rw [hc1]
    simp only [Cell.childrenCells_mk, List.length_insertionSort]
    have := congrArg List.length hkeys
    rw [List.length_map, List.length_map, ghostPairs_length] at this
    rw [this]
    decide
  · intro ch hch
    obtain ⟨i, och, -, hoch, hk, -, hp1, hp2⟩ :=
      ghost_child_elements InterfaceOps.identity Model.trivial 1 1 exampleGhostLeaf
        exampleOwnerLeaf 0 _ ⟨⟨⟨1, 0, 0⟩, 0⟩, 0⟩ 0 rfl hbi rfl rfl hothers (by decide)
        (by simp [normalOfAxis]) hlvl rfl rfl rfl rfl ch hch
    simp only [CellInterface.data] at hp2
    rw [if_neg href] at hp2
    have hR : exampleGhostLeaf.data.element.position.get 0 = 0 := by
      simp [Coord.get, exampleGhostLeaf, Cell.data, Cell.new, Element.empty]
    have hS : exampleGhostLeaf.data.element.size.get 0 = 1 := by
      simp [Coord.get, exampleGhostLeaf, Cell.data, Cell.new, Element.empty]
    rw [hR] at hp1
    rw [hR, hS] at hp2
    have e1 : ch.data.element.position.x = 0 := hp1
    have e2 : och.data.element.position.x = -1 / 4 := by
      have e : och.data.element.position.x = och.data.element.position.get 0 := rfl
      rw [e, hp2]
      norm_num
    refine ⟨och, List.getElem?_mem hoch, hk, e1, e2, ?_⟩
    intro h
    rw [h, e2] at e1
    norm_num at e1

theorem exists_of_map_eq {α β : Type} (f : α → β) (l l' : List α) (h : l'.map f = l.map f)
    (x : α) (hx : x ∈ l') : ∃ y ∈ l, f x = f y := by
  have hm : f x ∈ l.map f := by
    rw [← h]
    exact List.mem_map_of_mem f hx
  obtain ⟨y, hy, e⟩ := List.mem_map.mp hm
  exact ⟨y, hy, e.symm⟩

theorem levels_of_map_eq (c c' : Cell) (lvl : Int)
    (h : c'.childrenCells.map (fun ch => ch.data.lvl) = c.childrenCells.map (fun ch => ch.data.lvl))
    (hc : ∀ ch ∈ c.childrenCells, ch.data.lvl = lvl) :
    ∀ ch ∈ c'.childrenCells, ch.data.lvl = lvl := by
  intro ch hch
  obtain ⟨y, hy, e⟩ := exists_of_map_eq (fun ch : Cell => ch.data.lvl) _ _ h ch hch
  exact e.trans (hc y hy)

/-- Arrays of owned cells with the same levels, split flags and levels of children are good
together. -/
theorem goodCells_of_treeView (lvl : Int) (l l' : List Cell)
    (h : l'.map Cell.treeView = l.map Cell.treeView) (hg : GoodCells lvl l) :
    GoodCells lvl l' := by
  intro c' hc'
  obtain ⟨c, hc, e⟩ := exists_of_map_eq Cell.treeView l l' h c' hc'
  obtain ⟨g1, g2, g3⟩ := hg c hc
  simp only [Cell.treeView, Prod.mk.injEq] at e
  obtain ⟨e1, e2, e3⟩ := e
  refine ⟨e1.trans g1, ?_, levels_of_map_eq c c' _ e3 g3⟩
  intro hs
  have hnil := g2 (e2 ▸ hs)
  rw [hnil] at e3
  simpa using e3

/-- Arrays of ghost cells with the same levels and levels of children are good together. -/
theorem goodGhosts_of_ghostView (lvl : Int) (l l' : List Cell)
    (h : l'.map Cell.ghostView = l.map Cell.ghostView) (hg : GoodGhosts lvl l) :
    GoodGhosts lvl l' := by
  intro c' hc'
  obtain ⟨c, hc, e⟩ := exists_of_map_eq Cell.ghostView l l' h c' hc'
  obtain ⟨g1, g3⟩ := hg c hc
  simp only [Cell.ghostView, Prod.mk.injEq] at e
  exact ⟨e.1.trans g1, levels_of_map_eq c c' _ e.2 g3⟩

theorem levels_of_ghostView (lvl : Int) (l l' : List Cell)
    (h : l'.map Cell.ghostView = l.map Cell.ghostView) (hg : ∀ c ∈ l, c.data.lvl = lvl) :
    ∀ c ∈ l', c.data.lvl = lvl := by
  intro c' hc'
  obtain ⟨c, hc, e⟩ := exists_of_map_eq Cell.ghostView l l' h c' hc'
  simp only [Cell.ghostView, Prod.mk.injEq] at e
  exact e.1.trans (hg c hc)

theorem keepsTrees_comp (f g : AMRState → AMRState) (hf : KeepsTrees f) (hg : KeepsTrees g) :
    KeepsTrees (fun s => g (f s)) := by
  intro s l
  exact ⟨((hg (f s) l).1).trans (hf s l).1, ((hg (f s) l).2).trans (hf s l).2⟩

theorem keepsTrees_id : KeepsTrees (fun s => s) := fun _ _ => ⟨rfl, rfl⟩

theorem keepsTrees_forEachCell (lvl : Int) (method : Cell → Cell)
    (h : ∀ c : Cell, (method c).treeView = c.treeView) :
    KeepsTrees (fun s => s.forEachCell lvl method) := by
  intro s l
  refine ⟨?_, rfl⟩
  unfold AMRState.forEachCell
  simp only
  by_cases hl : l = lvl
  · subst hl
    rw [Function.update_same, List.map_map]
    apply List.map_congr_left
    intro c _
    exact h c
  · rw [Function.update_noteq hl]

theorem keepsTrees_foldl {ι : Type} (f : AMRState → ι → AMRState)
    (hf : ∀ i, KeepsTrees (fun s => f s i)) (l : List ι) :
    KeepsTrees (fun s => l.foldl f s) := by
  induction l with
  | nil => exact keepsTrees_id
  | cons a t ih =>
    intro s lv
    simp only [List.foldl_cons]
    exact ⟨((ih (f s a) lv).1).trans (hf a s lv).1, ((ih (f s a) lv).2).trans (hf a s lv).2⟩

/-- Steps 1 and 2 of the refinement procedure keep the trees of the arrays. -/
theorem keepsTrees_xiSteps (ops : ProcedureOps) (hops : ops.KeepTrees) (P : AMRParams)
    (lvl : Int) : KeepsTrees (xiSteps ops P lvl) := by
  obtain ⟨h1, h2, h3, -⟩ := hops
  have hz : KeepsTrees (fun s => s.forEachCell lvl Cell.setToZeroXi) :=
    keepsTrees_forEachCell lvl _ (fun c => by cases c; rfl)
  have hzc : KeepsTrees (fun s => s.forEachCell lvl Cell.setToZeroConsXi) :=
    keepsTrees_forEachCell lvl _ (fun c => by cases c; rfl)
  have hte : KeepsTrees (fun s => s.forEachCell lvl Cell.timeEvolutionXi) :=
    keepsTrees_forEachCell lvl _ (fun c => by cases c; rfl)
  have hcomm : KeepsTrees (fun s => if P.Ncpu > 1 then ops.communicationsXi lvl s else s) := by
    by_cases hn : P.Ncpu > 1
    · simp only [hn, if_true]; exact h3 lvl
    · simp only [hn, if_false]; exact keepsTrees_id
  have hstart := keepsTrees_comp _ _ (keepsTrees_comp _ _ hz (h1 lvl)) hcomm
  have hpass : KeepsTrees (fun st =>
      if P.Ncpu > 1 then ops.communicationsXi lvl
        ((ops.computeFluxXi lvl (st.forEachCell lvl Cell.setToZeroConsXi)).forEachCell lvl
          Cell.timeEvolutionXi)
      else (ops.computeFluxXi lvl (st.forEachCell lvl Cell.setToZeroConsXi)).forEachCell lvl
        Cell.timeEvolutionXi) :=
    keepsTrees_comp _ _ (keepsTrees_comp _ _ (keepsTrees_comp _ _ hzc (h2 lvl)) hte) hcomm
  intro s l
  have A := hstart s l
  have B := keepsTrees_foldl (fun st (_ : Nat) =>
      if P.Ncpu > 1 then ops.communicationsXi lvl
        ((ops.computeFluxXi lvl (st.forEachCell lvl Cell.setToZeroConsXi)).forEachCell lvl
          Cell.timeEvolutionXi)
      else (ops.computeFluxXi lvl (st.forEachCell lvl Cell.setToZeroConsXi)).forEachCell lvl
        Cell.timeEvolutionXi) (fun _ => hpass) (List.range 2)
      (if P.Ncpu > 1 then ops.communicationsXi lvl
        (ops.computeXi lvl (s.forEachCell lvl Cell.setToZeroXi))
       else ops.computeXi lvl (s.forEachCell lvl Cell.setToZeroXi)) l
  unfold xiSteps
  exact ⟨B.1.trans A.1, B.2.trans A.2⟩
theorem lvl_averageChildrenInParent (model : Model) (c : Cell) :
    (c.averageChildrenInParent model).data.lvl = c.data.lvl := by
  unfold Cell.averageChildrenInParent
  simp only
  split <;> rfl

theorem lvl_refine (ops : InterfaceOps) (model : Model) (nbCellsY nbCellsZ : Int) (c : Cell) :
    (c.refineCellAndCellInterfaces ops model nbCellsY nbCellsZ).data.lvl = c.data.lvl := by
  have h := congrArg CellData.lvl (core_refine ops model nbCellsY nbCellsZ c)
  exact h

theorem lvl_unrefine (ops : InterfaceOps) (model : Model) (c : Cell) :
    (c.unrefineCellAndCellInterfaces ops model).data.lvl = c.data.lvl := by
  have h := congrArg CellData.lvl (core_unrefine ops model c)
  exact Eq.trans h (lvl_averageChildrenInParent model c)

/-- Every child that the refinement of a leaf creates has the level of the leaf plus one. -/
theorem lvl_children_refine_leaf (ops : InterfaceOps) (model : Model) (nbCellsY nbCellsZ : Int)
    (c : Cell) (hleaf : c.childrenCells = []) :
    ∀ ch ∈ (c.refineCellAndCellInterfaces ops model nbCellsY nbCellsZ).childrenCells,
      ch.data.lvl = c.data.lvl + 1 := by
  intro ch hch
  obtain ⟨i, hi, e⟩ := List.getElem_of_mem hch
  rw [length_children_refine_leaf ops model nbCellsY nbCellsZ c hleaf] at hi
  obtain ⟨ch', h1, h2⟩ := child_of_refine_leaf ops model nbCellsY nbCellsZ c hleaf i hi
  have hi' : i < (c.refineCellAndCellInterfaces ops model nbCellsY nbCellsZ).childrenCells.length := by
    rw [length_children_refine_leaf ops model nbCellsY nbCellsZ c hleaf]; exact hi
  rw [List.getElem?_eq_getElem hi', e] at h1
  cases h1
  exact (child_fields_of_strip model c.data _ i ch h2).1

/-- The choice of refinement keeps a good cell of level `lvl` good. -/
theorem good_chooseRefine (ops : InterfaceOps) (model : Model) (xiSplit : ℚ)
    (nbCellsY nbCellsZ : Int) (lvl : Int) (c : Cell) (nb : Int)
    (hg : c.data.lvl = lvl ∧ (c.data.split = false → c.childrenCells = []) ∧
      ∀ ch ∈ c.childrenCells, ch.data.lvl = lvl + 1) :
    (c.chooseRefine ops model xiSplit nbCellsY nbCellsZ nb).1.data.lvl = lvl ∧
      ((c.chooseRefine ops model xiSplit nbCellsY nbCellsZ nb).1.data.split = false →
        (c.chooseRefine ops model xiSplit nbCellsY nbCellsZ nb).1.childrenCells = []) ∧
      ∀ ch ∈ (c.chooseRefine ops model xiSplit nbCellsY nbCellsZ nb).1.childrenCells,
        ch.data.lvl = lvl + 1 := by
  rw [chooseRefine_eq]
  split_ifs with h
  · have hleaf := hg.2.1 h.1
    refine ⟨(lvl_refine ops model nbCellsY nbCellsZ c).trans hg.1, ?_, ?_⟩
    · intro hs
      rw [split_refine] at hs
      cases hs
    · intro ch hch
      rw [lvl_children_refine_leaf ops model nbCellsY nbCellsZ c hleaf ch hch, hg.1]
  · exact hg

/-- The choice of coarsening keeps a good cell of level `lvl` good. -/
theorem good_chooseUnrefine (ops : InterfaceOps) (model : Model) (xiJoin : ℚ)
    (lvl : Int) (c : Cell) (nb : Int)
    (hg : c.data.lvl = lvl ∧ (c.data.split = false → c.childrenCells = []) ∧
      ∀ ch ∈ c.childrenCells, ch.data.lvl = lvl + 1) :
    (c.chooseUnrefine ops model xiJoin nb).1.data.lvl = lvl ∧
      ((c.chooseUnrefine ops model xiJoin nb).1.data.split = false →
        (c.chooseUnrefine ops model xiJoin nb).1.childrenCells = []) ∧
      ∀ ch ∈ (c.chooseUnrefine ops model xiJoin nb).1.childrenCells,
        ch.data.lvl = lvl + 1 := by
  rw [chooseUnrefine_eq]
  split_ifs with h
  · refine ⟨(lvl_unrefine ops model c).trans hg.1, fun _ => children_unrefine ops model c, ?_⟩
    intro ch hch
    rw [children_unrefine] at hch
    simp at hch
  · exact hg

theorem goodCells_set (lvl : Int) (cells : List Cell) (i : Nat) (c : Cell)
    (hg : GoodCells lvl cells)
    (hc : c.data.lvl = lvl ∧ (c.data.split = false → c.childrenCells = []) ∧
      ∀ ch ∈ c.childrenCells, ch.data.lvl = lvl + 1) :
    GoodCells lvl (cells.set i c) := by
  intro x hx
  rcases List.mem_or_eq_of_mem_set hx with h | h
  · exact hg x h
  · rw [h]; exact hc

theorem choiceInv_of_keepsTrees (f : AMRState → AMRState) (hf : KeepsTrees f) (lvl : Int)
    (s : AMRState) (h : ChoiceInv lvl s) : ChoiceInv lvl (f s) :=
  ⟨goodCells_of_treeView lvl _ _ (hf s lvl).1 h.1, goodGhosts_of_ghostView lvl _ _ (hf s lvl).2 h.2⟩

theorem choiceInv_chooseRefineAt (ops : ProcedureOps) (hops : ops.KeepTrees) (iops : InterfaceOps)
    (model : Model) (P : AMRParams) (lvl : Int) (s : AMRState) (i : Nat)
    (h : ChoiceInv lvl s) : ChoiceInv lvl (chooseRefineAt ops iops model P lvl s i) := by
  unfold chooseRefineAt
  split
  · exact h
  · rename_i c hc
    apply choiceInv_of_keepsTrees _ hops.2.2.2.2.2.2.2
    refine ⟨?_, h.2⟩
    simp only [Function.update_same]
    exact goodCells_set lvl _ i _ h.1
      (good_chooseRefine iops model _ _ _ lvl c _ (h.1 c (List.getElem?_mem hc)))

theorem choiceInv_chooseUnrefineAt (ops : ProcedureOps) (hops : ops.KeepTrees)
    (iops : InterfaceOps) (model : Model) (P : AMRParams) (lvl : Int) (s : AMRState) (i : Nat)
    (h : ChoiceInv lvl s) : ChoiceInv lvl (chooseUnrefineAt ops iops model P lvl s i) := by
  unfold chooseUnrefineAt
  split
  · exact h
  · rename_i c hc
    apply choiceInv_of_keepsTrees _ hops.2.2.2.2.2.2.2
    refine ⟨?_, h.2⟩
    simp only [Function.update_same]
    exact goodCells_set lvl _ i _ h.1
      (good_chooseUnrefine iops model _ lvl c _ (h.1 c (List.getElem?_mem hc)))
/-- What a pass of the double loop of the ghost refinement leaves in the levels: the level of the
ghost is kept, and a property of cells that pushing an interface keeps holds for every child
when it held for the children before the pass and holds for the child that the pass creates. -/
theorem children_refineGhostChild (model : Model) (rd : RefineDims) (p : Nat)
    (loc : GhostLocals) (ck : Cell) (ij : Nat × Nat) (P : Cell → Prop)
    (hadd : ∀ (a : Cell) (b : CellInterface), P a → P (a.addCellInterface b))
    (hold : ∀ ch ∈ ck.childrenCells, P ch)
    (hnew : ∀ e : Element, P (copyParentState model ck.data
      ((Cell.new (ck.data.lvl + 1)).setElement e))) :
    (refineGhostChild model rd p loc ck ij).data.lvl = ck.data.lvl ∧
      ∀ ch ∈ (refineGhostChild model rd p loc ck ij).childrenCells, P ch := by
  unfold refineGhostChild
  cases hget : ck.data.cellInterfaces.get? p with
  | none => exact ⟨rfl, hold⟩
  | some bi =>
    simp only []
    have hcs1 : ∀ ch ∈ (match ck.childrenCells.findIdx? (fun ch => decide (ch.data.element.key
          = ⟨(loc.child_coord.addAt ((loc.idx + 1) % rd.dim) (ij.1 : Int)).addAt
            ((loc.idx + 2) % rd.dim) (ij.2 : Int), ck.data.element.key.level + 1⟩)) with
        | some _ => ck.childrenCells
        | none => ck.childrenCells ++ [copyParentState model ck.data
            ((Cell.new (ck.data.lvl + 1)).setElement
              (ghostChildElement ck.data.element rd
                ((loc.child_coord.addAt ((loc.idx + 1) % rd.dim) (ij.1 : Int)).addAt
                  ((loc.idx + 2) % rd.dim) (ij.2 : Int)) loc.child_coord
                (ck.data.element.key.level + 1)))]), P ch := by
      intro ch hch
      split at hch
      · exact hold ch hch
      · rcases List.mem_append.mp hch with h | h
        · exact hold ch h
        · rw [List.mem_singleton.mp h]
          exact hnew _
    split
    · exact ⟨rfl, forall_mem_modify P _ (fun a ha => hadd a _ ha) _ _ hcs1⟩
    · exact ⟨rfl, forall_mem_modify P _ (fun a ha => hadd a _ ha) _ _ hcs1⟩

theorem levels_foldl_refineGhostChild (model : Model) (rd : RefineDims) (lvl : Int) (b : Nat)
    (loc : GhostLocals) (l : List (Nat × Nat)) (c : Cell)
    (h : c.data.lvl = lvl ∧ ∀ ch ∈ c.childrenCells, ch.data.lvl = lvl + 1) :
    (l.foldl (refineGhostChild model rd b loc) c).data.lvl = lvl ∧
      ∀ ch ∈ (l.foldl (refineGhostChild model rd b loc) c).childrenCells,
        ch.data.lvl = lvl + 1 := by
  refine foldl_invariant (refineGhostChild model rd b loc)
    (fun ck => ck.data.lvl = lvl ∧ ∀ ch ∈ ck.childrenCells, ch.data.lvl = lvl + 1) l ?_ c h
  intro ck ij _ hinv
  have hstep := children_refineGhostChild model rd b loc ck ij
    (fun ch => ch.data.lvl = lvl + 1)
    (fun a bb ha => (Cell.lvl_addCellInterface a bb).trans ha) hinv.2
    (fun e => by
      show ck.data.lvl + 1 = lvl + 1
      rw [hinv.1])
  exact ⟨hstep.1.trans hinv.1, hstep.2⟩

/-- A pass of the loop over the interfaces of a ghost keeps the level of the ghost and gives
every child that it creates the level of the ghost plus one. -/
theorem levels_refineGhostCellInterface (model : Model) (rd : RefineDims) (lvl : Int) (c : Cell)
    (b : Nat) (h : c.data.lvl = lvl ∧ ∀ ch ∈ c.childrenCells, ch.data.lvl = lvl + 1) :
    (refineGhostCellInterface model rd c b).data.lvl = lvl ∧
      ∀ ch ∈ (refineGhostCellInterface model rd c b).childrenCells, ch.data.lvl = lvl + 1 := by
  unfold refineGhostCellInterface
  split
  · exact h
  · split
    · exact h
    · split
      · exact levels_foldl_refineGhostChild model rd lvl b _ _ c h
      · exact h

/-- The refinement of a ghost cell without children keeps the level of the ghost and gives every
child the level of the ghost plus one. -/
theorem levels_refineGhost (model : Model) (nbCellsY nbCellsZ : Int) (c : Cell)
    (hchildren : c.childrenCells = []) :
    (c.refineCellAndCellInterfacesGhost model nbCellsY nbCellsZ).data.lvl = c.data.lvl ∧
      ∀ ch ∈ (c.refineCellAndCellInterfacesGhost model nbCellsY nbCellsZ).childrenCells,
        ch.data.lvl = c.data.lvl + 1 := by
  have hfold := foldl_invariant (refineGhostCellInterface model (refineDims nbCellsY nbCellsZ))
    (fun ck => ck.data.lvl = c.data.lvl ∧ ∀ ch ∈ ck.childrenCells, ch.data.lvl = c.data.lvl + 1)
    (List.range c.data.cellInterfaces.length)
    (fun ck b _ hinv => levels_refineGhostCellInterface model _ c.data.lvl ck b hinv) c
    ⟨rfl, by rw [hchildren]; intro ch hch; cases hch⟩
  unfold Cell.refineCellAndCellInterfacesGhost
  refine ⟨hfold.1, ?_⟩
  intro ch hch
  simp only [Cell.childrenCells_mk] at hch
  exact hfold.2 ch ((List.perm_insertionSort _ _).mem_iff.mp hch)

/-- The coarsening of a ghost cell keeps the level of the ghost and leaves it no child. -/
theorem levels_unrefineGhost (ops : InterfaceOps) (c : Cell) :
    (c.unrefineCellAndCellInterfacesGhost ops).data.lvl = c.data.lvl ∧
      (c.unrefineCellAndCellInterfacesGhost ops).childrenCells = [] := by
  refine ⟨?_, rfl⟩
  unfold Cell.unrefineCellAndCellInterfacesGhost
  have h := (sameCore_foldl (unrefineExternalCellInterface ops)
    (sameCore_unrefineExternalCellInterface ops) (List.range c.data.cellInterfaces.length) c).1
  have h1 := congrArg CellData.lvl h
  exact h1

/-- The choice made for a good ghost cell of level `lvl`: the ghost stays good, and the ghost
array of level `lvl + 1` receives its children while the other ghost arrays are kept. -/
theorem good_chooseRefineDeraffineGhost (ops : InterfaceOps) (model : Model)
    (nbCellsY nbCellsZ : Int) (lvl : Int) (g : Cell) (arr : Int → List Cell)
    (hg : g.data.lvl = lvl ∧ ∀ ch ∈ g.childrenCells, ch.data.lvl = lvl + 1) :
    ((g.chooseRefineDeraffineGhost ops model nbCellsY nbCellsZ arr).1.data.lvl = lvl ∧
      ∀ ch ∈ (g.chooseRefineDeraffineGhost ops model nbCellsY nbCellsZ arr).1.childrenCells,
        ch.data.lvl = lvl + 1) ∧
      (g.chooseRefineDeraffineGhost ops model nbCellsY nbCellsZ arr).2
        = Function.update arr (lvl + 1) (arr (lvl + 1) ++
            (g.chooseRefineDeraffineGhost ops model nbCellsY nbCellsZ arr).1.childrenCells) := by
  have key : (if g.data.split then
      (if g.childrenCells.length = 0 then g.refineCellAndCellInterfacesGhost model nbCellsY nbCellsZ
       else g)
    else
      (if g.childrenCells.length > 0 then g.unrefineCellAndCellInterfacesGhost ops else g)).data.lvl
        = lvl ∧
      ∀ ch ∈ (if g.data.split then
      (if g.childrenCells.length = 0 then g.refineCellAndCellInterfacesGhost model nbCellsY nbCellsZ
       else g)
    else
      (if g.childrenCells.length > 0 then g.unrefineCellAndCellInterfacesGhost ops
        else g)).childrenCells, ch.data.lvl = lvl + 1 := by
    split_ifs with h1 h2 h3
    · have hl := levels_refineGhost model nbCellsY nbCellsZ g (List.length_eq_zero.mp h2)
      exact ⟨hl.1.trans hg.1, fun ch hch => (hl.2 ch hch).trans (by rw [hg.1])⟩
    · exact hg
    · have hl := levels_unrefineGhost ops g
      refine ⟨hl.1.trans hg.1, ?_⟩
      intro ch hch
      rw [hl.2] at hch
      cases hch
    · exact hg
  unfold Cell.chooseRefineDeraffineGhost
  simp only []
  refine ⟨key, ?_⟩
  rw [key.1]
theorem forall_of_map_eq {α β : Type} (f : α → β) (Q : β → Prop) (l l' : List α)
    (h : l'.map f = l.map f) (hl : ∀ x ∈ l, Q (f x)) : ∀ x ∈ l', Q (f x) := by
  intro x hx
  obtain ⟨y, hy, e⟩ := exists_of_map_eq f l l' h x hx
  rw [e]
  exact hl y hy

theorem levelled_of_keepsTrees (f : AMRState → AMRState) (hf : KeepsTrees f) (lvlMax : Int)
    (s : AMRState) (h : Levelled lvlMax s) : Levelled lvlMax (f s) := by
  intro l
  refine ⟨?_, ?_⟩
  · exact forall_of_map_eq Cell.treeView (fun v => v.1 = l ∧ l ≤ lvlMax) _ _ (hf s l).1 (h l).1
  · exact forall_of_map_eq Cell.ghostView (fun v => v.1 = l ∧ l ≤ lvlMax) _ _ (hf s l).2 (h l).2

theorem lvl_chooseRefine (ops : InterfaceOps) (model : Model) (xiSplit : ℚ)
    (nbCellsY nbCellsZ : Int) (c : Cell) (nb : Int) :
    (c.chooseRefine ops model xiSplit nbCellsY nbCellsZ nb).1.data.lvl = c.data.lvl := by
  rw [chooseRefine_eq]
  split_ifs
  · exact lvl_refine ops model nbCellsY nbCellsZ c
  · rfl

theorem lvl_chooseUnrefine (ops : InterfaceOps) (model : Model) (xiJoin : ℚ) (c : Cell)
    (nb : Int) : (c.chooseUnrefine ops model xiJoin nb).1.data.lvl = c.data.lvl := by
  rw [chooseUnrefine_eq]
  split_ifs
  · exact lvl_unrefine ops model c
  · rfl

/-- Writing, at an index of the array of owned cells of level `lvl`, a cell of level `lvl` in
the place of a cell of the array keeps the levels of the arrays. -/
theorem levelled_set (lvlMax lvl : Int) (s : AMRState) (i : Nat) (c c' : Cell) (nb : Int)
    (h : Levelled lvlMax s) (hc : (s.cellsLvl lvl)[i]? = some c) (hc' : c'.data.lvl = c.data.lvl) :
    Levelled lvlMax
      { s with
        cellsLvl := Function.update s.cellsLvl lvl ((s.cellsLvl lvl).set i c')
        nbCellsTotalAMR := nb } := by
  intro l
  refine ⟨?_, (h l).2⟩
  intro x hx
  simp only at hx
  by_cases hl : l = lvl
  · subst hl
    rw [Function.update_same] at hx
    rcases List.mem_or_eq_of_mem_set hx with hm | he
    · exact (h l).1 x hm
    · rw [he, hc']
      exact (h l).1 c (List.getElem?_mem hc)
  · rw [Function.update_noteq hl] at hx
    exact (h l).1 x hx

theorem levelled_chooseRefineAt (ops : ProcedureOps) (hops : ops.KeepTrees) (iops : InterfaceOps)
    (model : Model) (P : AMRParams) (lvl : Int) (s : AMRState) (i : Nat)
    (h : Levelled P.lvlMax s) : Levelled P.lvlMax (chooseRefineAt ops iops model P lvl s i) := by
  unfold chooseRefineAt
  split
  · exact h
  · rename_i c hc
    apply levelled_of_keepsTrees _ hops.2.2.2.2.2.2.2
    exact levelled_set P.lvlMax lvl s i c _ _ h hc (lvl_chooseRefine iops model _ _ _ c _)

theorem levelled_chooseUnrefineAt (ops : ProcedureOps) (hops : ops.KeepTrees)
    (iops : InterfaceOps) (model : Model) (P : AMRParams) (lvl : Int) (s : AMRState) (i : Nat)
    (h : Levelled P.lvlMax s) : Levelled P.lvlMax (chooseUnrefineAt ops iops model P lvl s i) := by
  unfold chooseUnrefineAt
  split
  · exact h
  · rename_i c hc
    apply levelled_of_keepsTrees _ hops.2.2.2.2.2.2.2
    exact levelled_set P.lvlMax lvl s i c _ _ h hc (lvl_chooseUnrefine iops model _ c _)

theorem goodGhosts_set (lvl : Int) (cells : List Cell) (i : Nat) (c : Cell)
    (hg : GoodGhosts lvl cells)
    (hc : c.data.lvl = lvl ∧ ∀ ch ∈ c.childrenCells, ch.data.lvl = lvl + 1) :
    GoodGhosts lvl (cells.set i c) := by
  intro x hx
  rcases List.mem_or_eq_of_mem_set hx with h | h
  · exact hg x h
  · rw [h]; exact hc

/-- One pass of the loop of step 5, below the maximal level, keeps the levels of the arrays and
the good ghost cells of level `lvl`, and does not touch the arrays of owned cells. -/
theorem inv_chooseRefineDeraffineGhostAt (iops : InterfaceOps) (model : Model) (P : AMRParams)
    (lvl : Int) (hlt : lvl < P.lvlMax) (s : AMRState) (i : Nat)
    (h : Levelled P.lvlMax s ∧ GoodCells lvl (s.cellsLvl lvl) ∧
      GoodGhosts lvl (s.cellsLvlGhost lvl)) :
    Levelled P.lvlMax (chooseRefineDeraffineGhostAt iops model P lvl s i) ∧
      GoodCells lvl ((chooseRefineDeraffineGhostAt iops model P lvl s i).cellsLvl lvl) ∧
      GoodGhosts lvl ((chooseRefineDeraffineGhostAt iops model P lvl s i).cellsLvlGhost lvl) := by
  unfold chooseRefineDeraffineGhostAt
  split
  · exact h
  · rename_i g hg
    have hmem := List.getElem?_mem hg
    have hgood := good_chooseRefineDeraffineGhost iops model P.numberCellsY P.numberCellsZ lvl g
      s.cellsLvlGhost (h.2.2 g hmem)
    have hne : lvl ≠ lvl + 1 := by omega
    have hne' : lvl + 1 ≠ lvl := by omega
    simp only []
    rw [hgood.2]
    refine ⟨?_, h.2.1, ?_⟩
    · intro l
      refine ⟨(h.1 l).1, ?_⟩
      intro x hx
      simp only at hx
      by_cases hl : l = lvl
      · subst hl
        rw [Function.update_same, Function.update_noteq hne] at hx
        rcases List.mem_or_eq_of_mem_set hx with hm | he
        · exact (h.1 l).2 x hm
        · rw [he]
          exact ⟨hgood.1.1, le_of_lt hlt⟩
      · rw [Function.update_noteq hl] at hx
        by_cases hl1 : l = lvl + 1
        · subst hl1
          rw [Function.update_same] at hx
          rcases List.mem_append.mp hx with hm | hm
          · exact (h.1 _).2 x hm
          · exact ⟨hgood.1.2 x hm, by omega⟩
        · rw [Function.update_noteq hl1] at hx
          exact (h.1 l).2 x hx
    · simp only [Function.update_same, Function.update_noteq hne]
      exact goodGhosts_set lvl _ i _ h.2.2 hgood.1

theorem inv_of_keepsTrees (f : AMRState → AMRState) (hf : KeepsTrees f) (lvlMax lvl : Int)
    (s : AMRState)
    (h : Levelled lvlMax s ∧ GoodCells lvl (s.cellsLvl lvl) ∧
      GoodGhosts lvl (s.cellsLvlGhost lvl)) :
    Levelled lvlMax (f s) ∧ GoodCells lvl ((f s).cellsLvl lvl) ∧
      GoodGhosts lvl ((f s).cellsLvlGhost lvl) :=
  ⟨levelled_of_keepsTrees f hf lvlMax s h.1, goodCells_of_treeView lvl _ _ (hf s lvl).1 h.2.1,
    goodGhosts_of_ghostView lvl _ _ (hf s lvl).2 h.2.2⟩

/-- Steps 5 and 6, below the maximal level, keep the levels of the arrays and the good cells of
level `lvl`, owned and ghost. -/
theorem inv_ghostSteps (ops : ProcedureOps) (hops : ops.KeepTrees) (iops : InterfaceOps)
    (model : Model) (P : AMRParams) (lvl : Int) (hlt : lvl < P.lvlMax) (s : AMRState)
    (h : Levelled P.lvlMax s ∧ GoodCells lvl (s.cellsLvl lvl) ∧
      GoodGhosts lvl (s.cellsLvlGhost lvl)) :
    Levelled P.lvlMax (ghostSteps ops iops model P lvl s) ∧
      GoodCells lvl ((ghostSteps ops iops model P lvl s).cellsLvl lvl) ∧
      GoodGhosts lvl ((ghostSteps ops iops model P lvl s).cellsLvlGhost lvl) := by
  obtain ⟨-, -, -, h4, h5, h6, h7, -⟩ := hops
  unfold ghostSteps
  simp only []
  apply inv_of_keepsTrees _ (h7 _)
  apply inv_of_keepsTrees _ (h6 _)
  apply inv_of_keepsTrees _ (h5 _)
  refine foldl_invariant (chooseRefineDeraffineGhostAt iops model P lvl)
    (fun st => Levelled P.lvlMax st ∧ GoodCells lvl (st.cellsLvl lvl) ∧
      GoodGhosts lvl (st.cellsLvlGhost lvl)) _
    (fun st i _ hst => inv_chooseRefineDeraffineGhostAt iops model P lvl hlt st i hst) _ ?_
  have h1 := inv_of_keepsTrees _ (h4 lvl) P.lvlMax lvl s h
  have hne : lvl ≠ lvl + 1 := by omega
  refine ⟨?_, h1.2.1, ?_⟩
  · intro l
    refine ⟨(h1.1 l).1, ?_⟩
    intro x hx
    simp only at hx
    by_cases hl : l = lvl + 1
    · subst hl
      rw [Function.update_same] at hx
      cases hx
    · rw [Function.update_noteq hl] at hx
      exact (h1.1 l).2 x hx
  · simp only [Function.update_noteq hne]
    exact h1.2.2
theorem buildLvlAt_of_get (lvl : Int) (st : AMRState) (i : Nat) (c : Cell)
    (h : (st.cellsLvl lvl)[i]? = some c) :
    buildLvlAt lvl st i = c.buildLvlCellsAndLvlInternalCellInterfacesArrays st := by
  unfold buildLvlAt
  rw [h]

/-- The first loop of step 7 after `n` passes: the array of level `lvl + 1` holds the children
of the first `n` cells of the array of level `lvl`, the other arrays of cells are kept. -/
theorem foldl_buildLvlAt (lvl : Int) (s : AMRState)
    (hl : ∀ c ∈ s.cellsLvl lvl, c.data.lvl = lvl) (n : Nat) (hn : n ≤ (s.cellsLvl lvl).length) :
    ((List.range n).foldl (buildLvlAt lvl)
        { s with
          cellsLvl := Function.update s.cellsLvl (lvl + 1) []
          cellInterfacesLvl := Function.update s.cellInterfacesLvl (lvl + 1) [] }).cellsLvl
      = Function.update s.cellsLvl (lvl + 1)
          (((s.cellsLvl lvl).take n).flatMap Cell.childrenCells) ∧
    ((List.range n).foldl (buildLvlAt lvl)
        { s with
          cellsLvl := Function.update s.cellsLvl (lvl + 1) []
          cellInterfacesLvl := Function.update s.cellInterfacesLvl (lvl + 1) [] }).cellsLvlGhost
      = s.cellsLvlGhost := by
  have hne : lvl ≠ lvl + 1 := by omega
  induction n with
  | zero => simp
  | succ k ih =>
    have hk : k < (s.cellsLvl lvl).length := by omega
    obtain ⟨ih1, ih2⟩ := ih (by omega)
    rw [List.range_succ, List.foldl_append, List.foldl_cons, List.foldl_nil]
    have hget : (((List.range k).foldl (buildLvlAt lvl)
        { s with
          cellsLvl := Function.update s.cellsLvl (lvl + 1) []
          cellInterfacesLvl := Function.update s.cellInterfacesLvl (lvl + 1) [] }).cellsLvl lvl)[k]?
          = some ((s.cellsLvl lvl).get ⟨k, hk⟩) := by
      rw [ih1, Function.update_noteq hne]
      exact List.getElem?_eq_getElem hk
    have hlev : ((s.cellsLvl lvl).get ⟨k, hk⟩).data.lvl = lvl := hl _ (List.get_mem _ _ _)
    rw [buildLvlAt_of_get lvl _ k _ hget]
    simp only [Cell.buildLvlCellsAndLvlInternalCellInterfacesArrays, hlev]
    refine ⟨?_, ih2⟩
    rw [ih1, Function.update_same, Function.update_idem, List.take_succ, List.flatMap_append,
      List.getElem?_eq_getElem hk]
    simp

/-- Step 7 writes only the array of owned cells of level `lvl + 1`, which becomes the children
of the cells of the array of level `lvl`, in order. -/
theorem cells_rebuildSteps (ops : ProcedureOps) (lvl : Int) (s : AMRState)
    (hl : ∀ c ∈ s.cellsLvl lvl, c.data.lvl = lvl) :
    (rebuildSteps ops lvl s).cellsLvl
      = Function.update s.cellsLvl (lvl + 1) ((s.cellsLvl lvl).flatMap Cell.childrenCells) ∧
    (rebuildSteps ops lvl s).cellsLvlGhost = s.cellsLvlGhost := by
  have hne : lvl ≠ lvl + 1 := by omega
  have h1 := foldl_buildLvlAt lvl s hl (s.cellsLvl lvl).length (le_refl _)
  rw [List.take_length] at h1
  unfold rebuildSteps
  simp only [Function.update_noteq hne]
  refine foldl_invariant _
    (fun st : AMRState => st.cellsLvl = Function.update s.cellsLvl (lvl + 1)
        ((s.cellsLvl lvl).flatMap Cell.childrenCells) ∧ st.cellsLvlGhost = s.cellsLvlGhost) _ ?_ _ h1
  intro st i _ hst
  split
  · exact hst
  · exact hst

/-- Step 7, on good cells of level `lvl` below the maximal level, keeps the levels of the
arrays. -/
theorem inv_rebuildSteps (ops : ProcedureOps) (P : AMRParams) (lvl : Int) (hlt : lvl < P.lvlMax)
    (s : AMRState)
    (h : Levelled P.lvlMax s ∧ GoodCells lvl (s.cellsLvl lvl) ∧
      GoodGhosts lvl (s.cellsLvlGhost lvl)) :
    Levelled P.lvlMax (rebuildSteps ops lvl s) ∧
      GoodCells lvl ((rebuildSteps ops lvl s).cellsLvl lvl) ∧
      GoodGhosts lvl ((rebuildSteps ops lvl s).cellsLvlGhost lvl) ∧
      (rebuildSteps ops lvl s).cellsLvl (lvl + 1)
        = ((rebuildSteps ops lvl s).cellsLvl lvl).flatMap Cell.childrenCells := by
  have hne : lvl ≠ lvl + 1 := by omega
  obtain ⟨e1, e2⟩ := cells_rebuildSteps ops lvl s (fun c hc => (h.2.1 c hc).1)
  rw [e1, e2, Function.update_noteq hne, Function.update_same]
  refine ⟨?_, h.2.1, h.2.2, rfl⟩
  intro l
  rw [e1, e2]
  refine ⟨?_, (h.1 l).2⟩
  intro x hx
  by_cases hl : l = lvl + 1
  · subst hl
    rw [Function.update_same] at hx
    obtain ⟨c, hc, hxc⟩ := List.mem_flatMap.mp hx
    exact ⟨(h.2.1 c hc).2.2 x hxc, by omega⟩
  · rw [Function.update_noteq hl] at hx
    exact (h.1 l).1 x hx
theorem identity_keepTrees : ProcedureOps.identity.KeepTrees :=
  ⟨fun _ => keepsTrees_id, fun _ => keepsTrees_id, fun _ => keepsTrees_id, fun _ => keepsTrees_id,
    fun _ => keepsTrees_id, fun _ => keepsTrees_id, fun _ => keepsTrees_id, keepsTrees_id⟩

theorem exampleAMRState_levelled : Levelled exampleAMRParams.lvlMax exampleAMRState := by
  intro l
  by_cases hl : l = 0
  · subst hl
    refine ⟨?_, ?_⟩
    · intro c hc
      have : c = exampleLeafCell := by simpa [exampleAMRState] using hc
      rw [this]
      exact ⟨rfl, by decide⟩
    · intro c hc
      have : c = exampleGhostLeaf := by simpa [exampleAMRState] using hc
      rw [this]
      exact ⟨rfl, by decide⟩
  · refine ⟨?_, ?_⟩ <;> intro c hc <;> simp [exampleAMRState, hl] at hc

theorem exampleAMRState_goodCells : GoodCells 0 (exampleAMRState.cellsLvl 0) := by
  intro c hc
  have : c = exampleLeafCell := by simpa [exampleAMRState] using hc
  rw [this]
  refine ⟨rfl, fun _ => rfl, ?_⟩
  intro ch hch
  cases hch

theorem exampleAMRState_goodGhosts : GoodGhosts 0 (exampleAMRState.cellsLvlGhost 0) := by
  intro c hc
  have : c = exampleGhostLeaf := by simpa [exampleAMRState] using hc
  rw [this]
  refine ⟨rfl, ?_⟩
  intro ch hch
  cases hch

/-- Steps 5 and 6 are made on several processors only; in both cases the levels of the arrays
and the good cells of level `lvl` are kept. -/
theorem inv_ghostSteps_if (ops : ProcedureOps) (hops : ops.KeepTrees) (iops : InterfaceOps)
    (model : Model) (P : AMRParams) (lvl : Int) (hlt : lvl < P.lvlMax) (s : AMRState)
    (h : Levelled P.lvlMax s ∧ GoodCells lvl (s.cellsLvl lvl) ∧
      GoodGhosts lvl (s.cellsLvlGhost lvl)) :
    Levelled P.lvlMax (if P.Ncpu > 1 then ghostSteps ops iops model P lvl s else s) ∧
      GoodCells lvl ((if P.Ncpu > 1 then ghostSteps ops iops model P lvl s else s).cellsLvl lvl) ∧
      GoodGhosts lvl
        ((if P.Ncpu > 1 then ghostSteps ops iops model P lvl s else s).cellsLvlGhost lvl) := by
  by_cases hn : P.Ncpu > 1
  · simp only [hn, if_true]
    exact inv_ghostSteps ops hops iops model P lvl hlt s h
  · simp only [hn, if_false]
    exact h

/-- C29: on arrays in which every cell of the arrays of level l, owned or ghost, has the level
l ≤ lvlMax, and in which the cells of level lvl have their children at level lvl + 1 (an owned
cell that is not split having none), procedureRaffinement(lvl), the interface and communication
calls keeping the trees of the arrays, leaves arrays with the same properties: no cell of a level
above lvlMax is created. When lvl is not below lvlMax the result is that of the indicator steps,
which keep every cell with its level, split flag and children; when lvl < lvlMax every child of a
cell of level lvl has the level lvl + 1 and cellsLvl[lvl+1] is the list of the children of the
cells of cellsLvl[lvl], in order, each once. -/
theorem procedureRaffinement_levels (ops : ProcedureOps) (iops : InterfaceOps) (model : Model)
    (P : AMRParams) (lvl : Int) (s : AMRState) (hops : ops.KeepTrees)
    (hs : Levelled P.lvlMax s) (hcells : GoodCells lvl (s.cellsLvl lvl))
    (hghosts : GoodGhosts lvl (s.cellsLvlGhost lvl)) :
    Levelled P.lvlMax (procedureRaffinement ops iops model P lvl s) ∧
      GoodCells lvl ((procedureRaffinement ops iops model P lvl s).cellsLvl lvl) ∧
      GoodGhosts lvl ((procedureRaffinement ops iops model P lvl s).cellsLvlGhost lvl) ∧
      (¬ lvl < P.lvlMax →
        procedureRaffinement ops iops model P lvl s = xiSteps ops P lvl s ∧
        ∀ l : Int,
          ((procedureRaffinement ops iops model P lvl s).cellsLvl l).map Cell.treeView
              = (s.cellsLvl l).map Cell.treeView ∧
            ((procedureRaffinement ops iops model P lvl s).cellsLvlGhost l).map Cell.ghostView
              = (s.cellsLvlGhost l).map Cell.ghostView) ∧
      (lvl < P.lvlMax →
        (lvl + 1 ≤ P.lvlMax ∧
          ∀ c ∈ (procedureRaffinement ops iops model P lvl s).cellsLvl (lvl + 1),
            c.data.lvl = lvl + 1) ∧
        (procedureRaffinement ops iops model P lvl s).cellsLvl (lvl + 1)
          = ((procedureRaffinement ops iops model P lvl s).cellsLvl lvl).flatMap
              Cell.childrenCells) := by
  have hxi := keepsTrees_xiSteps ops hops P lvl
  have h2 := inv_of_keepsTrees _ hxi P.lvlMax lvl s ⟨hs, hcells, hghosts⟩
  by_cases hlt : lvl < P.lvlMax
  · have h3 := foldl_invariant (chooseRefineAt ops iops model P lvl)
      (fun st => Levelled P.lvlMax st ∧ GoodCells lvl (st.cellsLvl lvl) ∧
        GoodGhosts lvl (st.cellsLvlGhost lvl))
      (List.range ((xiSteps ops P lvl s).cellsLvl lvl).length)
      (fun st i _ hst => ⟨levelled_chooseRefineAt ops hops iops model P lvl st i hst.1,
        choiceInv_chooseRefineAt ops hops iops model P lvl st i hst.2⟩) _ h2
    have h4 := foldl_invariant (chooseUnrefineAt ops iops model P lvl)
      (fun st => Levelled P.lvlMax st ∧ GoodCells lvl (st.cellsLvl lvl) ∧
        GoodGhosts lvl (st.cellsLvlGhost lvl))
      (List.range (((List.range ((xiSteps ops P lvl s).cellsLvl lvl).length).foldl
        (chooseRefineAt ops iops model P lvl) (xiSteps ops P lvl s)).cellsLvl lvl).length)
      (fun st i _ hst => ⟨levelled_chooseUnrefineAt ops hops iops model P lvl st i hst.1,
        choiceInv_chooseUnrefineAt ops hops iops model P lvl st i hst.2⟩) _ h3
    have h6 := inv_ghostSteps_if ops hops iops model P lvl hlt _ h4
    have h7 := inv_rebuildSteps ops P lvl hlt _ h6
    unfold procedureRaffinement
    simp only [hlt, if_true]
    refine ⟨h7.1, h7.2.1, h7.2.2.1, fun hno => absurd trivial hno,
      fun _ => ⟨⟨by omega, ?_⟩, h7.2.2.2⟩⟩
    intro c hc
    exact ((h7.1 (lvl + 1)).1 c hc).1
  · have hproc : procedureRaffinement ops iops model P lvl s = xiSteps ops P lvl s := by
      unfold procedureRaffinement
      simp only [hlt, if_false]
    rw [hproc]
    exact ⟨h2.1, h2.2.1, h2.2.2, fun _ => ⟨rfl, hxi s⟩, fun h => absurd h hlt⟩

theorem procedureRaffinement_levels_witness :
    ProcedureOps.identity.KeepTrees ∧ Levelled exampleAMRParams.lvlMax exampleAMRState ∧
      GoodCells 0 (exampleAMRState.cellsLvl 0) ∧ GoodGhosts 0 (exampleAMRState.cellsLvlGhost 0) ∧
      (procedureRaffinement ProcedureOps.identity InterfaceOps.identity Model.trivial
          exampleAMRParams 0 exampleAMRState).cellsLvl (0 + 1)
        = ((procedureRaffinement ProcedureOps.identity InterfaceOps.identity Model.trivial
            exampleAMRParams 0 exampleAMRState).cellsLvl 0).flatMap Cell.childrenCells :=
  ⟨identity_keepTrees, exampleAMRState_levelled, exampleAMRState_goodCells,
    exampleAMRState_goodGhosts,
    ((procedureRaffinement_levels ProcedureOps.identity InterfaceOps.identity Model.trivial
      exampleAMRParams 0 exampleAMRState identity_keepTrees exampleAMRState_levelled
      exampleAMRState_goodCells exampleAMRState_goodGhosts).2.2.2.2 (by decide)).2⟩

/-! ## The counter after `refineCell` on a split cell, and a gradient across a zero distance -/

/-- C30, counterexample: `exampleRowSplitCell` is split and has two children without children,
so that a mesh made of this cell has 2 leaves and the counter is 2; `refineCell`, which makes no
test of the split flag, pushes two more children and brings the counter to `2 + (4 - 1) = 5`,
whereas the mesh then has 4 leaves. -/
theorem refineCell_on_split_counterexample :
    exampleRowSplitCell.data.split = true ∧
      (numberLeavesChildren [exampleRowSplitCell] : Int) = 2 ∧
      (refineCell InterfaceOps.identity Model.trivial 1 1 exampleRowSplitCell 2).2 = 5 ∧
      (numberLeavesChildren
        [(refineCell InterfaceOps.identity Model.trivial 1 1 exampleRowSplitCell 2).1] : Int)
        = 4 := by
  refine ⟨rfl, rfl, ?_, ?_⟩
  · rfl
  · rfl
/-- C23, counterexample: the only interface of `exampleCoincidentCell` is two-sided and not split
and its two cells lie at distance zero, so that no interface has a non-zero distance along any
axis; the pass divides the difference of the values, `1 - 1`, by the distance 0, and the gradient
has no value (the program returns a NaN) where the claim gives 0. -/
theorem computeGradient_zero_distance_counterexample :
    (∀ b ∈ exampleCoincidentCell.data.cellInterfaces, b.getSplit = false →
        interfaceDistances exampleElementOps (fun _ => exampleWallNeighbor) exampleCoincidentCell b
          = ⟨0, 0, 0⟩) ∧
      exampleCoincidentCell.computeGradient exampleElementOps exampleStateOps
        (fun _ => exampleWallNeighbor) "v" 0 = none := by
  constructor
  · intro b hb _
    have hb' : b = exampleInnerInterface := by
      simpa [exampleCoincidentCell, Cell.data] using hb
    subst hb'
    simp [interfaceDistances, exampleInnerInterface, CellInterface.getSplit, CellInterface.data,
      internalDistances, exampleElementOps]
  · simp [Cell.computeGradient, gradientSums, exampleCoincidentCell, Cell.data, Cell.new,
      computeGradientStep, exampleInnerInterface, CellInterface.getSplit, CellInterface.data,
      exampleWallNeighbor, Cell.selectScalar, exampleStateOps, exampleElementOps, quotient]

/-! ## The cells reached by the pack functions (C14) -/

/-- The cells of the exchange level reached through a list of children are those reached below
the children whose index passes the test of the direction label, in increasing index. -/
theorem sentCellsChildren_eq_flatMap (lvl : Int) (which : String) :
    ∀ (cs : List Cell) (i : Nat),
      sentCellsChildren lvl which cs i
        = (((cs.enumFrom i).filter (fun p => sendsChild which p.1)).map Prod.snd).flatMap
            (Cell.sentCells lvl which)
  | [], i => by simp [sentCellsChildren]
  | ch :: rest, i => by
    rw [sentCellsChildren, sentCellsChildren_eq_flatMap lvl which rest (i + 1)]
    simp only [List.enumFrom_cons, List.filter_cons]
    split <;> simp

mutual
/-- The pack of the primitive variables below a cell is the succession of the writes of the
direction-filtered descendants of the exchange level, in the order of the visits. -/
theorem fillBufferPrimitivesAMR_sentCells (bops : BufferOps) (lvl : Int) (which : String) :
    ∀ (c : Cell) (buffer : Int → ℚ) (counter : Int),
      c.fillBufferPrimitivesAMR bops lvl which buffer counter
        = (c.sentCells lvl which).foldl (fun st x => fillPrimitives bops x.data st.1 st.2)
            (buffer, counter)
  | Cell.mk d cs, buffer, counter => by
    rw [Cell.fillBufferPrimitivesAMR, Cell.sentCells]
    split
    · rfl
    · exact fillBufferPrimitivesAMRChildren_sentCells bops lvl which cs 0 buffer counter
theorem fillBufferPrimitivesAMRChildren_sentCells (bops : BufferOps) (lvl : Int)
    (which : String) :
    ∀ (cs : List Cell) (i : Nat) (buffer : Int → ℚ) (counter : Int),
      fillBufferPrimitivesAMRChildren bops lvl which cs i buffer counter
        = (sentCellsChildren lvl which cs i).foldl
            (fun st x => fillPrimitives bops x.data st.1 st.2) (buffer, counter)
  | [], i, buffer, counter => by
    simp [fillBufferPrimitivesAMRChildren, sentCellsChildren]
  | ch :: rest, i, buffer, counter => by
    rw [fillBufferPrimitivesAMRChildren, sentCellsChildren]
    split
    · simp only []
      rw [fillBufferPrimitivesAMRChildren_sentCells bops lvl which rest,
        fillBufferPrimitivesAMR_sentCells bops lvl which ch, List.foldl_append]
    · rw [fillBufferPrimitivesAMRChildren_sentCells bops lvl which rest]
      simp
end

/-- C14: for a cell whose level is not the exchange level and for each of the six direction
labels, the test made by the AMR pack functions on a child index `i` holds exactly when LEFT:
`i mod 2 = 1`, RIGHT: `i mod 2 = 0`, BOTTOM: `(i / 2) mod 2 = 1`, TOP: `(i / 2) mod 2 = 0`,
BACK: `i ≥ 4`, FRONT: `i < 4`. The cells of the exchange level reached below such a cell are
those reached below its children whose index passes the test, in increasing index, and those
only; `fillBufferPrimitivesAMR`, `fillBufferXi`, `fillBufferSplit` and `fillBufferTransportsAMR`
on such a cell are the successive calls on the children that pass the test, and they write the
primitive variables, the indicators, the split flags and the transports of the cells reached,
one after the other, and nothing else. For a cell with four children of the exchange level the
cells reached are the children 0 and 2 for RIGHT, 0 and 1 for TOP, 1 and 3 for LEFT, 2 and 3 for
BOTTOM. -/
theorem pack_descends_into_children (bops : BufferOps) (lvl : Int) (dir : Direction)
    (d : CellData) (cs : List Cell) (hlvl : d.lvl ≠ lvl) :
    (∀ i : Nat, sendsChild dir.label i = true ↔ dir.emits i) ∧
      (Cell.mk d cs).sentCells lvl dir.label
        = (((cs.enumFrom 0).filter (fun p => sendsChild dir.label p.1)).map Prod.snd).flatMap
            (Cell.sentCells lvl dir.label) ∧
      (∀ (buffer : Int → ℚ) (counter : Int),
        (Cell.mk d cs).fillBufferPrimitivesAMR bops lvl dir.label buffer counter
            = visitChildren
                (fun ch st => ch.fillBufferPrimitivesAMR bops lvl dir.label st.1 st.2)
                (sendsChild dir.label) cs 0 (buffer, counter) ∧
          (Cell.mk d cs).fillBufferPrimitivesAMR bops lvl dir.label buffer counter
            = ((Cell.mk d cs).sentCells lvl dir.label).foldl
                (fun st x => fillPrimitives bops x.data st.1 st.2) (buffer, counter)) ∧
      (∀ (buffer : Int → ℚ) (counter : Int),
        (Cell.mk d cs).fillBufferXi lvl dir.label buffer counter
            = visitChildren (fun ch st => ch.fillBufferXi lvl dir.label st.1 st.2)
                (sendsChild dir.label) cs 0 (buffer, counter) ∧
          (Cell.mk d cs).fillBufferXi lvl dir.label buffer counter
            = (writeValues buffer counter
                (((Cell.mk d cs).sentCells lvl dir.label).map (fun x => x.data.xi)),
              counter + (((Cell.mk d cs).sentCells lvl dir.label).length : Int))) ∧
      (∀ (buffer : Int → Bool) (counter : Int),
        (Cell.mk d cs).fillBufferSplit lvl dir.label buffer counter
            = visitChildren (fun ch st => ch.fillBufferSplit lvl dir.label st.1 st.2)
                (sendsChild dir.label) cs 0 (buffer, counter) ∧
          (Cell.mk d cs).fillBufferSplit lvl dir.label buffer counter
            = (writeValues buffer counter
                (((Cell.mk d cs).sentCells lvl dir.label).map (fun x => x.data.split)),
              counter + (((Cell.mk d cs).sentCells lvl dir.label).length : Int))) ∧
      (∀ (buffer : Int → ℚ) (counter : Int),
        (Cell.mk d cs).fillBufferTransportsAMR lvl dir.label buffer counter
            = visitChildren (fun ch st => ch.fillBufferTransportsAMR lvl dir.label st.1 st.2)
                (sendsChild dir.label) cs 0 (buffer, counter) ∧
          (Cell.mk d cs).fillBufferTransportsAMR lvl dir.label buffer counter
            = (writeValues buffer counter
                (((Cell.mk d cs).sentCells lvl dir.label).flatMap (fun x =>
                  (List.range x.data.numberTransports).map
                    (fun k => x.data.vecTransports.getD k 0))),
              counter + ((((Cell.mk d cs).sentCells lvl dir.label).flatMap (fun x =>
                (List.range x.data.numberTransports).map
                  (fun k => x.data.vecTransports.getD k 0))).length : Int))) ∧
      (∀ c0 c1 c2 c3 : Cell, c0.data.lvl = lvl → c1.data.lvl = lvl → c2.data.lvl = lvl →
        c3.data.lvl = lvl →
        (Cell.mk d [c0, c1, c2, c3]).sentCells lvl Direction.right.label = [c0, c2] ∧
          (Cell.mk d [c0, c1, c2, c3]).sentCells lvl Direction.top.label = [c0, c1] ∧
          (Cell.mk d [c0, c1, c2, c3]).sentCells lvl Direction.left.label = [c1, c3] ∧
          (Cell.mk d [c0, c1, c2, c3]).sentCells lvl Direction.bottom.label = [c2, c3]) ∧
      (List.range 4).filter (sendsChild Direction.right.label) = [0, 2] ∧
      (List.range 4).filter (sendsChild Direction.top.label) = [0, 1] ∧
      (List.range 4).filter (sendsChild Direction.left.label) = [1, 3] ∧
      (List.range 4).filter (sendsChild Direction.bottom.label) = [2, 3] := by
  have hsent : ∀ (which : String) (l : List Cell),
      (Cell.mk d l).sentCells lvl which = sentCellsChildren lvl which l 0 := by
    intro which l
    rw [Cell.sentCells, if_neg hlvl]
  refine ⟨sendsChild_label dir, ?_, ?_, ?_, ?_, ?_, ?_, by decide, by decide, by decide,
    by decide⟩
  · rw [hsent, sentCellsChildren_eq_flatMap]
  · intro buffer counter
    refine ⟨?_, fillBufferPrimitivesAMR_sentCells bops lvl dir.label _ buffer counter⟩
    rw [Cell.fillBufferPrimitivesAMR, if_neg hlvl, fillBufferPrimitivesAMRChildren_eq]
  · intro buffer counter
    refine ⟨?_, fillBufferXi_sentCells lvl dir.label _ buffer counter⟩
    rw [Cell.fillBufferXi, if_neg hlvl, fillBufferXiChildren_eq]
  · intro buffer counter
    refine ⟨?_, fillBufferSplit_sentCells lvl dir.label _ buffer counter⟩
    rw [Cell.fillBufferSplit, if_neg hlvl, fillBufferSplitChildren_eq]
  · intro buffer counter
    refine ⟨?_, fillBufferTransportsAMR_sentCells lvl dir.label _ buffer counter⟩
    rw [Cell.fillBufferTransportsAMR, if_neg hlvl, fillBufferTransportsAMRChildren_eq]
  · intro c0 c1 c2 c3 h0 h1 h2 h3
    have e0 := fun which => sentCells_of_lvl lvl which c0 h0
    have e1 := fun which => sentCells_of_lvl lvl which c1 h1
    have e2 := fun which => sentCells_of_lvl lvl which c2 h2
    have e3 := fun which => sentCells_of_lvl lvl which c3 h3
    refine ⟨?_, ?_, ?_, ?_⟩ <;>
      simp [hsent, sentCellsChildren, sendsChild, Direction.label, e0, e1, e2, e3]

theorem pack_descends_into_children_witness :
    exampleQuadCell.data.lvl ≠ 1 ∧
      exampleQuadCell.sentCells 1 "RIGHT" = [exampleQuadChild 0, exampleQuadChild 2] ∧
      (exampleQuadCell.fillBufferPrimitivesAMR exampleBufferOps 1 "RIGHT" (fun _ => 0) 0).2 = 4 ∧
      (List.range 6).map
          (exampleQuadCell.fillBufferPrimitivesAMR exampleBufferOps 1 "RIGHT" (fun _ => 0) 0).1
        = [0, 10, 20, 12, 22, 0] := by
  have h := pack_descends_into_children exampleBufferOps 1 Direction.right exampleQuadCell.data
    exampleQuadCell.childrenCells (by decide)
  have hs : exampleQuadCell.sentCells 1 Direction.right.label
      = [exampleQuadChild 0, exampleQuadChild 2] :=
    (h.2.2.2.2.2.2.1 (exampleQuadChild 0) (exampleQuadChild 1) (exampleQuadChild 2)
      (exampleQuadChild 3) rfl rfl rfl rfl).1
  have hp : exampleQuadCell.fillBufferPrimitivesAMR exampleBufferOps 1 Direction.right.label
        (fun _ => 0) 0
      = (exampleQuadCell.sentCells 1 Direction.right.label).foldl
          (fun st x => fillPrimitives exampleBufferOps x.data st.1 st.2) (fun _ => 0, 0) :=
    (h.2.2.1 (fun _ => 0) 0).2
  rw [hs] at hp
  refine ⟨by decide, hs, ?_, ?_⟩
  · rw [show ("RIGHT" : String) = Direction.right.label from rfl, hp]
    rfl
  · rw [show ("RIGHT" : String) = Direction.right.label from rfl, hp]
    simp [fillPrimitives, fillTransports, exampleBufferOps, exampleQuadChild, Cell.new,
      List.range_succ, Function.update]
    norm_num

/-! ## The refinement in `double` arithmetic: the call, the own fields and the children -/

theorem foldl_refineChildRounded_leaf (fl : ℚ → ℚ) (model : Model) (rd : RefineDims) (c : Cell)
    (hleaf : c.childrenCells = []) (n : Nat) :
    (List.range n).foldl (refineChildRounded fl model rd) c
      = Cell.mk c.data ((List.range n).map (newChildRounded fl model c.data rd)) := by
  induction n with
  | zero => cases c; simp_all
  | succ n ih =>
    rw [List.range_succ, List.foldl_append, ih]
    simp only [List.foldl_cons, List.foldl_nil, refineChildRounded, Cell.createChildCell,
      Cell.data_mk, Cell.childrenCells_mk, List.map_append, List.map_cons, List.map_nil]
    have h := modify_append_singleton (initChildRounded fl model c.data rd n)
      ((List.range n).map (newChildRounded fl model c.data rd)) (Cell.new (c.data.lvl + 1))
    simp only [List.length_map, List.length_range] at h
    rw [h]; rfl

theorem foldl_refineChildRounded_data (fl : ℚ → ℚ) (model : Model) (rd : RefineDims)
    (l : List Nat) (c : Cell) : (l.foldl (refineChildRounded fl model rd) c).data = c.data := by
  induction l generalizing c with
  | nil => rfl
  | cons a t ih =>
    simp only [List.foldl_cons]
    rw [ih]
    rfl

theorem sameCore_refineInternalCellInterfaceRounded (fl : ℚ → ℚ) (nbCellsY nbCellsZ : Int)
    (c : Cell) (i : Nat) :
    c.SameCore (refineInternalCellInterfaceRounded fl nbCellsY nbCellsZ c i) := by
  unfold refineInternalCellInterfaceRounded
  simp only
  split
  · exact ⟨rfl, rfl⟩
  · refine ⟨rfl, ?_⟩
    simp only [Cell.childrenCells_mk]
    rw [map_strip_modify_add, map_strip_modify_add]

/-- The refinement in `double` arithmetic, on any cell, keeps the children of the children loop
up to their interface lists and the own fields of the cell with `split` set, the interface lists
apart. -/
theorem sameCore_refineRounded (fl : ℚ → ℚ) (ops : InterfaceOps) (model : Model)
    (nbCellsY nbCellsZ : Int) (c : Cell) :
    (refineChildrenRounded fl model (refineDims nbCellsY nbCellsZ)
        (Cell.mk { c.data with split := true } c.childrenCells)).SameCore
      (c.refineCellAndCellInterfacesRounded fl ops model nbCellsY nbCellsZ) := by
  unfold Cell.refineCellAndCellInterfacesRounded
  simp only
  refine Cell.SameCore.trans ?_ (sameCore_foldl _
    (sameCore_refineExternalCellInterface ops nbCellsY nbCellsZ _ _ _ _) _ _)
  exact sameCore_foldl _ (sameCore_refineInternalCellInterfaceRounded fl nbCellsY nbCellsZ) _ _

theorem core_refineRounded (fl : ℚ → ℚ) (ops : InterfaceOps) (model : Model)
    (nbCellsY nbCellsZ : Int) (c : Cell) :
    (c.refineCellAndCellInterfacesRounded fl ops model nbCellsY nbCellsZ).data.core
      = ({ c.data with split := true } : CellData).core := by
  have h := (sameCore_refineRounded fl ops model nbCellsY nbCellsZ c).1
  rw [h]
  unfold refineChildrenRounded
  rw [foldl_refineChildRounded_data]
  rfl

/-- After the refinement of a leaf cell in `double` arithmetic the children are, up to their
interface lists, the children created by the children loop. -/
theorem children_refineRounded_leaf (fl : ℚ → ℚ) (ops : InterfaceOps) (model : Model)
    (nbCellsY nbCellsZ : Int) (c : Cell) (hleaf : c.childrenCells = []) :
    (c.refineCellAndCellInterfacesRounded fl ops model nbCellsY nbCellsZ).childrenCells.map
        Cell.stripCellInterfaces
      = ((List.range (refineDims nbCellsY nbCellsZ).numberCellsChildren).map
          (newChildRounded fl model c.data (refineDims nbCellsY nbCellsZ))).map
            Cell.stripCellInterfaces := by
  have h := (sameCore_refineRounded fl ops model nbCellsY nbCellsZ c).2
  unfold refineChildrenRounded at h
  rw [foldl_refineChildRounded_leaf fl model _ _ (by simpa using hleaf)] at h
  exact h

theorem child_of_refineRounded_leaf (fl : ℚ → ℚ) (ops : InterfaceOps) (model : Model)
    (nbCellsY nbCellsZ : Int) (c : Cell) (hleaf : c.childrenCells = []) (i : Nat)
    (hi : i < (refineDims nbCellsY nbCellsZ).numberCellsChildren) :
    ∃ ch, (c.refineCellAndCellInterfacesRounded fl ops model nbCellsY nbCellsZ).childrenCells[i]?
        = some ch ∧
      ch.stripCellInterfaces
        = (newChildRounded fl model c.data (refineDims nbCellsY nbCellsZ) i).stripCellInterfaces := by
  have h := children_refineRounded_leaf fl ops model nbCellsY nbCellsZ c hleaf
  exact strip_getElem?_of_map_eq h i _ (by simp [List.getElem?_range, hi])

theorem length_children_refineRounded_leaf (fl : ℚ → ℚ) (ops : InterfaceOps) (model : Model)
    (nbCellsY nbCellsZ : Int) (c : Cell) (hleaf : c.childrenCells = []) :
    (c.refineCellAndCellInterfacesRounded fl ops model nbCellsY nbCellsZ).childrenCells.length
      = (refineDims nbCellsY nbCellsZ).numberCellsChildren := by
  have h := congrArg List.length (children_refineRounded_leaf fl ops model nbCellsY nbCellsZ c hleaf)
  simpa using h

/-- The fields of a cell that agrees, up to its interface list, with the child created for
index `i` by the children loop in `double` arithmetic. -/
theorem child_fields_of_strip_rounded (fl : ℚ → ℚ) (model : Model) (p : CellData)
    (rd : RefineDims) (i : Nat) (ch : Cell)
    (h : ch.stripCellInterfaces = (newChildRounded fl model p rd i).stripCellInterfaces) :
    ch.data.lvl = p.lvl + 1 ∧ ch.data.split = false ∧ ch.childrenCells = [] ∧
      ch.data.element = childElementRounded fl p.element rd i ∧
      ch.data.xi = p.xi ∧ ch.data.mixture = p.mixture ∧
      ch.data.vecPhases
        = (List.range p.numberPhases).map (fun k => p.vecPhases.getD k model.allocatePhase) ∧
      ch.data.vecTransports
        = (List.range p.numberTransports).map (fun k => p.vecTransports.getD k 0) ∧
      ch.data.cons = (model.allocateCons p.numberPhases).setToZero ∧
      ch.data.consTransports = List.replicate p.numberTransports 0 ∧
      ch.data.childrenInternalCellInterfaces = [] ∧
      ch.data.numberPhases = p.numberPhases ∧ ch.data.numberTransports = p.numberTransports := by
  have hd := congrArg Cell.data h
  have hc := congrArg Cell.childrenCells h
  have e1 := congrArg CellData.lvl hd
  have e2 := congrArg CellData.split hd
  have e3 := congrArg CellData.element hd
  have e4 := congrArg CellData.xi hd
  have e5 := congrArg CellData.mixture hd
  have e6 := congrArg CellData.vecPhases hd
  have e7 := congrArg CellData.vecTransports hd
  have e8 := congrArg CellData.cons hd
  have e9 := congrArg CellData.consTransports hd
  have e10 := congrArg CellData.childrenInternalCellInterfaces hd
  have e11 := congrArg CellData.numberPhases hd
  have e12 := congrArg CellData.numberTransports hd
  exact ⟨e1, e2, hc, e3, e4, e5, e6, e7, e8, e9, e10, e11, e12⟩

theorem cellInterfaceRef_isSome (c : Cell)
    (href : ∃ b ∈ c.data.cellInterfaces, b.whoAmI = 0) : c.cellInterfaceRef.isSome = true := by
  obtain ⟨b, hb, h0⟩ := href
  unfold Cell.cellInterfaceRef
  rw [List.find?_isSome]
  exact ⟨b, hb, by simp [h0]⟩

/-- On a cell that has an element and holds a two-sided interface the call returns, and leaves
the state of the body of the method. -/
theorem refineCall_eq_some (fl : ℚ → ℚ) (ops : InterfaceOps) (model : Model)
    (nbCellsY nbCellsZ : Int) (c : Cell) (hel : c.data.element ≠ Element.empty)
    (href : ∃ b ∈ c.data.cellInterfaces, b.whoAmI = 0) :
    c.refineCellAndCellInterfacesCall fl ops model nbCellsY nbCellsZ
      = some (c.refineCellAndCellInterfacesRounded fl ops model nbCellsY nbCellsZ) := by
  have h := cellInterfaceRef_isSome c href
  unfold Cell.refineCellAndCellInterfacesCall
  have he : c.hasElement = true := by simp [Cell.hasElement, hel]
  rw [if_pos he]
  cases hr : c.cellInterfaceRef with
  | none => rw [hr] at h; cases h
  | some b => rfl

/-- On a cell whose list holds no two-sided interface the call does not return. -/
theorem refineCall_eq_none (fl : ℚ → ℚ) (ops : InterfaceOps) (model : Model)
    (nbCellsY nbCellsZ : Int) (c : Cell)
    (href : ∀ b ∈ c.data.cellInterfaces, b.whoAmI ≠ 0) :
    c.refineCellAndCellInterfacesCall fl ops model nbCellsY nbCellsZ = none := by
  unfold Cell.refineCellAndCellInterfacesCall
  split
  · have hr : c.cellInterfaceRef = none := by
      unfold Cell.cellInterfaceRef
      rw [List.find?_eq_none]
      intro b hb
      simp [href b hb]
    rw [hr]
  · rfl

theorem childElementRounded_key (fl : ℚ → ℚ) (parent : Element) (rd : RefineDims) (i : Nat) :
    (childElementRounded fl parent rd i).key = parent.key.child i := by
  simp [childElementRounded, Key.child, childBits]

/-- The element of child `i` in `double` arithmetic is the exact one when the three additions of
its centre are exact. -/
theorem childElementRounded_eq (fl : ℚ → ℚ) (parent : Element) (rd : RefineDims) (i : Nat)
    (hx : fl (childElement parent rd i).position.x = (childElement parent rd i).position.x)
    (hy : fl (childElement parent rd i).position.y = (childElement parent rd i).position.y)
    (hz : fl (childElement parent rd i).position.z = (childElement parent rd i).position.z) :
    childElementRounded fl parent rd i = childElement parent rd i := by
  unfold childElementRounded
  simp only [childElement] at hx hy hz ⊢
  rw [hx, hy, hz]

theorem childElementRounded_id (parent : Element) (rd : RefineDims) (i : Nat) :
    childElementRounded (fun x => x) parent rd i = childElement parent rd i := rfl

/-- A call that returns leaves the state of the body of the method. -/
theorem refineCall_some (fl : ℚ → ℚ) (ops : InterfaceOps) (model : Model)
    (nbCellsY nbCellsZ : Int) (c c' : Cell)
    (h : c.refineCellAndCellInterfacesCall fl ops model nbCellsY nbCellsZ = some c') :
    c' = c.refineCellAndCellInterfacesRounded fl ops model nbCellsY nbCellsZ := by
  unfold Cell.refineCellAndCellInterfacesCall at h
  split at h
  · split at h
    · cases h
    · exact (Option.some.inj h).symm
  · cases h

/-- The call returns exactly on the cells that have an element and hold a two-sided
interface. -/
theorem refineCall_returns_iff (fl : ℚ → ℚ) (ops : InterfaceOps) (model : Model)
    (nbCellsY nbCellsZ : Int) (c : Cell) :
    (∃ c', c.refineCellAndCellInterfacesCall fl ops model nbCellsY nbCellsZ = some c') ↔
      (c.data.element ≠ Element.empty ∧ ∃ b ∈ c.data.cellInterfaces, b.whoAmI = 0) := by
  constructor
  · rintro ⟨c', h⟩
    unfold Cell.refineCellAndCellInterfacesCall at h
    split at h
    · rename_i he
      split at h
      · cases h
      · rename_i b hb
        refine ⟨by simpa [Cell.hasElement] using he, ?_⟩
        unfold Cell.cellInterfaceRef at hb
        have h1 := List.find?_some hb
        exact ⟨b, List.mem_of_find?_eq_some hb, by simpa using h1⟩
    · cases h
  · rintro ⟨hel, href⟩
    exact ⟨_, refineCall_eq_some fl ops model nbCellsY nbCellsZ c hel href⟩

/-! ## Evaluation of the rounding to a `double` -/

theorem roundHalfEven_of_near (x : ℚ) (n : Int) (h1 : (n : ℚ) - 1 / 2 < x)
    (h2 : x < (n : ℚ) + 1 / 2) : roundHalfEven x = n := by
  unfold roundHalfEven
  by_cases hx : (n : ℚ) ≤ x
  · have hf : ⌊x⌋ = n := by
      rw [Int.floor_eq_iff]
      constructor
      · exact hx
      · linarith
    rw [hf, if_pos (by linarith)]
  · have hf : ⌊x⌋ = n - 1 := by
      rw [Int.floor_eq_iff]
      push_cast
      constructor
      · linarith
      · linarith
    rw [hf]
    push_cast
    rw [if_neg (by linarith), if_pos (by linarith)]
    ring

theorem roundHalfEven_of_tie (x : ℚ) (n : Int) (hn : n % 2 = 0)
    (h : x = (n : ℚ) + 1 / 2 ∨ x = (n : ℚ) - 1 / 2) : roundHalfEven x = n := by
  unfold roundHalfEven
  rcases h with h | h
  · have hf : ⌊x⌋ = n := by
      rw [Int.floor_eq_iff]
      constructor <;> linarith
    rw [hf, if_neg (by linarith), if_neg (by linarith), if_pos hn]
  · have hf : ⌊x⌋ = n - 1 := by
      rw [Int.floor_eq_iff]
      push_cast
      constructor <;> linarith
    rw [hf]
    push_cast
    rw [if_neg (by linarith), if_neg (by linarith), if_neg (by omega)]
    ring

theorem roundHalfEven_intCast (n : Int) : roundHalfEven (n : ℚ) = n :=
  roundHalfEven_of_near _ n (by linarith) (by linarith)

/-- The rounding of a result whose binary exponent is `k`: the result is written as a multiple
of `2 ^ (k - 52)`. -/
theorem roundDouble_eq (q : ℚ) (k n : Int) (h1 : (2 : ℚ) ^ k ≤ |q|) (h2 : |q| < (2 : ℚ) ^ (k + 1))
    (hn : roundHalfEven (q / (2 : ℚ) ^ (k - 52)) = n) :
    roundDouble q = (n : ℚ) * (2 : ℚ) ^ (k - 52) := by
  have hpos : (0 : ℚ) < |q| := lt_of_lt_of_le (by positivity) h1
  have hq : q ≠ 0 := abs_pos.mp hpos
  have hlog : Int.log 2 |q| = k := by
    apply le_antisymm
    · have := (Int.lt_zpow_iff_log_lt (b := 2) (by norm_num) hpos (x := k + 1)).mp
        (by exact_mod_cast h2)
      omega
    · exact (Int.zpow_le_iff_le_log (b := 2) (by norm_num) hpos).mp (by exact_mod_cast h1)
  unfold roundDouble
  rw [if_neg hq, hlog, hn]

theorem roundDouble_of_pos (q : ℚ) (k n : Int) (h1 : (2 : ℚ) ^ k ≤ q)
    (h2 : q < (2 : ℚ) ^ (k + 1)) (hn : roundHalfEven (q / (2 : ℚ) ^ (k - 52)) = n) :
    roundDouble q = (n : ℚ) * (2 : ℚ) ^ (k - 52) := by
  have hpos : (0 : ℚ) < q := lt_of_lt_of_le (by positivity) h1
  exact roundDouble_eq q k n (by rwa [abs_of_pos hpos]) (by rwa [abs_of_pos hpos]) hn

/-- A result that is a multiple of `2 ^ (k - 52)` in the binade of exponent `k` is a `double`:
its rounding is exact. -/
theorem roundDouble_exact (q : ℚ) (k n : Int) (h1 : (2 : ℚ) ^ k ≤ q)
    (h2 : q < (2 : ℚ) ^ (k + 1)) (hq : q = (n : ℚ) * (2 : ℚ) ^ (k - 52)) :
    roundDouble q = q := by
  have hp : (0 : ℚ) < (2 : ℚ) ^ (k - 52) := by positivity
  have e : q / (2 : ℚ) ^ (k - 52) = (n : ℚ) := by
    rw [hq]
    field_simp
  rw [roundDouble_of_pos q k n h1 h2 (by rw [e]; exact roundHalfEven_intCast n), ← hq]

theorem roundDouble_half : roundDouble (1 / 2) = 1 / 2 :=
  roundDouble_exact (1 / 2) (-1) (2 ^ 52) (by norm_num) (by norm_num) (by norm_num)

theorem roundDouble_quarter : roundDouble (1 / 4) = 1 / 4 :=
  roundDouble_exact (1 / 4) (-2) (2 ^ 52) (by norm_num) (by norm_num) (by norm_num)

theorem roundDouble_three_quarters : roundDouble (3 / 4) = 3 / 4 :=
  roundDouble_exact (3 / 4) (-1) (3 * 2 ^ 51) (by norm_num) (by norm_num) (by norm_num)

/-- Three quarters of the `double` 0.1 lie halfway between two `double` values; the rounding
goes up, to the even one (0.07500000000000001). -/
theorem roundDouble_three_quarters_tenth :
    roundDouble (10808639105689191 / 144115188075855872) = 5404319552844596 / 72057594037927936 := by
  have h := roundDouble_of_pos (10808639105689191 / 144115188075855872) (-4) 5404319552844596
    (by norm_num) (by norm_num)
    (roundHalfEven_of_tie _ _ (by decide) (Or.inr (by norm_num)))
  rw [h]
  norm_num

/-- Five quarters of the `double` 0.1 round down to 0.125. -/
theorem roundDouble_five_quarters_tenth :
    roundDouble (18014398509481985 / 144115188075855872) = 1 / 8 := by
  have h := roundDouble_of_pos (18014398509481985 / 144115188075855872) (-3) (2 ^ 52)
    (by norm_num) (by norm_num)
    (roundHalfEven_of_near _ _ (by norm_num) (by norm_num))
  rw [h]
  norm_num

/-- The rounding of `0.5 - 0.05`, the `double` 0.45. -/
theorem roundDouble_half_minus_quarter_fifth :
    roundDouble (32425917317067571 / 72057594037927936)
      = 8106479329266893 / 18014398509481984 := by
  have h := roundDouble_of_pos (32425917317067571 / 72057594037927936) (-2) 8106479329266893
    (by norm_num) (by norm_num)
    (roundHalfEven_of_near _ _ (by norm_num) (by norm_num))
  rw [h]
  norm_num

/-- The rounding of `0.5 + 0.05`, the `double` 0.55. -/
theorem roundDouble_half_plus_quarter_fifth :
    roundDouble (39631676720860365 / 72057594037927936)
      = 4953959590107546 / 9007199254740992 := by
  have h := roundDouble_of_pos (39631676720860365 / 72057594037927936) (-1) 4953959590107546
    (by norm_num) (by norm_num)
    (roundHalfEven_of_near _ _ (by norm_num) (by norm_num))
  rw [h]
  norm_num

theorem roundDouble_one :
    roundDouble 1
      = 1 := by
  exact roundDouble_exact 1 0 4503599627370496
    (by norm_num) (by norm_num) (by norm_num)

theorem roundDouble_two :
    roundDouble 2
      = 2 := by
  exact roundDouble_exact 2 1 4503599627370496
    (by norm_num) (by norm_num) (by norm_num)

theorem roundDouble_three :
    roundDouble 3
      = 3 := by
  exact roundDouble_exact 3 1 6755399441055744
    (by norm_num) (by norm_num) (by norm_num)

theorem roundDouble_four :
    roundDouble 4
      = 4 := by
  exact roundDouble_exact 4 2 4503599627370496
    (by norm_num) (by norm_num) (by norm_num)

theorem roundDouble_six :
    roundDouble 6
      = 6 := by
  exact roundDouble_exact 6 2 6755399441055744
    (by norm_num) (by norm_num) (by norm_num)

theorem roundDouble_twelve :
    roundDouble 12
      = 12 := by
  exact roundDouble_exact 12 3 6755399441055744
    (by norm_num) (by norm_num) (by norm_num)

theorem roundDouble_eighth :
    roundDouble (1 / 8)
      = 1 / 8 := by
  exact roundDouble_exact (1 / 8) (-3) 4503599627370496
    (by norm_num) (by norm_num) (by norm_num)

/-- Addition number 1 of the sum of eight `double` values 0.1. -/
theorem roundDouble_tenth_sum_one :
    roundDouble (3602879701896397 / 36028797018963968)
      = 3602879701896397 / 36028797018963968 := by
  exact roundDouble_exact (3602879701896397 / 36028797018963968) (-4) 7205759403792794
    (by norm_num) (by norm_num) (by norm_num)

/-- Addition number 2 of the sum of eight `double` values 0.1. -/
theorem roundDouble_tenth_sum_two :
    roundDouble (3602879701896397 / 18014398509481984)
      = 3602879701896397 / 18014398509481984 := by
  exact roundDouble_exact (3602879701896397 / 18014398509481984) (-3) 7205759403792794
    (by norm_num) (by norm_num) (by norm_num)

/-- Addition number 3 of the sum of eight `double` values 0.1. -/
theorem roundDouble_tenth_sum_three :
    roundDouble (10808639105689191 / 36028797018963968)
      = 1351079888211149 / 4503599627370496 := by
  have h := roundDouble_of_pos (10808639105689191 / 36028797018963968) (-2) 5404319552844596
    (by norm_num) (by norm_num)
    (roundHalfEven_of_tie _ _ (by decide) (Or.inr (by norm_num)))
  rw [h]
  norm_num

/-- Addition number 4 of the sum of eight `double` values 0.1. -/
theorem roundDouble_tenth_sum_four :
    roundDouble (14411518807585589 / 36028797018963968)
      = 3602879701896397 / 9007199254740992 := by
  have h := roundDouble_of_pos (14411518807585589 / 36028797018963968) (-2) 7205759403792794
    (by norm_num) (by norm_num)
    (roundHalfEven_of_tie _ _ (by decide) (Or.inl (by norm_num)))
  rw [h]
  norm_num

/-- Addition number 5 of the sum of eight `double` values 0.1. -/
theorem roundDouble_tenth_sum_five :
    roundDouble (18014398509481985 / 36028797018963968)
      = 1 / 2 := by
  have h := roundDouble_of_pos (18014398509481985 / 36028797018963968) (-1) 4503599627370496
    (by norm_num) (by norm_num)
    (roundHalfEven_of_near _ _ (by norm_num) (by norm_num))
  rw [h]
  norm_num

/-- Addition number 6 of the sum of eight `double` values 0.1. -/
theorem roundDouble_tenth_sum_six :
    roundDouble (21617278211378381 / 36028797018963968)
      = 5404319552844595 / 9007199254740992 := by
  have h := roundDouble_of_pos (21617278211378381 / 36028797018963968) (-1) 5404319552844595
    (by norm_num) (by norm_num)
    (roundHalfEven_of_near _ _ (by norm_num) (by norm_num))
  rw [h]
  norm_num

/-- Addition number 7 of the sum of eight `double` values 0.1. -/
theorem roundDouble_tenth_sum_seven :
    roundDouble (25220157913274777 / 36028797018963968)
      = 3152519739159347 / 4503599627370496 := by
  have h := roundDouble_of_pos (25220157913274777 / 36028797018963968) (-1) 6305039478318694
    (by norm_num) (by norm_num)
    (roundHalfEven_of_near _ _ (by norm_num) (by norm_num))
  rw [h]
  norm_num

/-- Addition number 8 of the sum of eight `double` values 0.1. -/
theorem roundDouble_tenth_sum_eight :
    roundDouble (28823037615171173 / 36028797018963968)
      = 7205759403792793 / 9007199254740992 := by
  have h := roundDouble_of_pos (28823037615171173 / 36028797018963968) (-1) 7205759403792793
    (by norm_num) (by norm_num)
    (roundHalfEven_of_near _ _ (by norm_num) (by norm_num))
  rw [h]
  norm_num

/-- The sum of eight `double` values 0.1 divided by 8. -/
theorem roundDouble_tenth_sum_mean :
    roundDouble (7205759403792793 / 72057594037927936)
      = 7205759403792793 / 72057594037927936 := by
  exact roundDouble_exact (7205759403792793 / 72057594037927936) (-4) 7205759403792793
    (by norm_num) (by norm_num) (by norm_num)

/-- The sum of the `double` values 0.1 and 0.2 is rounded up (0.30000000000000004). -/
theorem roundDouble_tenth_plus_fifth :
    roundDouble (10808639105689191 / 36028797018963968)
      = 1351079888211149 / 4503599627370496 := by
  have h := roundDouble_of_pos (10808639105689191 / 36028797018963968) (-2) 5404319552844596
    (by norm_num) (by norm_num)
    (roundHalfEven_of_tie _ _ (by decide) (Or.inr (by norm_num)))
  rw [h]
  norm_num

/-- Half the rounded sum of 0.1 and 0.2. -/
theorem roundDouble_tenth_plus_fifth_half :
    roundDouble (1351079888211149 / 9007199254740992)
      = 1351079888211149 / 9007199254740992 := by
  exact roundDouble_exact (1351079888211149 / 9007199254740992) (-3) 5404319552844596
    (by norm_num) (by norm_num) (by norm_num)

/-! ## The example cells of the refinement in `double` arithmetic -/

theorem exampleRowElement_ne_empty : exampleRowElement ≠ Element.empty := by
  intro h
  have h1 := congrArg Element.volume h
  simp [exampleRowElement, Element.empty] at h1

theorem exampleRowLeaf_element : exampleRowLeaf.data.element ≠ Element.empty :=
  exampleRowElement_ne_empty

theorem exampleRowLeaf_cellInterfaceRef :
    ∃ b ∈ exampleRowLeaf.data.cellInterfaces, b.whoAmI = 0 :=
  ⟨exampleRowInterface, by simp [exampleRowLeaf], rfl⟩

theorem exampleLoneLeaf_boundaries : ∀ b ∈ exampleLoneLeaf.data.cellInterfaces, b.whoAmI ≠ 0 := by
  intro b hb
  have h : b = exampleRowBoundary 0 ∨ b = exampleRowBoundary 1 := by
    simpa [exampleLoneLeaf] using hb
  rcases h with rfl | rfl <;> simp [CellInterface.whoAmI, exampleRowBoundary]

theorem exampleTenthLeaf_element : exampleTenthLeaf.data.element ≠ Element.empty := by
  intro h
  have h1 := congrArg Element.volume h
  simp [exampleTenthLeaf, exampleTenth, Element.empty] at h1

theorem exampleTenthLeaf_cellInterfaceRef :
    ∃ b ∈ exampleTenthLeaf.data.cellInterfaces, b.whoAmI = 0 :=
  ⟨exampleRowInterface, by simp [exampleTenthLeaf], rfl⟩

theorem exampleFifthLeaf_element : exampleFifthLeaf.data.element ≠ Element.empty := by
  intro h
  have h1 := congrArg Element.volume h
  simp [exampleFifthLeaf, exampleFifth, Element.empty] at h1

theorem exampleFifthLeaf_cellInterfaceRef :
    ∃ b ∈ exampleFifthLeaf.data.cellInterfaces, b.whoAmI = 0 :=
  ⟨exampleFifthInterface, by simp [exampleFifthLeaf], rfl⟩

/-! ## Volumes under the refinement and the coarsening in `double` arithmetic -/

theorem element_refineRounded (fl : ℚ → ℚ) (ops : InterfaceOps) (model : Model)
    (nbCellsY nbCellsZ : Int) (c : Cell) :
    (c.refineCellAndCellInterfacesRounded fl ops model nbCellsY nbCellsZ).data.element
      = c.data.element := by
  have h := congrArg CellData.element (core_refineRounded fl ops model nbCellsY nbCellsZ c)
  exact h

theorem children_refineRounded_leaf_ne_nil (fl : ℚ → ℚ) (ops : InterfaceOps) (model : Model)
    (nbCellsY nbCellsZ : Int) (c : Cell) (hleaf : c.childrenCells = []) :
    (c.refineCellAndCellInterfacesRounded fl ops model nbCellsY nbCellsZ).childrenCells ≠ [] := by
  intro h
  have h1 := length_children_refineRounded_leaf fl ops model nbCellsY nbCellsZ c hleaf
  have h2 := numberCellsChildren_pos nbCellsY nbCellsZ
  rw [h] at h1
  simp at h1
  omega

/-- Every child created by the refinement of a leaf in `double` arithmetic is, up to its
interface list, the child that the children loop creates for some index. -/
theorem child_mem_refineRounded_leaf (fl : ℚ → ℚ) (ops : InterfaceOps) (model : Model)
    (nbCellsY nbCellsZ : Int) (c : Cell) (hleaf : c.childrenCells = []) :
    ∀ ch ∈ (c.refineCellAndCellInterfacesRounded fl ops model nbCellsY nbCellsZ).childrenCells,
      ∃ i, i < (refineDims nbCellsY nbCellsZ).numberCellsChildren ∧
        ch.stripCellInterfaces
          = (newChildRounded fl model c.data (refineDims nbCellsY nbCellsZ)
              i).stripCellInterfaces := by
  intro ch hch
  have h := children_refineRounded_leaf fl ops model nbCellsY nbCellsZ c hleaf
  have hmem : ch.stripCellInterfaces ∈
      (c.refineCellAndCellInterfacesRounded fl ops model nbCellsY nbCellsZ).childrenCells.map
        Cell.stripCellInterfaces := List.mem_map_of_mem _ hch
  rw [h] at hmem
  simp only [List.map_map, List.mem_map, List.mem_range, Function.comp] at hmem
  obtain ⟨i, hi, hi2⟩ := hmem
  exact ⟨i, hi, hi2.symm⟩

theorem children_of_refineRounded_leaf_are_leaves (fl : ℚ → ℚ) (ops : InterfaceOps)
    (model : Model) (nbCellsY nbCellsZ : Int) (c : Cell) (hleaf : c.childrenCells = []) :
    ∀ ch ∈ (c.refineCellAndCellInterfacesRounded fl ops model nbCellsY nbCellsZ).childrenCells,
      ch.childrenCells = [] := by
  intro ch hch
  obtain ⟨i, -, hi⟩ := child_mem_refineRounded_leaf fl ops model nbCellsY nbCellsZ c hleaf ch hch
  exact (child_fields_of_strip_rounded fl model c.data _ i ch hi).2.2.1

theorem volume_children_refineRounded_leaf (fl : ℚ → ℚ) (ops : InterfaceOps) (model : Model)
    (nbCellsY nbCellsZ : Int) (c : Cell) (hleaf : c.childrenCells = []) :
    ∀ ch ∈ (c.refineCellAndCellInterfacesRounded fl ops model nbCellsY nbCellsZ).childrenCells,
      ch.data.element.volume
        = c.data.element.volume / ((refineDims nbCellsY nbCellsZ).numberCellsChildren : ℚ) := by
  intro ch hch
  obtain ⟨i, -, hi⟩ := child_mem_refineRounded_leaf fl ops model nbCellsY nbCellsZ c hleaf ch hch
  rw [(child_fields_of_strip_rounded fl model c.data _ i ch hi).2.2.2.1]
  rfl

theorem map_leafVolume_refineRounded_leaf (fl : ℚ → ℚ) (ops : InterfaceOps) (model : Model)
    (nbCellsY nbCellsZ : Int) (c : Cell) (hleaf : c.childrenCells = []) :
    (c.refineCellAndCellInterfacesRounded fl ops model nbCellsY nbCellsZ).childrenCells.map
        Cell.leafVolume
      = List.replicate (refineDims nbCellsY nbCellsZ).numberCellsChildren
          (c.data.element.volume / ((refineDims nbCellsY nbCellsZ).numberCellsChildren : ℚ)) := by
  have hl := length_children_refineRounded_leaf fl ops model nbCellsY nbCellsZ c hleaf
  rw [List.eq_replicate_iff]
  refine ⟨by simpa using hl, ?_⟩
  intro v hv
  obtain ⟨ch, hch, rfl⟩ := List.mem_map.mp hv
  rw [leafVolume_eq, if_pos (by
    rw [children_of_refineRounded_leaf_are_leaves fl ops model nbCellsY nbCellsZ c hleaf ch hch]
    rfl)]
  exact volume_children_refineRounded_leaf fl ops model nbCellsY nbCellsZ c hleaf ch hch

theorem leafVolume_refineRounded_leaf (fl : ℚ → ℚ) (ops : InterfaceOps) (model : Model)
    (nbCellsY nbCellsZ : Int) (c : Cell) (hleaf : c.childrenCells = []) :
    (c.refineCellAndCellInterfacesRounded fl ops model nbCellsY nbCellsZ).leafVolume
      = c.leafVolume := by
  have hN := numberCellsChildren_pos nbCellsY nbCellsZ
  have hNq : ((refineDims nbCellsY nbCellsZ).numberCellsChildren : ℚ) ≠ 0 := by
    exact_mod_cast Nat.pos_iff_ne_zero.mp hN
  have hne : ¬ (c.refineCellAndCellInterfacesRounded fl ops model nbCellsY
      nbCellsZ).childrenCells.length = 0 := by
    rw [List.length_eq_zero]
    exact children_refineRounded_leaf_ne_nil fl ops model nbCellsY nbCellsZ c hleaf
  rw [leafVolume_eq, if_neg hne, leafVolumeChildren_eq_sum,
    map_leafVolume_refineRounded_leaf fl ops model nbCellsY nbCellsZ c hleaf,
    leafVolume_eq c, if_pos (by rw [hleaf]; rfl)]
  simp only [List.sum_replicate, nsmul_eq_mul]
  field_simp

theorem tiled_refineRounded_leaf (fl : ℚ → ℚ) (ops : InterfaceOps) (model : Model)
    (nbCellsY nbCellsZ : Int) (c : Cell) (hleaf : c.childrenCells = []) :
    (c.refineCellAndCellInterfacesRounded fl ops model nbCellsY nbCellsZ).Tiled := by
  rw [tiled_iff]
  refine ⟨Or.inr ?_, ?_⟩
  · have h := leafVolume_refineRounded_leaf fl ops model nbCellsY nbCellsZ c hleaf
    have hne : ¬ (c.refineCellAndCellInterfacesRounded fl ops model nbCellsY
        nbCellsZ).childrenCells.length = 0 := by
      rw [List.length_eq_zero]
      exact children_refineRounded_leaf_ne_nil fl ops model nbCellsY nbCellsZ c hleaf
    rw [leafVolume_eq, if_neg hne, leafVolume_eq c, if_pos (by rw [hleaf]; rfl)] at h
    rw [h, element_refineRounded]
  · rw [tiledChildren_iff]
    intro ch hch
    rw [tiled_iff,
      children_of_refineRounded_leaf_are_leaves fl ops model nbCellsY nbCellsZ c hleaf ch hch]
    exact ⟨Or.inl rfl, trivial⟩

theorem element_averageChildrenInParentRounded (fl : ℚ → ℚ) (model : Model) (c : Cell) :
    (c.averageChildrenInParentRounded fl model).data.element = c.data.element := by
  unfold Cell.averageChildrenInParentRounded
  simp only
  split <;> rfl

theorem element_unrefineRounded (fl : ℚ → ℚ) (ops : InterfaceOps) (model : Model) (c : Cell) :
    (c.unrefineCellAndCellInterfacesRounded fl ops model).data.element = c.data.element := by
  unfold Cell.unrefineCellAndCellInterfacesRounded
  simp only [Cell.data_mk]
  rw [element_foldl_unrefineExternal]
  simp only [Cell.data_mk]
  exact element_averageChildrenInParentRounded fl model c

theorem children_unrefineRounded (fl : ℚ → ℚ) (ops : InterfaceOps) (model : Model) (c : Cell) :
    (c.unrefineCellAndCellInterfacesRounded fl ops model).childrenCells = [] := rfl

theorem leafVolume_unrefineRounded (fl : ℚ → ℚ) (ops : InterfaceOps) (model : Model) (c : Cell) :
    (c.unrefineCellAndCellInterfacesRounded fl ops model).leafVolume = c.data.element.volume := by
  rw [leafVolume_eq, children_unrefineRounded, element_unrefineRounded]
  rfl

theorem tiled_unrefineRounded (fl : ℚ → ℚ) (ops : InterfaceOps) (model : Model) (c : Cell) :
    (c.unrefineCellAndCellInterfacesRounded fl ops model).Tiled := by
  rw [tiled_iff, children_unrefineRounded]
  exact ⟨Or.inl rfl, trivial⟩

theorem hasElement_of_ne (c : Cell) (h : c.data.element ≠ Element.empty) :
    c.hasElement = true := by
  unfold Cell.hasElement
  exact decide_eq_true h

theorem unrefineCall_eq_some (fl : ℚ → ℚ) (ops : InterfaceOps) (model : Model) (c : Cell)
    (hel : c.data.element ≠ Element.empty) :
    c.unrefineCellAndCellInterfacesCall fl ops model
      = some (c.unrefineCellAndCellInterfacesRounded fl ops model) := by
  unfold Cell.unrefineCellAndCellInterfacesCall
  rw [if_pos (hasElement_of_ne c hel)]

theorem unrefineCall_some (fl : ℚ → ℚ) (ops : InterfaceOps) (model : Model) (c c' : Cell)
    (h : c.unrefineCellAndCellInterfacesCall fl ops model = some c') :
    c' = c.unrefineCellAndCellInterfacesRounded fl ops model := by
  unfold Cell.unrefineCellAndCellInterfacesCall at h
  split at h
  · exact (Option.some.inj h).symm
  · cases h

/-- The call of the coarsening returns exactly on the cells that have an element. -/
theorem unrefineCall_returns_iff (fl : ℚ → ℚ) (ops : InterfaceOps) (model : Model) (c : Cell) :
    (∃ c', c.unrefineCellAndCellInterfacesCall fl ops model = some c') ↔
      c.data.element ≠ Element.empty := by
  constructor
  · rintro ⟨c', h⟩
    unfold Cell.unrefineCellAndCellInterfacesCall at h
    split at h
    · rename_i he
      simpa [Cell.hasElement] using he
    · cases h
  · intro hel
    exact ⟨_, unrefineCall_eq_some fl ops model c hel⟩

/-! ## Geometry of the children in `double` arithmetic -/

theorem element_of_refineCall_leaf (fl : ℚ → ℚ) (ops : InterfaceOps) (model : Model)
    (nbCellsY nbCellsZ : Int) (c : Cell) (hleaf : c.childrenCells = []) (c' : Cell)
    (hcall : c.refineCellAndCellInterfacesCall fl ops model nbCellsY nbCellsZ = some c')
    (i : Nat) (ch : Cell) (hi : i < (refineDims nbCellsY nbCellsZ).numberCellsChildren)
    (hch : c'.childrenCells[i]? = some ch) :
    ch.data.element = childElementRounded fl c.data.element (refineDims nbCellsY nbCellsZ) i := by
  have e := refineCall_some fl ops model nbCellsY nbCellsZ c c' hcall
  subst e
  obtain ⟨ch', hch', hstrip⟩ :=
    child_of_refineRounded_leaf fl ops model nbCellsY nbCellsZ c hleaf i hi
  rw [hch] at hch'
  cases hch'
  exact (child_fields_of_strip_rounded fl model c.data _ i ch hstrip).2.2.2.1

theorem child_of_refineCall_leaf (fl : ℚ → ℚ) (ops : InterfaceOps) (model : Model)
    (nbCellsY nbCellsZ : Int) (c : Cell) (hleaf : c.childrenCells = []) (c' : Cell)
    (hcall : c.refineCellAndCellInterfacesCall fl ops model nbCellsY nbCellsZ = some c')
    (i : Nat) (hi : i < (refineDims nbCellsY nbCellsZ).numberCellsChildren) :
    ∃ ch, c'.childrenCells[i]? = some ch ∧
      ch.data.element
        = childElementRounded fl c.data.element (refineDims nbCellsY nbCellsZ) i := by
  have e := refineCall_some fl ops model nbCellsY nbCellsZ c c' hcall
  obtain ⟨ch, hch, -⟩ := child_of_refineRounded_leaf fl ops model nbCellsY nbCellsZ c hleaf i hi
  rw [← e] at hch
  exact ⟨ch, hch,
    element_of_refineCall_leaf fl ops model nbCellsY nbCellsZ c hleaf c' hcall i ch hi hch⟩

theorem length_children_refineCall_leaf (fl : ℚ → ℚ) (ops : InterfaceOps) (model : Model)
    (nbCellsY nbCellsZ : Int) (c : Cell) (hleaf : c.childrenCells = []) (c' : Cell)
    (hcall : c.refineCellAndCellInterfacesCall fl ops model nbCellsY nbCellsZ = some c') :
    c'.childrenCells.length = (refineDims nbCellsY nbCellsZ).numberCellsChildren := by
  have e := refineCall_some fl ops model nbCellsY nbCellsZ c c' hcall
  subst e
  exact length_children_refineRounded_leaf fl ops model nbCellsY nbCellsZ c hleaf

/-- Sizes and centre of child `i` in `double` arithmetic: the sizes are the exact ones and each
component of the centre is the rounded exact component. -/
theorem childElementRounded_size_position (fl : ℚ → ℚ) (e : Element) (rd : RefineDims)
    (i : Nat) :
    (childElementRounded fl e rd i).size = (childElement e rd i).size ∧
      (childElementRounded fl e rd i).position.x = fl (childElement e rd i).position.x ∧
      (childElementRounded fl e rd i).position.y = fl (childElement e rd i).position.y ∧
      (childElementRounded fl e rd i).position.z = fl (childElement e rd i).position.z :=
  ⟨rfl, rfl, rfl, rfl⟩

/-- Sizes and centre of the exact child `i` along the three axes. -/
theorem childElement_size_position (e : Element) (nbCellsY nbCellsZ : Int) (i : Nat) :
    (childElement e (refineDims nbCellsY nbCellsZ) i).size.x = e.size.x / 2 ∧
      (childElement e (refineDims nbCellsY nbCellsZ) i).position.x = e.position.x +
        (if i % 2 = 0 then -(e.size.x / 4) else e.size.x / 4) ∧
      (if nbCellsY = 1 ∧ nbCellsZ = 1 then
        (childElement e (refineDims nbCellsY nbCellsZ) i).size.y = e.size.y ∧
          (childElement e (refineDims nbCellsY nbCellsZ) i).position.y = e.position.y
      else
        (childElement e (refineDims nbCellsY nbCellsZ) i).size.y = e.size.y / 2 ∧
          (childElement e (refineDims nbCellsY nbCellsZ) i).position.y = e.position.y +
            (if (i / 2) % 2 = 0 then -(e.size.y / 4) else e.size.y / 4)) ∧
      (if nbCellsZ = 1 then
        (childElement e (refineDims nbCellsY nbCellsZ) i).size.z = e.size.z ∧
          (childElement e (refineDims nbCellsY nbCellsZ) i).position.z = e.position.z
      else
        (childElement e (refineDims nbCellsY nbCellsZ) i).size.z = e.size.z / 2 ∧
          (childElement e (refineDims nbCellsY nbCellsZ) i).position.z = e.position.z +
            (if (i / 4) % 2 = 0 then -(e.size.z / 4) else e.size.z / 4)) := by
  have bx : i % 2 < 2 := Nat.mod_lt _ (by decide)
  have by' : i / 2 % 2 < 2 := Nat.mod_lt _ (by decide)
  have bz : i / 4 % 2 < 2 := Nat.mod_lt _ (by decide)
  rcases refineDims_cases nbCellsY nbCellsZ with ⟨h1, h⟩ | ⟨h1, h2, h⟩ | ⟨h1, h2, h⟩ <;>
    rw [h] <;> simp only [childElement]
  · have ex := axis_refined_size_centre e.position.x e.size.x _ bx
    have ey := axis_refined_size_centre e.position.y e.size.y _ by'
    have ez := axis_refined_size_centre e.position.z e.size.z _ bz
    have c1 : ¬ (nbCellsY = 1 ∧ nbCellsZ = 1) := fun hh => h1 hh.2
    rw [if_neg c1, if_neg h1]
    exact ⟨ex.1, ex.2, ey, ez⟩
  · have ex := axis_refined_size_centre e.position.x e.size.x _ bx
    have ey := axis_refined_size_centre e.position.y e.size.y _ by'
    have ez := axis_kept_size_centre e.position.z e.size.z (((i / 4) % 2 : Nat) : ℚ)
    have c1 : ¬ (nbCellsY = 1 ∧ nbCellsZ = 1) := fun hh => h2 hh.1
    rw [if_neg c1, if_pos h1]
    exact ⟨ex.1, ex.2, ey, ez⟩
  · have ex := axis_refined_size_centre e.position.x e.size.x _ bx
    have ey := axis_kept_size_centre e.position.y e.size.y (((i / 2) % 2 : Nat) : ℚ)
    have ez := axis_kept_size_centre e.position.z e.size.z (((i / 4) % 2 : Nat) : ℚ)
    have c1 : nbCellsY = 1 ∧ nbCellsZ = 1 := ⟨h2, h1⟩
    rw [if_pos c1, if_pos h1]
    exact ⟨ex.1, ex.2, ey, ez⟩

/-! ## Internal interfaces in `double` arithmetic -/

theorem refineInternalCellInterfaceRounded_eq (fl : ℚ → ℚ) (nbCellsY nbCellsZ : Int) (c : Cell) (i : Nat)
    (hlen : c.data.childrenInternalCellInterfaces.length = i) :
    refineInternalCellInterfaceRounded fl nbCellsY nbCellsZ c i
      = Cell.mk
          { c.data with
            childrenInternalCellInterfaces :=
              c.data.childrenInternalCellInterfaces
                ++ [internalCellInterfaceAtRounded fl nbCellsY nbCellsZ c i] }
          ((c.childrenCells.modify
              (fun ch => ch.addCellInterface (internalCellInterfaceAtRounded fl nbCellsY nbCellsZ c i))
              (internalCellInterfaceSpecRounded fl nbCellsY nbCellsZ c.data.element i).1).modify
            (fun ch => ch.addCellInterface (internalCellInterfaceAtRounded fl nbCellsY nbCellsZ c i))
            (internalCellInterfaceSpecRounded fl nbCellsY nbCellsZ c.data.element i).2.1) := by
  unfold refineInternalCellInterfaceRounded creerCellInterfaceChildInterne
  simp only
  subst hlen
  rw [modify_append_singleton]
  simp only [List.getElem?_append_right (le_refl _), Nat.sub_self, List.getElem?_cons_zero,
    List.get?_eq_getElem?]
  rfl

theorem internalCellInterfaceAtRounded_of_sameCore (fl : ℚ → ℚ) (nbCellsY nbCellsZ : Int) (c c' : Cell)
    (h : c.SameCore c') (i : Nat) :
    internalCellInterfaceAtRounded fl nbCellsY nbCellsZ c' i = internalCellInterfaceAtRounded fl nbCellsY nbCellsZ c i := by
  unfold internalCellInterfaceAtRounded
  have he : c'.data.element = c.data.element := by
    have h1 := congrArg CellData.element h.1
    exact h1
  have hl : c'.data.lvl = c.data.lvl := by
    have h1 := congrArg CellData.lvl h.1
    exact h1
  rw [he, hl, childRef_of_sameCore c c' h, childRef_of_sameCore c c' h]

/-- State of the cell after `n` passes of the internal-interface loops, when the cell had no
internal child interface before. -/
theorem foldl_refineInternalCellInterfaceRounded (fl : ℚ → ℚ) (nbCellsY nbCellsZ : Int) (c0 : Cell)
    (hint : c0.data.childrenInternalCellInterfaces = []) (n : Nat) :
    ((List.range n).foldl (refineInternalCellInterfaceRounded fl nbCellsY nbCellsZ)
        c0).data.childrenInternalCellInterfaces
        = (List.range n).map (internalCellInterfaceAtRounded fl nbCellsY nbCellsZ c0) ∧
      c0.SameCore ((List.range n).foldl (refineInternalCellInterfaceRounded fl nbCellsY nbCellsZ) c0) ∧
      ∀ i : Nat, i < n →
        (internalCellInterfaceSpecRounded fl nbCellsY nbCellsZ c0.data.element i).1
          < c0.childrenCells.length →
        (internalCellInterfaceSpecRounded fl nbCellsY nbCellsZ c0.data.element i).2.1
          < c0.childrenCells.length →
        HoldsAt ((List.range n).foldl (refineInternalCellInterfaceRounded fl nbCellsY nbCellsZ)
            c0).childrenCells
          (internalCellInterfaceSpecRounded fl nbCellsY nbCellsZ c0.data.element i).1
          (internalCellInterfaceAtRounded fl nbCellsY nbCellsZ c0 i) ∧
        HoldsAt ((List.range n).foldl (refineInternalCellInterfaceRounded fl nbCellsY nbCellsZ)
            c0).childrenCells
          (internalCellInterfaceSpecRounded fl nbCellsY nbCellsZ c0.data.element i).2.1
          (internalCellInterfaceAtRounded fl nbCellsY nbCellsZ c0 i) := by
  induction n with
  | zero => exact ⟨by simpa using hint, Cell.SameCore.refl c0, fun i hi => absurd hi (by omega)⟩
  | succ n ih =>
    obtain ⟨h1, h2, h3⟩ := ih
    rw [List.range_succ, List.foldl_append]
    simp only [List.foldl_cons, List.foldl_nil]
    have hlen : ((List.range n).foldl (refineInternalCellInterfaceRounded fl nbCellsY nbCellsZ)
        c0).data.childrenInternalCellInterfaces.length = n := by
      rw [h1]; simp
    have hel : ((List.range n).foldl (refineInternalCellInterfaceRounded fl nbCellsY nbCellsZ)
        c0).data.element = c0.data.element := by
      have h4 := congrArg CellData.element h2.1
      exact h4
    rw [refineInternalCellInterfaceRounded_eq fl nbCellsY nbCellsZ _ n hlen,
      internalCellInterfaceAtRounded_of_sameCore fl nbCellsY nbCellsZ c0 _ h2, hel]
    refine ⟨?_, ?_, ?_⟩
    · simp only [Cell.data_mk, h1, List.map_append, List.map_cons, List.map_nil]
    · refine Cell.SameCore.trans h2 ⟨rfl, ?_⟩
      simp only [Cell.childrenCells_mk]
      rw [map_strip_modify_add, map_strip_modify_add]
    · intro i hi hg hd
      simp only [Cell.childrenCells_mk]
      rcases Nat.lt_succ_iff_lt_or_eq.mp hi with hlt | heq
      · obtain ⟨a, b⟩ := h3 i hlt hg hd
        exact ⟨holdsAt_modify_add _ _ _ _ _ (holdsAt_modify_add _ _ _ _ _ a),
          holdsAt_modify_add _ _ _ _ _ (holdsAt_modify_add _ _ _ _ _ b)⟩
      · subst heq
        have hl := length_of_sameCore c0 _ h2
        refine ⟨holdsAt_modify_add _ _ _ _ _ (holdsAt_modify_add_self _ _ _ (by rw [hl]; exact hg)),
          holdsAt_modify_add_self _ _ _ (by rw [List.length_modify, hl]; exact hd)⟩

/-- The rounding changes neither the children joined by an internal interface nor the normal,
the tangent, the binormal and the sizes of its face. -/
theorem internalCellInterfaceSpecRounded_indices (fl : ℚ → ℚ) (nbCellsY nbCellsZ : Int)
    (e : Element) (i : Nat) :
    (internalCellInterfaceSpecRounded fl nbCellsY nbCellsZ e i).1
        = (internalCellInterfaceSpec nbCellsY nbCellsZ e i).1 ∧
      (internalCellInterfaceSpecRounded fl nbCellsY nbCellsZ e i).2.1
        = (internalCellInterfaceSpec nbCellsY nbCellsZ e i).2.1 ∧
      (internalCellInterfaceSpecRounded fl nbCellsY nbCellsZ e i).2.2.normal
        = (internalCellInterfaceSpec nbCellsY nbCellsZ e i).2.2.normal ∧
      (internalCellInterfaceSpecRounded fl nbCellsY nbCellsZ e i).2.2.size
        = (internalCellInterfaceSpec nbCellsY nbCellsZ e i).2.2.size := by
  unfold internalCellInterfaceSpecRounded internalCellInterfaceSpec
  simp only
  split_ifs <;> exact ⟨rfl, rfl, rfl, rfl⟩

/-- Each component of the position of the face of an internal interface in `double` arithmetic
is the rounding of the exact component, or the exact component where the code copies the centre
of the parent. -/
theorem internalCellInterfaceSpecRounded_pos (fl : ℚ → ℚ) (nbCellsY nbCellsZ : Int)
    (e : Element) (i : Nat) :
    ((internalCellInterfaceSpecRounded fl nbCellsY nbCellsZ e i).2.2.pos.x
        = fl (internalCellInterfaceSpec nbCellsY nbCellsZ e i).2.2.pos.x ∨
      (internalCellInterfaceSpecRounded fl nbCellsY nbCellsZ e i).2.2.pos.x = e.position.x) ∧
    ((internalCellInterfaceSpecRounded fl nbCellsY nbCellsZ e i).2.2.pos.y
        = fl (internalCellInterfaceSpec nbCellsY nbCellsZ e i).2.2.pos.y ∨
      (internalCellInterfaceSpecRounded fl nbCellsY nbCellsZ e i).2.2.pos.y = e.position.y) ∧
    ((internalCellInterfaceSpecRounded fl nbCellsY nbCellsZ e i).2.2.pos.z
        = fl (internalCellInterfaceSpec nbCellsY nbCellsZ e i).2.2.pos.z ∨
      (internalCellInterfaceSpecRounded fl nbCellsY nbCellsZ e i).2.2.pos.z = e.position.z) := by
  unfold internalCellInterfaceSpecRounded internalCellInterfaceSpec
  simp only
  split_ifs <;> simp

theorem refineChildrenRounded_leaf (fl : ℚ → ℚ) (model : Model) (rd : RefineDims) (c : Cell)
    (hleaf : c.childrenCells = []) :
    refineChildrenRounded fl model rd c
      = Cell.mk c.data
          ((List.range rd.numberCellsChildren).map (newChildRounded fl model c.data rd)) :=
  foldl_refineChildRounded_leaf fl model rd c hleaf _

/-- The internal interfaces left by the refinement of a leaf in `double` arithmetic: interface
`j` of the creation order is held by the cell and by the two children it joins, points to them,
and carries the face of the creation order. -/
theorem internal_of_refineRounded_leaf (fl : ℚ → ℚ) (ops : InterfaceOps) (model : Model)
    (nbCellsY nbCellsZ : Int) (c : Cell) (hleaf : c.childrenCells = [])
    (hint : c.data.childrenInternalCellInterfaces = []) :
    (c.refineCellAndCellInterfacesRounded fl ops model nbCellsY
        nbCellsZ).data.childrenInternalCellInterfaces.length
        = numberInternalCellInterfaces nbCellsY nbCellsZ ∧
      ∀ j : Nat, j < numberInternalCellInterfaces nbCellsY nbCellsZ →
        ∃ (b : CellInterface) (chg chd : Cell),
          (c.refineCellAndCellInterfacesRounded fl ops model nbCellsY
            nbCellsZ).data.childrenInternalCellInterfaces[j]? = some b ∧
          (c.refineCellAndCellInterfacesRounded fl ops model nbCellsY nbCellsZ).childrenCells[
            (internalCellInterfaceSpec nbCellsY nbCellsZ c.data.element j).1]? = some chg ∧
          (c.refineCellAndCellInterfacesRounded fl ops model nbCellsY nbCellsZ).childrenCells[
            (internalCellInterfaceSpec nbCellsY nbCellsZ c.data.element j).2.1]? = some chd ∧
          b.data.cellGauche = chg.ref ∧
          b.data.kind = .internal chd.ref ∧
          b.data.face = (internalCellInterfaceSpecRounded fl nbCellsY nbCellsZ c.data.element
            j).2.2 ∧
          chg.data.element = childElementRounded fl c.data.element (refineDims nbCellsY nbCellsZ)
            (internalCellInterfaceSpec nbCellsY nbCellsZ c.data.element j).1 ∧
          chd.data.element = childElementRounded fl c.data.element (refineDims nbCellsY nbCellsZ)
            (internalCellInterfaceSpec nbCellsY nbCellsZ c.data.element j).2.1 ∧
          b ∈ chg.data.cellInterfaces ∧
          b ∈ chd.data.cellInterfaces := by
  have hc1 : refineChildrenRounded fl model (refineDims nbCellsY nbCellsZ)
      (Cell.mk { c.data with split := true } c.childrenCells)
      = Cell.mk { c.data with split := true }
          ((List.range (refineDims nbCellsY nbCellsZ).numberCellsChildren).map
            (newChildRounded fl model c.data (refineDims nbCellsY nbCellsZ))) :=
    refineChildrenRounded_leaf fl model _ _ (by simpa using hleaf)
  obtain ⟨hL, hS, hH⟩ := foldl_refineInternalCellInterfaceRounded fl nbCellsY nbCellsZ
    (refineChildrenRounded fl model (refineDims nbCellsY nbCellsZ)
      (Cell.mk { c.data with split := true } c.childrenCells))
    (by rw [hc1]; exact hint) (numberInternalCellInterfaces nbCellsY nbCellsZ)
  obtain ⟨hE1, hE2⟩ := foldl_refineExternalCellInterface_internal ops nbCellsY nbCellsZ
    c.data.element.size.x c.data.element.size.y c.data.element.size.z
    (refineDims nbCellsY nbCellsZ).dim
    (List.range (refineInternalCellInterfacesRounded fl nbCellsY nbCellsZ
      (refineChildrenRounded fl model (refineDims nbCellsY nbCellsZ)
        (Cell.mk { c.data with split := true } c.childrenCells))).data.cellInterfaces.length)
    (refineInternalCellInterfacesRounded fl nbCellsY nbCellsZ
      (refineChildrenRounded fl model (refineDims nbCellsY nbCellsZ)
        (Cell.mk { c.data with split := true } c.childrenCells)))
  have hLfinal : (c.refineCellAndCellInterfacesRounded fl ops model nbCellsY
      nbCellsZ).data.childrenInternalCellInterfaces
      = (List.range (numberInternalCellInterfaces nbCellsY nbCellsZ)).map
          (internalCellInterfaceAtRounded fl nbCellsY nbCellsZ
            (refineChildrenRounded fl model (refineDims nbCellsY nbCellsZ)
              (Cell.mk { c.data with split := true } c.childrenCells))) := by
    rw [← hL]; exact hE1
  have hel1 : (refineChildrenRounded fl model (refineDims nbCellsY nbCellsZ)
      (Cell.mk { c.data with split := true } c.childrenCells)).data.element
      = c.data.element := by
    rw [hc1]; rfl
  have hlen1 : (refineChildrenRounded fl model (refineDims nbCellsY nbCellsZ)
      (Cell.mk { c.data with split := true } c.childrenCells)).childrenCells.length
      = (refineDims nbCellsY nbCellsZ).numberCellsChildren := by
    rw [hc1]; simp
  refine ⟨by rw [hLfinal]; simp, ?_⟩
  intro j hj
  obtain ⟨i1, i2, -, -⟩ :=
    internalCellInterfaceSpecRounded_indices fl nbCellsY nbCellsZ c.data.element j
  obtain ⟨axis, hax, hd, hbit, hdN, -, -⟩ :=
    internalCellInterfaceSpec_face nbCellsY nbCellsZ c.data.element j hj
  have hgN : (internalCellInterfaceSpec nbCellsY nbCellsZ c.data.element j).1
      < (refineDims nbCellsY nbCellsZ).numberCellsChildren := by
    have hpow : 0 < 2 ^ axis := Nat.pow_pos (by decide)
    omega
  rw [hel1] at hH
  have hH' := hH j hj (by rw [hlen1, i1]; exact hgN) (by rw [hlen1, i2]; exact hdN)
  rw [i1, i2] at hH'
  obtain ⟨⟨chg0, hchg0, hmemg0⟩, ⟨chd0, hchd0, hmemd0⟩⟩ := hH'
  obtain ⟨chg, hchg, hmemg⟩ := hE2 _ _ ⟨chg0, hchg0, hmemg0⟩
  obtain ⟨chd, hchd, hmemd⟩ := hE2 _ _ ⟨chd0, hchd0, hmemd0⟩
  have hchg' : (c.refineCellAndCellInterfacesRounded fl ops model nbCellsY
      nbCellsZ).childrenCells[
      (internalCellInterfaceSpec nbCellsY nbCellsZ c.data.element j).1]? = some chg := hchg
  have hchd' : (c.refineCellAndCellInterfacesRounded fl ops model nbCellsY
      nbCellsZ).childrenCells[
      (internalCellInterfaceSpec nbCellsY nbCellsZ c.data.element j).2.1]? = some chd := hchd
  have helem : ∀ i ch, i < (refineDims nbCellsY nbCellsZ).numberCellsChildren →
      (c.refineCellAndCellInterfacesRounded fl ops model nbCellsY nbCellsZ).childrenCells[i]?
        = some ch →
      ch.data.element
        = childElementRounded fl c.data.element (refineDims nbCellsY nbCellsZ) i := by
    intro i ch hi hch
    obtain ⟨ch', hch', hstrip⟩ :=
      child_of_refineRounded_leaf fl ops model nbCellsY nbCellsZ c hleaf i hi
    rw [hch] at hch'
    cases hch'
    exact (child_fields_of_strip_rounded fl model c.data _ i ch hstrip).2.2.2.1
  have hsame := sameCore_refineRounded fl ops model nbCellsY nbCellsZ c
  have hrefg := childRef_of_sameCore _ _ hsame
    (internalCellInterfaceSpec nbCellsY nbCellsZ c.data.element j).1
  have hrefd := childRef_of_sameCore _ _ hsame
    (internalCellInterfaceSpec nbCellsY nbCellsZ c.data.element j).2.1
  have hg_ref : (c.refineCellAndCellInterfacesRounded fl ops model nbCellsY nbCellsZ).childRef
      (internalCellInterfaceSpec nbCellsY nbCellsZ c.data.element j).1 = chg.ref := by
    unfold Cell.childRef
    rw [List.getD_eq_getElem?_getD, hchg']; rfl
  have hd_ref : (c.refineCellAndCellInterfacesRounded fl ops model nbCellsY nbCellsZ).childRef
      (internalCellInterfaceSpec nbCellsY nbCellsZ c.data.element j).2.1 = chd.ref := by
    unfold Cell.childRef
    rw [List.getD_eq_getElem?_getD, hchd']; rfl
  refine ⟨internalCellInterfaceAtRounded fl nbCellsY nbCellsZ
      (refineChildrenRounded fl model (refineDims nbCellsY nbCellsZ)
        (Cell.mk { c.data with split := true } c.childrenCells)) j, chg, chd, ?_, hchg',
    hchd', ?_, ?_, ?_, helem _ chg hgN hchg', helem _ chd hdN hchd', hmemg, hmemd⟩
  · rw [hLfinal]
    simp [List.getElem?_range, hj]
  · simp only [internalCellInterfaceAtRounded, CellInterface.interfaceData_mk, hel1, i1]
    rw [← hg_ref, hrefg]
  · simp only [internalCellInterfaceAtRounded, CellInterface.interfaceData_mk, hel1, i2]
    rw [← hd_ref, hrefd]
  · simp only [internalCellInterfaceAtRounded, CellInterface.interfaceData_mk, hel1]

/-! ## Averaging of the children into the parent in `double` arithmetic -/

theorem getD_zipWith_of_lt {f : ℚ → ℚ → ℚ} (a b : List ℚ) (j : Nat) (ha : j < a.length)
    (hb : j < b.length) :
    (List.zipWith f a b).getD j 0 = f (a.getD j 0) (b.getD j 0) := by
  simp [List.getD_eq_getElem?_getD, List.getElem?_zipWith, List.getElem?_eq_getElem ha,
    List.getElem?_eq_getElem hb]

/-- Accumulating a list of buffers of one length into a buffer of that length in `double`
arithmetic adds to each component, one after the other, the rounded components of the list. -/
theorem foldl_addFluxRounded_comps (fl : ℚ → ℚ) (snaps : List Flux) (acc : Flux) (n : Nat)
    (hacc : acc.comps.length = n) (hs : ∀ s ∈ snaps, s.comps.length = n) :
    (snaps.foldl (fun a s => a.addFluxRounded fl s 1) acc).comps
      = (List.range n).map
          (fun j => (snaps.map (fun s => fl (1 * s.comps.getD j 0))).foldl
            (fun a t => fl (a + t)) (acc.comps.getD j 0)) := by
  induction snaps generalizing acc with
  | nil =>
    simp only [List.foldl_nil, List.map_nil]
    rw [← hacc]; exact comps_eq_range_getD _
  | cons s t ih =>
    have hsl : s.comps.length = n := hs s (List.mem_cons_self _ _)
    have hacc2 : (acc.addFluxRounded fl s 1).comps.length = n := by
      simp [Flux.addFluxRounded, hacc, hsl]
    rw [List.foldl_cons,
      ih (acc.addFluxRounded fl s 1) hacc2 (fun x hx => hs x (List.mem_cons_of_mem _ hx))]
    apply List.map_congr_left
    intro j hj
    have hjn : j < n := List.mem_range.mp hj
    simp only [Flux.addFluxRounded, List.map_cons, List.foldl_cons]
    rw [getD_zipWith_of_lt _ _ j (by rw [hacc]; exact hjn) (by rw [hsl]; exact hjn)]

/-- The buffer from which `averageChildrenInParent` rebuilds the parent in `double`
arithmetic. -/
theorem averaged_cons_eq_meanFluxRounded (fl : ℚ → ℚ) (model : Model) (c : Cell)
    (hs : ∀ ch ∈ c.childrenCells,
      (model.setBufferFlux ch.data.vecPhases ch.data.mixture c.data.numberPhases).comps.length
        = c.data.cons.comps.length) :
    (c.childrenCells.foldl
        (fun acc ch =>
          acc.addFluxRounded fl
            (model.setBufferFlux ch.data.vecPhases ch.data.mixture c.data.numberPhases) 1)
        c.data.cons.setToZero).multiplyRounded fl (fl (1 / (c.childrenCells.length : ℚ)))
      = meanFluxRounded fl (childSnapshots model c) c.data.cons.comps.length := by
  have h1 : c.childrenCells.foldl
        (fun acc ch =>
          acc.addFluxRounded fl
            (model.setBufferFlux ch.data.vecPhases ch.data.mixture c.data.numberPhases) 1)
        c.data.cons.setToZero
      = (childSnapshots model c).foldl (fun a s => a.addFluxRounded fl s 1)
          c.data.cons.setToZero := by
    unfold childSnapshots; rw [List.foldl_map]
  rw [h1]
  have h2 := foldl_addFluxRounded_comps fl (childSnapshots model c) c.data.cons.setToZero
    c.data.cons.comps.length (by simp [Flux.setToZero]) (by
      intro s hs'
      unfold childSnapshots at hs'
      obtain ⟨ch, hch, rfl⟩ := List.mem_map.mp hs'
      exact hs ch hch)
  unfold Flux.multiplyRounded meanFluxRounded sumRounded
  rw [h2]
  congr 1
  rw [List.map_map]
  apply List.map_congr_left
  intro j _
  simp only [Function.comp, getD_setToZero]
  simp [childSnapshots]

/-- The fields written by `averageChildrenInParent` in `double` arithmetic on a cell that has
children. -/
theorem averageChildrenInParentRounded_of_children (fl : ℚ → ℚ) (model : Model) (c : Cell)
    (hN : 0 < c.childrenCells.length)
    (hs : ∀ ch ∈ c.childrenCells,
      (model.setBufferFlux ch.data.vecPhases ch.data.mixture c.data.numberPhases).comps.length
        = c.data.cons.comps.length) :
    c.averageChildrenInParentRounded fl model =
      Cell.mk
        { c.data with
          vecPhases := (model.relaxations
            (model.buildPrim
              (meanFluxRounded fl (childSnapshots model c) c.data.cons.comps.length)
              c.data.vecPhases c.data.mixture c.data.numberPhases).1
            (model.buildPrim
              (meanFluxRounded fl (childSnapshots model c) c.data.cons.comps.length)
              c.data.vecPhases c.data.mixture c.data.numberPhases).2 c.data.numberPhases).1
          mixture := (model.relaxations
            (model.buildPrim
              (meanFluxRounded fl (childSnapshots model c) c.data.cons.comps.length)
              c.data.vecPhases c.data.mixture c.data.numberPhases).1
            (model.buildPrim
              (meanFluxRounded fl (childSnapshots model c) c.data.cons.comps.length)
              c.data.vecPhases c.data.mixture c.data.numberPhases).2 c.data.numberPhases).2
          vecTransports := c.data.vecTransports.mapIdx (fun k t =>
            if k < c.data.numberTransports then
              fl (sumRounded fl (c.childrenCells.map (fun ch => ch.data.vecTransports.getD k 0))
                / (c.childrenCells.length : ℚ))
            else t)
          cons :=
            (meanFluxRounded fl (childSnapshots model c) c.data.cons.comps.length).setToZero
          consTransports := c.data.consTransports.mapIdx (fun k t =>
            if k < c.data.numberTransports then 0 else t) }
        c.childrenCells := by
  have hmean := averaged_cons_eq_meanFluxRounded fl model c hs
  unfold Cell.averageChildrenInParentRounded
  simp only [gt_iff_lt, hN, if_true]
  rw [hmean]
  congr 2
  simp only [sumRounded, List.foldl_map]

/-- The transports written by `averageChildrenInParent` in `double` arithmetic on a cell that
has children, whatever the shape of the conservative buffers. -/
theorem vecTransports_averageChildrenInParentRounded (fl : ℚ → ℚ) (model : Model) (c : Cell)
    (hN : 0 < c.childrenCells.length) :
    (c.averageChildrenInParentRounded fl model).data.vecTransports
      = c.data.vecTransports.mapIdx (fun k t =>
          if k < c.data.numberTransports then
            fl (sumRounded fl (c.childrenCells.map (fun ch => ch.data.vecTransports.getD k 0))
              / (c.childrenCells.length : ℚ))
          else t) := by
  unfold Cell.averageChildrenInParentRounded
  simp only [gt_iff_lt, hN, if_true, Cell.data_mk]
  simp only [sumRounded, List.foldl_map]

theorem exampleTenthParent_transport :
    (exampleTenthParent.averageChildrenInParentRounded roundDouble
      Model.trivial).data.vecTransports = [1351079888211149 / 9007199254740992] := by
  rw [vecTransports_averageChildrenInParentRounded roundDouble Model.trivial exampleTenthParent
    (by decide)]
  simp [sumRounded, exampleTenthParent, Cell.new]
  norm_num [exampleTenth, exampleFifth, roundDouble_tenth_sum_one, roundDouble_tenth_plus_fifth,
    roundDouble_tenth_plus_fifth_half]

/-! ## Refinement followed by coarsening in `double` arithmetic -/

/-- The own fields left by a coarsening in `double` arithmetic, apart from the interface lists,
are those left by the averaging with `split` cleared. -/
theorem core_unrefineRounded (fl : ℚ → ℚ) (ops : InterfaceOps) (model : Model) (c : Cell) :
    (c.unrefineCellAndCellInterfacesRounded fl ops model).data.core
      = ({ (c.averageChildrenInParentRounded fl model).data with split := false } :
          CellData).core := by
  unfold Cell.unrefineCellAndCellInterfacesRounded
  simp only [Cell.data_mk]
  have h := (sameCore_foldl (unrefineExternalCellInterface ops)
    (sameCore_unrefineExternalCellInterface ops)
    (List.range (Cell.mk { (c.averageChildrenInParentRounded fl model).data with
        childrenInternalCellInterfaces := [] }
      (c.averageChildrenInParentRounded fl model).childrenCells).data.cellInterfaces.length)
    (Cell.mk { (c.averageChildrenInParentRounded fl model).data with
        childrenInternalCellInterfaces := [] }
      (c.averageChildrenInParentRounded fl model).childrenCells)).1
  have h1 := congrArg (fun d : CellData => ({ d with split := false } : CellData)) h
  exact h1

theorem internal_unrefineRounded (fl : ℚ → ℚ) (ops : InterfaceOps) (model : Model) (c : Cell) :
    (c.unrefineCellAndCellInterfacesRounded fl ops model).data.childrenInternalCellInterfaces
      = [] := by
  unfold Cell.unrefineCellAndCellInterfacesRounded
  simp only [Cell.data_mk]
  generalize (List.range _) = l
  generalize hc2 : (Cell.mk { (c.averageChildrenInParentRounded fl model).data with
      childrenInternalCellInterfaces := [] }
      (c.averageChildrenInParentRounded fl model).childrenCells) = c2
  have h0 : c2.data.childrenInternalCellInterfaces = [] := by rw [← hc2]; rfl
  clear hc2
  induction l generalizing c2 with
  | nil => exact h0
  | cons b t ih =>
    rw [List.foldl_cons]
    apply ih
    unfold unrefineExternalCellInterface
    split
    · exact h0
    · exact h0

/-- Every child of a leaf cell refined in `double` arithmetic holds the physical state given by
the children loop. -/
theorem children_of_refineRounded_leaf_fields (fl : ℚ → ℚ) (ops : InterfaceOps) (model : Model)
    (nbCellsY nbCellsZ : Int) (c : Cell) (hleaf : c.childrenCells = []) (ch : Cell)
    (hch : ch ∈ (c.refineCellAndCellInterfacesRounded fl ops model nbCellsY
      nbCellsZ).childrenCells) :
    ch.data.mixture = c.data.mixture ∧
      ch.data.vecPhases = (List.range c.data.numberPhases).map
        (fun k => c.data.vecPhases.getD k model.allocatePhase) ∧
      ch.data.vecTransports = (List.range c.data.numberTransports).map
        (fun k => c.data.vecTransports.getD k 0) := by
  obtain ⟨i, -, hi⟩ := child_mem_refineRounded_leaf fl ops model nbCellsY nbCellsZ c hleaf ch hch
  obtain ⟨-, -, -, -, -, hmx, hph, htr, -⟩ :=
    child_fields_of_strip_rounded fl model c.data _ i ch hi
  exact ⟨hmx, hph, htr⟩

theorem map_const_eq_replicate {α β : Type} (l : List α) (v : β) :
    l.map (fun _ => v) = List.replicate l.length v := by
  induction l with
  | nil => rfl
  | cons x t ih => simp [List.replicate_succ, ih]

/-- The averaging in `double` arithmetic over the children of a refined leaf cell: transport
`k` is the rounded sum of `N` copies of the transport `k` of the cell, divided by `N`. -/
theorem vecTransports_average_refineRounded_leaf (fl : ℚ → ℚ) (ops : InterfaceOps)
    (model : Model) (nbCellsY nbCellsZ : Int) (c : Cell) (hleaf : c.childrenCells = []) :
    ((c.refineCellAndCellInterfacesRounded fl ops model nbCellsY
      nbCellsZ).averageChildrenInParentRounded fl model).data.vecTransports
      = c.data.vecTransports.mapIdx (fun k t =>
          if k < c.data.numberTransports then
            fl (sumRounded fl
              (List.replicate (refineDims nbCellsY nbCellsZ).numberCellsChildren
                (c.data.vecTransports.getD k 0))
              / ((refineDims nbCellsY nbCellsZ).numberCellsChildren : ℚ))
          else t) := by
  have hlen := length_children_refineRounded_leaf fl ops model nbCellsY nbCellsZ c hleaf
  have hN : 0 < (c.refineCellAndCellInterfacesRounded fl ops model nbCellsY
      nbCellsZ).childrenCells.length := by
    rw [hlen]
    exact numberCellsChildren_pos nbCellsY nbCellsZ
  have hcore := core_refineRounded fl ops model nbCellsY nbCellsZ c
  have htr : (c.refineCellAndCellInterfacesRounded fl ops model nbCellsY
      nbCellsZ).data.vecTransports = c.data.vecTransports := by
    have h1 := congrArg CellData.vecTransports hcore
    exact h1
  have hnt : (c.refineCellAndCellInterfacesRounded fl ops model nbCellsY
      nbCellsZ).data.numberTransports = c.data.numberTransports := by
    have h1 := congrArg CellData.numberTransports hcore
    exact h1
  rw [vecTransports_averageChildrenInParentRounded fl model _ hN, htr, hnt, hlen]
  apply List.ext_getElem
  · simp
  · intro k h1 h2
    simp only [List.getElem_mapIdx]
    split
    · rename_i hk
      have hsum : (c.refineCellAndCellInterfacesRounded fl ops model nbCellsY
            nbCellsZ).childrenCells.map (fun ch => ch.data.vecTransports.getD k 0)
          = List.replicate (refineDims nbCellsY nbCellsZ).numberCellsChildren
              (c.data.vecTransports.getD k 0) := by
        rw [← hlen, ← map_const_eq_replicate]
        apply List.map_congr_left
        intro ch hch
        rw [(children_of_refineRounded_leaf_fields fl ops model nbCellsY nbCellsZ c hleaf ch
          hch).2.2]
        simp [List.getD_eq_getElem?_getD, List.getElem?_range hk]
      rw [hsum]
    · rfl

/-! ## Number, level and keys of the children (C3) -/

/-- C3: the call of `refineCellAndCellInterfaces` on a leaf cell that has an element and holds a
two-sided interface returns and has created exactly `N` children, `N` being 2 when
`nbCellsY = 1` and `nbCellsZ = 1`, 4 when `nbCellsZ = 1` and `nbCellsY ≠ 1`, and 8 otherwise;
child `i` has the level of the cell plus one and the key `key.child(i)`, whose coordinate is
twice the coordinate of the parent key plus `(i mod 2, (i/2) mod 2, (i/4) mod 2)` and whose level
is the level of the parent key plus one, so that the child key is a function of the parent key
and of `i` only, whatever the rounding of the `double` arithmetic. -/
theorem refine_children_number_level_key (fl : ℚ → ℚ) (ops : InterfaceOps) (model : Model)
    (nbCellsY nbCellsZ : Int) (c : Cell) (hleaf : c.childrenCells = [])
    (hel : c.data.element ≠ Element.empty)
    (href : ∃ b ∈ c.data.cellInterfaces, b.whoAmI = 0) :
    ∃ c', c.refineCellAndCellInterfacesCall fl ops model nbCellsY nbCellsZ = some c' ∧
      c'.childrenCells.length
        = (if nbCellsY = 1 ∧ nbCellsZ = 1 then 2 else if nbCellsZ = 1 then 4 else 8) ∧
      ∀ i : Nat, i < (if nbCellsY = 1 ∧ nbCellsZ = 1 then 2 else if nbCellsZ = 1 then 4 else 8) →
        ∃ ch, c'.childrenCells[i]? = some ch ∧
          ch.data.lvl = c.data.lvl + 1 ∧
          ch.data.element.key = c.data.element.key.child i ∧
          ch.data.element.key =
            ⟨⟨2 * c.data.element.key.coordinate.x + ((i % 2 : Nat) : Int),
              2 * c.data.element.key.coordinate.y + (((i / 2) % 2 : Nat) : Int),
              2 * c.data.element.key.coordinate.z + (((i / 4) % 2 : Nat) : Int)⟩,
             c.data.element.key.level + 1⟩ := by
  have hN : (refineDims nbCellsY nbCellsZ).numberCellsChildren
      = (if nbCellsY = 1 ∧ nbCellsZ = 1 then 2 else if nbCellsZ = 1 then 4 else 8) := by
    unfold refineDims
    by_cases hz : nbCellsZ = 1 <;> by_cases hy : nbCellsY = 1 <;> simp [hz, hy]
  refine ⟨_, refineCall_eq_some fl ops model nbCellsY nbCellsZ c hel href, ?_, ?_⟩
  · rw [length_children_refineRounded_leaf fl ops model nbCellsY nbCellsZ c hleaf, hN]
  · intro i hi
    obtain ⟨ch, hch, hstrip⟩ :=
      child_of_refineRounded_leaf fl ops model nbCellsY nbCellsZ c hleaf i (by rw [hN]; exact hi)
    obtain ⟨hlvl, -, -, hel', -⟩ := child_fields_of_strip_rounded fl model c.data _ i ch hstrip
    refine ⟨ch, hch, hlvl, ?_, ?_⟩
    · rw [hel', childElementRounded_key]
    · rw [hel', childElementRounded_key]; rfl

theorem refine_children_number_level_key_witness :
    exampleRowLeaf.childrenCells = [] ∧ exampleRowLeaf.data.element ≠ Element.empty ∧
      (∃ b ∈ exampleRowLeaf.data.cellInterfaces, b.whoAmI = 0) ∧
      ∃ c', exampleRowLeaf.refineCellAndCellInterfacesCall roundDouble InterfaceOps.identity
          Model.trivial 1 1 = some c' ∧
        c'.childrenCells.length = 2 ∧
        ∃ ch, c'.childrenCells[1]? = some ch ∧ ch.data.lvl = 1 ∧
          ch.data.element.key = ⟨⟨1, 0, 0⟩, 1⟩ :=
  ⟨rfl, exampleRowLeaf_element, exampleRowLeaf_cellInterfaceRef,
    match refine_children_number_level_key roundDouble InterfaceOps.identity Model.trivial 1 1
      exampleRowLeaf rfl exampleRowLeaf_element exampleRowLeaf_cellInterfaceRef with
    | ⟨c', h1, h2, h3⟩ =>
      ⟨c', h1, h2,
        match h3 1 (by decide) with
        | ⟨ch, g1, g2, _, g4⟩ => ⟨ch, g1, g2, g4⟩⟩⟩

/-- C3, counterexample: `exampleLoneLeaf`, the only cell of a mesh of one cell, is a leaf with
an element whose two interfaces are boundaries; the search loop leaves `cellInterfaceRef` null
and the call, which dereferences it to create the internal interface, does not return: no child
is obtained. -/
theorem refine_lone_leaf_counterexample :
    exampleLoneLeaf.childrenCells = [] ∧ exampleLoneLeaf.data.element ≠ Element.empty ∧
      exampleLoneLeaf.cellInterfaceRef = none ∧
      ∀ fl : ℚ → ℚ, exampleLoneLeaf.refineCellAndCellInterfacesCall fl InterfaceOps.identity
        Model.trivial 1 1 = none :=
  ⟨rfl, exampleRowElement_ne_empty, rfl,
    fun fl => refineCall_eq_none fl InterfaceOps.identity Model.trivial 1 1 exampleLoneLeaf
      exampleLoneLeaf_boundaries⟩

/-! ## Conservation of the leaf volume (C5) -/

/-- C5: the call of `refineCellAndCellInterfaces` on a leaf cell of volume `V` returns exactly
when the cell has an element and holds a two-sided interface; after it every child is a leaf of
volume `V` divided by the number of children, the volumes of the children sum to `V`, the cell
keeps its volume, and the call of `unrefineCellAndCellInterfaces` that follows returns a cell
without child, not split, of volume `V`. The call of `unrefineCellAndCellInterfaces` returns
exactly on the cells that have an element, and leaves a cell without child, not split, of the
same volume. Hence, in a mesh (the list of the base cells) in which the leaves below every cell
fill its volume, the refinement of a leaf anywhere in a tree and the coarsening of a cell
anywhere in a tree both keep that property and leave the sum of the leaf volumes of the mesh
unchanged, whatever the rounding `fl` of the `double` arithmetic. -/
theorem refine_unrefine_conserve_leaf_volume (fl : ℚ → ℚ) (ops : InterfaceOps) (model : Model)
    (nbCellsY nbCellsZ : Int) (c : Cell) (hleaf : c.childrenCells = []) :
    ((∃ c', c.refineCellAndCellInterfacesCall fl ops model nbCellsY nbCellsZ = some c') ↔
      (c.data.element ≠ Element.empty ∧ ∃ b ∈ c.data.cellInterfaces, b.whoAmI = 0)) ∧
    (∀ c', c.refineCellAndCellInterfacesCall fl ops model nbCellsY nbCellsZ = some c' →
      (∀ i : Nat, i < (refineDims nbCellsY nbCellsZ).numberCellsChildren →
        ∃ ch, c'.childrenCells[i]? = some ch ∧
          ch.childrenCells = [] ∧
          ch.data.element.volume
            = c.data.element.volume / ((refineDims nbCellsY nbCellsZ).numberCellsChildren : ℚ)) ∧
      c'.childrenCells.length = (refineDims nbCellsY nbCellsZ).numberCellsChildren ∧
      (c'.childrenCells.map (fun ch => ch.data.element.volume)).sum = c.data.element.volume ∧
      c'.data.element.volume = c.data.element.volume ∧
      (∃ c'', c'.unrefineCellAndCellInterfacesCall fl ops model = some c'' ∧
        c''.childrenCells = [] ∧ c''.data.split = false ∧
        c''.data.element.volume = c.data.element.volume) ∧
      (∀ (mesh : List Cell) (r : Nat) (path : List Nat) (root : Cell),
        mesh[r]? = some root → root.atPath path = some c → TiledChildren mesh →
        TiledChildren (mesh.modify (Cell.applyAt (fun _ => c') path) r) ∧
          leafVolumeChildren (mesh.modify (Cell.applyAt (fun _ => c') path) r)
            = leafVolumeChildren mesh)) ∧
    (∀ x : Cell,
      ((∃ x', x.unrefineCellAndCellInterfacesCall fl ops model = some x') ↔
        x.data.element ≠ Element.empty) ∧
      ∀ x', x.unrefineCellAndCellInterfacesCall fl ops model = some x' →
        x'.childrenCells = [] ∧ x'.data.split = false ∧
        x'.data.element.volume = x.data.element.volume ∧
        (∀ (mesh : List Cell) (r : Nat) (path : List Nat) (root : Cell),
          mesh[r]? = some root → root.atPath path = some x → TiledChildren mesh →
          TiledChildren (mesh.modify (Cell.applyAt (fun _ => x') path) r) ∧
            leafVolumeChildren (mesh.modify (Cell.applyAt (fun _ => x') path) r)
              = leafVolumeChildren mesh)) := by
  have hN := numberCellsChildren_pos nbCellsY nbCellsZ
  have hNq : ((refineDims nbCellsY nbCellsZ).numberCellsChildren : ℚ) ≠ 0 := by
    exact_mod_cast Nat.pos_iff_ne_zero.mp hN
  have hvol := volume_children_refineRounded_leaf fl ops model nbCellsY nbCellsZ c hleaf
  have hunref : ∀ x x' : Cell, x.unrefineCellAndCellInterfacesCall fl ops model = some x' →
      x'.childrenCells = [] ∧ x'.data.split = false ∧
        x'.data.element.volume = x.data.element.volume ∧
        (∀ (mesh : List Cell) (r : Nat) (path : List Nat) (root : Cell),
          mesh[r]? = some root → root.atPath path = some x → TiledChildren mesh →
          TiledChildren (mesh.modify (Cell.applyAt (fun _ => x') path) r) ∧
            leafVolumeChildren (mesh.modify (Cell.applyAt (fun _ => x') path) r)
              = leafVolumeChildren mesh) := by
    intro x x' hx
    have e := unrefineCall_some fl ops model x x' hx
    subst e
    refine ⟨rfl, rfl, congrArg Element.volume (element_unrefineRounded fl ops model x), ?_⟩
    intro mesh r path root hr hp hm
    exact mesh_applyAt _ mesh r path root x hr hp
      (fun hx' => ⟨tiled_unrefineRounded fl ops model x, by
        rw [leafVolume_unrefineRounded, leafVolume_of_tiled x hx']⟩) hm
  refine ⟨refineCall_returns_iff fl ops model nbCellsY nbCellsZ c, ?_,
    fun x => ⟨unrefineCall_returns_iff fl ops model x, hunref x⟩⟩
  intro c' hc'
  have hel : c.data.element ≠ Element.empty :=
    ((refineCall_returns_iff fl ops model nbCellsY nbCellsZ c).mp ⟨c', hc'⟩).1
  have e := refineCall_some fl ops model nbCellsY nbCellsZ c c' hc'
  subst e
  refine ⟨?_, length_children_refineRounded_leaf fl ops model nbCellsY nbCellsZ c hleaf, ?_,
    congrArg Element.volume (element_refineRounded fl ops model nbCellsY nbCellsZ c), ?_, ?_⟩
  · intro i hi
    obtain ⟨ch, hch, -⟩ := child_of_refineRounded_leaf fl ops model nbCellsY nbCellsZ c hleaf i hi
    exact ⟨ch, hch,
      children_of_refineRounded_leaf_are_leaves fl ops model nbCellsY nbCellsZ c hleaf ch
        (List.getElem?_mem hch), hvol ch (List.getElem?_mem hch)⟩
  · rw [List.map_congr_left hvol, List.map_const', List.sum_replicate,
      length_children_refineRounded_leaf fl ops model nbCellsY nbCellsZ c hleaf, nsmul_eq_mul]
    field_simp
  · have hel' : (c.refineCellAndCellInterfacesRounded fl ops model nbCellsY
        nbCellsZ).data.element ≠ Element.empty := by
      rw [element_refineRounded]; exact hel
    obtain ⟨h2, h3, h4, -⟩ := hunref _ _ (unrefineCall_eq_some fl ops model _ hel')
    refine ⟨_, unrefineCall_eq_some fl ops model _ hel', h2, h3, ?_⟩
    rw [h4, element_refineRounded]
  · intro mesh r path root hr hx hm
    exact mesh_applyAt _ mesh r path root c hr hx
      (fun _ => ⟨tiled_refineRounded_leaf fl ops model nbCellsY nbCellsZ c hleaf,
        leafVolume_refineRounded_leaf fl ops model nbCellsY nbCellsZ c hleaf⟩) hm

theorem refine_unrefine_conserve_leaf_volume_witness :
    exampleRowLeaf.childrenCells = [] ∧
      ∃ c', exampleRowLeaf.refineCellAndCellInterfacesCall roundDouble InterfaceOps.identity
          Model.trivial 1 1 = some c' ∧
        (∃ ch, c'.childrenCells[1]? = some ch ∧ ch.data.element.volume = 1 / 2) ∧
        c'.childrenCells.length = 2 ∧
        (c'.childrenCells.map (fun ch => ch.data.element.volume)).sum = 1 ∧
        ∃ c'', c'.unrefineCellAndCellInterfacesCall roundDouble InterfaceOps.identity
            Model.trivial = some c'' ∧
          c''.childrenCells = [] ∧ c''.data.split = false ∧ c''.data.element.volume = 1 :=
  ⟨rfl, _, refineCall_eq_some roundDouble InterfaceOps.identity Model.trivial 1 1 exampleRowLeaf
      exampleRowLeaf_element exampleRowLeaf_cellInterfaceRef,
    match (refine_unrefine_conserve_leaf_volume roundDouble InterfaceOps.identity Model.trivial
      1 1 exampleRowLeaf rfl).2.1 _
      (refineCall_eq_some roundDouble InterfaceOps.identity Model.trivial 1 1 exampleRowLeaf
        exampleRowLeaf_element exampleRowLeaf_cellInterfaceRef) with
    | ⟨h2, h3, h4, _, h6, _⟩ =>
      ⟨(match h2 1 (by decide) with
         | ⟨ch, g1, _, g3⟩ => ⟨ch, g1, by
            rw [g3]; simp [exampleRowLeaf, exampleRowElement, refineDims]⟩),
        h3, h4, h6⟩⟩

/-! ## State of the children (C6) -/

/-- C6: the call of `refineCellAndCellInterfaces` on a leaf cell returns exactly when the cell
has an element and holds a two-sided interface; after it every child holds the phases of the
parent (phase `k` of the child is phase `k` of the parent for every `k` below the number of
phases), the mixture of the parent, the transports of the parent index by index and the indicator
of the parent, while its conservative buffer and its conservative transports are zero; the
phases, the mixture, the transports and the indicator of the parent itself are unchanged. The
rounding `fl` of the `double` arithmetic plays no part. -/
theorem refine_children_state (fl : ℚ → ℚ) (ops : InterfaceOps) (model : Model)
    (nbCellsY nbCellsZ : Int) (c : Cell) (hleaf : c.childrenCells = []) :
    ((∃ c', c.refineCellAndCellInterfacesCall fl ops model nbCellsY nbCellsZ = some c') ↔
      (c.data.element ≠ Element.empty ∧ ∃ b ∈ c.data.cellInterfaces, b.whoAmI = 0)) ∧
    ∀ c', c.refineCellAndCellInterfacesCall fl ops model nbCellsY nbCellsZ = some c' →
      (∀ i : Nat, i < (refineDims nbCellsY nbCellsZ).numberCellsChildren →
        ∃ ch, c'.childrenCells[i]? = some ch ∧
          ch.data.numberPhases = c.data.numberPhases ∧
          ch.data.vecPhases.length = c.data.numberPhases ∧
          (∀ k : Nat, k < c.data.numberPhases → ∀ p : Phase, c.data.vecPhases[k]? = some p →
            ch.data.vecPhases[k]? = some p) ∧
          ch.data.mixture = c.data.mixture ∧
          ch.data.numberTransports = c.data.numberTransports ∧
          ch.data.vecTransports.length = c.data.numberTransports ∧
          (∀ k : Nat, k < c.data.numberTransports → ∀ t : ℚ, c.data.vecTransports[k]? = some t →
            ch.data.vecTransports[k]? = some t) ∧
          ch.data.xi = c.data.xi ∧
          (∀ x ∈ ch.data.cons.comps, x = 0) ∧
          ch.data.consTransports.length = c.data.numberTransports ∧
          (∀ x ∈ ch.data.consTransports, x = 0)) ∧
      c'.data.vecPhases = c.data.vecPhases ∧
      c'.data.mixture = c.data.mixture ∧
      c'.data.vecTransports = c.data.vecTransports ∧
      c'.data.xi = c.data.xi := by
  refine ⟨refineCall_returns_iff fl ops model nbCellsY nbCellsZ c, ?_⟩
  intro c' hc'
  have e := refineCall_some fl ops model nbCellsY nbCellsZ c c' hc'
  subst e
  have hcore := core_refineRounded fl ops model nbCellsY nbCellsZ c
  have h1 := congrArg CellData.vecPhases hcore
  have h2 := congrArg CellData.mixture hcore
  have h3 := congrArg CellData.vecTransports hcore
  have h4 := congrArg CellData.xi hcore
  refine ⟨?_, h1, h2, h3, h4⟩
  intro i hi
  obtain ⟨ch, hch, hstrip⟩ := child_of_refineRounded_leaf fl ops model nbCellsY nbCellsZ c hleaf i hi
  obtain ⟨-, -, -, -, hxi, hmx, hph, htr, hcons, hct, -, hnp, hnt⟩ :=
    child_fields_of_strip_rounded fl model c.data _ i ch hstrip
  refine ⟨ch, hch, hnp, ?_, ?_, hmx, hnt, ?_, ?_, hxi, ?_, ?_, ?_⟩
  · rw [hph]; simp
  · intro k hk p hp
    rw [hph]
    simp [List.getElem?_range, hk, List.getD_eq_getElem?_getD, hp]
  · rw [htr]; simp
  · intro k hk t ht
    rw [htr]
    simp [List.getElem?_range, hk, List.getD_eq_getElem?_getD, ht]
  · intro x hx
    rw [hcons] at hx
    simp [Flux.setToZero] at hx
    exact hx.2
  · rw [hct]; simp
  · intro x hx
    rw [hct] at hx
    exact (List.mem_replicate.mp hx).2

theorem refine_children_state_witness :
    exampleRowLeaf.childrenCells = [] ∧
      ∃ c', exampleRowLeaf.refineCellAndCellInterfacesCall roundDouble InterfaceOps.identity
          Model.mixtureOnly 1 1 = some c' ∧
        c'.data.vecPhases = [⟨[1, 2]⟩] ∧ c'.data.vecTransports = [6] ∧
        ∃ ch, c'.childrenCells[1]? = some ch ∧
          ch.data.vecPhases[0]? = some ⟨[1, 2]⟩ ∧ ch.data.vecPhases.length = 1 ∧
          ch.data.mixture = ⟨[3]⟩ ∧
          ch.data.vecTransports[0]? = some 6 ∧ ch.data.vecTransports.length = 1 ∧
          ch.data.xi = 7 / 2 ∧
          (∀ x ∈ ch.data.cons.comps, x = 0) ∧ (∀ x ∈ ch.data.consTransports, x = 0) :=
  ⟨rfl, _, refineCall_eq_some roundDouble InterfaceOps.identity Model.mixtureOnly 1 1
      exampleRowLeaf exampleRowLeaf_element exampleRowLeaf_cellInterfaceRef,
    match (refine_children_state roundDouble InterfaceOps.identity Model.mixtureOnly 1 1
      exampleRowLeaf rfl).2 _
      (refineCall_eq_some roundDouble InterfaceOps.identity Model.mixtureOnly 1 1
        exampleRowLeaf exampleRowLeaf_element exampleRowLeaf_cellInterfaceRef) with
    | ⟨h2, h3, _, h5, _⟩ =>
      ⟨h3, h5,
        match h2 1 (by decide) with
        | ⟨ch, g0, _, g1, g2, g3, _, g4, g5, g6, g7, _, g8⟩ =>
          ⟨ch, g0, g2 0 (by decide) _ rfl, g1, g3, g5 0 (by decide) _ rfl, g4, g6, g7, g8⟩⟩⟩

/-! ## Boxes of the children (C4) -/

/-- C4: the call of `refineCellAndCellInterfaces` on a leaf cell with positive sizes returns
exactly when the cell has an element and holds a two-sided interface. After it, along each
refined axis (x always, y unless `nbCellsY = 1` and `nbCellsZ = 1`, z unless `nbCellsZ = 1`) the
size of a child is half the size of the parent and its centre is the rounding `fl` to a `double`
of the centre of the parent minus or plus a quarter of the size, according to the bit of the
child index for that axis; along the other axes the child keeps the size of the parent and has
the rounded centre of the parent. When no centre is changed by the rounding, the centres are the
centre of the parent minus or plus a quarter of the size, respectively the centre of the parent,
and the boxes (centre ± size/2) of the children cover exactly the box of the parent and have
pairwise disjoint interiors. -/
theorem refine_children_boxes (fl : ℚ → ℚ) (ops : InterfaceOps) (model : Model)
    (nbCellsY nbCellsZ : Int) (c : Cell) (hleaf : c.childrenCells = [])
    (hx : 0 < c.data.element.size.x) (hy : 0 < c.data.element.size.y)
    (hz : 0 < c.data.element.size.z) :
    ((∃ c', c.refineCellAndCellInterfacesCall fl ops model nbCellsY nbCellsZ = some c') ↔
      (c.data.element ≠ Element.empty ∧ ∃ b ∈ c.data.cellInterfaces, b.whoAmI = 0)) ∧
    ∀ c', c.refineCellAndCellInterfacesCall fl ops model nbCellsY nbCellsZ = some c' →
      c'.childrenCells.length = (refineDims nbCellsY nbCellsZ).numberCellsChildren ∧
      (∀ i : Nat, i < (refineDims nbCellsY nbCellsZ).numberCellsChildren →
        ∃ ch, c'.childrenCells[i]? = some ch ∧
          ch.data.element.size.x = c.data.element.size.x / 2 ∧
          ch.data.element.position.x = fl (c.data.element.position.x +
            (if i % 2 = 0 then -(c.data.element.size.x / 4) else c.data.element.size.x / 4)) ∧
          (if nbCellsY = 1 ∧ nbCellsZ = 1 then
            ch.data.element.size.y = c.data.element.size.y ∧
              ch.data.element.position.y = fl c.data.element.position.y
          else
            ch.data.element.size.y = c.data.element.size.y / 2 ∧
              ch.data.element.position.y = fl (c.data.element.position.y +
                (if (i / 2) % 2 = 0 then -(c.data.element.size.y / 4)
                 else c.data.element.size.y / 4))) ∧
          (if nbCellsZ = 1 then
            ch.data.element.size.z = c.data.element.size.z ∧
              ch.data.element.position.z = fl c.data.element.position.z
          else
            ch.data.element.size.z = c.data.element.size.z / 2 ∧
              ch.data.element.position.z = fl (c.data.element.position.z +
                (if (i / 4) % 2 = 0 then -(c.data.element.size.z / 4)
                 else c.data.element.size.z / 4)))) ∧
      ((∀ i : Nat, i < (refineDims nbCellsY nbCellsZ).numberCellsChildren →
          fl (childElement c.data.element (refineDims nbCellsY nbCellsZ) i).position.x
              = (childElement c.data.element (refineDims nbCellsY nbCellsZ) i).position.x ∧
            fl (childElement c.data.element (refineDims nbCellsY nbCellsZ) i).position.y
              = (childElement c.data.element (refineDims nbCellsY nbCellsZ) i).position.y ∧
            fl (childElement c.data.element (refineDims nbCellsY nbCellsZ) i).position.z
              = (childElement c.data.element (refineDims nbCellsY nbCellsZ) i).position.z) →
        (∀ i : Nat, i < (refineDims nbCellsY nbCellsZ).numberCellsChildren →
          ∃ ch, c'.childrenCells[i]? = some ch ∧
            ch.data.element.position.x = c.data.element.position.x +
              (if i % 2 = 0 then -(c.data.element.size.x / 4) else c.data.element.size.x / 4) ∧
            (if nbCellsY = 1 ∧ nbCellsZ = 1 then
              ch.data.element.position.y = c.data.element.position.y
            else
              ch.data.element.position.y = c.data.element.position.y +
                (if (i / 2) % 2 = 0 then -(c.data.element.size.y / 4)
                 else c.data.element.size.y / 4)) ∧
            (if nbCellsZ = 1 then ch.data.element.position.z = c.data.element.position.z
            else
              ch.data.element.position.z = c.data.element.position.z +
                (if (i / 4) % 2 = 0 then -(c.data.element.size.z / 4)
                 else c.data.element.size.z / 4))) ∧
        (∀ p : Coord, c.data.element.inBox p ↔
          ∃ i : Nat, i < (refineDims nbCellsY nbCellsZ).numberCellsChildren ∧
            ∃ ch, c'.childrenCells[i]? = some ch ∧ ch.data.element.inBox p) ∧
        (∀ i j : Nat, i < (refineDims nbCellsY nbCellsZ).numberCellsChildren →
          j < (refineDims nbCellsY nbCellsZ).numberCellsChildren → i ≠ j →
          ∀ chi chj : Cell, c'.childrenCells[i]? = some chi → c'.childrenCells[j]? = some chj →
            ∀ p : Coord, ¬ (chi.data.element.inInterior p ∧ chj.data.element.inInterior p))) := by
  refine ⟨refineCall_returns_iff fl ops model nbCellsY nbCellsZ c, ?_⟩
  intro c' hcall
  have hchild := child_of_refineCall_leaf fl ops model nbCellsY nbCellsZ c hleaf c' hcall
  have helem := element_of_refineCall_leaf fl ops model nbCellsY nbCellsZ c hleaf c' hcall
  refine ⟨length_children_refineCall_leaf fl ops model nbCellsY nbCellsZ c hleaf c' hcall,
    ?_, ?_⟩
  · intro i hi
    obtain ⟨ch, hch, hel⟩ := hchild i hi
    refine ⟨ch, hch, ?_⟩
    obtain ⟨hs, hpx, hpy, hpz⟩ := childElementRounded_size_position fl c.data.element
      (refineDims nbCellsY nbCellsZ) i
    obtain ⟨e1, e2, e3, e4⟩ := childElement_size_position c.data.element nbCellsY nbCellsZ i
    rw [hel, hs, hpx, hpy, hpz, e1, e2]
    refine ⟨rfl, rfl, ?_, ?_⟩
    · split
      · rename_i hc
        rw [if_pos hc] at e3
        rw [e3.1, e3.2]; exact ⟨rfl, rfl⟩
      · rename_i hc
        rw [if_neg hc] at e3
        rw [e3.1, e3.2]; exact ⟨rfl, rfl⟩
    · split
      · rename_i hc
        rw [if_pos hc] at e4
        rw [e4.1, e4.2]; exact ⟨rfl, rfl⟩
      · rename_i hc
        rw [if_neg hc] at e4
        rw [e4.1, e4.2]; exact ⟨rfl, rfl⟩
  · intro hexact
    have hel' : ∀ i ch, i < (refineDims nbCellsY nbCellsZ).numberCellsChildren →
        c'.childrenCells[i]? = some ch →
        ch.data.element = childElement c.data.element (refineDims nbCellsY nbCellsZ) i := by
      intro i ch hi hch
      rw [helem i ch hi hch]
      exact childElementRounded_eq fl _ _ i (hexact i hi).1 (hexact i hi).2.1 (hexact i hi).2.2
    refine ⟨?_, ?_, ?_⟩
    · intro i hi
      obtain ⟨ch, hch, -⟩ := hchild i hi
      refine ⟨ch, hch, ?_⟩
      obtain ⟨-, e2, e3, e4⟩ := childElement_size_position c.data.element nbCellsY nbCellsZ i
      rw [hel' i ch hi hch]
      refine ⟨e2, ?_, ?_⟩
      · split
        · rename_i hc
          rw [if_pos hc] at e3; exact e3.2
        · rename_i hc
          rw [if_neg hc] at e3; exact e3.2
      · split
        · rename_i hc
          rw [if_pos hc] at e4; exact e4.2
        · rename_i hc
          rw [if_neg hc] at e4; exact e4.2
    · intro p
      rw [childElement_cover c.data.element nbCellsY nbCellsZ hx hy hz p]
      constructor
      · rintro ⟨i, hi, hp⟩
        obtain ⟨ch, hch, -⟩ := hchild i hi
        exact ⟨i, hi, ch, hch, by rw [hel' i ch hi hch]; exact hp⟩
      · rintro ⟨i, hi, ch, hch, hp⟩
        exact ⟨i, hi, by rw [← hel' i ch hi hch]; exact hp⟩
    · intro i j hi hj hij chi chj hchi hchj p hp
      rw [hel' i chi hi hchi, hel' j chj hj hchj] at hp
      exact hij (childElement_disjoint c.data.element nbCellsY nbCellsZ i j hi hj p hp.1 hp.2)

theorem refine_children_boxes_witness :
    exampleRowLeaf.childrenCells = [] ∧ (0 : ℚ) < exampleRowLeaf.data.element.size.x ∧
      (0 : ℚ) < exampleRowLeaf.data.element.size.y ∧
      (0 : ℚ) < exampleRowLeaf.data.element.size.z ∧
      ∃ c', exampleRowLeaf.refineCellAndCellInterfacesCall roundDouble InterfaceOps.identity
          Model.trivial 1 1 = some c' ∧
        c'.childrenCells.length = 2 ∧
        (∃ ch, c'.childrenCells[0]? = some ch ∧ ch.data.element.position.x = 1 / 4) ∧
        (∃ ch, c'.childrenCells[1]? = some ch ∧ ch.data.element.position.x = 3 / 4) ∧
        ∀ p : Coord, exampleRowLeaf.data.element.inBox p ↔
          ∃ i : Nat, i < 2 ∧ ∃ ch, c'.childrenCells[i]? = some ch ∧ ch.data.element.inBox p := by
  have hs : (0 : ℚ) < exampleRowLeaf.data.element.size.x ∧
      (0 : ℚ) < exampleRowLeaf.data.element.size.y ∧
      (0 : ℚ) < exampleRowLeaf.data.element.size.z := by
    norm_num [exampleRowLeaf, exampleRowElement]
  have hcall := refineCall_eq_some roundDouble InterfaceOps.identity Model.trivial 1 1
    exampleRowLeaf exampleRowLeaf_element exampleRowLeaf_cellInterfaceRef
  obtain ⟨h1, -, h3⟩ := (refine_children_boxes roundDouble InterfaceOps.identity Model.trivial
    1 1 exampleRowLeaf rfl hs.1 hs.2.1 hs.2.2).2 _ hcall
  have hexact : ∀ i : Nat, i < (refineDims 1 1).numberCellsChildren →
      roundDouble (childElement exampleRowLeaf.data.element (refineDims 1 1) i).position.x
          = (childElement exampleRowLeaf.data.element (refineDims 1 1) i).position.x ∧
        roundDouble (childElement exampleRowLeaf.data.element (refineDims 1 1) i).position.y
          = (childElement exampleRowLeaf.data.element (refineDims 1 1) i).position.y ∧
        roundDouble (childElement exampleRowLeaf.data.element (refineDims 1 1) i).position.z
          = (childElement exampleRowLeaf.data.element (refineDims 1 1) i).position.z := by
    intro i hi
    have hi2 : i < 2 := hi
    interval_cases i <;>
      norm_num [childElement, exampleRowLeaf, exampleRowElement, refineDims, roundDouble_half,
        roundDouble_quarter, roundDouble_three_quarters]
  obtain ⟨g1, g2, -⟩ := h3 hexact
  refine ⟨rfl, hs.1, hs.2.1, hs.2.2, _, hcall, h1, ?_, ?_, g2⟩
  · obtain ⟨ch, hch, hp, -⟩ := g1 0 (by decide)
    refine ⟨ch, hch, ?_⟩
    rw [hp]
    norm_num [exampleRowLeaf, exampleRowElement]
  · obtain ⟨ch, hch, hp, -⟩ := g1 1 (by decide)
    refine ⟨ch, hch, ?_⟩
    rw [hp]
    norm_num [exampleRowLeaf, exampleRowElement]

/-- C4, counterexample: the leaf `exampleTenthLeaf` of a 1D mesh has centre `x = 0.1` and width
0.1 (as `double` values) and holds a two-sided interface. The call returns; the centre of child
0 is the rounding of 0.075, which lies above it (0.07500000000000001), and the centre of child 1
is the rounding of 0.125, which lies below it. The left end of the box of the cell belongs to
the box of no child, and the centre of the cell belongs to the interiors of the boxes of both
children: the boxes of the children neither cover the box of the cell nor have disjoint
interiors. -/
theorem refine_children_boxes_counterexample :
    exampleTenthLeaf.childrenCells = [] ∧ (0 : ℚ) < exampleTenthLeaf.data.element.size.x ∧
      (0 : ℚ) < exampleTenthLeaf.data.element.size.y ∧
      (0 : ℚ) < exampleTenthLeaf.data.element.size.z ∧
      ∃ c', exampleTenthLeaf.refineCellAndCellInterfacesCall roundDouble InterfaceOps.identity
          Model.trivial 1 1 = some c' ∧
        ∃ ch0 ch1, c'.childrenCells = [ch0, ch1] ∧
          ch0.data.element.position.x = 5404319552844596 / 72057594037927936 ∧
          ch1.data.element.position.x = 1 / 8 ∧
          exampleTenthLeaf.data.element.inBox ⟨exampleTenth / 2, 1 / 2, 1 / 2⟩ ∧
          ¬ ch0.data.element.inBox ⟨exampleTenth / 2, 1 / 2, 1 / 2⟩ ∧
          ¬ ch1.data.element.inBox ⟨exampleTenth / 2, 1 / 2, 1 / 2⟩ ∧
          ch0.data.element.inInterior ⟨exampleTenth, 1 / 2, 1 / 2⟩ ∧
          ch1.data.element.inInterior ⟨exampleTenth, 1 / 2, 1 / 2⟩ := by
  have hcall := refineCall_eq_some roundDouble InterfaceOps.identity Model.trivial 1 1
    exampleTenthLeaf exampleTenthLeaf_element exampleTenthLeaf_cellInterfaceRef
  have hlen := length_children_refineCall_leaf roundDouble InterfaceOps.identity Model.trivial
    1 1 exampleTenthLeaf rfl _ hcall
  obtain ⟨ch0, hch0, he0⟩ := child_of_refineCall_leaf roundDouble InterfaceOps.identity
    Model.trivial 1 1 exampleTenthLeaf rfl _ hcall 0 (by decide)
  obtain ⟨ch1, hch1, he1⟩ := child_of_refineCall_leaf roundDouble InterfaceOps.identity
    Model.trivial 1 1 exampleTenthLeaf rfl _ hcall 1 (by decide)
  have hlist : (exampleTenthLeaf.refineCellAndCellInterfacesRounded roundDouble
      InterfaceOps.identity Model.trivial 1 1).childrenCells = [ch0, ch1] := by
    apply List.ext_getElem?
    intro n
    rcases n with _ | _ | n
    · simpa using hch0
    · simpa using hch1
    · have hl2 : (exampleTenthLeaf.refineCellAndCellInterfacesRounded roundDouble
          InterfaceOps.identity Model.trivial 1 1).childrenCells.length = 2 := hlen
      simp [List.getElem?_eq_none, hl2]
  have e0 : ch0.data.element
      = ⟨⟨5404319552844596 / 72057594037927936, 1 / 2, 1 / 2⟩, ⟨exampleTenth / 2, 1, 1⟩,
          exampleTenth / 2, exampleTenth / 2, ⟨⟨0, 0, 0⟩, 1⟩, 0⟩ := by
    rw [he0]
    simp only [childElementRounded, exampleTenthLeaf, refineDims, Cell.data_mk, Key.child,
      childBits]
    norm_num [exampleTenth, roundDouble_half, roundDouble_three_quarters_tenth]
  have e1 : ch1.data.element
      = ⟨⟨1 / 8, 1 / 2, 1 / 2⟩, ⟨exampleTenth / 2, 1, 1⟩,
          exampleTenth / 2, exampleTenth / 2, ⟨⟨1, 0, 0⟩, 1⟩, 1⟩ := by
    rw [he1]
    simp only [childElementRounded, exampleTenthLeaf, refineDims, Cell.data_mk, Key.child,
      childBits]
    norm_num [exampleTenth, roundDouble_half, roundDouble_five_quarters_tenth]
  refine ⟨rfl, by norm_num [exampleTenthLeaf, exampleTenth],
    by norm_num [exampleTenthLeaf], by norm_num [exampleTenthLeaf], _, hcall, ch0, ch1, hlist,
    ?_, ?_, ?_, ?_, ?_, ?_, ?_⟩
  · rw [e0]
  · rw [e1]
  · norm_num [Element.inBox, inAxis, exampleTenthLeaf, exampleTenth]
  · rw [e0]; norm_num [Element.inBox, inAxis, exampleTenth]
  · rw [e1]; norm_num [Element.inBox, inAxis, exampleTenth]
  · rw [e0]; norm_num [Element.inInterior, inAxisOpen, exampleTenth]
  · rw [e1]; norm_num [Element.inInterior, inAxisOpen, exampleTenth]

/-! ## Internal interfaces of the refined cell (C7) -/

/-- C7: the call of `refineCellAndCellInterfaces` on a leaf cell without internal child
interface returns exactly when the cell has an element and holds a two-sided interface. After it
the cell holds 1 internal interface in 1D, 4 in 2D and 12 in 3D; the pairs of children they join,
in creation order, are exactly the pairs of children whose indices differ in one axis bit, each
pair once. For each of these interfaces the left cell is the child whose bit for the axis is 0,
the right cell is the child whose index is larger by `2^axis`, the normal is the positive unit
vector of the axis, both children hold the interface in their lists, and the position of the
face is the one the code computes in `double` arithmetic from the centre and the sizes of the
parent, the centres of the children being those computed by the children loop. When the rounding
`fl` changes neither the centres of the two children nor the position of the face, the position
of the face is the midpoint of the centres of the two children. -/
theorem refine_internal_interfaces (fl : ℚ → ℚ) (ops : InterfaceOps) (model : Model)
    (nbCellsY nbCellsZ : Int) (c : Cell) (hleaf : c.childrenCells = [])
    (hint : c.data.childrenInternalCellInterfaces = []) :
    ((∃ c', c.refineCellAndCellInterfacesCall fl ops model nbCellsY nbCellsZ = some c') ↔
      (c.data.element ≠ Element.empty ∧ ∃ b ∈ c.data.cellInterfaces, b.whoAmI = 0)) ∧
    ∀ c', c.refineCellAndCellInterfacesCall fl ops model nbCellsY nbCellsZ = some c' →
      c'.data.childrenInternalCellInterfaces.length
        = (if nbCellsZ = 1 then (if nbCellsY = 1 then 1 else 4) else 12) ∧
      List.Perm
        ((List.range c'.data.childrenInternalCellInterfaces.length).map (fun j =>
          ((internalCellInterfaceSpec nbCellsY nbCellsZ c.data.element j).1,
            (internalCellInterfaceSpec nbCellsY nbCellsZ c.data.element j).2.1)))
        (adjacentPairs (refineDims nbCellsY nbCellsZ).dim
          (refineDims nbCellsY nbCellsZ).numberCellsChildren) ∧
      ∀ j : Nat, j < c'.data.childrenInternalCellInterfaces.length →
        ∃ (b : CellInterface) (chg chd : Cell) (axis : Nat),
          c'.data.childrenInternalCellInterfaces[j]? = some b ∧
          c'.childrenCells[(internalCellInterfaceSpec nbCellsY nbCellsZ c.data.element j).1]?
            = some chg ∧
          c'.childrenCells[(internalCellInterfaceSpec nbCellsY nbCellsZ c.data.element j).2.1]?
            = some chd ∧
          axis < (refineDims nbCellsY nbCellsZ).dim ∧
          (internalCellInterfaceSpec nbCellsY nbCellsZ c.data.element j).2.1
            = (internalCellInterfaceSpec nbCellsY nbCellsZ c.data.element j).1 + 2 ^ axis ∧
          ((internalCellInterfaceSpec nbCellsY nbCellsZ c.data.element j).1 / 2 ^ axis) % 2 = 0 ∧
          b.data.cellGauche = chg.ref ∧
          b.data.kind = .internal chd.ref ∧
          b.data.face.normal = unitVector axis ∧
          b.data.face.pos
            = (internalCellInterfaceSpecRounded fl nbCellsY nbCellsZ c.data.element j).2.2.pos ∧
          chg.data.element.position
            = (childElementRounded fl c.data.element (refineDims nbCellsY nbCellsZ)
                (internalCellInterfaceSpec nbCellsY nbCellsZ c.data.element j).1).position ∧
          chd.data.element.position
            = (childElementRounded fl c.data.element (refineDims nbCellsY nbCellsZ)
                (internalCellInterfaceSpec nbCellsY nbCellsZ c.data.element j).2.1).position ∧
          b ∈ chg.data.cellInterfaces ∧
          b ∈ chd.data.cellInterfaces ∧
          ((childElementRounded fl c.data.element (refineDims nbCellsY nbCellsZ)
                (internalCellInterfaceSpec nbCellsY nbCellsZ c.data.element j).1).position
              = (childElement c.data.element (refineDims nbCellsY nbCellsZ)
                (internalCellInterfaceSpec nbCellsY nbCellsZ c.data.element j).1).position →
            (childElementRounded fl c.data.element (refineDims nbCellsY nbCellsZ)
                (internalCellInterfaceSpec nbCellsY nbCellsZ c.data.element j).2.1).position
              = (childElement c.data.element (refineDims nbCellsY nbCellsZ)
                (internalCellInterfaceSpec nbCellsY nbCellsZ c.data.element j).2.1).position →
            (internalCellInterfaceSpecRounded fl nbCellsY nbCellsZ c.data.element j).2.2.pos
              = (internalCellInterfaceSpec nbCellsY nbCellsZ c.data.element j).2.2.pos →
            b.data.face.pos = midpoint chg.data.element.position chd.data.element.position) := by
  refine ⟨refineCall_returns_iff fl ops model nbCellsY nbCellsZ c, ?_⟩
  intro c' hcall
  have e := refineCall_some fl ops model nbCellsY nbCellsZ c c' hcall
  subst e
  obtain ⟨hlen, hall⟩ := internal_of_refineRounded_leaf fl ops model nbCellsY nbCellsZ c hleaf hint
  refine ⟨by rw [hlen]; rfl, ?_, ?_⟩
  · rw [hlen]
    exact internalCellInterfaceSpec_pairs nbCellsY nbCellsZ c.data.element
  · intro j hj
    rw [hlen] at hj
    obtain ⟨b, chg, chd, hb, hchg, hchd, hg, hd, hface, helg, held, hmg, hmd⟩ := hall j hj
    obtain ⟨axis, hax, hdd, hbit, -, hnormal, hpos⟩ :=
      internalCellInterfaceSpec_face nbCellsY nbCellsZ c.data.element j hj
    obtain ⟨-, -, i3, -⟩ :=
      internalCellInterfaceSpecRounded_indices fl nbCellsY nbCellsZ c.data.element j
    refine ⟨b, chg, chd, axis, hb, hchg, hchd, hax, hdd, hbit, hg, hd, ?_, ?_, ?_, ?_, hmg, hmd,
      ?_⟩
    · rw [hface, i3]; exact hnormal
    · rw [hface]
    · rw [helg]
    · rw [held]
    · intro h1 h2 h3
      rw [hface, h3, hpos, helg, held, h1, h2]

theorem refine_internal_interfaces_witness :
    exampleRowLeaf.childrenCells = [] ∧
      exampleRowLeaf.data.childrenInternalCellInterfaces = [] ∧
      ∃ c', exampleRowLeaf.refineCellAndCellInterfacesCall roundDouble InterfaceOps.identity
          Model.trivial 1 1 = some c' ∧
        c'.data.childrenInternalCellInterfaces.length = 1 ∧
        ∃ (b : CellInterface) (chg chd : Cell),
          c'.data.childrenInternalCellInterfaces[0]? = some b ∧
          c'.childrenCells[0]? = some chg ∧ c'.childrenCells[1]? = some chd ∧
          b.data.cellGauche = chg.ref ∧ b.data.kind = .internal chd.ref ∧
          b.data.face.normal = ⟨1, 0, 0⟩ ∧
          chg.data.element.position = ⟨1 / 4, 1 / 2, 1 / 2⟩ ∧
          chd.data.element.position = ⟨3 / 4, 1 / 2, 1 / 2⟩ ∧
          b.data.face.pos = ⟨1 / 2, 1 / 2, 1 / 2⟩ ∧
          b.data.face.pos = midpoint chg.data.element.position chd.data.element.position ∧
          b ∈ chg.data.cellInterfaces ∧ b ∈ chd.data.cellInterfaces := by
  have hcall := refineCall_eq_some roundDouble InterfaceOps.identity Model.trivial 1 1
    exampleRowLeaf exampleRowLeaf_element exampleRowLeaf_cellInterfaceRef
  obtain ⟨h1, -, h3⟩ := (refine_internal_interfaces roundDouble InterfaceOps.identity
    Model.trivial 1 1 exampleRowLeaf rfl rfl).2 _ hcall
  have hlen : (exampleRowLeaf.refineCellAndCellInterfacesRounded roundDouble
      InterfaceOps.identity Model.trivial 1 1).data.childrenInternalCellInterfaces.length
      = 1 := h1
  obtain ⟨b, chg, chd, axis, hb, hchg, hchd, hax, -, -, hg, hd, hn, hp, hpg, hpd, hmg, hmd, hmid⟩ :=
    h3 0 (by rw [hlen]; decide)
  have hax0 : axis = 0 := by
    have : axis < 1 := hax
    omega
  subst hax0
  have e1 : (childElementRounded roundDouble exampleRowLeaf.data.element (refineDims 1 1)
      0).position = ⟨1 / 4, 1 / 2, 1 / 2⟩ := by
    simp only [childElementRounded, exampleRowLeaf, exampleRowElement, refineDims, Cell.data_mk]
    norm_num [roundDouble_half, roundDouble_quarter]
  have e2 : (childElementRounded roundDouble exampleRowLeaf.data.element (refineDims 1 1)
      1).position = ⟨3 / 4, 1 / 2, 1 / 2⟩ := by
    simp only [childElementRounded, exampleRowLeaf, exampleRowElement, refineDims, Cell.data_mk]
    norm_num [roundDouble_half, roundDouble_three_quarters]
  have e3 : (childElement exampleRowLeaf.data.element (refineDims 1 1) 0).position
      = ⟨1 / 4, 1 / 2, 1 / 2⟩ := by
    simp only [childElement, exampleRowLeaf, exampleRowElement, refineDims, Cell.data_mk]
    norm_num
  have e4 : (childElement exampleRowLeaf.data.element (refineDims 1 1) 1).position
      = ⟨3 / 4, 1 / 2, 1 / 2⟩ := by
    simp only [childElement, exampleRowLeaf, exampleRowElement, refineDims, Cell.data_mk]
    norm_num
  exact ⟨rfl, rfl, _, hcall, hlen, b, chg, chd, hb, hchg, hchd, hg, hd, hn, hpg.trans e1,
    hpd.trans e2, hp, hmid (e1.trans e3.symm) (e2.trans e4.symm) rfl, hmg, hmd⟩

/-- C7, counterexample: the leaf `exampleFifthLeaf` of a 1D mesh has centre `x = 0.5` and width
0.2 (as a `double`) and holds a two-sided interface. The call returns; the internal interface
it creates joins child 0 to child 1 and has its face at `x = 0.5`, the centre of the cell; the
centres of the children are the `double` values 0.45 and 0.55, the roundings of `0.5 - 0.05` and
of `0.5 + 0.05`, and their midpoint lies `2 ^ (-55)` above 0.5: the position of the face is not
the midpoint of the centres of the two children. -/
theorem refine_internal_interfaces_counterexample :
    exampleFifthLeaf.childrenCells = [] ∧
      exampleFifthLeaf.data.childrenInternalCellInterfaces = [] ∧
      ∃ c', exampleFifthLeaf.refineCellAndCellInterfacesCall roundDouble InterfaceOps.identity
          Model.trivial 1 1 = some c' ∧
        ∃ (b : CellInterface) (chg chd : Cell),
          c'.data.childrenInternalCellInterfaces[0]? = some b ∧
          c'.childrenCells[0]? = some chg ∧ c'.childrenCells[1]? = some chd ∧
          b.data.cellGauche = chg.ref ∧ b.data.kind = .internal chd.ref ∧
          b.data.face.pos = ⟨1 / 2, 1 / 2, 1 / 2⟩ ∧
          chg.data.element.position = ⟨8106479329266893 / 18014398509481984, 1 / 2, 1 / 2⟩ ∧
          chd.data.element.position = ⟨4953959590107546 / 9007199254740992, 1 / 2, 1 / 2⟩ ∧
          midpoint chg.data.element.position chd.data.element.position
            = ⟨18014398509481985 / 36028797018963968, 1 / 2, 1 / 2⟩ ∧
          b.data.face.pos ≠ midpoint chg.data.element.position chd.data.element.position := by
  have hcall := refineCall_eq_some roundDouble InterfaceOps.identity Model.trivial 1 1
    exampleFifthLeaf exampleFifthLeaf_element exampleFifthLeaf_cellInterfaceRef
  obtain ⟨-, hall⟩ := internal_of_refineRounded_leaf roundDouble InterfaceOps.identity
    Model.trivial 1 1 exampleFifthLeaf rfl rfl
  obtain ⟨b, chg, chd, hb, hchg, hchd, hg, hd, hface, helg, held, -, -⟩ := hall 0 (by decide)
  have e1 : chg.data.element.position
      = ⟨8106479329266893 / 18014398509481984, 1 / 2, 1 / 2⟩ := by
    rw [helg]
    simp only [childElementRounded, internalCellInterfaceSpec, exampleFifthLeaf, refineDims,
      Cell.data_mk]
    norm_num [exampleFifth, roundDouble_half, roundDouble_half_minus_quarter_fifth]
  have e2 : chd.data.element.position
      = ⟨4953959590107546 / 9007199254740992, 1 / 2, 1 / 2⟩ := by
    rw [held]
    simp only [childElementRounded, internalCellInterfaceSpec, exampleFifthLeaf, refineDims,
      Cell.data_mk]
    norm_num [exampleFifth, roundDouble_half, roundDouble_half_plus_quarter_fifth]
  have e3 : b.data.face.pos = ⟨1 / 2, 1 / 2, 1 / 2⟩ := by
    rw [hface]
    simp [internalCellInterfaceSpecRounded, exampleFifthLeaf]
  have e4 : midpoint chg.data.element.position chd.data.element.position
      = ⟨18014398509481985 / 36028797018963968, 1 / 2, 1 / 2⟩ := by
    rw [e1, e2]
    simp only [midpoint]
    norm_num
  refine ⟨rfl, rfl, _, hcall, b, chg, chd, hb, hchg, hchd, hg, hd, e3, e1, e2, e4, ?_⟩
  rw [e3, e4]
  intro h
  have hx := congrArg Coord.x h
  norm_num at hx

/-! ## The averaging of the children (C12) -/

/-- C12: for a cell with `N > 0` children whose conservative snapshots have the shape of the
conservative buffer of the cell, `averageChildrenInParent` rebuilds the phases and the mixture of
the parent (`buildPrim`, then `relaxations`) from the mean of the snapshots of the children as
the code computes it in `double` arithmetic (the snapshots added one after the other to a buffer
of zeros, the sum multiplied by `1. / N`), keeps the children, sets each transport `k` to the
sum of the transports `k` of the children, added one after the other, divided by `N`, and leaves
the conservative buffer and the conservative transports at zero. Where the rounding `fl` changes
nothing, the buffer is the arithmetic mean of the snapshots and the transport is the arithmetic
mean of the transports. For a conservative component `j` (the density) that `buildPrim` gives
back in the snapshot of the state it builds and that `relaxations` leaves unchanged, when the
children have volume `V/N` and the mean of the component is computed without rounding error, the
sum over the children of component times volume is the component of the rebuilt parent times
`V`. A cell with no children is returned unchanged. -/
theorem averageChildrenInParent_mean (fl : ℚ → ℚ) (model : Model) (c : Cell) :
    (0 < c.childrenCells.length →
      (∀ ch ∈ c.childrenCells,
        (model.setBufferFlux ch.data.vecPhases ch.data.mixture c.data.numberPhases).comps.length
          = c.data.cons.comps.length) →
      ((c.averageChildrenInParentRounded fl model).data.vecPhases,
          (c.averageChildrenInParentRounded fl model).data.mixture)
        = model.relaxations
            (model.buildPrim
              (meanFluxRounded fl (childSnapshots model c) c.data.cons.comps.length)
              c.data.vecPhases c.data.mixture c.data.numberPhases).1
            (model.buildPrim
              (meanFluxRounded fl (childSnapshots model c) c.data.cons.comps.length)
              c.data.vecPhases c.data.mixture c.data.numberPhases).2 c.data.numberPhases ∧
      (meanFluxRounded fl (childSnapshots model c) c.data.cons.comps.length
          = meanFlux (childSnapshots model c) c.data.cons.comps.length →
        ((c.averageChildrenInParentRounded fl model).data.vecPhases,
            (c.averageChildrenInParentRounded fl model).data.mixture)
          = model.relaxations
              (model.buildPrim (meanFlux (childSnapshots model c) c.data.cons.comps.length)
                c.data.vecPhases c.data.mixture c.data.numberPhases).1
              (model.buildPrim (meanFlux (childSnapshots model c) c.data.cons.comps.length)
                c.data.vecPhases c.data.mixture c.data.numberPhases).2 c.data.numberPhases) ∧
      (c.averageChildrenInParentRounded fl model).childrenCells = c.childrenCells ∧
      (∀ k : Nat, k < c.data.numberTransports → k < c.data.vecTransports.length →
        (c.averageChildrenInParentRounded fl model).data.vecTransports.getD k 0
            = fl (sumRounded fl (c.childrenCells.map (fun ch => ch.data.vecTransports.getD k 0))
                / (c.childrenCells.length : ℚ)) ∧
          (fl (sumRounded fl (c.childrenCells.map (fun ch => ch.data.vecTransports.getD k 0))
                / (c.childrenCells.length : ℚ))
              = (c.childrenCells.map (fun ch => ch.data.vecTransports.getD k 0)).sum
                  / (c.childrenCells.length : ℚ) →
            (c.averageChildrenInParentRounded fl model).data.vecTransports.getD k 0
              = (c.childrenCells.map (fun ch => ch.data.vecTransports.getD k 0)).sum
                  / (c.childrenCells.length : ℚ))) ∧
      (∀ j : Nat,
        (∀ ch ∈ c.childrenCells,
          ch.data.element.volume = c.data.element.volume / (c.childrenCells.length : ℚ)) →
        (∀ (f : Flux) (ph : List Phase) (mx : Mixture),
          (model.setBufferFlux (model.buildPrim f ph mx c.data.numberPhases).1
              (model.buildPrim f ph mx c.data.numberPhases).2 c.data.numberPhases).comps.getD j 0
            = f.comps.getD j 0) →
        (∀ (ph : List Phase) (mx : Mixture),
          (model.setBufferFlux (model.relaxations ph mx c.data.numberPhases).1
              (model.relaxations ph mx c.data.numberPhases).2 c.data.numberPhases).comps.getD j 0
            = (model.setBufferFlux ph mx c.data.numberPhases).comps.getD j 0) →
        (meanFluxRounded fl (childSnapshots model c) c.data.cons.comps.length).comps.getD j 0
          = (meanFlux (childSnapshots model c) c.data.cons.comps.length).comps.getD j 0 →
        (c.childrenCells.map (fun ch =>
            (model.setBufferFlux ch.data.vecPhases ch.data.mixture
              c.data.numberPhases).comps.getD j 0 * ch.data.element.volume)).sum
          = (model.setBufferFlux (c.averageChildrenInParentRounded fl model).data.vecPhases
              (c.averageChildrenInParentRounded fl model).data.mixture
              c.data.numberPhases).comps.getD j 0
            * c.data.element.volume) ∧
      (∀ x ∈ (c.averageChildrenInParentRounded fl model).data.cons.comps, x = 0) ∧
      (∀ k : Nat, k < c.data.numberTransports →
        (c.averageChildrenInParentRounded fl model).data.consTransports.getD k 0 = 0)) ∧
    (c.childrenCells.length = 0 → c.averageChildrenInParentRounded fl model = c) := by
  constructor
  · intro hN hs
    have hr := averageChildrenInParentRounded_of_children fl model c hN hs
    have hNq : (c.childrenCells.length : ℚ) ≠ 0 := by
      exact_mod_cast (Nat.pos_iff_ne_zero.mp hN)
    have hpm : ((c.averageChildrenInParentRounded fl model).data.vecPhases,
          (c.averageChildrenInParentRounded fl model).data.mixture)
        = model.relaxations
            (model.buildPrim
              (meanFluxRounded fl (childSnapshots model c) c.data.cons.comps.length)
              c.data.vecPhases c.data.mixture c.data.numberPhases).1
            (model.buildPrim
              (meanFluxRounded fl (childSnapshots model c) c.data.cons.comps.length)
              c.data.vecPhases c.data.mixture c.data.numberPhases).2 c.data.numberPhases := by
      rw [hr]; rfl
    have htr : ∀ k : Nat, k < c.data.numberTransports → k < c.data.vecTransports.length →
        (c.averageChildrenInParentRounded fl model).data.vecTransports.getD k 0
          = fl (sumRounded fl (c.childrenCells.map (fun ch => ch.data.vecTransports.getD k 0))
              / (c.childrenCells.length : ℚ)) := by
      intro k hk hl
      rw [hr]
      simp only [Cell.data_mk]
      exact getD_mapIdx_ite c.data.vecTransports c.data.numberTransports k
        (fun k => fl (sumRounded fl
          (c.childrenCells.map (fun ch => ch.data.vecTransports.getD k 0))
          / (c.childrenCells.length : ℚ))) hk hl
    refine ⟨hpm, ?_, ?_, ?_, ?_, ?_, ?_⟩
    · intro hex
      rw [← hex]; exact hpm
    · rw [hr]; rfl
    · intro k hk hl
      exact ⟨htr k hk hl, fun hex => (htr k hk hl).trans hex⟩
    · intro j hvol hbuild hrelax hex
      have h1 := congrArg Prod.fst hpm
      have h2 := congrArg Prod.snd hpm
      simp only at h1 h2
      rw [h1, h2, hrelax, hbuild, hex, getD_meanFlux _ _ _ (by
        intro s hs'
        unfold childSnapshots at hs'
        obtain ⟨ch, hch, rfl⟩ := List.mem_map.mp hs'
        exact hs ch hch)]
      have h3 : c.childrenCells.map (fun ch =>
            (model.setBufferFlux ch.data.vecPhases ch.data.mixture
              c.data.numberPhases).comps.getD j 0 * ch.data.element.volume)
          = c.childrenCells.map (fun ch =>
            (model.setBufferFlux ch.data.vecPhases ch.data.mixture
              c.data.numberPhases).comps.getD j 0
              * (c.data.element.volume / (c.childrenCells.length : ℚ))) := by
        apply List.map_congr_left
        intro ch hch
        rw [hvol ch hch]
      rw [h3, sum_map_mul_const]
      unfold childSnapshots
      rw [List.map_map, List.length_map]
      have h4 : ((fun s : Flux => s.comps.getD j 0) ∘ fun ch : Cell =>
            model.setBufferFlux ch.data.vecPhases ch.data.mixture c.data.numberPhases)
          = fun ch : Cell =>
            (model.setBufferFlux ch.data.vecPhases ch.data.mixture
              c.data.numberPhases).comps.getD j 0 := rfl
      rw [h4]
      field_simp
    · intro x hx
      rw [hr] at hx
      simp only [Cell.data_mk, Flux.setToZero, List.mem_map] at hx
      obtain ⟨_, _, rfl⟩ := hx
      rfl
    · intro k hk
      rw [hr]
      simp only [Cell.data_mk, List.getD_eq_getElem?_getD, List.getElem?_mapIdx]
      cases c.data.consTransports[k]? <;> simp [hk]
  · intro h0
    unfold Cell.averageChildrenInParentRounded
    simp only [gt_iff_lt, h0, lt_self_iff_false, if_false]

theorem averageChildrenInParent_mean_witness :
    0 < exampleParentCell.childrenCells.length ∧
      (exampleParentCell.averageChildrenInParentRounded roundDouble Model.mixtureOnly).data.mixture
        = ⟨[2]⟩ ∧
      (exampleParentCell.averageChildrenInParentRounded roundDouble
        Model.mixtureOnly).data.vecTransports.getD 0 0 = 3 ∧
      (exampleParentCell.childrenCells.map (fun ch =>
          (Model.mixtureOnly.setBufferFlux ch.data.vecPhases ch.data.mixture
            exampleParentCell.data.numberPhases).comps.getD 0 0 * ch.data.element.volume)).sum
        = (Model.mixtureOnly.setBufferFlux
            (exampleParentCell.averageChildrenInParentRounded roundDouble
              Model.mixtureOnly).data.vecPhases
            (exampleParentCell.averageChildrenInParentRounded roundDouble
              Model.mixtureOnly).data.mixture
            exampleParentCell.data.numberPhases).comps.getD 0 0
          * exampleParentCell.data.element.volume := by
  have h := (averageChildrenInParent_mean roundDouble Model.mixtureOnly exampleParentCell).1
    (by decide)
    (by intro ch hch; simp [exampleParentCell] at hch; rcases hch with rfl | rfl <;> rfl)
  have hmr : meanFluxRounded roundDouble (childSnapshots Model.mixtureOnly exampleParentCell)
      exampleParentCell.data.cons.comps.length = ⟨[2]⟩ := by
    simp [meanFluxRounded, sumRounded, childSnapshots, Model.mixtureOnly, exampleParentCell,
      Cell.new, List.range_succ]
    norm_num [roundDouble_one, roundDouble_three, roundDouble_four, roundDouble_half,
      roundDouble_two]
  have hm : meanFlux (childSnapshots Model.mixtureOnly exampleParentCell)
      exampleParentCell.data.cons.comps.length = ⟨[2]⟩ := by
    simp [meanFlux, childSnapshots, Model.mixtureOnly, exampleParentCell, Cell.new,
      List.range_succ]
    norm_num
  have h1 := congrArg Prod.snd h.1
  simp only at h1
  refine ⟨by decide, ?_, ?_, ?_⟩
  · rw [h1, hmr]
    rfl
  · rw [(h.2.2.2.1 0 (by decide) (by decide)).1]
    simp [sumRounded, exampleParentCell, Cell.new]
    norm_num [roundDouble_two, roundDouble_six, roundDouble_three]
  · refine h.2.2.2.2.1 0 ?_ ?_ ?_ ?_
    · intro ch hch
      simp [exampleParentCell] at hch
      rcases hch with rfl | rfl <;> simp [exampleParentCell, Cell.new, Element.empty] <;> norm_num
    · intro f ph mx; rfl
    · intro ph mx; rfl
    · rw [hmr, hm]

/-- C12, counterexample: the two children of `exampleTenthParent` hold the transports 0.1 and
0.2 (as `double` values). The sum 0.1 + 0.2 is rounded up to 0.30000000000000004 and
`averageChildrenInParent` sets the transport of the parent to 0.15000000000000002, which is not
the arithmetic mean of the transports of the children. -/
theorem averageChildrenInParent_mean_counterexample :
    0 < exampleTenthParent.childrenCells.length ∧
      exampleTenthParent.childrenCells.map (fun ch => ch.data.vecTransports.getD 0 0)
        = [3602879701896397 / 36028797018963968, 3602879701896397 / 18014398509481984] ∧
      (exampleTenthParent.averageChildrenInParentRounded roundDouble
        Model.trivial).data.vecTransports.getD 0 0 = 1351079888211149 / 9007199254740992 ∧
      (exampleTenthParent.childrenCells.map (fun ch => ch.data.vecTransports.getD 0 0)).sum
          / (exampleTenthParent.childrenCells.length : ℚ)
        = 10808639105689191 / 72057594037927936 ∧
      (exampleTenthParent.averageChildrenInParentRounded roundDouble
        Model.trivial).data.vecTransports.getD 0 0
        ≠ (exampleTenthParent.childrenCells.map (fun ch => ch.data.vecTransports.getD 0 0)).sum
            / (exampleTenthParent.childrenCells.length : ℚ) := by
  have h1 : (exampleTenthParent.averageChildrenInParentRounded roundDouble
      Model.trivial).data.vecTransports.getD 0 0 = 1351079888211149 / 9007199254740992 := by
    rw [exampleTenthParent_transport]; rfl
  have h2 : (exampleTenthParent.childrenCells.map (fun ch => ch.data.vecTransports.getD 0 0)).sum
        / (exampleTenthParent.childrenCells.length : ℚ)
      = 10808639105689191 / 72057594037927936 := by
    simp [exampleTenthParent, Cell.new, exampleTenth, exampleFifth]
    norm_num
  refine ⟨by decide, ?_, h1, h2, ?_⟩
  · simp [exampleTenthParent, Cell.new, exampleTenth, exampleFifth]
  · rw [h1, h2]
    norm_num

/-! ## Refinement followed by coarsening (C11) -/

/-- C11: on a leaf cell that has an element and holds a two-sided interface, the call of
`refineCellAndCellInterfaces` returns and the call of `unrefineCellAndCellInterfaces` that
follows returns a cell with no children, no internal child interfaces and `split = false`.
Transport `k` of that cell is the sum, computed in `double` arithmetic, of `N` copies of the
transport `k` of the cell before the refinement, divided by `N` (`N` the number of children);
when the rounding `fl` leaves these means at the value of the transport, the transports are those
of the cell before the refinement. When the cell holds one phase per counted phase and a
conservative buffer of the shape of a snapshot, the phases and the mixture are rebuilt from the
mean, computed in `double` arithmetic, of `N` copies of the snapshot of the state of the cell;
when that mean is the snapshot, `buildPrim` on the snapshot returns the state of the cell and
`relaxations` leaves it unchanged, the phases and the mixture are those of the cell before the
refinement. -/
theorem refine_unrefine_restores_state (fl : ℚ → ℚ) (ops : InterfaceOps) (model : Model)
    (nbCellsY nbCellsZ : Int) (c : Cell) (hleaf : c.childrenCells = [])
    (hel : c.data.element ≠ Element.empty)
    (href : ∃ b ∈ c.data.cellInterfaces, b.whoAmI = 0) :
    ∃ c' c'', c.refineCellAndCellInterfacesCall fl ops model nbCellsY nbCellsZ = some c' ∧
      c'.unrefineCellAndCellInterfacesCall fl ops model = some c'' ∧
      c''.childrenCells = [] ∧
      c''.data.childrenInternalCellInterfaces = [] ∧
      c''.data.split = false ∧
      c''.data.vecTransports.length = c.data.vecTransports.length ∧
      (∀ k : Nat, k < c.data.numberTransports → k < c.data.vecTransports.length →
        c''.data.vecTransports.getD k 0
          = fl (sumRounded fl
              (List.replicate (refineDims nbCellsY nbCellsZ).numberCellsChildren
                (c.data.vecTransports.getD k 0))
              / ((refineDims nbCellsY nbCellsZ).numberCellsChildren : ℚ))) ∧
      ((∀ k : Nat, k < c.data.numberTransports → k < c.data.vecTransports.length →
          fl (sumRounded fl
              (List.replicate (refineDims nbCellsY nbCellsZ).numberCellsChildren
                (c.data.vecTransports.getD k 0))
              / ((refineDims nbCellsY nbCellsZ).numberCellsChildren : ℚ))
            = c.data.vecTransports.getD k 0) →
        c''.data.vecTransports = c.data.vecTransports) ∧
      (c.data.vecPhases.length = c.data.numberPhases →
        c.data.cons.comps.length
          = (model.setBufferFlux c.data.vecPhases c.data.mixture
              c.data.numberPhases).comps.length →
        (c''.data.vecPhases, c''.data.mixture)
            = model.relaxations
                (model.buildPrim
                  (meanFluxRounded fl
                    (List.replicate (refineDims nbCellsY nbCellsZ).numberCellsChildren
                      (model.setBufferFlux c.data.vecPhases c.data.mixture c.data.numberPhases))
                    c.data.cons.comps.length)
                  c.data.vecPhases c.data.mixture c.data.numberPhases).1
                (model.buildPrim
                  (meanFluxRounded fl
                    (List.replicate (refineDims nbCellsY nbCellsZ).numberCellsChildren
                      (model.setBufferFlux c.data.vecPhases c.data.mixture c.data.numberPhases))
                    c.data.cons.comps.length)
                  c.data.vecPhases c.data.mixture c.data.numberPhases).2
                c.data.numberPhases ∧
          (meanFluxRounded fl
                (List.replicate (refineDims nbCellsY nbCellsZ).numberCellsChildren
                  (model.setBufferFlux c.data.vecPhases c.data.mixture c.data.numberPhases))
                c.data.cons.comps.length
              = model.setBufferFlux c.data.vecPhases c.data.mixture c.data.numberPhases →
            model.buildPrim
                (model.setBufferFlux c.data.vecPhases c.data.mixture c.data.numberPhases)
                c.data.vecPhases c.data.mixture c.data.numberPhases
              = (c.data.vecPhases, c.data.mixture) →
            model.relaxations c.data.vecPhases c.data.mixture c.data.numberPhases
              = (c.data.vecPhases, c.data.mixture) →
            c''.data.vecPhases = c.data.vecPhases ∧ c''.data.mixture = c.data.mixture)) := by
  have hcu := core_unrefineRounded fl ops model
    (c.refineCellAndCellInterfacesRounded fl ops model nbCellsY nbCellsZ)
  have hel' : (c.refineCellAndCellInterfacesRounded fl ops model nbCellsY
      nbCellsZ).data.element ≠ Element.empty := by
    rw [element_refineRounded]; exact hel
  have hlen := length_children_refineRounded_leaf fl ops model nbCellsY nbCellsZ c hleaf
  have hN : 0 < (c.refineCellAndCellInterfacesRounded fl ops model nbCellsY
      nbCellsZ).childrenCells.length := by
    rw [hlen]
    exact numberCellsChildren_pos nbCellsY nbCellsZ
  have htr : ((c.refineCellAndCellInterfacesRounded fl ops model nbCellsY
        nbCellsZ).unrefineCellAndCellInterfacesRounded fl ops model).data.vecTransports
      = c.data.vecTransports.mapIdx (fun k t =>
          if k < c.data.numberTransports then
            fl (sumRounded fl
              (List.replicate (refineDims nbCellsY nbCellsZ).numberCellsChildren
                (c.data.vecTransports.getD k 0))
              / ((refineDims nbCellsY nbCellsZ).numberCellsChildren : ℚ))
          else t) :=
    (fields_of_core_eq hcu).2.2.1.trans
      (vecTransports_average_refineRounded_leaf fl ops model nbCellsY nbCellsZ c hleaf)
  refine ⟨_, _, refineCall_eq_some fl ops model nbCellsY nbCellsZ c hel href,
    unrefineCall_eq_some fl ops model _ hel', rfl, internal_unrefineRounded fl ops model _, rfl,
    ?_, ?_, ?_, ?_⟩
  · rw [htr]; simp
  · intro k hk hl
    rw [htr]
    exact getD_mapIdx_ite c.data.vecTransports c.data.numberTransports k
      (fun k => fl (sumRounded fl
        (List.replicate (refineDims nbCellsY nbCellsZ).numberCellsChildren
          (c.data.vecTransports.getD k 0))
        / ((refineDims nbCellsY nbCellsZ).numberCellsChildren : ℚ))) hk hl
  · intro hex
    rw [htr]
    apply List.ext_getElem
    · simp
    · intro k h1 h2
      simp only [List.getElem_mapIdx]
      split
      · rename_i hk
        rw [hex k hk h2]
        simp [List.getD_eq_getElem?_getD, List.getElem?_eq_getElem h2]
      · rfl
  · intro hph hshape
    have hcore := core_refineRounded fl ops model nbCellsY nbCellsZ c
    have e1 : (c.refineCellAndCellInterfacesRounded fl ops model nbCellsY
        nbCellsZ).data.vecPhases = c.data.vecPhases := by
      have h1 := congrArg CellData.vecPhases hcore
      exact h1
    have e2 : (c.refineCellAndCellInterfacesRounded fl ops model nbCellsY
        nbCellsZ).data.mixture = c.data.mixture := by
      have h1 := congrArg CellData.mixture hcore
      exact h1
    have e3 : (c.refineCellAndCellInterfacesRounded fl ops model nbCellsY
        nbCellsZ).data.numberPhases = c.data.numberPhases := by
      have h1 := congrArg CellData.numberPhases hcore
      exact h1
    have e4 : (c.refineCellAndCellInterfacesRounded fl ops model nbCellsY
        nbCellsZ).data.cons = c.data.cons := by
      have h1 := congrArg CellData.cons hcore
      exact h1
    have hsnap : ∀ ch ∈ (c.refineCellAndCellInterfacesRounded fl ops model nbCellsY
        nbCellsZ).childrenCells,
        model.setBufferFlux ch.data.vecPhases ch.data.mixture
            (c.refineCellAndCellInterfacesRounded fl ops model nbCellsY
              nbCellsZ).data.numberPhases
          = model.setBufferFlux c.data.vecPhases c.data.mixture c.data.numberPhases := by
      intro ch hch
      obtain ⟨hmx, hp, -⟩ :=
        children_of_refineRounded_leaf_fields fl ops model nbCellsY nbCellsZ c hleaf ch hch
      rw [hmx, hp, e3, ← hph, map_getD_range_length]
    have hsnaps : childSnapshots model
        (c.refineCellAndCellInterfacesRounded fl ops model nbCellsY nbCellsZ)
        = List.replicate (refineDims nbCellsY nbCellsZ).numberCellsChildren
            (model.setBufferFlux c.data.vecPhases c.data.mixture c.data.numberPhases) := by
      rw [← hlen, ← map_const_eq_replicate]
      unfold childSnapshots
      exact List.map_congr_left hsnap
    have hr := averageChildrenInParentRounded_of_children fl model
      (c.refineCellAndCellInterfacesRounded fl ops model nbCellsY nbCellsZ) hN (by
        intro ch hch
        rw [hsnap ch hch, e4, hshape])
    rw [hsnaps, e1, e2, e3, e4] at hr
    have h1 : ((c.refineCellAndCellInterfacesRounded fl ops model nbCellsY
          nbCellsZ).unrefineCellAndCellInterfacesRounded fl ops model).data.vecPhases
        = ((c.refineCellAndCellInterfacesRounded fl ops model nbCellsY
          nbCellsZ).averageChildrenInParentRounded fl model).data.vecPhases :=
      (fields_of_core_eq hcu).1
    have h2 : ((c.refineCellAndCellInterfacesRounded fl ops model nbCellsY
          nbCellsZ).unrefineCellAndCellInterfacesRounded fl ops model).data.mixture
        = ((c.refineCellAndCellInterfacesRounded fl ops model nbCellsY
          nbCellsZ).averageChildrenInParentRounded fl model).data.mixture :=
      (fields_of_core_eq hcu).2.1
    rw [h1, h2, hr]
    refine ⟨rfl, ?_⟩
    intro hex hbuild hrelax
    simp only [Cell.data_mk]
    rw [hex, hbuild]
    simp [hrelax]

theorem refine_unrefine_restores_state_witness :
    exampleRowLeaf.childrenCells = [] ∧ exampleRowLeaf.data.element ≠ Element.empty ∧
      (∃ b ∈ exampleRowLeaf.data.cellInterfaces, b.whoAmI = 0) ∧
      ∃ c' c'', exampleRowLeaf.refineCellAndCellInterfacesCall roundDouble InterfaceOps.identity
          Model.mixtureOnly 1 1 = some c' ∧
        c'.unrefineCellAndCellInterfacesCall roundDouble InterfaceOps.identity Model.mixtureOnly
          = some c'' ∧
        c'.childrenCells.length = 2 ∧
        c''.childrenCells = [] ∧ c''.data.childrenInternalCellInterfaces = [] ∧
        c''.data.split = false ∧ c''.data.vecTransports = [6] ∧
        c''.data.vecPhases = [⟨[1, 2]⟩] ∧ c''.data.mixture = ⟨[3]⟩ := by
  obtain ⟨c', c'', h1, h2, h3, h4, h5, -, -, h8, h9⟩ :=
    refine_unrefine_restores_state roundDouble InterfaceOps.identity Model.mixtureOnly 1 1
      exampleRowLeaf rfl exampleRowLeaf_element exampleRowLeaf_cellInterfaceRef
  have hc' := refineCall_some roundDouble InterfaceOps.identity Model.mixtureOnly 1 1
    exampleRowLeaf c' h1
  have hex : ∀ k : Nat, k < exampleRowLeaf.data.numberTransports →
      k < exampleRowLeaf.data.vecTransports.length →
      roundDouble (sumRounded roundDouble
          (List.replicate (refineDims 1 1).numberCellsChildren
            (exampleRowLeaf.data.vecTransports.getD k 0))
          / ((refineDims 1 1).numberCellsChildren : ℚ))
        = exampleRowLeaf.data.vecTransports.getD k 0 := by
    intro k hk _
    have hk1 : k < 1 := hk
    interval_cases k
    simp [sumRounded, List.replicate, refineDims, exampleRowLeaf, Cell.new]
    norm_num [roundDouble_six, roundDouble_twelve]
  have hmean : meanFluxRounded roundDouble
      (List.replicate (refineDims 1 1).numberCellsChildren
        (Model.mixtureOnly.setBufferFlux exampleRowLeaf.data.vecPhases
          exampleRowLeaf.data.mixture exampleRowLeaf.data.numberPhases))
      exampleRowLeaf.data.cons.comps.length
      = Model.mixtureOnly.setBufferFlux exampleRowLeaf.data.vecPhases
          exampleRowLeaf.data.mixture exampleRowLeaf.data.numberPhases := by
    simp [meanFluxRounded, sumRounded, List.replicate, refineDims, Model.mixtureOnly,
      exampleRowLeaf, Cell.new, List.range_succ]
    norm_num [roundDouble_three, roundDouble_six, roundDouble_half]
  obtain ⟨g1, g2⟩ := (h9 rfl rfl).2 hmean rfl rfl
  refine ⟨rfl, exampleRowLeaf_element, exampleRowLeaf_cellInterfaceRef, c', c'', h1, h2, ?_, h3,
    h4, h5, h8 hex, g1, g2⟩
  rw [hc']
  exact length_children_refineRounded_leaf roundDouble InterfaceOps.identity Model.mixtureOnly
    1 1 exampleRowLeaf rfl

/-- C11, counterexample: the leaf `exampleTenthLeaf` has an element, holds a two-sided interface
and carries the transport 0.1 (as a `double`). In a 3D mesh the refinement gives it eight
children, each with the transport 0.1; the coarsening that follows adds the eight values one
after the other, which gives 0.7999999999999999, and divides by 8: the transport of the cell is
then 0.09999999999999999, not its value before the refinement. The leaf `exampleLoneLeaf`, which
holds no two-sided interface, is not returned to a leaf: the call of the refinement does not
return. -/
theorem refine_unrefine_restores_state_counterexample :
    exampleTenthLeaf.childrenCells = [] ∧
      exampleTenthLeaf.data.vecTransports = [3602879701896397 / 36028797018963968] ∧
      (∃ c' c'', exampleTenthLeaf.refineCellAndCellInterfacesCall roundDouble
          InterfaceOps.identity Model.trivial 2 2 = some c' ∧
        c'.unrefineCellAndCellInterfacesCall roundDouble InterfaceOps.identity Model.trivial
          = some c'' ∧
        c'.childrenCells.length = 8 ∧
        c''.data.vecTransports = [7205759403792793 / 72057594037927936] ∧
        c''.data.vecTransports ≠ exampleTenthLeaf.data.vecTransports) ∧
      exampleLoneLeaf.childrenCells = [] ∧
      ∀ fl : ℚ → ℚ, exampleLoneLeaf.refineCellAndCellInterfacesCall fl InterfaceOps.identity
        Model.trivial 2 2 = none := by
  have hel' : (exampleTenthLeaf.refineCellAndCellInterfacesRounded roundDouble
      InterfaceOps.identity Model.trivial 2 2).data.element ≠ Element.empty := by
    rw [element_refineRounded]; exact exampleTenthLeaf_element
  have htr : ((exampleTenthLeaf.refineCellAndCellInterfacesRounded roundDouble
      InterfaceOps.identity Model.trivial 2 2).unrefineCellAndCellInterfacesRounded roundDouble
      InterfaceOps.identity Model.trivial).data.vecTransports
      = [7205759403792793 / 72057594037927936] := by
    rw [(fields_of_core_eq (core_unrefineRounded roundDouble InterfaceOps.identity Model.trivial
      _)).2.2.1]
    have h := vecTransports_average_refineRounded_leaf roundDouble InterfaceOps.identity
      Model.trivial 2 2 exampleTenthLeaf rfl
    simp only [Cell.data_mk] at h ⊢
    rw [h]
    simp [sumRounded, List.replicate, refineDims, exampleTenthLeaf, Cell.new]
    norm_num [exampleTenth, roundDouble_tenth_sum_one, roundDouble_tenth_sum_two,
      roundDouble_tenth_sum_three, roundDouble_tenth_sum_four, roundDouble_tenth_sum_five,
      roundDouble_tenth_sum_six, roundDouble_tenth_sum_seven, roundDouble_tenth_sum_eight,
      roundDouble_tenth_sum_mean]
  refine ⟨rfl, by simp [exampleTenthLeaf, exampleTenth, Cell.new], ⟨_, _,
    refineCall_eq_some roundDouble InterfaceOps.identity Model.trivial 2 2 exampleTenthLeaf
      exampleTenthLeaf_element exampleTenthLeaf_cellInterfaceRef,
    unrefineCall_eq_some roundDouble InterfaceOps.identity Model.trivial _ hel',
    length_children_refineRounded_leaf roundDouble InterfaceOps.identity Model.trivial 2 2
      exampleTenthLeaf rfl, htr, ?_⟩, rfl,
    fun fl => refineCall_eq_none fl InterfaceOps.identity Model.trivial 2 2 exampleLoneLeaf
      exampleLoneLeaf_boundaries⟩
  rw [htr]
  simp [exampleTenthLeaf, exampleTenth, Cell.new]
  norm_num

/-! ## The exact definitions are the definitions in `double` arithmetic without rounding -/

theorem internalCellInterfaceSpecRounded_id (nbCellsY nbCellsZ : Int) (e : Element) (i : Nat) :
    internalCellInterfaceSpecRounded (fun x => x) nbCellsY nbCellsZ e i
      = internalCellInterfaceSpec nbCellsY nbCellsZ e i := by
  unfold internalCellInterfaceSpecRounded internalCellInterfaceSpec
  rfl

theorem refineChildRounded_id (model : Model) (rd : RefineDims) :
    refineChildRounded (fun x => x) model rd = refineChild model rd := rfl

theorem refineInternalCellInterfaceRounded_id (nbCellsY nbCellsZ : Int) :
    refineInternalCellInterfaceRounded (fun x => x) nbCellsY nbCellsZ
      = refineInternalCellInterface nbCellsY nbCellsZ := by
  funext c i
  unfold refineInternalCellInterfaceRounded refineInternalCellInterface
  rw [internalCellInterfaceSpecRounded_id]

/-- Without rounding the refinement in `double` arithmetic is the exact refinement. -/
theorem refineCellAndCellInterfacesRounded_id (ops : InterfaceOps) (model : Model)
    (nbCellsY nbCellsZ : Int) (c : Cell) :
    c.refineCellAndCellInterfacesRounded (fun x => x) ops model nbCellsY nbCellsZ
      = c.refineCellAndCellInterfaces ops model nbCellsY nbCellsZ := by
  unfold Cell.refineCellAndCellInterfacesRounded Cell.refineCellAndCellInterfaces
    refineInternalCellInterfacesRounded refineInternalCellInterfaces refineChildrenRounded
    refineChildren
  simp only [refineChildRounded_id, refineInternalCellInterfaceRounded_id]

/-- Without rounding the averaging in `double` arithmetic is the exact averaging. -/
theorem averageChildrenInParentRounded_id (model : Model) (c : Cell) :
    c.averageChildrenInParentRounded (fun x => x) model = c.averageChildrenInParent model := by
  unfold Cell.averageChildrenInParentRounded Cell.averageChildrenInParent
  have h1 : ∀ (f b : Flux) (k : ℚ), f.addFluxRounded (fun x => x) b k = f.addFlux b k :=
    fun _ _ _ => rfl
  have h2 : ∀ (f : Flux) (k : ℚ), f.multiplyRounded (fun x => x) k = f.multiply k :=
    fun _ _ => rfl
  simp only [h1, h2]

/-- Without rounding the coarsening in `double` arithmetic is the exact coarsening. -/
theorem unrefineCellAndCellInterfacesRounded_id (ops : InterfaceOps) (model : Model)
    (c : Cell) :
    c.unrefineCellAndCellInterfacesRounded (fun x => x) ops model
      = c.unrefineCellAndCellInterfaces ops model := by
  unfold Cell.unrefineCellAndCellInterfacesRounded Cell.unrefineCellAndCellInterfaces
  simp only [averageChildrenInParentRounded_id]

/-! ## Refinement on the store: the addresses written -/

theorem getElem?_map_range_add (n k i : Nat) (hi : i < k) :
    ((List.range k).map (fun i => n + i))[i]? = some (n + i) := by
  simp [List.getElem?_range, hi]

end ECOGEN
